import Mathlib

/-!
# generic_utilities: handle table, ordered index, object manager and lists

A shallow embedding of `pointer_lookup.c`, `safe_pointers.h`, `index_object.c`,
`object_manager.c`, `list.c`, `lifo.c` and `radix_tree_object.c`, followed by
the properties proved about them.

Conventions of the embedding

* A C function that can touch memory outside an array, or dereference a
  NULL pointer, returns an `Option`; `none` is that fault.
* `void *` payloads of the handle table are natural numbers, `0` is `NULL`.
* Error codes are the Linux `errno` values.
* A value of type `int` is an integer between `-2^31` and `2^31 - 1`; a sum or a
  difference that can leave that range is reduced into it modulo `2^32`
  (`wrap_int32`), and a conversion of an `unsigned int` to `int` likewise. A
  difference of two numbers between `0` and `2^31 - 1` stays in the range and is
  written as it is.
-/

/-! ## errno values -/

def E2BIG : Nat := 7
def ENOMEM : Nat := 12
def EFAULT : Nat := 14
def EBUSY : Nat := 16
def EINVAL : Nat := 22
def ENOSPC : Nat := 28
def ENODATA : Nat := 61

/-! ## Machine integers -/

/-- A 32-bit `int` result: the integer reduced modulo `2^32` into
`[-2^31, 2^31)`. -/
def wrap_int32 (x : Int) : Int :=
  (x + 2147483648) % 4294967296 - 2147483648

/-! ## pointer_lookup.c -/

/-- The constant `MAX_ADDRESS_NUMBER`: also the number of an invalid entry. -/
def MAX_ADDRESS_NUMBER : Nat := 32000

/-- The struct `pointer_entry_t`: the unique number and the stored pointer. -/
structure pointer_entry_t where
  pointer_number : Nat
  pointer : Nat
deriving DecidableEq, Repr

/-- The struct `pointer_lookup_t`. `pointer_entries` and `index_stack` are the
two malloc'ed arrays of `size` cells. -/
structure pointer_lookup_t where
  size : Nat
  number_generator : Nat
  pointer_entries : List pointer_entry_t
  index_stack : List Nat
  stack_idx : Nat
deriving DecidableEq, Repr

/-- The function `pointer_lookup_init`; `mem_ok` says whether both `malloc`
calls succeed. -/
def pointer_lookup_init (size : Nat) (mem_ok : Bool) : Except Nat pointer_lookup_t :=
  if size ≥ MAX_ADDRESS_NUMBER then .error E2BIG
  else if !mem_ok then .error ENOMEM
  else .ok {
    size := size
    stack_idx := 0
    number_generator := 0
    pointer_entries := List.replicate size ⟨MAX_ADDRESS_NUMBER, 0⟩
    index_stack := List.range size }

/-- The function `pointer_lookup_get_unique_number`: the number handed out and
the table with the generator advanced. -/
def pointer_lookup_get_unique_number (plp : pointer_lookup_t) : Nat × pointer_lookup_t :=
  let g := if plp.number_generator ≥ MAX_ADDRESS_NUMBER then 0 else plp.number_generator
  (g, { plp with number_generator := g + 1 })

/-- The function `pointer_lookup_alloc_index`: `-1` when every cell is taken,
otherwise the index on top of the free stack. -/
def pointer_lookup_alloc_index (plp : pointer_lookup_t) : Option (Int × pointer_lookup_t) :=
  if plp.stack_idx ≥ plp.size then some (-1, plp)
  else
    match plp.index_stack[plp.stack_idx]? with
    | none => none
    | some i => some ((i : Int), { plp with stack_idx := plp.stack_idx + 1 })

/-- The function `pointer_lookup_free_index`: pre-decrements `stack_idx` and
writes the index there. -/
def pointer_lookup_free_index (plp : pointer_lookup_t) (index : Nat) : Option pointer_lookup_t :=
  if plp.stack_idx = 0 then none
  else if plp.stack_idx - 1 < plp.index_stack.length then
    some { plp with
      stack_idx := plp.stack_idx - 1
      index_stack := plp.index_stack.set (plp.stack_idx - 1) index }
  else none

/-- What `pointer_lookup_store_pointer` hands back: the return code, the two
output cells (written only on success) and the table. -/
structure store_result where
  rc : Nat
  index_returned : Nat
  number_returned : Nat
  plp : pointer_lookup_t
deriving DecidableEq, Repr

/-- The function `pointer_lookup_store_pointer`. On `ENOSPC` the output cells
are not written; they are reported as `0`. -/
def pointer_lookup_store_pointer (plp : pointer_lookup_t) (user_pointer : Nat) :
    Option store_result :=
  match pointer_lookup_alloc_index plp with
  | none => none
  | some (index, plp1) =>
    if index < 0 then some ⟨ENOSPC, 0, 0, plp1⟩
    else
      let (number, plp2) := pointer_lookup_get_unique_number plp1
      if index.toNat < plp2.pointer_entries.length then
        some ⟨0, index.toNat, number,
          { plp2 with
            pointer_entries := plp2.pointer_entries.set index.toNat ⟨number, user_pointer⟩ }⟩
      else none

/-- The function `pointer_lookup_get_pointer`; `some 0` is a returned `NULL`. -/
def pointer_lookup_get_pointer (plp : pointer_lookup_t) (index number_to_match : Nat) :
    Option Nat :=
  match plp.pointer_entries[index]? with
  | none => none
  | some pep => if pep.pointer_number ≠ number_to_match then some 0 else some pep.pointer

/-- The function `pointer_lookup_clear_pointer`: return code and table. -/
def pointer_lookup_clear_pointer (plp : pointer_lookup_t) (index number : Nat) :
    Option (Nat × pointer_lookup_t) :=
  match plp.pointer_entries[index]? with
  | none => none
  | some pep =>
    if pep.pointer_number ≠ number then some (ENODATA, plp)
    else
      match pointer_lookup_free_index
          { plp with pointer_entries := plp.pointer_entries.set index ⟨MAX_ADDRESS_NUMBER, 0⟩ }
          index with
      | none => none
      | some plp1 => some (0, plp1)

/-- A call made on a table by its user. -/
inductive pl_call where
  | store (user_pointer : Nat)
  | clear (index number : Nat)
deriving DecidableEq, Repr

/-- A table together with the handles that successful stores have returned so
far, newest first. -/
structure pl_trace where
  plp : pointer_lookup_t
  returned : List (Nat × Nat)
deriving DecidableEq, Repr

/-- One call applied to a traced table. -/
def pl_step (t : pl_trace) : pl_call → Option pl_trace
  | .store x =>
    match pointer_lookup_store_pointer t.plp x with
    | none => none
    | some r =>
      if r.rc = 0 then some ⟨r.plp, (r.index_returned, r.number_returned) :: t.returned⟩
      else some ⟨r.plp, t.returned⟩
  | .clear i n =>
    match pointer_lookup_clear_pointer t.plp i n with
    | none => none
    | some (_, plp1) => some ⟨plp1, t.returned⟩

/-- A sequence of calls applied in order. -/
def pl_run (t : pl_trace) : List pl_call → Option pl_trace
  | [] => some t
  | c :: cs =>
    match pl_step t c with
    | none => none
    | some t1 => pl_run t1 cs

/-- Every clear in the sequence names a handle that a store has returned
before it, and none names a handle rejected by `avoid`. -/
def pl_clears_returned (avoid : Nat × Nat → Bool) (t : pl_trace) : List pl_call → Bool
  | [] => true
  | c :: cs =>
    (match c with
      | .store _ => true
      | .clear i n => decide ((i, n) ∈ t.returned) && !avoid (i, n)) &&
    (match pl_step t c with
      | none => true
      | some t1 => pl_clears_returned avoid t1 cs)

/-- The calls `store p, clear (index, first), ..., store p, clear (index, first + k - 1)`. -/
def pl_store_clear_rounds (p index first : Nat) : Nat → List pl_call
  | 0 => []
  | k + 1 => .store p :: .clear index first :: pl_store_clear_rounds p index (first + 1) k

/-- The invariant of a traced table: the cells `index_stack[stack_idx..size)`
are distinct free indexes whose entries are invalid, and every handle returned
so far is in range. -/
structure pl_inv (t : pl_trace) : Prop where
  len_entries : t.plp.pointer_entries.length = t.plp.size
  len_stack : t.plp.index_stack.length = t.plp.size
  idx_le : t.plp.stack_idx ≤ t.plp.size
  free_nodup : (t.plp.index_stack.drop t.plp.stack_idx).Nodup
  free_invalid : ∀ j ∈ t.plp.index_stack.drop t.plp.stack_idx,
    ∃ e, t.plp.pointer_entries[j]? = some e ∧ e.pointer_number = MAX_ADDRESS_NUMBER
  returned_ok : ∀ h ∈ t.returned, h.1 < t.plp.size ∧ h.2 < MAX_ADDRESS_NUMBER

/-- Slot `i` holds pointer `x` under the valid number `n`. -/
def pl_live (t : pl_trace) (i n x : Nat) : Prop :=
  t.plp.pointer_entries[i]? = some ⟨n, x⟩ ∧ n < MAX_ADDRESS_NUMBER

/-- Slot `i` exists and does not carry the number `n`. -/
def pl_dead (plp : pointer_lookup_t) (i n : Nat) : Prop :=
  ∃ e, plp.pointer_entries[i]? = some e ∧ e.pointer_number ≠ n

/-- The return code of one call on a traced table. -/
def pl_call_rc (t : pl_trace) : pl_call → Option Nat
  | .store x => (pointer_lookup_store_pointer t.plp x).map (fun r => r.rc)
  | .clear i n => (pointer_lookup_clear_pointer t.plp i n).map (fun r => r.1)

/-- The number of stores in the sequence, run from `t`, that return `0`. -/
def pl_stores_ok (t : pl_trace) : List pl_call → Nat
  | [] => 0
  | c :: cs =>
    (match c with
      | .store _ => if pl_call_rc t c = some 0 then 1 else 0
      | .clear _ _ => 0) +
    (match pl_step t c with
      | none => 0
      | some t1 => pl_stores_ok t1 cs)

/-- The number of clears in the sequence, run from `t`, that return `0`. -/
def pl_clears_ok (t : pl_trace) : List pl_call → Nat
  | [] => 0
  | c :: cs =>
    (match c with
      | .store _ => 0
      | .clear _ _ => if pl_call_rc t c = some 0 then 1 else 0) +
    (match pl_step t c with
      | none => 0
      | some t1 => pl_clears_ok t1 cs)

/-- The free-stack invariant of the handle table: the two arrays have `size`
cells, `stack_idx <= size`, the cells `index_stack[stack_idx..size)` hold
indexes below `size` without repetition, a slot is among them exactly when its
`pointer_number` is `MAX_ADDRESS_NUMBER`, and such a slot holds the `NULL`
pointer. -/
structure pl_free_inv (plp : pointer_lookup_t) : Prop where
  len_entries : plp.pointer_entries.length = plp.size
  len_stack : plp.index_stack.length = plp.size
  idx_le : plp.stack_idx ≤ plp.size
  free_nodup : (plp.index_stack.drop plp.stack_idx).Nodup
  free_lt : ∀ j : Nat, j ∈ plp.index_stack.drop plp.stack_idx → j < plp.size
  free_iff : ∀ (j : Nat) (e : pointer_entry_t), plp.pointer_entries[j]? = some e →
    (j ∈ plp.index_stack.drop plp.stack_idx ↔ e.pointer_number = MAX_ADDRESS_NUMBER)
  free_null : ∀ (j : Nat) (e : pointer_entry_t), plp.pointer_entries[j]? = some e →
    e.pointer_number = MAX_ADDRESS_NUMBER → e.pointer = 0

/-! ## safe_pointers.h

A `safe_pointer` is an `unsigned int` of 32 bits. -/

/-- The macro `SAFE_POINTER_INDEX`. -/
def SAFE_POINTER_INDEX (safe : Nat) : Nat := safe >>> 16

/-- The macro `SAFE_POINTER_INCARNATION`. -/
def SAFE_POINTER_INCARNATION (safe : Nat) : Nat := safe &&& 0xFFFF

/-- The macro `SAFE_POINTER_VALUE`. The operator between the shifted index and
the masked incarnation is the logical `||`, whose value is `1` when one of its
operands is not zero and `0` otherwise. -/
def SAFE_POINTER_VALUE (index incarn : Nat) : Nat :=
  if (index <<< 16) % 2 ^ 32 ≠ 0 ∨ incarn &&& 0xFFFF ≠ 0 then 1 else 0

/-- Modelled from the spec: the safe pointer as the header comment and the spec
describe it, the 32-bit integer with the index in the high 16 bits and the
incarnation in the low 16 bits. -/
def safe_pointer_of_spec (index incarn : Nat) : Nat :=
  ((index <<< 16) % 2 ^ 32) ||| (incarn &&& 0xFFFF)

/-- The struct `safe_ptr_mgr_t`; the three arrays have `size` cells and the
error counters are `unsigned long long`. -/
structure safe_ptr_mgr_t where
  size : Int
  incarn_number : Nat
  incarnations : List Nat
  raw_pointers : List Nat
  free_indexes_stack : List Nat
  free_index : Int
  index_errors : Nat
  incarnation_errors : Nat
  all_slots_full_errors : Nat
deriving DecidableEq, Repr

/-- The function `get_raw_pointer`: the pointer returned (`0` is `NULL`) and the
manager. `safe_value` is an `unsigned int`, `incarn` and `index` are
`unsigned short`; the test of `index` against `size` is under `#if 0`, so a read
outside the arrays is a fault. -/
def get_raw_pointer (smpt : safe_ptr_mgr_t) (safe_value : Nat) :
    Option (Nat × safe_ptr_mgr_t) :=
  let incarn := SAFE_POINTER_INCARNATION (safe_value % 2 ^ 32) % 2 ^ 16
  if incarn = 0 then some (0, smpt)
  else
    let index := SAFE_POINTER_INDEX (safe_value % 2 ^ 32) % 2 ^ 16
    match smpt.incarnations[index]? with
    | none => none
    | some stored =>
      if stored = incarn then
        match smpt.raw_pointers[index]? with
        | none => none
        | some raw => some (raw, smpt)
      else
        some (0, { smpt with incarnation_errors := (smpt.incarnation_errors + 1) % 2 ^ 64 })

/-! ## index_object.c

The element array is a list of `maximum_size` cells and `default` is the
`NULL` pointer. The lock, memory monitor and
statistics macros (`common.h`, `lock_object.h`, `mem_monitor_object.h` are not
among the sources) do not touch the index and are left out; whether an
allocation succeeds is an argument `mem_ok` of the functions that allocate. -/

/-- The struct `index_obj_t`. -/
structure index_obj_t (α : Type) where
  should_not_be_modified : Bool
  cmpf : α → α → Int
  maximum_size : Int
  expansion_size : Int
  n : Int
  elements : List α

/-- A read of cell `i` of an array; outside the array it is a fault. -/
def array_read {α : Type} (a : List α) (i : Int) : Option α :=
  if 0 ≤ i then a[i.toNat]? else none

/-- A write of cell `i` of an array; outside the array it is a fault. -/
def array_write {α : Type} (a : List α) (i : Int) (v : α) : Option (List α) :=
  if 0 ≤ i ∧ i.toNat < a.length then some (a.set i.toNat v) else none

/-- Modelled from the spec: `copy_pointer_blocks` is declared in `common.h`, which
is not among the sources; the spec has it shift the tail of the array by one
slot, so it copies `count` pointers from cell `src_at` of `src` to cell `dst_at`
of `dst`, the two ranges being allowed to overlap. A range outside its array is
a fault. -/
def copy_pointer_blocks {α : Type} (src : List α) (src_at : Int) (dst : List α) (dst_at : Int)
    (count : Int) : Option (List α) :=
  if 0 ≤ src_at ∧ 0 ≤ dst_at ∧ 0 ≤ count ∧ src_at + count ≤ src.length ∧
      dst_at + count ≤ dst.length then
    some (dst.take dst_at.toNat ++ (src.drop src_at.toNat).take count.toNat ++
      dst.drop (dst_at + count).toNat)
  else none

/-- The function `index_obj_resize`: return code and index. In
`new_size * sizeof(void*)` a negative `new_size` becomes a size of more than
`2^63` bytes, which no allocation provides: it is a failed allocation. -/
def index_obj_resize {α : Type} [Inhabited α] (idx : index_obj_t α) (new_size : Int)
    (mem_ok : Bool) : Option (Nat × index_obj_t α) :=
  if !mem_ok || new_size < 0 then some (ENOMEM, idx)
  else
    match copy_pointer_blocks idx.elements 0 (List.replicate new_size.toNat default) 0 idx.n with
    | none => none
    | some new_elements =>
      some (0, { idx with elements := new_elements, maximum_size := new_size })

/-- The `while (lo <= hi)` loop of `index_obj_find_position` with the code after
it; `fuel` bounds the number of iterations. The result is the return value and
the value stored through `insertion_point`, if one is stored. The sum `hi+lo` is
an `int`, and `>> 1` on an `int` is the division by two rounded down; `mid`
then lies between `-2^30` and `2^30 - 1`, so `mid + 1` and `mid - 1` are exact.
A read of `elements[mid]` outside the array is a fault. -/
def index_obj_find_loop {α : Type} (cmpf : α → α → Int) (elements : List α) (searched_data : α) :
    Nat → Int → Int → Int → Int → Option (Int × Option Int)
  | 0, _, _, _, _ => none
  | fuel + 1, lo, hi, mid, diff =>
    if lo ≤ hi then
      match array_read elements (wrap_int32 (hi + lo) / 2) with
      | none => none
      | some e =>
        if cmpf searched_data e > 0 then
          index_obj_find_loop cmpf elements searched_data fuel
            (wrap_int32 (hi + lo) / 2 + 1) hi (wrap_int32 (hi + lo) / 2) (cmpf searched_data e)
        else if cmpf searched_data e < 0 then
          index_obj_find_loop cmpf elements searched_data fuel
            lo (wrap_int32 (hi + lo) / 2 - 1) (wrap_int32 (hi + lo) / 2) (cmpf searched_data e)
        else some (wrap_int32 (hi + lo) / 2, none)
    else some (-1, some (if diff > 0 then mid + 1 else mid))

/-- The function `index_obj_find_position`. -/
def index_obj_find_position {α : Type} (idx : index_obj_t α) (searched_data : α) :
    Option (Int × Option Int) :=
  index_obj_find_loop idx.cmpf idx.elements searched_data (idx.n.toNat + 1) 0 (idx.n - 1) 0 0

/-- What insert, search and remove hand back: the return code, the pointer
stored through the output argument, the index stored through `index_found_at`
(search only) and the index object. -/
structure index_result (α : Type) where
  rc : Nat
  data : α
  found_at : Int
  idx : index_obj_t α

/-- The function `thread_unsafe_index_obj_insert`. -/
def thread_unsafe_index_obj_insert {α : Type} [Inhabited α] (idx : index_obj_t α) (data : α)
    (overwrite_if_present : Bool) (mem_ok : Bool) : Option (index_result α) :=
  if idx.should_not_be_modified then some ⟨EBUSY, default, 0, idx⟩
  else
    match index_obj_find_position idx data with
    | none => none
    | some (i, ip) =>
      if i ≥ 0 then
        match array_read idx.elements i with
        | none => none
        | some present =>
          if overwrite_if_present then
            match array_write idx.elements i data with
            | none => none
            | some es => some ⟨0, present, 0, { idx with elements := es }⟩
          else some ⟨0, present, 0, idx⟩
      else
        let insertion_point := ip.getD 0
        let expanded : Option (Nat × index_obj_t α) :=
          if idx.n ≥ idx.maximum_size then
            if idx.expansion_size ≤ 0 then some (ENOSPC, idx)
            else index_obj_resize idx (wrap_int32 (idx.maximum_size + idx.expansion_size)) mem_ok
          else some (0, idx)
        match expanded with
        | none => none
        | some (rc, idx1) =>
          if rc ≠ 0 then some ⟨rc, default, 0, idx1⟩
          else
            let shifted : Option (List α) :=
              if idx1.n - insertion_point > 0 then
                copy_pointer_blocks idx1.elements insertion_point idx1.elements
                  (insertion_point + 1) (idx1.n - insertion_point)
              else some idx1.elements
            match shifted with
            | none => none
            | some es1 =>
              match array_write es1 insertion_point data with
              | none => none
              | some es2 =>
                some ⟨0, default, 0, { idx1 with elements := es2, n := wrap_int32 (idx1.n + 1) }⟩

/-- The function `thread_unsafe_index_obj_search`. -/
def thread_unsafe_index_obj_search {α : Type} [Inhabited α] (idx : index_obj_t α) (data : α) :
    Option (index_result α) :=
  match index_obj_find_position idx data with
  | none => none
  | some (i, _) =>
    if i < 0 then some ⟨ENODATA, default, -1, idx⟩
    else
      match array_read idx.elements i with
      | none => none
      | some e => some ⟨0, e, i, idx⟩

/-- The function `thread_unsafe_index_obj_replace`. -/
def thread_unsafe_index_obj_replace {α : Type} (idx : index_obj_t α) (i : Int) (new_data : α) :
    Option (Nat × index_obj_t α) :=
  if i < 0 ∨ i ≥ idx.n then some (EINVAL, idx)
  else
    match array_write idx.elements i new_data with
    | none => none
    | some es => some (0, { idx with elements := es })

/-- The function `thread_unsafe_index_obj_remove`. -/
def thread_unsafe_index_obj_remove {α : Type} [Inhabited α] (idx : index_obj_t α) (data : α)
    (shrink_threshold : Int) (mem_ok : Bool) : Option (index_result α) :=
  if idx.should_not_be_modified then some ⟨EBUSY, default, 0, idx⟩
  else
    match index_obj_find_position idx data with
    | none => none
    | some (i, _) =>
      if i < 0 then some ⟨ENODATA, default, 0, idx⟩
      else
        match array_read idx.elements i with
        | none => none
        | some removed =>
          let n1 := idx.n - 1
          let shifted : Option (List α) :=
            if n1 - i > 0 then copy_pointer_blocks idx.elements (i + 1) idx.elements i (n1 - i)
            else some idx.elements
          match shifted with
          | none => none
          | some es =>
            let idx1 : index_obj_t α := { idx with n := n1, elements := es }
            if shrink_threshold > 0 ∧
                idx1.maximum_size > wrap_int32 (idx1.n + shrink_threshold) then
              match index_obj_resize idx1 (wrap_int32 (idx1.n + shrink_threshold)) mem_ok with
              | none => none
              | some (_, idx2) => some ⟨0, removed, 0, idx2⟩
            else some ⟨0, removed, 0, idx1⟩

/-- The function `index_obj_init`. -/
def index_obj_init {α : Type} [Inhabited α] (cmpf : α → α → Int) (maximum_size : Int)
    (expansion_size : Int) (mem_ok : Bool) : Except Nat (index_obj_t α) :=
  if maximum_size ≤ 1 ∨ expansion_size < 0 then .error EINVAL
  else if !mem_ok then .error ENOMEM
  else .ok {
    should_not_be_modified := false
    maximum_size := maximum_size
    expansion_size := expansion_size
    cmpf := cmpf
    n := 0
    elements := List.replicate maximum_size.toNat default }

/-- The function `index_obj_insert`: the locked wrapper. -/
def index_obj_insert {α : Type} [Inhabited α] (idx : index_obj_t α) (data : α)
    (overwrite_if_present : Bool) (mem_ok : Bool) : Option (index_result α) :=
  thread_unsafe_index_obj_insert idx data overwrite_if_present mem_ok

/-- The function `index_obj_search`: the locked wrapper. -/
def index_obj_search {α : Type} [Inhabited α] (idx : index_obj_t α) (data : α) :
    Option (index_result α) :=
  thread_unsafe_index_obj_search idx data

/-- The function `index_obj_replace`: the locked wrapper. -/
def index_obj_replace {α : Type} (idx : index_obj_t α) (i : Int) (new_data : α) :
    Option (Nat × index_obj_t α) :=
  thread_unsafe_index_obj_replace idx i new_data

/-- The function `index_obj_remove`: the locked wrapper. -/
def index_obj_remove {α : Type} [Inhabited α] (idx : index_obj_t α) (data : α)
    (shrink_threshold : Int) (mem_ok : Bool) : Option (index_result α) :=
  thread_unsafe_index_obj_remove idx data shrink_threshold mem_ok

/-- The cells `elements[0..n)`. -/
def index_obj_t.live {α : Type} (idx : index_obj_t α) : List α :=
  idx.elements.take idx.n.toNat

/-- A comparator that is a consistent total order: the sign of `cmpf a b` is the
opposite of the sign of `cmpf b a`, and "not greater" is transitive. -/
structure cmp_total_order {α : Type} (cmpf : α → α → Int) : Prop where
  antisymm : ∀ a b, cmpf a b < 0 ↔ 0 < cmpf b a
  trans : ∀ a b c, cmpf a b ≤ 0 → cmpf b c ≤ 0 → cmpf a c ≤ 0

/-- The array holds `n` cells and at most `maximum_size`, which is its length. -/
structure index_obj_t.wf {α : Type} (idx : index_obj_t α) : Prop where
  n_nonneg : 0 ≤ idx.n
  n_le : idx.n ≤ idx.maximum_size
  len : (idx.elements.length : Int) = idx.maximum_size

/-- The cells `elements[0..n)` are strictly increasing under the comparator. -/
def index_obj_t.sorted {α : Type} (idx : index_obj_t α) : Prop :=
  idx.live.Pairwise (fun a b => idx.cmpf a b < 0)

/-- A call made on an index by its user. -/
inductive index_call (α : Type) where
  | insert (data : α) (overwrite_if_present : Bool) (mem_ok : Bool)
  | remove (data : α) (shrink_threshold : Int) (mem_ok : Bool)

/-- The `int` argument of a call has a value of type `int`. -/
def index_call.in_int {α : Type} : index_call α → Prop
  | .insert _ _ _ => True
  | .remove _ shrink_threshold _ =>
    -2147483648 ≤ shrink_threshold ∧ shrink_threshold < 2147483648

/-- One call applied to an index. -/
def index_step {α : Type} [Inhabited α] (idx : index_obj_t α) :
    index_call α → Option (index_result α)
  | .insert data ow mem_ok => index_obj_insert idx data ow mem_ok
  | .remove data shrink mem_ok => index_obj_remove idx data shrink mem_ok

/-- A sequence of calls applied in order; the result is the index after each
call, oldest first. -/
def index_run {α : Type} [Inhabited α] (idx : index_obj_t α) :
    List (index_call α) → Option (List (index_obj_t α))
  | [] => some []
  | c :: cs =>
    match index_step idx c with
    | none => none
    | some r =>
      match index_run r.idx cs with
      | none => none
      | some rest => some (r.idx :: rest)

/-- The elements inserted one by one with the given overwrite flag and with
every allocation succeeding; the result is the final index, or `none` as soon
as an insert faults or fails. -/
def index_insert_all {α : Type} [Inhabited α] (overwrite_if_present : Bool)
    (idx : index_obj_t α) : List α → Option (index_obj_t α)
  | [] => some idx
  | x :: xs =>
    match index_obj_insert idx x overwrite_if_present true with
    | none => none
    | some r => if r.rc = 0 then index_insert_all overwrite_if_present r.idx xs else none

/-- A comparator on integers, used in the examples. -/
def cmp_int (a b : Int) : Int := a - b

/-- The elements sorted directly with the comparator, by insertion sort on
"not greater". -/
def sort_with_comparator {α : Type} (cmpf : α → α → Int) (xs : List α) : List α :=
  xs.insertionSort (fun a b => cmpf a b ≤ 0)

/-- An index with the cells `1, 3, 5, 7, 9` in an array of six, growing by two. -/
def index_example : index_obj_t Int := ⟨false, cmp_int, 6, 2, 5, [1, 3, 5, 7, 9, 0]⟩

/-- An index that is full: the cells `1, 3, 5` in an array of three, growing by
two. -/
def index_example_full : index_obj_t Int := ⟨false, cmp_int, 3, 2, 3, [1, 3, 5]⟩

/-- A full index that may not grow: the cells `1, 3, 5` in an array of three. -/
def index_example_fixed : index_obj_t Int := ⟨false, cmp_int, 3, 0, 3, [1, 3, 5]⟩

/-- A frozen index: `index_example_full` with `should_not_be_modified` set, as
the destruction handler of `index_obj_destroy` finds it. -/
def index_example_frozen : index_obj_t Int := ⟨true, cmp_int, 3, 2, 3, [1, 3, 5]⟩

/-- A full index that grows by `2147483647`, the greatest `int`: the cells
`1, 3, 5` in an array of three. -/
def index_example_wide : index_obj_t Int := ⟨false, cmp_int, 3, 2147483647, 3, [1, 3, 5]⟩

/-- An empty index, as `index_obj_init` makes it with `1024` cells that grow by
`1024`. -/
def index_example_empty : index_obj_t Int :=
  ⟨false, cmp_int, 1024, 1024, 0, List.replicate 1024 default⟩

/-- The integers `0, 1, ..., count - 1` in ascending order. -/
def index_ascending (count : Nat) : List Int :=
  List.map (fun k : Nat => Int.ofNat k) (List.range count)

/-- An index that holds `0, 1, ..., 2^30`, which are `2^30 + 1` cells, in a full
array that grows by `expansion_size`. -/
def index_example_large (expansion_size : Int) : index_obj_t Int :=
  ⟨false, cmp_int, 1073741825, expansion_size, 1073741825, index_ascending 1073741825⟩

/-! ## object_manager.c

An object pointer is modelled by the key `(object_type, object_instance)` of the
object it points to: `om_objects` holds one object per key, and a pointer that
is used is looked up there, a missing object or a `NULL` pointer being a fault.
The functions `object_children_traverse`, `object_children_get` and
`om_object_remove_engine` are under `#if 0` in the source, so the compiled
program has no body for them; they and their callers `om_traverse` and
`om_object_remove` are not embedded. -/

/-- The struct `object_identifier_t`. -/
structure object_identifier_t where
  object_type : Int
  object_instance : Int
deriving DecidableEq, Repr

/-- The struct `object_representation_t`: with `is_pointer` set, a pointer to an
object (`none` is `NULL`), otherwise the identifier of an object. -/
inductive object_representation_t where
  | object_ptr (p : Option object_identifier_t)
  | object_id (id : object_identifier_t)
deriving DecidableEq, Repr

/-- The struct `attribute_t`; `object` is the owner and `attribute_value_data`
the bytes that follow the struct. -/
structure attribute_t where
  object : object_identifier_t
  attribute_id : Int
  attribute_value_length : Int
  attribute_value_data : List Nat
deriving DecidableEq, Repr

instance : Inhabited attribute_t := ⟨⟨⟨0, 0⟩, 0, 0, []⟩⟩

/-- The struct `object_t`. `children` is the data of the lifo, head first; the
handle `child_handle` of the object in the lifo of its parent is left out. -/
structure object_t where
  object_type : Int
  object_instance : Int
  parent : object_representation_t
  children : List object_identifier_t
  attributes : index_obj_t attribute_t

/-- The key of an object. -/
def object_t.key (o : object_t) : object_identifier_t := ⟨o.object_type, o.object_instance⟩

/-- The struct `object_manager_t`. Modelled from the spec: `avl_tree_object` is
not among the sources; the spec has `om_objects` be an associative lookup from
the key to the object, here the list of the objects in the order in which they
were inserted. -/
structure object_manager_t where
  manager_id : Int
  busy : Bool
  root : Option object_identifier_t
  om_objects : List object_t

/-- The function `compare_objects`, with `int` subtraction modulo `2^32`. -/
def compare_objects (o1 o2 : object_t) : Int :=
  let res := wrap_int32 (o1.object_type - o2.object_type)
  if res ≠ 0 then res else wrap_int32 (o1.object_instance - o2.object_instance)

/-- The function `compare_attributes`, with `int` subtraction modulo `2^32`. -/
def compare_attributes (aip1 aip2 : attribute_t) : Int :=
  wrap_int32 (aip1.attribute_id - aip2.attribute_id)

/-- Modelled from the spec: `avl_tree_search` on `om_objects`, the object stored
under a key. -/
def avl_tree_search (objects : List object_t) (k : object_identifier_t) : Option object_t :=
  objects.find? (fun o => o.key == k)

/-- A write through an object pointer: the object stored under the key is
replaced by its image. -/
def om_update (omp : object_manager_t) (k : object_identifier_t) (f : object_t → object_t) :
    object_manager_t :=
  { omp with om_objects := omp.om_objects.map (fun o => if o.key == k then f o else o) }

/-- The function `get_object_pointer`; `none` is `NULL`. -/
def get_object_pointer (omp : object_manager_t) (object_type object_instance : Int) :
    Option object_t :=
  avl_tree_search omp.om_objects ⟨object_type, object_instance⟩

/-- The function `get_parent_pointer`; `none` is `NULL`. -/
def get_parent_pointer (omp : object_manager_t) (obj : object_t) : Option object_identifier_t :=
  match obj.parent with
  | .object_ptr p => p
  | .object_id id =>
    (get_object_pointer omp id.object_type id.object_instance).map object_t.key

/-- The function `get_ot_and_oi`; the argument `none` is a `NULL` `reprp`. With
`is_pointer` set the object pointer is dereferenced. -/
def get_ot_and_oi (omp : object_manager_t) (reprp : Option object_representation_t) :
    Option (Int × Int) :=
  match reprp with
  | none => some (-1, -1)
  | some (.object_ptr none) => none
  | some (.object_ptr (some k)) =>
    match avl_tree_search omp.om_objects k with
    | none => none
    | some o => some (o.object_type, o.object_instance)
  | some (.object_id id) => some (id.object_type, id.object_instance)

/-- The function `get_attribute_pointer`: the attribute found and its index, or
`none` for `NULL`. Only the `attribute_id` of the searched record is set. -/
def get_attribute_pointer (obj : object_t) (attribute_id : Int) :
    Option (Option (attribute_t × Int)) :=
  match index_obj_search obj.attributes ⟨obj.key, attribute_id, 0, []⟩ with
  | none => none
  | some r => if r.rc = 0 then some (some (r.data, r.found_at)) else some none

/-- The function `attribute_storage_create`: `none` is a read past the end of
the caller's buffer, `some none` a failed allocation. -/
def attribute_storage_create (obj : object_t) (attribute_id attribute_length : Int)
    (attribute_value : List Nat) (mem_ok : Bool) : Option (Option attribute_t) :=
  if !mem_ok then some none
  else if attribute_length > 0 then
    if attribute_length ≤ attribute_value.length then
      some (some ⟨obj.key, attribute_id, attribute_length,
        attribute_value.take attribute_length.toNat⟩)
    else none
  else some (some ⟨obj.key, attribute_id, attribute_length, []⟩)

/-- The function `attribute_add_engine`: the return code and the manager, in
which the object keeps what was written through `obj`. The caller's buffer is a
list, so it is never `NULL`; a negative length fails the `assert`. -/
def attribute_add_engine (omp : object_manager_t) (obj : object_t) (attribute_id : Int)
    (attribute_length : Int) (attribute_value : List Nat) (mem_ok : Bool) :
    Option (Nat × object_manager_t) :=
  if attribute_length < 0 then none
  else
    match get_attribute_pointer obj attribute_id with
    | none => none
    | some none =>
      match attribute_storage_create obj attribute_id attribute_length attribute_value mem_ok with
      | none => none
      | some none => some (ENOMEM, omp)
      | some (some ap) =>
        match index_obj_insert obj.attributes ap true mem_ok with
        | none => none
        | some r =>
          some (r.rc, om_update omp obj.key (fun o => { o with attributes := r.idx }))
    | some (some (ap, index)) =>
      if ap.attribute_value_length = attribute_length then
        if attribute_length ≠ 0 then
          if attribute_length ≤ attribute_value.length then
            match array_write obj.attributes.elements index
                { ap with attribute_value_data := attribute_value.take attribute_length.toNat } with
            | none => none
            | some es =>
              some (0, om_update omp obj.key
                (fun o => { o with attributes := { o.attributes with elements := es } }))
          else none
        else some (0, omp)
      else
        match attribute_storage_create obj attribute_id attribute_length attribute_value mem_ok with
        | none => none
        | some none => some (ENOMEM, omp)
        | some (some ap_new) =>
          match index_obj_replace obj.attributes index ap_new with
          | none => none
          | some (rc, idx1) =>
            some (rc, om_update omp obj.key (fun o => { o with attributes := idx1 }))

/-- The function `om_object_create_engine`: the object pointer returned (`none`
is `NULL`) and the manager. `avl_tree_insert` puts the new object into
`om_objects` before the parent is looked up, and `lifo_add_data` puts it at the
head of the parent's children before `lifo_init` empties its own. An `assert`
that fails is a fault. -/
def om_object_create_engine (omp : object_manager_t)
    (parent_object_type parent_object_instance object_type object_instance : Int)
    (mem_ok : Bool) : Option (Option object_identifier_t × object_manager_t) :=
  if !mem_ok then some (none, omp)
  else
    match avl_tree_search omp.om_objects ⟨object_type, object_instance⟩ with
    | some existing =>
      match get_ot_and_oi omp (some existing.parent) with
      | none => none
      | some (pot, poi) =>
        if pot ≠ parent_object_type ∨ poi ≠ parent_object_instance then some (none, omp)
        else some (some existing.key, omp)
    | none =>
      match (index_obj_init compare_attributes 8 8 true : Except Nat (index_obj_t attribute_t)) with
      | .error _ => none
      | .ok attrs =>
        let obj0 : object_t :=
          ⟨object_type, object_instance, .object_id ⟨0, 0⟩, [], attrs⟩
        let omp1 : object_manager_t := { omp with om_objects := omp.om_objects ++ [obj0] }
        match get_object_pointer omp1 parent_object_type parent_object_instance with
        | some parent =>
          let omp2 := om_update omp1 parent.key
            (fun p => { p with children := obj0.key :: p.children })
          some (some obj0.key, om_update omp2 obj0.key
            (fun o => { o with parent := .object_ptr (some parent.key), children := [] }))
        | none =>
          some (some obj0.key, om_update omp1 obj0.key
            (fun o => { o with
              parent := .object_id ⟨parent_object_type, parent_object_instance⟩
              children := [] }))

/-- The function `om_init`; the root object `(0, 0)` gets a `NULL` parent
pointer. -/
def om_init (manager_id : Int) : Option object_manager_t :=
  match om_object_create_engine ⟨manager_id, false, none, []⟩ (-1) (-1) 0 0 true with
  | some (some rootp, omp) =>
    some (om_update { omp with root := some rootp } rootp
      (fun o => { o with parent := .object_ptr none }))
  | _ => none

/-- The function `om_object_create`. -/
def om_object_create (omp : object_manager_t)
    (parent_object_type parent_object_instance object_type object_instance : Int)
    (mem_ok : Bool) : Option (Nat × object_manager_t) :=
  match om_object_create_engine omp parent_object_type parent_object_instance
      object_type object_instance mem_ok with
  | none => none
  | some (obj, omp1) => some (if obj.isSome then 0 else EFAULT, omp1)

/-- The function `om_object_exists`. -/
def om_object_exists (omp : object_manager_t) (object_type object_instance : Int) : Bool :=
  (get_object_pointer omp object_type object_instance).isSome

/-- The function `om_object_count`. -/
def om_object_count (omp : object_manager_t) : Nat := omp.om_objects.length

/-- The function `om_attribute_add`. -/
def om_attribute_add (omp : object_manager_t) (object_type object_instance : Int)
    (attribute_id : Int) (attribute_value_length : Int) (attribute_value : List Nat)
    (mem_ok : Bool) : Option (Nat × object_manager_t) :=
  match get_object_pointer omp object_type object_instance with
  | none => some (ENODATA, omp)
  | some obj =>
    attribute_add_engine omp obj attribute_id attribute_value_length attribute_value mem_ok

/-- The function `om_parent_get`: the return value and the two output cells.
`get_ot_and_oi` is called on `&obj->parent` also when `obj` is `NULL`; `parent`
is not the first member of `object_t`, so that address is not `NULL` and
`reprp->is_pointer` is read through it, a fault. -/
def om_parent_get (omp : object_manager_t) (object_type object_instance : Int) :
    Option (Nat × Int × Int) :=
  match get_object_pointer omp object_type object_instance with
  | none => none
  | some obj =>
    match get_ot_and_oi omp (some obj.parent) with
    | none => none
    | some (pot, poi) => some (0, pot, poi)

/-- The function `obj_attribute_remove`. Its call of `index_obj_remove` leaves
out the last argument, `shrink_threshold`, which is an argument here. -/
def obj_attribute_remove (omp : object_manager_t) (obj : object_t) (attribute_id : Int)
    (shrink_threshold : Int) (mem_ok : Bool) : Option (Nat × object_manager_t) :=
  match get_attribute_pointer obj attribute_id with
  | none => none
  | some none => some (ENODATA, omp)
  | some (some (ap, _)) =>
    match index_obj_remove obj.attributes ap shrink_threshold mem_ok with
    | none => none
    | some r => some (r.rc, om_update omp obj.key (fun o => { o with attributes := r.idx }))

/-- The function `om_attribute_remove`. -/
def om_attribute_remove (omp : object_manager_t) (object_type object_instance : Int)
    (attribute_id : Int) (shrink_threshold : Int) (mem_ok : Bool) :
    Option (Nat × object_manager_t) :=
  match get_object_pointer omp object_type object_instance with
  | none => some (ENODATA, omp)
  | some obj => obj_attribute_remove omp obj attribute_id shrink_threshold mem_ok

/-- The function `om_write_one_object_tfn`: the numbers printed for one object,
`OBJ` first. `write_attribute` stands for `om_write_one_attribute`, whose value
type `attribute_value_t` is not among the sources. -/
def om_write_one_object_tfn (write_attribute : attribute_t → List Int) (omp : object_manager_t)
    (obj : object_t) : Option (List (String ⊕ Int)) :=
  match get_ot_and_oi omp (some obj.parent) with
  | none => none
  | some (pt, pi) =>
    some (.inl "OBJ" :: .inr pt :: .inr pi :: .inr obj.object_type :: .inr obj.object_instance ::
      (obj.attributes.live.map (fun a => (write_attribute a).map Sum.inr)).flatten)

/-- Modelled from the spec: `avl_tree_morris_traverse` (not among the sources)
calls the function on every object of the lookup, here in the order `visit`. -/
def avl_tree_morris_traverse (f : object_t → Option (List (String ⊕ Int))) :
    List object_t → Option (List (String ⊕ Int))
  | [] => some []
  | o :: os =>
    match f o with
    | none => none
    | some line =>
      match avl_tree_morris_traverse f os with
      | none => none
      | some rest => some (line ++ rest)

/-- The function `om_write`: the return value and the text written, or `none`
when writing faults. `file_ok` says whether `fopen` succeeds and `visit` is the
order in which the traversal of `om_objects` reaches the objects. -/
def om_write (write_attribute : attribute_t → List Int) (omp : object_manager_t)
    (visit : List object_t) (file_ok : Bool) : Option (Int × List (String ⊕ Int)) :=
  if !file_ok then some (-1, [])
  else
    match avl_tree_morris_traverse (om_write_one_object_tfn write_attribute omp) visit with
    | none => none
    | some text => some (0, text)

/-- The attribute ids in the cells `elements[0..n)` of the attributes index of
an object, in index order; `none` when the object is absent. -/
def om_attribute_ids (omp : object_manager_t) (object_type object_instance : Int) :
    Option (List Int) :=
  (get_object_pointer omp object_type object_instance).map
    (fun o => o.attributes.live.map attribute_t.attribute_id)

/-- The attributes of an object as pairs of id and bytes, in index order. -/
def om_attribute_values (omp : object_manager_t) (object_type object_instance : Int) :
    Option (List (Int × List Nat)) :=
  (get_object_pointer omp object_type object_instance).map
    (fun o => o.attributes.live.map (fun a => (a.attribute_id, a.attribute_value_data)))

/-- A manager with the root `(0, 0)` and its child `(1, 1)`, which has no
children. -/
def om_example_leaf : Option object_manager_t :=
  (om_init 1).bind (fun o => (om_object_create o 0 0 1 1 true).map Prod.snd)

/-- A manager with the objects `(1, 1)` under the root `(0, 0)` and `(2, 1)`
under `(1, 1)`, each with the attribute `5` holding the bytes `1, 2, 3`. -/
def om_example_tree : Option object_manager_t :=
  ((((om_init 1).bind
    (fun o => (om_object_create o 0 0 1 1 true).map Prod.snd)).bind
    (fun o => (om_object_create o 1 1 2 1 true).map Prod.snd)).bind
    (fun o => (om_attribute_add o 1 1 5 3 [1, 2, 3] true).map Prod.snd)).bind
    (fun o => (om_attribute_add o 2 1 5 3 [1, 2, 3] true).map Prod.snd)

/-- A manager in which the object `(1, 1)` was given the attribute `2147483647`
and then the attribute `-1`. -/
def om_example_extreme_ids : Option object_manager_t :=
  (om_example_leaf.bind
    (fun o => (om_attribute_add o 1 1 2147483647 1 [9] true).map Prod.snd)).bind
    (fun o => (om_attribute_add o 1 1 (-1) 1 [8] true).map Prod.snd)

/-- An attribute record of the object `(1, 1)` with the given id and no value. -/
def attribute_example (attribute_id : Int) : attribute_t := ⟨⟨1, 1⟩, attribute_id, 0, []⟩

/-- An attributes index as `om_object_create_engine` makes it, eight cells that
grow by eight, holding the attributes `-1` and `2147483647` in the order of
`compare_attributes`, as in `om_example_extreme_ids`. -/
def index_example_attributes : index_obj_t attribute_t :=
  ⟨false, compare_attributes, 8, 8, 2,
    [attribute_example (-1), attribute_example 2147483647, default, default, default, default,
      default, default]⟩

/-- The attributes `-1` and `2147483647` in a full index of two cells that may
not grow. -/
def index_example_attributes_fixed : index_obj_t attribute_t :=
  ⟨false, compare_attributes, 2, 0, 2, [attribute_example (-1), attribute_example 2147483647]⟩

/-- The attributes `-1` and `2147483647` in a full index of two cells that
grows by two. -/
def index_example_attributes_full : index_obj_t attribute_t :=
  ⟨false, compare_attributes, 2, 2, 2, [attribute_example (-1), attribute_example 2147483647]⟩

/-- The function `resolve_parent_tfn` called on the object that `user_data`
points to: the return value and the manager. -/
def resolve_parent_tfn (omp : object_manager_t) (objp : object_identifier_t) :
    Option (Int × object_manager_t) :=
  match avl_tree_search omp.om_objects objp with
  | none => none
  | some obj =>
    match obj.parent with
    | .object_ptr _ => some (0, omp)
    | .object_id id =>
      match get_object_pointer omp id.object_type id.object_instance with
      | some parent =>
        some (0, om_update omp objp (fun o => { o with parent := .object_ptr (some parent.key) }))
      | none => some (0, omp)

/-- Modelled from the spec: `avl_tree_morris_traverse` (not among the sources)
with a function that writes to the manager; the function is called on every
object of the lookup, here in the order `visit`. -/
def avl_tree_morris_traverse_tfn
    (tfn : object_manager_t → object_identifier_t → Option (Int × object_manager_t)) :
    object_manager_t → List object_identifier_t → Option object_manager_t
  | omp, [] => some omp
  | omp, k :: ks =>
    match tfn omp k with
    | none => none
    | some (_, omp1) => avl_tree_morris_traverse_tfn tfn omp1 ks

/-- The function `om_resolve_all_parents`; `visit` is the order in which the
traversal of `om_objects` reaches the objects. -/
def om_resolve_all_parents (omp : object_manager_t) (visit : List object_identifier_t) :
    Option (Int × object_manager_t) :=
  match avl_tree_morris_traverse_tfn resolve_parent_tfn omp visit with
  | none => none
  | some omp1 => some (0, omp1)

/-- The keys of the objects of a manager, in the order of `om_objects`. -/
def om_keys (omp : object_manager_t) : List object_identifier_t :=
  omp.om_objects.map object_t.key

/-- An object with the given key, a `NULL` parent pointer, no children and no
attributes. -/
def om_example_object (object_type object_instance : Int) : object_t :=
  ⟨object_type, object_instance, .object_ptr none, [],
    ⟨false, compare_attributes, 8, 8, 0, List.replicate 8 default⟩⟩

/-- A manager loaded in an order in which a child comes before its parent:
`(7, 7)` is created under `(5, 5)`, which is absent, then `(5, 5)` is created
under the root. -/
def om_example_unresolved : Option object_manager_t :=
  ((om_init 1).bind (fun o => (om_object_create o 5 5 7 7 true).map Prod.snd)).bind
    (fun o => (om_object_create o 0 0 5 5 true).map Prod.snd)

/-- Modelled from the spec: the parent reference that an object is to hold after
the second load pass: a recorded parent key that is the key of an object of the
manager becomes a pointer to that object, any other reference stays. -/
def om_resolved_parent (omp : object_manager_t) :
    object_representation_t → object_representation_t
  | .object_ptr p => .object_ptr p
  | .object_id id =>
    if (avl_tree_search omp.om_objects id).isSome then .object_ptr (some id) else .object_id id

/-- The manager that `om_example_unresolved` builds, written out: the root
`(0, 0)` with the child `(5, 5)`, the object `(7, 7)` with the recorded parent
key `(5, 5)`, and the object `(5, 5)` with a pointer to the root. -/
def om_example_unresolved_manager : object_manager_t :=
  ⟨1, false, some ⟨0, 0⟩,
    [{ om_example_object 0 0 with children := [⟨5, 5⟩] },
     { om_example_object 7 7 with parent := .object_id ⟨5, 5⟩ },
     { om_example_object 5 5 with parent := .object_ptr (some ⟨0, 0⟩) }]⟩

/-! ## list.c

A pointer to a node is the address of the node in the memory of the list,
`none` being `NULL`. The memory holds the nodes that `list_create_new_node` has
allocated for the list, each at a fresh address, and a freed node leaves an
empty cell, so that an access through a dangling pointer is a fault. The field
`my_list` of a node, always the list that allocated it, is left out, and so are
the lock, memory monitor and statistics macros. -/

/-- The struct `list_node_t`. -/
structure list_node_t where
  next : Option Nat
  prev : Option Nat
  data : Nat
deriving DecidableEq, Repr

/-- The struct `list_t` with the memory of its nodes: `nodes[a]` is the node at
the address `a`, `none` once it is freed. `n_max` is an `unsigned int` and `n`
an `int`. -/
structure list_t where
  head : Option Nat
  tail : Option Nat
  n_max : Nat
  n : Int
  nodes : List (Option list_node_t)
deriving DecidableEq, Repr

/-- The node in the cell of a memory at an address, `none` if the cell is
empty or outside the memory. -/
def list_cell (nodes : List (Option list_node_t)) (node : Nat) : Option list_node_t :=
  match nodes[node]? with
  | some (some nd) => some nd
  | _ => none

/-- A read through a node pointer; `none` is a fault. -/
def list_node_read (list : list_t) (node : Nat) : Option list_node_t :=
  list_cell list.nodes node

/-- A write through a node pointer; `none` is a fault. -/
def list_node_write (list : list_t) (node : Nat) (f : list_node_t → list_node_t) :
    Option list_t :=
  match list_node_read list node with
  | none => none
  | some nd => some { list with nodes := list.nodes.set node (some (f nd)) }

/-- The function `list_init`; `n_max` is an `unsigned int`. -/
def list_init (n_max : Nat) : list_t := ⟨none, none, n_max % 2 ^ 32, 0, []⟩

/-- The function `list_create_new_node`: the node (`none` is `NULL`), `*err`
and the list with its memory; `mem_ok` says whether the allocation succeeds.
The limit is compared as `(int) list->n_max`, the `unsigned int` converted to
`int`. -/
def list_create_new_node (list : list_t) (data : Nat) (mem_ok : Bool) :
    Option Nat × Nat × list_t :=
  if list.n_max ≠ 0 ∧ list.n ≥ wrap_int32 (list.n_max : Int) then (none, ENOSPC, list)
  else if mem_ok then
    (some list.nodes.length, 0, { list with nodes := list.nodes ++ [some ⟨none, none, data⟩] })
  else (none, ENOMEM, list)

/-- The function `thread_unsafe_list_prepend_data`: the node returned, `*err`
and the list. -/
def thread_unsafe_list_prepend_data (list : list_t) (data : Nat) (mem_ok : Bool) :
    Option (Option Nat × Nat × list_t) :=
  match list_create_new_node list data mem_ok with
  | (none, err, l1) => some (none, err, l1)
  | (some node, err, l1) =>
    if l1.n ≤ 0 then
      some (some node, err,
        { l1 with head := some node, tail := some node, n := wrap_int32 (l1.n + 1) })
    else
      match list_node_write l1 node (fun nd => { nd with next := l1.head }) with
      | none => none
      | some l2 =>
        match l2.head with
        | none => none
        | some h =>
          match list_node_write l2 h (fun nd => { nd with prev := some node }) with
          | none => none
          | some l3 =>
            some (some node, err, { l3 with head := some node, n := wrap_int32 (l3.n + 1) })

/-- The function `thread_unsafe_list_append_data`: the node returned, `*err`
and the list. -/
def thread_unsafe_list_append_data (list : list_t) (data : Nat) (mem_ok : Bool) :
    Option (Option Nat × Nat × list_t) :=
  match list_create_new_node list data mem_ok with
  | (none, err, l1) => some (none, err, l1)
  | (some node, err, l1) =>
    if l1.n ≤ 0 then
      some (some node, err,
        { l1 with head := some node, tail := some node, n := wrap_int32 (l1.n + 1) })
    else
      match list_node_write l1 node (fun nd => { nd with prev := l1.tail }) with
      | none => none
      | some l2 =>
        match l2.tail with
        | none => none
        | some t =>
          match list_node_write l2 t (fun nd => { nd with next := some node }) with
          | none => none
          | some l3 =>
            some (some node, err, { l3 with tail := some node, n := wrap_int32 (l3.n + 1) })

/-- The function `thread_unsafe_list_remove_node`: the return value and the
list; the `assert` that fails is a fault. -/
def thread_unsafe_list_remove_node (list : list_t) (node : Nat) : Option (Nat × list_t) :=
  match list_node_read list node with
  | none => none
  | some nd =>
    let unlinked : Option list_t :=
      match nd.next, nd.prev with
      | none, none => some { list with head := none, tail := none }
      | none, some p =>
        match list_node_write list p (fun q => { q with next := none }) with
        | none => none
        | some l1 => some { l1 with tail := some p }
      | some nx, none =>
        list_node_write { list with head := some nx } nx (fun q => { q with prev := none })
      | some nx, some p =>
        match list_node_write list p (fun q => { q with next := some nx }) with
        | none => none
        | some l1 => list_node_write l1 nx (fun q => { q with prev := some p })
    match unlinked with
    | none => none
    | some l1 =>
      if l1.n - 1 ≥ 0 then some (0, { l1 with nodes := l1.nodes.set node none, n := l1.n - 1 })
      else none

/-- The function `list_prepend_data`: the return value, `*ret_node` and the
list. -/
def list_prepend_data (list : list_t) (data : Nat) (mem_ok : Bool) :
    Option (Nat × Option Nat × list_t) :=
  match thread_unsafe_list_prepend_data list data mem_ok with
  | none => none
  | some (node, failed, l1) => some (failed, node, l1)

/-- The function `list_append_data`: the return value, `*ret_node` and the
list. -/
def list_append_data (list : list_t) (data : Nat) (mem_ok : Bool) :
    Option (Nat × Option Nat × list_t) :=
  match thread_unsafe_list_append_data list data mem_ok with
  | none => none
  | some (node, failed, l1) => some (failed, node, l1)

/-- The function `list_remove_node`; the list is the one that `node->my_list`
names, read through the node. -/
def list_remove_node (list : list_t) (node : Option Nat) : Option (Nat × list_t) :=
  match node with
  | none => some (EINVAL, list)
  | some a =>
    match list_node_read list a with
    | none => none
    | some _ => thread_unsafe_list_remove_node list a

/-- The data read from a node along `next` until `NULL`, in at most `fuel`
steps; `none` if a pointer dangles or the steps run out. -/
def list_read_next (list : list_t) : Nat → Option Nat → Option (List Nat)
  | _, none => some []
  | 0, some _ => none
  | fuel + 1, some a =>
    match list_node_read list a with
    | none => none
    | some nd =>
      match list_read_next list fuel nd.next with
      | none => none
      | some rest => some (nd.data :: rest)

/-- The data read from a node along `prev` until `NULL`, in at most `fuel`
steps. -/
def list_read_prev (list : list_t) : Nat → Option Nat → Option (List Nat)
  | _, none => some []
  | 0, some _ => none
  | fuel + 1, some a =>
    match list_node_read list a with
    | none => none
    | some nd =>
      match list_read_prev list fuel nd.prev with
      | none => none
      | some rest => some (nd.data :: rest)

/-- The data read from `head` along `next`; a chain of distinct nodes has no
more nodes than the memory has cells. -/
def list_forward (list : list_t) : Option (List Nat) :=
  list_read_next list list.nodes.length list.head

/-- The data read from `tail` along `prev`. -/
def list_backward (list : list_t) : Option (List Nat) :=
  list_read_prev list list.nodes.length list.tail

/-- The data of the node at an address, `0` if there is none. -/
def list_data_at (list : list_t) (node : Nat) : Nat :=
  match list_node_read list node with
  | some nd => nd.data
  | none => 0

/-- The list is the doubly linked chain of the nodes at `addrs`, from `head` to
`tail`: the addresses are distinct, `n` is their number, `head` and `tail` are
the first and the last, and each node points to its neighbours, the ends to
`NULL`. -/
structure list_linked (list : list_t) (addrs : List Nat) : Prop where
  nodup : addrs.Nodup
  head_eq : list.head = addrs[0]?
  tail_eq : list.tail = addrs[addrs.length - 1]?
  n_eq : list.n = addrs.length
  link : ∀ i : Nat, i < addrs.length → ∃ a nd, addrs[i]? = some a ∧
    list_node_read list a = some nd ∧ nd.next = addrs[i + 1]? ∧
    nd.prev = (if i = 0 then none else addrs[i - 1]?)

/-- The loops of `main` in `test_list.c` that walk from a node along `next` and
remove every node whose data satisfies `p`, the next pointer being read before
the node is removed. -/
def list_remove_matching (p : Nat → Bool) : Nat → list_t → Option Nat → Option list_t
  | _, list, none => some list
  | 0, _, some _ => none
  | fuel + 1, list, some a =>
    match list_node_read list a with
    | none => none
    | some nd =>
      if p nd.data then
        match list_remove_node list (some a) with
        | none => none
        | some (_, l1) => list_remove_matching p fuel l1 nd.next
      else list_remove_matching p fuel list nd.next

/-- The first loop of `main` in `test_list.c`: the values `i, i + 1, ...` are
prepended one after the other, `k` of them. -/
def list_prepend_range (list : list_t) (i : Nat) : Nat → Option list_t
  | 0 => some list
  | k + 1 =>
    match list_prepend_data list i true with
    | none => none
    | some (_, _, l1) => list_prepend_range l1 (i + 1) k

/-- The function `main` of `test_list.c` with `SIZE` as an argument: the list
after the values `0 .. SIZE - 1` are prepended, after the odd values are
removed and after the even values are removed. -/
def test_list_main (size : Nat) : Option (list_t × list_t × list_t) :=
  match list_prepend_range (list_init 0) 0 size with
  | none => none
  | some l1 =>
    match list_remove_matching (fun i => i % 2 == 1) size l1 l1.head with
    | none => none
    | some l2 =>
      match list_remove_matching (fun i => i % 2 == 0) size l2 l2.head with
      | none => none
      | some l3 => some (l1, l2, l3)

/-- Modelled from the spec: the sequence after `x` is put in front of `s`. -/
def list_spec_prepend (x : Nat) (s : List Nat) : List Nat := x :: s

/-- Modelled from the spec: the sequence after `x` is put behind `s`. -/
def list_spec_append (x : Nat) (s : List Nat) : List Nat := s ++ [x]

/-- Modelled from the spec: the sequence `s` without its position `i`, the
other elements keeping their order. -/
def list_spec_remove (i : Nat) (s : List Nat) : List Nat := s.take i ++ s.drop (i + 1)

/-- A list of two nodes: `6` at the address `1`, the head, then `5` at the
address `0`, the tail. -/
def list_example : list_t :=
  ⟨some 1, some 0, 0, 2, [some ⟨none, some 1, 5⟩, some ⟨some 0, none, 6⟩]⟩

/-! ## lifo.c

A pointer to a node is the address of the node in the memory of the lifo,
`none` being `NULL`; a data pointer is a number, `0` being `NULL`. The memory
holds the nodes allocated for the lifo, each at a fresh address, and a freed
node leaves an empty cell, so that an access through a dangling pointer is a
fault. The sections under `EXTRA_CONSISTENCY_CHECKS` and the lock, memory
monitor and statistics macros are left out. -/

/-- The struct `lifo_node_t`. -/
structure lifo_node_t where
  next : Option Nat
  data : Nat
deriving DecidableEq, Repr

/-- The struct `lifo_t` with the memory of its nodes: `nodes[a]` is the node at
the address `a`, `none` once it is freed. -/
structure lifo_t where
  n_max : Nat
  head : Option Nat
  n : Nat
  nodes : List (Option lifo_node_t)
deriving DecidableEq, Repr

/-- The node in the cell of a memory at an address, `none` if the cell is
empty or outside the memory. -/
def lifo_cell (nodes : List (Option lifo_node_t)) (node : Nat) : Option lifo_node_t :=
  match nodes[node]? with
  | some (some nd) => some nd
  | _ => none

/-- The macro `END_NODE`. -/
def END_NODE (n : lifo_node_t) : Bool := n.next = none ∧ n.data = 0

/-- The function `lifo_init` on a lifo with an empty memory: the return value
and the lifo; `mem_ok` says whether the allocation succeeds. -/
def lifo_init (n_max : Nat) (mem_ok : Bool) : Nat × lifo_t :=
  if mem_ok then (0, ⟨n_max, some 0, 0, [some ⟨none, 0⟩]⟩)
  else (ENOMEM, ⟨0, none, 0, []⟩)

/-- The function `thread_unsafe_lifo_add_data`: the return value, `*node` and
the lifo. -/
def thread_unsafe_lifo_add_data (lifo : lifo_t) (data : Nat) (mem_ok : Bool) :
    Nat × Option Nat × lifo_t :=
  if lifo.n_max ≠ 0 ∧ lifo.n ≥ lifo.n_max then (ENOSPC, none, lifo)
  else if mem_ok then
    (0, some lifo.nodes.length,
      { lifo with
        nodes := lifo.nodes ++ [some ⟨lifo.head, data⟩]
        head := some lifo.nodes.length
        n := (lifo.n + 1) % 2 ^ 32 })
  else (ENOMEM, none, lifo)

/-- The function `thread_unsafe_lifo_remove_node`: the return value and the
lifo; `none` is a fault. -/
def thread_unsafe_lifo_remove_node (lifo : lifo_t) (lnd : Nat) : Option (Nat × lifo_t) :=
  match lifo_cell lifo.nodes lnd with
  | none => none
  | some nd =>
    if END_NODE nd then some (EINVAL, lifo)
    else
      match nd.next with
      | none => none
      | some to_be_freed =>
        match lifo_cell lifo.nodes to_be_freed with
        | none => none
        | some nx =>
          some (0,
            { lifo with
              nodes := (lifo.nodes.set lnd (some nx)).set to_be_freed none
              n := (lifo.n + 2 ^ 32 - 1) % 2 ^ 32 })

/-- The function `lifo_add_data`. -/
def lifo_add_data (lifo : lifo_t) (data : Nat) (mem_ok : Bool) : Nat × Option Nat × lifo_t :=
  thread_unsafe_lifo_add_data lifo data mem_ok

/-- The function `lifo_remove_node`. -/
def lifo_remove_node (lifo : lifo_t) (node : Nat) : Option (Nat × lifo_t) :=
  thread_unsafe_lifo_remove_node lifo node

/-- The data of the nodes from a node to the end node, as the loop of
`thread_unsafe_lifo_search_data` reads them; `none` is a fault or a chain
longer than `fuel`. -/
def lifo_data_from (nodes : List (Option lifo_node_t)) : Nat → Option Nat → Option (List Nat)
  | 0, _ => none
  | _ + 1, none => none
  | fuel + 1, some a =>
    match lifo_cell nodes a with
    | none => none
    | some nd =>
      if END_NODE nd then some []
      else (lifo_data_from nodes fuel nd.next).map (fun rest => nd.data :: rest)

/-- The data held by a lifo, head first. -/
def lifo_data (lifo : lifo_t) : Option (List Nat) :=
  lifo_data_from lifo.nodes (lifo.nodes.length + 1) lifo.head

/-- A lifo to which `20` and then `10` were added: the handle of `20` is the
address `1` and the handle of `10` is the address `2`. -/
def lifo_example : lifo_t :=
  (lifo_add_data (lifo_add_data (lifo_init 0 true).2 20 true).2.2 10 true).2.2

/-! ## radix_tree_object.c

The header `radix_tree_object.h` is not among the sources: the structs below
have the fields that the functions of `radix_tree_object.c` read and write
(the cursor `current` of the traversal apart), with integer counters. A pointer
to a node is the address of the node in the memory of the tree, `none` being
`NULL`; the node `radix_tree_root`, which is part of the tree struct, is at
the address `0`, and an allocated node is at a fresh address. A freed node
leaves an empty cell. A key is a list of bytes, a data pointer is a number,
`0` being `NULL`. The lock, memory monitor and statistics macros are left
out. -/

/-- The struct `radix_tree_node_t`. -/
structure radix_tree_node_t where
  parent : Option Nat
  value : Nat
  n_children : Int
  user_data : Nat
  children : List (Option Nat)
deriving DecidableEq, Repr

/-- The struct `radix_tree_t` with the memory of its nodes. -/
structure radix_tree_t where
  node_count : Int
  should_not_be_modified : Bool
  nodes : List (Option radix_tree_node_t)
deriving DecidableEq, Repr

/-- The number of children of a node, `NTRIE_ALPHABET_SIZE`: one for every
nibble. -/
def NTRIE_ALPHABET_SIZE : Nat := 16

/-- The macro `LO_NIBBLE`. -/
def LO_NIBBLE (value : Nat) : Nat := value % 16

/-- The macro `HI_NIBBLE`. -/
def HI_NIBBLE (value : Nat) : Nat := value / 16

/-- A read through a node pointer; `none` is a fault. -/
def radix_tree_node_read (rtp : radix_tree_t) (node : Nat) : Option radix_tree_node_t :=
  match rtp.nodes[node]? with
  | some (some nd) => some nd
  | _ => none

/-- A zeroed node with the given value, as `radix_tree_node_init` and
`radix_tree_new_node` leave it. -/
def radix_tree_node_zeroed (value : Nat) : radix_tree_node_t :=
  ⟨none, value, 0, 0, List.replicate NTRIE_ALPHABET_SIZE none⟩

/-- The function `radix_tree_init` on a tree with no allocated node: the return
value and the tree. The function does not write `should_not_be_modified`, which
keeps the value it had. -/
def radix_tree_init (should_not_be_modified : Bool) : Nat × radix_tree_t :=
  (0, ⟨0, should_not_be_modified, [some (radix_tree_node_zeroed 0)]⟩)

/-- The function `radix_tree_add_nibble`: the node returned and the tree;
`none` is a fault, `mem_ok` says whether an allocation succeeds. -/
def radix_tree_add_nibble (rtp : radix_tree_t) (parent : Nat) (nibble : Nat) (mem_ok : Bool) :
    Option (Option Nat × radix_tree_t) :=
  match radix_tree_node_read rtp parent with
  | none => none
  | some pnd =>
    match pnd.children[nibble]? with
    | none => none
    | some (some node) => some (some node, rtp)
    | some none =>
      if mem_ok then
        let node := rtp.nodes.length
        some (some node,
          { rtp with
            nodes := rtp.nodes.set parent
                (some { pnd with
                  children := pnd.children.set nibble (some node)
                  n_children := pnd.n_children + 1 })
              ++ [some { radix_tree_node_zeroed nibble with parent := some parent }]
            node_count := rtp.node_count + 1 })
      else some (none, rtp)

/-- The function `radix_tree_add_byte`. -/
def radix_tree_add_byte (rtp : radix_tree_t) (parent : Nat) (value : Nat) (mem_ok : Bool) :
    Option (Option Nat × radix_tree_t) :=
  match radix_tree_add_nibble rtp parent (LO_NIBBLE value) mem_ok with
  | none => none
  | some (none, rtp1) => some (none, rtp1)
  | some (some new_node, rtp1) => radix_tree_add_nibble rtp1 new_node (HI_NIBBLE value) mem_ok

/-- The loop of `radix_tree_node_insert` from the state `parent`, `new_node`,
`key`, `key_length`; a read after the last byte of the key is a fault. -/
def radix_tree_node_insert_loop (mem_ok : Bool) :
    radix_tree_t → Nat → Option Nat → List Nat → Int → Option (Option Nat × radix_tree_t)
  | rtp, _, new_node, [], key_length =>
    if key_length > 0 then none else some (new_node, rtp)
  | rtp, parent, new_node, b :: key, key_length =>
    if key_length > 0 then
      match radix_tree_add_byte rtp parent b mem_ok with
      | none => none
      | some (none, rtp1) => some (none, rtp1)
      | some (some node, rtp1) =>
        radix_tree_node_insert_loop mem_ok rtp1 node (some node) key (key_length - 1)
    else some (new_node, rtp)

/-- The function `radix_tree_node_insert`. -/
def radix_tree_node_insert (rtp : radix_tree_t) (key : List Nat) (key_length : Int)
    (mem_ok : Bool) : Option (Option Nat × radix_tree_t) :=
  radix_tree_node_insert_loop mem_ok rtp 0 none key key_length

/-- The loop of `radix_tree_node_find` from the state `node`, `key`,
`key_length`: the node returned, `none` inside being `NULL`; the outer `none`
is a fault. -/
def radix_tree_node_find_loop (rtp : radix_tree_t) :
    Nat → List Nat → Int → Option (Option Nat)
  | _, [], _ => none
  | node, b :: key, key_length =>
    match radix_tree_node_read rtp node with
    | none => none
    | some nd =>
      match nd.children[LO_NIBBLE b]? with
      | none => none
      | some none => none
      | some (some lo) =>
        match radix_tree_node_read rtp lo with
        | none => none
        | some lnd =>
          match lnd.children[HI_NIBBLE b]? with
          | none => none
          | some none => some none
          | some (some hi) =>
            if key_length - 1 ≤ 0 then some (some hi)
            else radix_tree_node_find_loop rtp hi key (key_length - 1)

/-- The function `radix_tree_node_find`; the test of the first child against
`NULL` is commented out in the source, so that the second child is read through
the first without a test. -/
def radix_tree_node_find (rtp : radix_tree_t) (key : List Nat) (key_length : Int) :
    Option (Option Nat) :=
  radix_tree_node_find_loop rtp 0 key key_length

/-- The result of a function that may fault or loop: a value, a fault (a `NULL`
or dangling pointer is dereferenced), or the iteration bound being used up. -/
inductive outcome (α : Type) where
  | done (a : α)
  | fault
  | out_of_fuel

/-- The value of an outcome, if there is one. -/
def outcome.value {α : Type} : outcome α → Option α
  | .done a => some a
  | _ => none

/-- The function `radix_tree_remove_node`, with a bound on the iterations of
its loop. -/
def radix_tree_remove_node : Nat → radix_tree_t → Nat → outcome radix_tree_t
  | 0, _, _ => .out_of_fuel
  | fuel + 1, rtp, node =>
    match radix_tree_node_read rtp node with
    | none => .fault
    | some nd =>
      match nd.parent with
      | none => .done rtp
      | some parent =>
        if nd.user_data ≠ 0 then .done rtp
        else if nd.n_children > 0 then .done rtp
        else
          match radix_tree_node_read rtp parent with
          | none => .fault
          | some pnd =>
            if nd.value < pnd.children.length then
              radix_tree_remove_node fuel
                { rtp with
                  nodes := (rtp.nodes.set parent
                    (some { pnd with
                      children := pnd.children.set nd.value none
                      n_children := pnd.n_children - 1 })).set node none
                  node_count := rtp.node_count - 1 }
                parent
            else .fault

/-- The function `thread_unsafe_radix_tree_insert`: the return value,
`*present_data` and the tree; `none` is a fault. -/
def thread_unsafe_radix_tree_insert (rtp : radix_tree_t) (key : List Nat) (key_length : Int)
    (data_to_be_inserted : Nat) (mem_ok : Bool) : Option (Nat × Nat × radix_tree_t) :=
  if data_to_be_inserted = 0 then some (EINVAL, 0, rtp)
  else if rtp.should_not_be_modified then some (EBUSY, 0, rtp)
  else
    match radix_tree_node_insert rtp key key_length mem_ok with
    | none => none
    | some (none, rtp1) => some (ENOMEM, 0, rtp1)
    | some (some node, rtp1) =>
      match radix_tree_node_read rtp1 node with
      | none => none
      | some nd =>
        if nd.user_data ≠ 0 then some (0, nd.user_data, rtp1)
        else
          some (0, 0,
            { rtp1 with
              nodes := rtp1.nodes.set node (some { nd with user_data := data_to_be_inserted }) })

/-- The function `thread_unsafe_radix_tree_search`: the return value and
`*present_data`; `none` is a fault. -/
def thread_unsafe_radix_tree_search (rtp : radix_tree_t) (key : List Nat) (key_length : Int) :
    Option (Nat × Nat) :=
  match radix_tree_node_find rtp key key_length with
  | none => none
  | some none => some (ENODATA, 0)
  | some (some node) =>
    match radix_tree_node_read rtp node with
    | none => none
    | some nd => if nd.user_data ≠ 0 then some (0, nd.user_data) else some (ENODATA, 0)

/-- The function `thread_unsafe_radix_tree_remove`: the return value,
`*removed_data` and the tree. -/
def thread_unsafe_radix_tree_remove (fuel : Nat) (rtp : radix_tree_t) (key : List Nat)
    (key_length : Int) : outcome (Nat × Nat × radix_tree_t) :=
  if rtp.should_not_be_modified then .done (EBUSY, 0, rtp)
  else
    match radix_tree_node_find rtp key key_length with
    | none => .fault
    | some none => .done (ENODATA, 0, rtp)
    | some (some node) =>
      match radix_tree_node_read rtp node with
      | none => .fault
      | some nd =>
        if nd.user_data ≠ 0 then
          match radix_tree_remove_node fuel
              { rtp with nodes := rtp.nodes.set node (some { nd with user_data := 0 }) }
              node with
          | .done rtp1 => .done (0, nd.user_data, rtp1)
          | .fault => .fault
          | .out_of_fuel => .out_of_fuel
        else .done (ENODATA, 0, rtp)

/-- The function `radix_tree_insert`. -/
def radix_tree_insert (rtp : radix_tree_t) (key : List Nat) (key_length : Int)
    (data_to_be_inserted : Nat) (mem_ok : Bool) : Option (Nat × Nat × radix_tree_t) :=
  thread_unsafe_radix_tree_insert rtp key key_length data_to_be_inserted mem_ok

/-- The function `radix_tree_search`. -/
def radix_tree_search (rtp : radix_tree_t) (key : List Nat) (key_length : Int) :
    Option (Nat × Nat) :=
  thread_unsafe_radix_tree_search rtp key key_length

/-- The function `radix_tree_remove`. -/
def radix_tree_remove (fuel : Nat) (rtp : radix_tree_t) (key : List Nat) (key_length : Int) :
    outcome (Nat × Nat × radix_tree_t) :=
  thread_unsafe_radix_tree_remove fuel rtp key key_length

/-- The tree after a call, if the call returned. -/
def radix_tree_after {α : Type} (r : Option (Nat × α × radix_tree_t)) : Option radix_tree_t :=
  r.map (fun x => x.2.2)

/-- The empty tree with the key `0x12` inserted with the data `5`. -/
def radix_tree_example_one : Option radix_tree_t :=
  radix_tree_after (radix_tree_insert (radix_tree_init false).2 [0x12] 1 5 true)

/-- The empty tree with the key `0x32` inserted with the data `6`. -/
def radix_tree_example_other : Option radix_tree_t :=
  radix_tree_after (radix_tree_insert (radix_tree_init false).2 [0x32] 1 6 true)

/-- The tree `radix_tree_example_other` with the key `0x12` inserted with the
data `5`; the two keys share the node of the low nibble `2`. -/
def radix_tree_example_two : Option radix_tree_t :=
  radix_tree_example_other.bind
    (fun t => radix_tree_after (radix_tree_insert t [0x12] 1 5 true))
/-! ## Theorems: pointer_lookup.c -/

theorem pl_init_inv (size : Nat) (tbl : pointer_lookup_t)
    (h : pointer_lookup_init size true = .ok tbl) : pl_inv ⟨tbl, []⟩ := by
  unfold pointer_lookup_init at h
  split at h
  · cases h
  · simp at h
    cases h
    refine ⟨by simp, by simp, by simp, ?_, ?_, ?_⟩
    · simpa using List.nodup_range size
    · intro j hj
      simp at hj
      exact ⟨⟨MAX_ADDRESS_NUMBER, 0⟩, by simp [List.getElem?_replicate, hj], rfl⟩
    · intro h hh
      cases hh

theorem pl_free_short (l : List Nat) (size j : Nat) (hnd : l.Nodup)
    (hlt : ∀ a ∈ l, a < size) (hj : j < size) (hjn : j ∉ l) : l.length < size := by
  have hsub : l.toFinset ⊆ (Finset.range size).erase j := by
    intro a ha
    simp at ha
    simp
    exact ⟨fun e => hjn (e ▸ ha), hlt a ha⟩
  have hc := Finset.card_le_card hsub
  rw [List.toFinset_card_of_nodup hnd, Finset.card_erase_of_mem (by simpa using hj)] at hc
  simp at hc
  omega

/-- A store on a full table fails with `ENOSPC` and changes nothing. -/
theorem pl_store_full (plp : pointer_lookup_t) (x : Nat) (hfull : plp.stack_idx ≥ plp.size) :
    pointer_lookup_store_pointer plp x = some ⟨ENOSPC, 0, 0, plp⟩ := by
  simp [pointer_lookup_store_pointer, pointer_lookup_alloc_index, hfull]

theorem pl_store_ok (plp : pointer_lookup_t) (x i : Nat) (hlt : plp.stack_idx < plp.size)
    (hi : plp.index_stack[plp.stack_idx]? = some i) (hil : i < plp.pointer_entries.length) :
    pointer_lookup_store_pointer plp x = some ⟨0, i,
      (if plp.number_generator ≥ MAX_ADDRESS_NUMBER then 0 else plp.number_generator),
      { plp with
        stack_idx := plp.stack_idx + 1
        number_generator :=
          (if plp.number_generator ≥ MAX_ADDRESS_NUMBER then 0 else plp.number_generator) + 1
        pointer_entries := plp.pointer_entries.set i
          ⟨(if plp.number_generator ≥ MAX_ADDRESS_NUMBER then 0 else plp.number_generator), x⟩ }⟩ := by
  have h1 : ¬ plp.stack_idx ≥ plp.size := by omega
  simp [pointer_lookup_store_pointer, pointer_lookup_alloc_index, h1, hi,
    pointer_lookup_get_unique_number, hil]

theorem pl_step_store_inv (t : pl_trace) (hinv : pl_inv t) (x : Nat) :
    ∃ t1, pl_step t (.store x) = some t1 ∧ pl_inv t1 := by
  by_cases hfull : t.plp.stack_idx ≥ t.plp.size
  · refine ⟨t, ?_, hinv⟩
    simp [pl_step, pl_store_full t.plp x hfull, ENOSPC]
  · have hlt : t.plp.stack_idx < t.plp.size := by omega
    have hlen : t.plp.stack_idx < t.plp.index_stack.length := by rw [hinv.len_stack]; exact hlt
    have hdrop := List.drop_eq_getElem_cons hlen
    obtain ⟨e, he, hen⟩ := hinv.free_invalid (t.plp.index_stack[t.plp.stack_idx])
      (by rw [hdrop]; exact List.mem_cons_self _ _)
    have hil : t.plp.index_stack[t.plp.stack_idx] < t.plp.pointer_entries.length := by
      by_contra hc
      rw [List.getElem?_eq_none (by omega)] at he
      cases he
    have hget : t.plp.index_stack[t.plp.stack_idx]? = some (t.plp.index_stack[t.plp.stack_idx]) :=
      List.getElem?_eq_getElem hlen
    have hnd := hinv.free_nodup
    rw [hdrop] at hnd
    have hg : (if t.plp.number_generator ≥ MAX_ADDRESS_NUMBER then 0 else t.plp.number_generator)
        < MAX_ADDRESS_NUMBER := by
      split
      · decide
      · omega
    refine ⟨_, by simp [pl_step, pl_store_ok t.plp x _ hlt hget hil]; rfl, ?_⟩
    refine ⟨by simp [hinv.len_entries], hinv.len_stack, by dsimp only; omega, ?_, ?_, ?_⟩
    · exact (List.nodup_cons.mp hnd).2
    · intro j hj
      have hjne : j ≠ t.plp.index_stack[t.plp.stack_idx] := by
        intro e
        exact (List.nodup_cons.mp hnd).1 (e ▸ hj)
      obtain ⟨e2, he2, hen2⟩ := hinv.free_invalid j (by rw [hdrop]; exact List.mem_cons_of_mem _ hj)
      refine ⟨e2, ?_, hen2⟩
      show (t.plp.pointer_entries.set _ _)[j]? = some e2
      rw [List.getElem?_set_ne (Ne.symm hjne)]
      exact he2
    · intro h hh
      rcases List.mem_cons.mp hh with rfl | hh
      · exact ⟨by show _ < t.plp.size; rw [← hinv.len_entries]; exact hil, hg⟩
      · exact hinv.returned_ok h hh

theorem pl_drop_set_self (l : List Nat) (a v : Nat) (h : a < l.length) :
    (l.set a v).drop a = v :: l.drop (a + 1) := by
  have h2 : a < (l.set a v).length := by simpa using h
  rw [List.drop_eq_getElem_cons h2, List.getElem_set_self, List.drop_set_of_lt _ _ (by omega)]

theorem pl_clear_miss (plp : pointer_lookup_t) (j m : Nat) (e : pointer_entry_t)
    (he : plp.pointer_entries[j]? = some e) (hne : e.pointer_number ≠ m) :
    pointer_lookup_clear_pointer plp j m = some (ENODATA, plp) := by
  simp [pointer_lookup_clear_pointer, he, hne]

theorem pl_clear_hit (plp : pointer_lookup_t) (j m : Nat) (e : pointer_entry_t)
    (he : plp.pointer_entries[j]? = some e) (hm : e.pointer_number = m)
    (h0 : plp.stack_idx ≠ 0) (hk : plp.stack_idx - 1 < plp.index_stack.length) :
    pointer_lookup_clear_pointer plp j m = some (0,
      { plp with
        pointer_entries := plp.pointer_entries.set j ⟨MAX_ADDRESS_NUMBER, 0⟩
        stack_idx := plp.stack_idx - 1
        index_stack := plp.index_stack.set (plp.stack_idx - 1) j }) := by
  simp [pointer_lookup_clear_pointer, he, hm, pointer_lookup_free_index, h0, hk]

theorem pl_step_clear_inv (t : pl_trace) (hinv : pl_inv t) (j m : Nat)
    (hmem : (j, m) ∈ t.returned) :
    ∃ t1, pl_step t (.clear j m) = some t1 ∧ pl_inv t1 := by
  obtain ⟨hj, hm⟩ := hinv.returned_ok _ hmem
  dsimp only at hj hm
  have hjl : j < t.plp.pointer_entries.length := by rw [hinv.len_entries]; exact hj
  have he : t.plp.pointer_entries[j]? = some (t.plp.pointer_entries[j]) :=
    List.getElem?_eq_getElem hjl
  by_cases hne : (t.plp.pointer_entries[j]).pointer_number = m
  · have hjfree : j ∉ t.plp.index_stack.drop t.plp.stack_idx := by
      intro hin
      obtain ⟨e2, he2, hen2⟩ := hinv.free_invalid j hin
      rw [he] at he2
      cases he2
      omega
    have hshort := pl_free_short _ t.plp.size j hinv.free_nodup
      (fun a ha => by
        obtain ⟨e2, he2, _⟩ := hinv.free_invalid a ha
        by_contra hc
        rw [List.getElem?_eq_none (by rw [hinv.len_entries]; omega)] at he2
        cases he2) hj hjfree
    rw [List.length_drop, hinv.len_stack] at hshort
    have h0 : t.plp.stack_idx ≠ 0 := by omega
    have hk : t.plp.stack_idx - 1 < t.plp.index_stack.length := by
      rw [hinv.len_stack]; have := hinv.idx_le; omega
    have hk1 : t.plp.stack_idx - 1 + 1 = t.plp.stack_idx := by omega
    refine ⟨_, by simp only [pl_step, pl_clear_hit t.plp j m _ he hne h0 hk]; rfl, ?_⟩
    refine ⟨by simp [hinv.len_entries], by simp [hinv.len_stack],
      by dsimp only; have := hinv.idx_le; omega, ?_, ?_, ?_⟩
    · dsimp only
      rw [pl_drop_set_self _ _ _ hk, hk1]
      exact List.nodup_cons.mpr ⟨hjfree, hinv.free_nodup⟩
    · dsimp only
      rw [pl_drop_set_self _ _ _ hk, hk1]
      intro a ha
      rcases List.mem_cons.mp ha with rfl | ha
      · exact ⟨⟨MAX_ADDRESS_NUMBER, 0⟩, by simp [hjl], rfl⟩
      · have hane : a ≠ j := fun e => hjfree (e ▸ ha)
        obtain ⟨e2, he2, hen2⟩ := hinv.free_invalid a ha
        exact ⟨e2, by rw [List.getElem?_set_ne (Ne.symm hane)]; exact he2, hen2⟩
    · exact hinv.returned_ok
  · refine ⟨t, by simp only [pl_step, pl_clear_miss t.plp j m _ he hne], hinv⟩

theorem pl_step_store_live (t : pl_trace) (hinv : pl_inv t) (i n x y : Nat)
    (hlive : pl_live t i n x) (t1 : pl_trace) (hstep : pl_step t (.store y) = some t1) :
    pl_live t1 i n x := by
  by_cases hfull : t.plp.stack_idx ≥ t.plp.size
  · simp [pl_step, pl_store_full t.plp y hfull, ENOSPC] at hstep
    subst hstep
    exact hlive
  · have hlt : t.plp.stack_idx < t.plp.size := by omega
    have hlen : t.plp.stack_idx < t.plp.index_stack.length := by rw [hinv.len_stack]; exact hlt
    have hdrop := List.drop_eq_getElem_cons hlen
    obtain ⟨e, he, hen⟩ := hinv.free_invalid (t.plp.index_stack[t.plp.stack_idx])
      (by rw [hdrop]; exact List.mem_cons_self _ _)
    have hil : t.plp.index_stack[t.plp.stack_idx] < t.plp.pointer_entries.length := by
      by_contra hc
      rw [List.getElem?_eq_none (by omega)] at he
      cases he
    have hget : t.plp.index_stack[t.plp.stack_idx]? = some (t.plp.index_stack[t.plp.stack_idx]) :=
      List.getElem?_eq_getElem hlen
    simp only [pl_step, pl_store_ok t.plp y _ hlt hget hil] at hstep
    simp at hstep
    subst hstep
    have hne : t.plp.index_stack[t.plp.stack_idx] ≠ i := by
      intro e1
      rw [e1, hlive.1] at he
      cases he
      have := hlive.2
      dsimp only at hen
      omega
    exact ⟨by dsimp only; rw [List.getElem?_set_ne hne]; exact hlive.1, hlive.2⟩

theorem pl_step_clear_live (t : pl_trace) (i n x j m : Nat)
    (hlive : pl_live t i n x) (hne : (j, m) ≠ (i, n))
    (t1 : pl_trace) (hstep : pl_step t (.clear j m) = some t1) :
    pl_live t1 i n x := by
  unfold pl_step pointer_lookup_clear_pointer at hstep
  cases he : t.plp.pointer_entries[j]? with
  | none => simp [he] at hstep
  | some e =>
    simp only [he] at hstep
    by_cases hm : e.pointer_number = m
    · have hji : j ≠ i := by
        intro e1
        subst e1
        rw [hlive.1] at he
        cases he
        exact hne (by rw [← hm])
      by_cases h0 : t.plp.stack_idx = 0
      · simp [hm, pointer_lookup_free_index, h0] at hstep
      · by_cases hk : t.plp.stack_idx - 1 < t.plp.index_stack.length
        · simp [hm, pointer_lookup_free_index, h0, hk] at hstep
          subst hstep
          exact ⟨by dsimp only; rw [List.getElem?_set_ne hji]; exact hlive.1, hlive.2⟩
        · simp [hm, pointer_lookup_free_index, h0, hk] at hstep
    · simp [hm] at hstep
      subst hstep
      exact hlive

theorem pl_run_inv (avoid : Nat × Nat → Bool) (cs : List pl_call) :
    ∀ t : pl_trace, pl_inv t → pl_clears_returned avoid t cs = true →
      ∃ t1, pl_run t cs = some t1 ∧ pl_inv t1 := by
  induction cs with
  | nil => intro t hinv _; exact ⟨t, rfl, hinv⟩
  | cons c cs ih =>
    intro t hinv hok
    simp only [pl_clears_returned, Bool.and_eq_true] at hok
    obtain ⟨hc, hrest⟩ := hok
    have hstep : ∃ t1, pl_step t c = some t1 ∧ pl_inv t1 := by
      cases c with
      | store y => exact pl_step_store_inv t hinv y
      | clear j m =>
        simp only [Bool.and_eq_true, decide_eq_true_eq] at hc
        exact pl_step_clear_inv t hinv j m hc.1
    obtain ⟨t1, h1, hinv1⟩ := hstep
    rw [h1] at hrest
    obtain ⟨t2, h2, hinv2⟩ := ih t1 hinv1 hrest
    exact ⟨t2, by simp only [pl_run, h1, h2], hinv2⟩

theorem pl_run_live (i n x : Nat) (cs : List pl_call) :
    ∀ t : pl_trace, pl_inv t → pl_live t i n x →
      pl_clears_returned (fun h => h == (i, n)) t cs = true →
      ∃ t1, pl_run t cs = some t1 ∧ pl_inv t1 ∧ pl_live t1 i n x := by
  induction cs with
  | nil => intro t hinv hlive _; exact ⟨t, rfl, hinv, hlive⟩
  | cons c cs ih =>
    intro t hinv hlive hok
    simp only [pl_clears_returned, Bool.and_eq_true] at hok
    obtain ⟨hc, hrest⟩ := hok
    have hstep : ∃ t1, pl_step t c = some t1 ∧ pl_inv t1 ∧ pl_live t1 i n x := by
      cases c with
      | store y =>
        obtain ⟨t1, h1, hinv1⟩ := pl_step_store_inv t hinv y
        exact ⟨t1, h1, hinv1, pl_step_store_live t hinv i n x y hlive t1 h1⟩
      | clear j m =>
        simp only [Bool.and_eq_true, decide_eq_true_eq, Bool.not_eq_true', beq_eq_false_iff_ne]
          at hc
        obtain ⟨t1, h1, hinv1⟩ := pl_step_clear_inv t hinv j m hc.1
        exact ⟨t1, h1, hinv1, pl_step_clear_live t i n x j m hlive hc.2 t1 h1⟩
    obtain ⟨t1, h1, hinv1, hlive1⟩ := hstep
    rw [h1] at hrest
    obtain ⟨t2, h2, hinv2, hlive2⟩ := ih t1 hinv1 hlive1 hrest
    exact ⟨t2, by simp only [pl_run, h1, h2], hinv2, hlive2⟩

theorem pl_get_of_live (t : pl_trace) (i n x : Nat) (hlive : pl_live t i n x) :
    pointer_lookup_get_pointer t.plp i n = some x := by
  simp [pointer_lookup_get_pointer, hlive.1]

/-- C1 handle validity while live. On a table made by `pointer_lookup_init`, after
any calls in which every clear names a handle returned earlier, a store of `x`
does not fault; if it succeeds with `(index, number)`, then after any further
stores and any clears of other, previously returned handles,
`pointer_lookup_get_pointer (index, number)` returns `x`. -/
theorem pointer_lookup_handle_valid_while_live (size : Nat) (tbl : pointer_lookup_t)
    (hinit : pointer_lookup_init size true = .ok tbl)
    (before : List pl_call)
    (hbefore : pl_clears_returned (fun _ => false) ⟨tbl, []⟩ before = true) (x : Nat) :
    ∃ t1 r, pl_run ⟨tbl, []⟩ before = some t1 ∧
      pointer_lookup_store_pointer t1.plp x = some r ∧
      (r.rc = 0 → ∀ after : List pl_call,
        pl_clears_returned (fun h => h == (r.index_returned, r.number_returned))
          ⟨r.plp, (r.index_returned, r.number_returned) :: t1.returned⟩ after = true →
        ∃ t2, pl_run ⟨r.plp, (r.index_returned, r.number_returned) :: t1.returned⟩ after
            = some t2 ∧
          pointer_lookup_get_pointer t2.plp r.index_returned r.number_returned = some x) := by
  obtain ⟨t1, h1, hinv1⟩ := pl_run_inv _ before _ (pl_init_inv size tbl hinit) hbefore
  obtain ⟨ts, hs, hinvs⟩ := pl_step_store_inv t1 hinv1 x
  cases hr : pointer_lookup_store_pointer t1.plp x with
  | none => simp [pl_step, hr] at hs
  | some r =>
    refine ⟨t1, r, h1, hr, ?_⟩
    intro hrc after hafter
    simp only [pl_step, hr, hrc, if_true, Option.some.injEq] at hs
    subst hs
    have hlive : pl_live ⟨r.plp, (r.index_returned, r.number_returned) :: t1.returned⟩
        r.index_returned r.number_returned x := by
      by_cases hfull : t1.plp.stack_idx ≥ t1.plp.size
      · rw [pl_store_full t1.plp x hfull] at hr
        cases hr
        simp [ENOSPC] at hrc
      · have hlt : t1.plp.stack_idx < t1.plp.size := by omega
        have hlen : t1.plp.stack_idx < t1.plp.index_stack.length := by
          rw [hinv1.len_stack]; exact hlt
        have hil := (hinvs.returned_ok _ (List.mem_cons_self _ _)).1
        have hn := (hinvs.returned_ok _ (List.mem_cons_self _ _)).2
        dsimp only at hil hn
        have hlen2 := hinvs.len_entries
        dsimp only at hlen2
        rw [pl_store_ok t1.plp x _ hlt (List.getElem?_eq_getElem hlen)
          (by
            have hdrop := List.drop_eq_getElem_cons hlen
            obtain ⟨e, he, _⟩ := hinv1.free_invalid (t1.plp.index_stack[t1.plp.stack_idx])
              (by rw [hdrop]; exact List.mem_cons_self _ _)
            by_contra hc
            rw [List.getElem?_eq_none (by omega)] at he
            cases he)] at hr
        cases hr
        refine ⟨?_, hn⟩
        dsimp only at hil ⊢
        rw [List.getElem?_set_self (by rw [hinv1.len_entries]; exact hil)]
    obtain ⟨t2, h2, _, hlive2⟩ := pl_run_live _ _ x after _ hinvs hlive hafter
    exact ⟨t2, h2, pl_get_of_live t2 _ _ x hlive2⟩

theorem pl_store_cases (plp : pointer_lookup_t) (x : Nat) (r : store_result)
    (h : pointer_lookup_store_pointer plp x = some r) :
    (r.rc = ENOSPC ∧ r.plp = plp) ∨
    (r.rc = 0 ∧
      r.number_returned =
        (if plp.number_generator ≥ MAX_ADDRESS_NUMBER then 0 else plp.number_generator) ∧
      r.plp.number_generator = r.number_returned + 1 ∧
      r.index_returned < plp.pointer_entries.length ∧
      r.plp.pointer_entries =
        plp.pointer_entries.set r.index_returned ⟨r.number_returned, x⟩) := by
  unfold pointer_lookup_store_pointer pointer_lookup_alloc_index at h
  by_cases hfull : plp.stack_idx ≥ plp.size
  · simp [hfull] at h
    subst h
    exact Or.inl ⟨rfl, rfl⟩
  · cases hi : plp.index_stack[plp.stack_idx]? with
    | none => simp [hfull, hi] at h
    | some i =>
      have hneg : ¬ ((i : Int) < 0) := by omega
      by_cases hil : i < plp.pointer_entries.length
      · simp [hfull, hi, pointer_lookup_get_unique_number, hil, hneg] at h
        subst h
        exact Or.inr ⟨rfl, rfl, rfl, hil, rfl⟩
      · simp [hfull, hi, pointer_lookup_get_unique_number, hil, hneg] at h

theorem pl_clear_cases (plp : pointer_lookup_t) (j m rc : Nat) (plp1 : pointer_lookup_t)
    (h : pointer_lookup_clear_pointer plp j m = some (rc, plp1)) :
    (rc = ENODATA ∧ plp1 = plp) ∨
    (rc = 0 ∧ j < plp.pointer_entries.length ∧
      plp1.number_generator = plp.number_generator ∧
      plp1.pointer_entries = plp.pointer_entries.set j ⟨MAX_ADDRESS_NUMBER, 0⟩) := by
  unfold pointer_lookup_clear_pointer at h
  cases he : plp.pointer_entries[j]? with
  | none => simp [he] at h
  | some e =>
    have hjl : j < plp.pointer_entries.length := by
      by_contra hc
      rw [List.getElem?_eq_none (by omega)] at he
      cases he
    by_cases hm : e.pointer_number = m
    · by_cases h0 : plp.stack_idx = 0
      · simp [he, hm, pointer_lookup_free_index, h0] at h
      · by_cases hk : plp.stack_idx - 1 < plp.index_stack.length
        · simp [he, hm, pointer_lookup_free_index, h0, hk] at h
          obtain ⟨h1, h2⟩ := h
          subst h1 h2
          exact Or.inr ⟨rfl, hjl, rfl, rfl⟩
        · simp [he, hm, pointer_lookup_free_index, h0, hk] at h
    · simp [he, hm] at h
      obtain ⟨h1, h2⟩ := h
      subst h1 h2
      exact Or.inl ⟨rfl, rfl⟩

theorem pl_dead_set (plp plp1 : pointer_lookup_t) (i n j : Nat) (e : pointer_entry_t)
    (hd : pl_dead plp i n) (he : e.pointer_number ≠ n)
    (hs : plp1.pointer_entries = plp.pointer_entries.set j e) : pl_dead plp1 i n := by
  obtain ⟨e0, he0, hn0⟩ := hd
  unfold pl_dead
  rw [hs]
  by_cases hji : j = i
  · subst hji
    have hjl : j < plp.pointer_entries.length := by
      by_contra hc
      rw [List.getElem?_eq_none (by omega)] at he0
      cases he0
    exact ⟨e, List.getElem?_set_self hjl, he⟩
  · exact ⟨e0, by rw [List.getElem?_set_ne hji]; exact he0, hn0⟩

/-- One call: the generator advances exactly on a successful store, and a dead
slot stays dead unless the store hands out the number again. -/
theorem pl_step_dead (t t1 : pl_trace) (c : pl_call) (i n k : Nat)
    (hn : n < MAX_ADDRESS_NUMBER)
    (hstep : pl_step t c = some t1)
    (hgen : t.plp.number_generator = (n + k) % MAX_ADDRESS_NUMBER + 1) :
    ∃ d, d ≤ 1 ∧ t1.returned.length = t.returned.length + d ∧
      t1.plp.number_generator = (n + (k + d)) % MAX_ADDRESS_NUMBER + 1 ∧
      (pl_dead t.plp i n → k + d < MAX_ADDRESS_NUMBER → pl_dead t1.plp i n) := by
  cases c with
  | store x =>
    cases hr : pointer_lookup_store_pointer t.plp x with
    | none => simp [pl_step, hr] at hstep
    | some r =>
      rcases pl_store_cases t.plp x r hr with ⟨hrc, hp⟩ | ⟨hrc, hnum, hg, _, hent⟩
      · simp [pl_step, hr, hrc, ENOSPC] at hstep
        subst hstep
        exact ⟨0, by omega, by simp, by simpa [hp] using hgen, fun hd _ => by simpa [hp] using hd⟩
      · simp [pl_step, hr, hrc] at hstep
        subst hstep
        have hnum2 : r.number_returned = (n + (k + 1)) % MAX_ADDRESS_NUMBER := by
          rw [hnum, hgen]
          unfold MAX_ADDRESS_NUMBER
          split <;> omega
        refine ⟨1, le_refl 1, by simp, by dsimp only; rw [hg, hnum2], ?_⟩
        intro hd hk
        refine pl_dead_set t.plp r.plp i n _ _ hd ?_ hent
        dsimp only
        rw [hnum2]
        unfold MAX_ADDRESS_NUMBER at hk hn ⊢
        omega
  | clear j m =>
    cases hr : pointer_lookup_clear_pointer t.plp j m with
    | none => simp [pl_step, hr] at hstep
    | some p =>
      obtain ⟨rc, plp1⟩ := p
      simp [pl_step, hr] at hstep
      subst hstep
      rcases pl_clear_cases t.plp j m rc plp1 hr with ⟨_, hp⟩ | ⟨_, _, hg, hent⟩
      · subst hp
        exact ⟨0, by omega, by simp, by simpa using hgen, fun hd _ => hd⟩
      · refine ⟨0, by omega, by simp, by dsimp only; rw [hg, hgen]; rfl, ?_⟩
        intro hd _
        exact pl_dead_set t.plp plp1 i n _ _ hd (by dsimp only; omega) hent

theorem pl_run_dead (i n : Nat) (hn : n < MAX_ADDRESS_NUMBER) (cs : List pl_call) :
    ∀ (t t1 : pl_trace) (k : Nat), pl_run t cs = some t1 →
      t.plp.number_generator = (n + k) % MAX_ADDRESS_NUMBER + 1 →
      ∃ d, t1.returned.length = t.returned.length + d ∧
        t1.plp.number_generator = (n + (k + d)) % MAX_ADDRESS_NUMBER + 1 ∧
        (pl_dead t.plp i n → k + d < MAX_ADDRESS_NUMBER → pl_dead t1.plp i n) := by
  induction cs with
  | nil =>
    intro t t1 k hrun hgen
    simp [pl_run] at hrun
    subst hrun
    exact ⟨0, by simp, by simpa using hgen, fun hd _ => hd⟩
  | cons c cs ih =>
    intro t t1 k hrun hgen
    cases hs : pl_step t c with
    | none => simp [pl_run, hs] at hrun
    | some tm =>
      simp only [pl_run, hs] at hrun
      obtain ⟨d1, _, hl1, hg1, hd1⟩ := pl_step_dead t tm c i n k hn hs hgen
      obtain ⟨d2, hl2, hg2, hd2⟩ := ih tm t1 (k + d1) hrun hg1
      refine ⟨d1 + d2, by omega, by rw [hg2]; congr 2; omega, ?_⟩
      intro hd hk
      exact hd2 (hd1 hd (by omega)) (by omega)

theorem pl_run_append (cs ds : List pl_call) :
    ∀ t : pl_trace, pl_run t (cs ++ ds) = (pl_run t cs).bind (fun t1 => pl_run t1 ds) := by
  induction cs with
  | nil => intro t; rfl
  | cons c cs ih =>
    intro t
    cases hs : pl_step t c with
    | none => simp [pl_run, hs]
    | some t1 => simp [pl_run, hs, ih t1]

/-- On a one-cell table whose cell is free, `k` rounds of store and clear only
advance the number generator. -/
theorem pl_rounds (p : Nat) (k : Nat) :
    ∀ (g : Nat) (ret : List (Nat × Nat)), g + k ≤ MAX_ADDRESS_NUMBER →
      ∃ ret1, pl_run ⟨⟨1, g, [⟨MAX_ADDRESS_NUMBER, 0⟩], [0], 0⟩, ret⟩
          (pl_store_clear_rounds p 0 g k)
        = some ⟨⟨1, g + k, [⟨MAX_ADDRESS_NUMBER, 0⟩], [0], 0⟩, ret1⟩ := by
  induction k with
  | zero => intro g ret _; exact ⟨ret, rfl⟩
  | succ k ih =>
    intro g ret hg
    have hlt : ¬ g ≥ MAX_ADDRESS_NUMBER := by omega
    obtain ⟨ret1, h1⟩ := ih (g + 1) ((0, g) :: ret) (by omega)
    refine ⟨ret1, ?_⟩
    have e : g + (k + 1) = g + 1 + k := by omega
    rw [e, ← h1]
    simp [pl_store_clear_rounds, pl_run, pl_step, pointer_lookup_store_pointer,
      pointer_lookup_alloc_index, pointer_lookup_get_unique_number, hlt,
      pointer_lookup_clear_pointer, pointer_lookup_free_index]

/-- C1 witness: a table of three cells, two stores and a clear before the store
of `30`, then a store, a clear of another handle and a store after it. -/
theorem pointer_lookup_handle_valid_while_live_witness :
    pointer_lookup_init 3 true
        = .ok ⟨3, 0, [⟨32000, 0⟩, ⟨32000, 0⟩, ⟨32000, 0⟩], [0, 1, 2], 0⟩ ∧
      pl_clears_returned (fun _ => false)
        ⟨⟨3, 0, [⟨32000, 0⟩, ⟨32000, 0⟩, ⟨32000, 0⟩], [0, 1, 2], 0⟩, []⟩
        [.store 10, .store 20, .clear 0 0] = true ∧
      ∃ t2, pl_run ⟨⟨3, 3, [⟨2, 30⟩, ⟨1, 20⟩, ⟨32000, 0⟩], [0, 0, 2], 2⟩,
            [(0, 2), (1, 1), (0, 0)]⟩ [.store 40, .clear 1 1, .store 50] = some t2 ∧
        pointer_lookup_get_pointer t2.plp 0 2 = some 30 := by
  refine ⟨rfl, by decide, ?_⟩
  obtain ⟨t1, r, h1, h2, h3⟩ := pointer_lookup_handle_valid_while_live 3
    ⟨3, 0, [⟨32000, 0⟩, ⟨32000, 0⟩, ⟨32000, 0⟩], [0, 1, 2], 0⟩ rfl
    [.store 10, .store 20, .clear 0 0] (by decide) 30
  have e1 : pl_run ⟨⟨3, 0, [⟨32000, 0⟩, ⟨32000, 0⟩, ⟨32000, 0⟩], [0, 1, 2], 0⟩, []⟩
      [.store 10, .store 20, .clear 0 0]
      = some ⟨⟨3, 2, [⟨32000, 0⟩, ⟨1, 20⟩, ⟨32000, 0⟩], [0, 0, 2], 1⟩, [(1, 1), (0, 0)]⟩ := by
    decide
  rw [e1] at h1
  cases h1
  have e2 : pointer_lookup_store_pointer
      ⟨3, 2, [⟨32000, 0⟩, ⟨1, 20⟩, ⟨32000, 0⟩], [0, 0, 2], 1⟩ 30
      = some ⟨0, 0, 2, ⟨3, 3, [⟨2, 30⟩, ⟨1, 20⟩, ⟨32000, 0⟩], [0, 0, 2], 2⟩⟩ := by decide
  rw [e2] at h2
  cases h2
  exact h3 rfl [.store 40, .clear 1 1, .store 50] (by decide)

/-- C2 as stated fails: on a one-cell table the handle `(0, 0)` returned for the
pointer `111` is cleared, 31999 rounds of store and clear follow, and the next
store of `222` is handed `(0, 0)` again, so the stale handle resolves to the
newer pointer. -/
theorem pointer_lookup_stale_handle_resolves_again :
    pointer_lookup_init 1 true = .ok ⟨1, 0, [⟨32000, 0⟩], [0], 0⟩ ∧
      pointer_lookup_store_pointer ⟨1, 0, [⟨32000, 0⟩], [0], 0⟩ 111
        = some ⟨0, 0, 0, ⟨1, 1, [⟨0, 111⟩], [0], 1⟩⟩ ∧
      pointer_lookup_clear_pointer ⟨1, 1, [⟨0, 111⟩], [0], 1⟩ 0 0
        = some (0, ⟨1, 1, [⟨32000, 0⟩], [0], 0⟩) ∧
      (pl_run ⟨⟨1, 1, [⟨32000, 0⟩], [0], 0⟩, []⟩
          (pl_store_clear_rounds 5 0 1 31999 ++ [.store 222])).map
        (fun t => pointer_lookup_get_pointer t.plp 0 0) = some (some 222) := by
  refine ⟨rfl, by decide, by decide, ?_⟩
  obtain ⟨ret1, h⟩ := pl_rounds 5 31999 1 [] (by decide)
  have h2 : pl_run ⟨⟨1, 1, [⟨32000, 0⟩], [0], 0⟩, []⟩ (pl_store_clear_rounds 5 0 1 31999)
      = some ⟨⟨1, 32000, [⟨32000, 0⟩], [0], 0⟩, ret1⟩ := h
  rw [pl_run_append, h2]
  simp [pl_run, pl_step, pointer_lookup_store_pointer, pointer_lookup_alloc_index,
    pointer_lookup_get_unique_number, pointer_lookup_get_pointer, MAX_ADDRESS_NUMBER]

/-- C2 amended. A handle returned by a successful store and later cleared with
success resolves to `NULL` after every further run of store and clear calls that
stays inside the arrays, provided fewer than `MAX_ADDRESS_NUMBER` stores have
succeeded since the store that returned the handle; reuse of the slot for
another pointer is included. -/
theorem pointer_lookup_stale_handle_stays_dead (s0 : pointer_lookup_t) (x : Nat)
    (r : store_result) (hstore : pointer_lookup_store_pointer s0 x = some r) (hrc : r.rc = 0)
    (mid : List pl_call) (t1 : pl_trace) (hmid : pl_run ⟨r.plp, []⟩ mid = some t1)
    (s2 : pointer_lookup_t)
    (hclear : pointer_lookup_clear_pointer t1.plp r.index_returned r.number_returned
      = some (0, s2))
    (later : List pl_call) (t2 : pl_trace) (hlater : pl_run ⟨s2, []⟩ later = some t2)
    (hfew : t1.returned.length + t2.returned.length < MAX_ADDRESS_NUMBER) :
    pointer_lookup_get_pointer t2.plp r.index_returned r.number_returned = some 0 := by
  rcases pl_store_cases s0 x r hstore with ⟨hrc2, _⟩ | ⟨_, hnum, hg, _, _⟩
  · rw [hrc] at hrc2
    simp [ENOSPC] at hrc2
  · have hn : r.number_returned < MAX_ADDRESS_NUMBER := by
      rw [hnum]
      split
      · decide
      · omega
    have hg0 : r.plp.number_generator = (r.number_returned + 0) % MAX_ADDRESS_NUMBER + 1 := by
      rw [hg]
      show _ = (r.number_returned) % MAX_ADDRESS_NUMBER + 1
      rw [Nat.mod_eq_of_lt hn]
    obtain ⟨d1, hl1, hg1, _⟩ :=
      pl_run_dead r.index_returned r.number_returned hn mid ⟨r.plp, []⟩ t1 0 hmid hg0
    rcases pl_clear_cases _ _ _ _ _ hclear with ⟨hbad, _⟩ | ⟨_, hjl, hg2, hent⟩
    · simp [ENODATA] at hbad
    · have hdead2 : pl_dead s2 r.index_returned r.number_returned := by
        refine ⟨⟨MAX_ADDRESS_NUMBER, 0⟩, ?_, ?_⟩
        · rw [hent]
          exact List.getElem?_set_self hjl
        · dsimp only
          omega
      obtain ⟨d2, hl2, _, hd2⟩ :=
        pl_run_dead r.index_returned r.number_returned hn later ⟨s2, []⟩ t2 (0 + d1) hlater
          (by dsimp only; rw [hg2, hg1])
      simp only [List.length_nil, Nat.zero_add] at hl1 hl2
      obtain ⟨e, he, hne⟩ := hd2 hdead2 (by omega)
      simp [pointer_lookup_get_pointer, he, hne]

/-- C2 witness: a two-cell table; the handle `(0, 0)` of pointer `111` is cleared
after another store, and slot `0` is then reused for the pointer `444`. -/
theorem pointer_lookup_stale_handle_stays_dead_witness :
    pointer_lookup_store_pointer ⟨2, 0, [⟨32000, 0⟩, ⟨32000, 0⟩], [0, 1], 0⟩ 111
        = some ⟨0, 0, 0, ⟨2, 1, [⟨0, 111⟩, ⟨32000, 0⟩], [0, 1], 1⟩⟩ ∧
      pl_run ⟨⟨2, 1, [⟨0, 111⟩, ⟨32000, 0⟩], [0, 1], 1⟩, []⟩ [.store 333]
        = some ⟨⟨2, 2, [⟨0, 111⟩, ⟨1, 333⟩], [0, 1], 2⟩, [(1, 1)]⟩ ∧
      pointer_lookup_clear_pointer ⟨2, 2, [⟨0, 111⟩, ⟨1, 333⟩], [0, 1], 2⟩ 0 0
        = some (0, ⟨2, 2, [⟨32000, 0⟩, ⟨1, 333⟩], [0, 0], 1⟩) ∧
      pl_run ⟨⟨2, 2, [⟨32000, 0⟩, ⟨1, 333⟩], [0, 0], 1⟩, []⟩ [.store 444]
        = some ⟨⟨2, 3, [⟨2, 444⟩, ⟨1, 333⟩], [0, 0], 2⟩, [(0, 2)]⟩ ∧
      pointer_lookup_get_pointer ⟨2, 3, [⟨2, 444⟩, ⟨1, 333⟩], [0, 0], 2⟩ 0 0 = some 0 :=
  ⟨by decide, by decide, by decide, by decide,
    pointer_lookup_stale_handle_stays_dead
      ⟨2, 0, [⟨32000, 0⟩, ⟨32000, 0⟩], [0, 1], 0⟩ 111
      ⟨0, 0, 0, ⟨2, 1, [⟨0, 111⟩, ⟨32000, 0⟩], [0, 1], 1⟩⟩ (by decide) rfl
      [.store 333] ⟨⟨2, 2, [⟨0, 111⟩, ⟨1, 333⟩], [0, 1], 2⟩, [(1, 1)]⟩ (by decide)
      ⟨2, 2, [⟨32000, 0⟩, ⟨1, 333⟩], [0, 0], 1⟩ (by decide)
      [.store 444] ⟨⟨2, 3, [⟨2, 444⟩, ⟨1, 333⟩], [0, 0], 2⟩, [(0, 2)]⟩ (by decide)
      (by decide)⟩

/-! ## Theorems: the full table of pointer_lookup.c -/

theorem pl_store_count (t : pl_trace) (hinv : pl_inv t) (x : Nat) :
    ∃ r, pointer_lookup_store_pointer t.plp x = some r ∧ r.plp.size = t.plp.size ∧
      ((t.plp.size ≤ t.plp.stack_idx ∧ r.rc = ENOSPC ∧ r.plp = t.plp) ∨
        (t.plp.stack_idx < t.plp.size ∧ r.rc = 0 ∧
          r.plp.stack_idx = t.plp.stack_idx + 1)) := by
  by_cases hfull : t.plp.stack_idx ≥ t.plp.size
  · exact ⟨_, pl_store_full t.plp x hfull, rfl, Or.inl ⟨hfull, rfl, rfl⟩⟩
  · have hlt : t.plp.stack_idx < t.plp.size := by omega
    have hlen : t.plp.stack_idx < t.plp.index_stack.length := by rw [hinv.len_stack]; exact hlt
    have hdrop := List.drop_eq_getElem_cons hlen
    obtain ⟨e, he, hen⟩ := hinv.free_invalid (t.plp.index_stack[t.plp.stack_idx])
      (by rw [hdrop]; exact List.mem_cons_self _ _)
    have hil : t.plp.index_stack[t.plp.stack_idx] < t.plp.pointer_entries.length := by
      by_contra hc
      rw [List.getElem?_eq_none (by omega)] at he
      cases he
    have hget : t.plp.index_stack[t.plp.stack_idx]? = some (t.plp.index_stack[t.plp.stack_idx]) :=
      List.getElem?_eq_getElem hlen
    exact ⟨_, pl_store_ok t.plp x _ hlt hget hil, rfl, Or.inr ⟨hlt, rfl, rfl⟩⟩

theorem pl_clear_count (t : pl_trace) (hinv : pl_inv t) (j m : Nat)
    (hmem : (j, m) ∈ t.returned) :
    ∃ rc plp1, pointer_lookup_clear_pointer t.plp j m = some (rc, plp1) ∧
      plp1.size = t.plp.size ∧
      ((rc = ENODATA ∧ plp1 = t.plp) ∨ (rc = 0 ∧ plp1.stack_idx + 1 = t.plp.stack_idx)) := by
  obtain ⟨hj, hm⟩ := hinv.returned_ok _ hmem
  dsimp only at hj hm
  have hjl : j < t.plp.pointer_entries.length := by rw [hinv.len_entries]; exact hj
  have he : t.plp.pointer_entries[j]? = some (t.plp.pointer_entries[j]) :=
    List.getElem?_eq_getElem hjl
  by_cases hne : (t.plp.pointer_entries[j]).pointer_number = m
  · have hjfree : j ∉ t.plp.index_stack.drop t.plp.stack_idx := by
      intro hin
      obtain ⟨e2, he2, hen2⟩ := hinv.free_invalid j hin
      rw [he] at he2
      cases he2
      omega
    have hshort := pl_free_short _ t.plp.size j hinv.free_nodup
      (fun a ha => by
        obtain ⟨e2, he2, _⟩ := hinv.free_invalid a ha
        by_contra hc
        rw [List.getElem?_eq_none (by rw [hinv.len_entries]; omega)] at he2
        cases he2) hj hjfree
    rw [List.length_drop, hinv.len_stack] at hshort
    have h0 : t.plp.stack_idx ≠ 0 := by omega
    have hk : t.plp.stack_idx - 1 < t.plp.index_stack.length := by
      rw [hinv.len_stack]; have := hinv.idx_le; omega
    refine ⟨_, _, pl_clear_hit t.plp j m _ he hne h0 hk, rfl, Or.inr ⟨rfl, ?_⟩⟩
    dsimp only
    omega
  · exact ⟨_, _, pl_clear_miss t.plp j m _ he hne, rfl, Or.inl ⟨rfl, rfl⟩⟩

theorem pl_run_count (avoid : Nat × Nat → Bool) (cs : List pl_call) :
    ∀ t : pl_trace, pl_inv t → pl_clears_returned avoid t cs = true →
      ∃ t1, pl_run t cs = some t1 ∧ pl_inv t1 ∧ t1.plp.size = t.plp.size ∧
        t1.plp.stack_idx + pl_clears_ok t cs = t.plp.stack_idx + pl_stores_ok t cs := by
  induction cs with
  | nil => intro t hinv _; exact ⟨t, rfl, hinv, rfl, rfl⟩
  | cons c cs ih =>
    intro t hinv hok
    simp only [pl_clears_returned, Bool.and_eq_true] at hok
    obtain ⟨hc, hrest⟩ := hok
    cases c with
    | store y =>
      obtain ⟨t1, h1, hinv1⟩ := pl_step_store_inv t hinv y
      rw [h1] at hrest
      obtain ⟨t2, h2, hinv2, hsz, hcount⟩ := ih t1 hinv1 hrest
      obtain ⟨r, hr, hrsz, hcase⟩ := pl_store_count t hinv y
      have ht1 : t1.plp = r.plp := by
        simp only [pl_step, hr] at h1
        split at h1 <;> cases h1 <;> rfl
      refine ⟨t2, by simp only [pl_run, h1, h2], hinv2, by rw [hsz, ht1, hrsz], ?_⟩
      simp only [pl_clears_ok, pl_stores_ok, h1, pl_call_rc, hr, Option.map_some']
      rw [ht1] at hcount
      rcases hcase with ⟨_, hrc, hp⟩ | ⟨_, hrc, hp⟩
      · rw [hp] at hcount
        simp [hrc, ENOSPC]
        omega
      · rw [hp] at hcount
        simp [hrc]
        omega
    | clear j m =>
      simp only [Bool.and_eq_true, decide_eq_true_eq] at hc
      obtain ⟨t1, h1, hinv1⟩ := pl_step_clear_inv t hinv j m hc.1
      rw [h1] at hrest
      obtain ⟨t2, h2, hinv2, hsz, hcount⟩ := ih t1 hinv1 hrest
      obtain ⟨rc, plp1, hr, hrsz, hcase⟩ := pl_clear_count t hinv j m hc.1
      have ht1 : t1.plp = plp1 := by
        simp only [pl_step, hr] at h1
        cases h1
        rfl
      refine ⟨t2, by simp only [pl_run, h1, h2], hinv2, by rw [hsz, ht1, hrsz], ?_⟩
      simp only [pl_clears_ok, pl_stores_ok, h1, pl_call_rc, hr, Option.map_some']
      rw [ht1] at hcount
      rcases hcase with ⟨hrc, hp⟩ | ⟨hrc, hp⟩
      · rw [hp] at hcount
        simp [hrc, ENODATA]
        omega
      · simp [hrc]
        omega

/-- C20 table full. On a table made by `pointer_lookup_init` and used by any
sequence of stores and of clears of handles that stores have returned, the
sequence runs without a fault and the successful stores minus the successful
clears is the number of slots in use, at most `size`. The next
`pointer_lookup_store_pointer` then returns `ENOSPC` exactly when that number
equals `size`; a store that fails leaves the whole table (entries, free-index
stack, `stack_idx` and number generator) as it was; and when fewer than `size`
slots are in use the store returns `0`. -/
theorem pointer_lookup_store_enospc (size : Nat) (tbl : pointer_lookup_t)
    (hinit : pointer_lookup_init size true = .ok tbl) (cs : List pl_call)
    (hcs : pl_clears_returned (fun _ => false) ⟨tbl, []⟩ cs = true) (x : Nat) :
    ∃ t r, pl_run ⟨tbl, []⟩ cs = some t ∧ pointer_lookup_store_pointer t.plp x = some r ∧
      pl_clears_ok ⟨tbl, []⟩ cs ≤ pl_stores_ok ⟨tbl, []⟩ cs ∧
      pl_stores_ok ⟨tbl, []⟩ cs - pl_clears_ok ⟨tbl, []⟩ cs ≤ size ∧
      (r.rc = ENOSPC ↔ pl_stores_ok ⟨tbl, []⟩ cs - pl_clears_ok ⟨tbl, []⟩ cs = size) ∧
      (r.rc ≠ 0 → r.plp = t.plp) ∧
      (pl_stores_ok ⟨tbl, []⟩ cs - pl_clears_ok ⟨tbl, []⟩ cs < size → r.rc = 0) := by
  have hinv0 := pl_init_inv size tbl hinit
  have hsz0 : tbl.size = size ∧ tbl.stack_idx = 0 := by
    unfold pointer_lookup_init at hinit
    split at hinit
    · cases hinit
    · cases hinit
      exact ⟨rfl, rfl⟩
  obtain ⟨t, hrun, hinv, hsz, hcount⟩ := pl_run_count _ cs ⟨tbl, []⟩ hinv0 hcs
  obtain ⟨r, hr, _, hcase⟩ := pl_store_count t hinv x
  dsimp only at hsz hcount
  rw [hsz0.1] at hsz
  rw [hsz0.2] at hcount
  have hle := hinv.idx_le
  rw [hsz] at hle hcase
  refine ⟨t, r, hrun, hr, by omega, by omega, ?_, ?_, ?_⟩
  · rcases hcase with ⟨h1, hrc, _⟩ | ⟨h1, hrc, _⟩
    · exact ⟨fun _ => by omega, fun _ => hrc⟩
    · constructor
      · intro h
        rw [hrc] at h
        cases h
      · intro h
        omega
  · rcases hcase with ⟨_, _, hp⟩ | ⟨_, hrc, _⟩
    · exact fun _ => hp
    · exact fun h => absurd hrc h
  · rcases hcase with ⟨h1, _, _⟩ | ⟨_, hrc, _⟩
    · intro h
      omega
    · exact fun _ => hrc

/-- C20 witness: a table of two slots after `store, store, clear (0, 0), store`:
three successful stores and one successful clear, so both slots are in use. -/
theorem pointer_lookup_store_enospc_witness :
    pointer_lookup_init 2 true = .ok ⟨2, 0, [⟨32000, 0⟩, ⟨32000, 0⟩], [0, 1], 0⟩ ∧
      pl_clears_returned (fun _ => false) ⟨⟨2, 0, [⟨32000, 0⟩, ⟨32000, 0⟩], [0, 1], 0⟩, []⟩
        [.store 7, .store 8, .clear 0 0, .store 9] = true ∧
      pl_stores_ok ⟨⟨2, 0, [⟨32000, 0⟩, ⟨32000, 0⟩], [0, 1], 0⟩, []⟩
        [.store 7, .store 8, .clear 0 0, .store 9] = 3 ∧
      pl_clears_ok ⟨⟨2, 0, [⟨32000, 0⟩, ⟨32000, 0⟩], [0, 1], 0⟩, []⟩
        [.store 7, .store 8, .clear 0 0, .store 9] = 1 ∧
      ∃ t r, pl_run ⟨⟨2, 0, [⟨32000, 0⟩, ⟨32000, 0⟩], [0, 1], 0⟩, []⟩
          [.store 7, .store 8, .clear 0 0, .store 9] = some t ∧
        pointer_lookup_store_pointer t.plp 5 = some r ∧
        (r.rc = ENOSPC ↔
          pl_stores_ok ⟨⟨2, 0, [⟨32000, 0⟩, ⟨32000, 0⟩], [0, 1], 0⟩, []⟩
              [.store 7, .store 8, .clear 0 0, .store 9]
            - pl_clears_ok ⟨⟨2, 0, [⟨32000, 0⟩, ⟨32000, 0⟩], [0, 1], 0⟩, []⟩
              [.store 7, .store 8, .clear 0 0, .store 9] = 2) :=
  ⟨rfl, rfl, rfl, rfl,
    (pointer_lookup_store_enospc 2 ⟨2, 0, [⟨32000, 0⟩, ⟨32000, 0⟩], [0, 1], 0⟩ rfl
      [.store 7, .store 8, .clear 0 0, .store 9] rfl 5).imp
      (fun _ h => h.imp (fun _ h2 => ⟨h2.1, h2.2.1, h2.2.2.2.2.1⟩))⟩

/-! ## Theorems: release, reuse order and numbers of pointer_lookup.c -/

theorem pl_clear_valid (t : pl_trace) (hinv : pl_inv t) (j m : Nat) (hj : j < t.plp.size)
    (hm : m ≠ MAX_ADDRESS_NUMBER) :
    ∃ e, t.plp.pointer_entries[j]? = some e ∧
      (e.pointer_number ≠ m →
        pointer_lookup_clear_pointer t.plp j m = some (ENODATA, t.plp)) ∧
      (e.pointer_number = m →
        t.plp.stack_idx ≠ 0 ∧ t.plp.stack_idx - 1 < t.plp.index_stack.length ∧
        pointer_lookup_clear_pointer t.plp j m = some (0,
          { t.plp with
            pointer_entries := t.plp.pointer_entries.set j ⟨MAX_ADDRESS_NUMBER, 0⟩
            stack_idx := t.plp.stack_idx - 1
            index_stack := t.plp.index_stack.set (t.plp.stack_idx - 1) j })) := by
  have hjl : j < t.plp.pointer_entries.length := by rw [hinv.len_entries]; exact hj
  have he : t.plp.pointer_entries[j]? = some (t.plp.pointer_entries[j]) :=
    List.getElem?_eq_getElem hjl
  refine ⟨_, he, fun hne => pl_clear_miss t.plp j m _ he hne, fun heq => ?_⟩
  have hjfree : j ∉ t.plp.index_stack.drop t.plp.stack_idx := by
    intro hin
    obtain ⟨e2, he2, hen2⟩ := hinv.free_invalid j hin
    rw [he] at he2
    cases he2
    exact hm (heq ▸ hen2)
  have hshort := pl_free_short _ t.plp.size j hinv.free_nodup
    (fun a ha => by
      obtain ⟨e2, he2, _⟩ := hinv.free_invalid a ha
      by_contra hc
      rw [List.getElem?_eq_none (by rw [hinv.len_entries]; omega)] at he2
      cases he2) hj hjfree
  rw [List.length_drop, hinv.len_stack] at hshort
  have h0 : t.plp.stack_idx ≠ 0 := by omega
  have hk : t.plp.stack_idx - 1 < t.plp.index_stack.length := by
    rw [hinv.len_stack]; have := hinv.idx_le; omega
  exact ⟨h0, hk, pl_clear_hit t.plp j m _ he heq h0 hk⟩

/-- Release with a number that is not the marker of an invalid entry. On a
table made by `pointer_lookup_init` and used by any sequence of stores and of
clears of handles that stores have returned, for every slot `index < size` and
every `number`: if the number stored at the slot differs from `number`,
`pointer_lookup_clear_pointer` returns `ENODATA` and the table is as it was; if
the numbers match (`number` being a generation number, not the marker
`MAX_ADDRESS_NUMBER` of an invalid entry), it returns `0`, the slot holds the
`NULL` pointer and the invalid marker, no other slot changes, `index` is the
new top of the free stack above the old free cells, the size and the number
generator stay, and the same release made a second time returns `ENODATA` and
changes nothing. -/
theorem pointer_lookup_clear_pointer_correct (size : Nat) (tbl : pointer_lookup_t)
    (hinit : pointer_lookup_init size true = .ok tbl) (cs : List pl_call)
    (hcs : pl_clears_returned (fun _ => false) ⟨tbl, []⟩ cs = true)
    (index number : Nat) (hindex : index < size) :
    ∃ t e, pl_run ⟨tbl, []⟩ cs = some t ∧ t.plp.pointer_entries[index]? = some e ∧
      (e.pointer_number ≠ number →
        pointer_lookup_clear_pointer t.plp index number = some (ENODATA, t.plp)) ∧
      (e.pointer_number = number → number ≠ MAX_ADDRESS_NUMBER →
        ∃ plp1, pointer_lookup_clear_pointer t.plp index number = some (0, plp1) ∧
          plp1.pointer_entries = t.plp.pointer_entries.set index ⟨MAX_ADDRESS_NUMBER, 0⟩ ∧
          plp1.stack_idx + 1 = t.plp.stack_idx ∧
          plp1.index_stack.drop plp1.stack_idx
            = index :: t.plp.index_stack.drop t.plp.stack_idx ∧
          plp1.size = t.plp.size ∧ plp1.number_generator = t.plp.number_generator ∧
          pointer_lookup_clear_pointer plp1 index number = some (ENODATA, plp1)) := by
  have hinv0 := pl_init_inv size tbl hinit
  have hsz0 : tbl.size = size := by
    unfold pointer_lookup_init at hinit
    split at hinit
    · cases hinit
    · cases hinit
      rfl
  obtain ⟨t, hrun, hinv, hsz, _⟩ := pl_run_count _ cs ⟨tbl, []⟩ hinv0 hcs
  dsimp only at hsz
  rw [hsz0] at hsz
  have hjl : index < t.plp.pointer_entries.length := by rw [hinv.len_entries, hsz]; exact hindex
  have he : t.plp.pointer_entries[index]? = some (t.plp.pointer_entries[index]) :=
    List.getElem?_eq_getElem hjl
  refine ⟨t, _, hrun, he, fun hne => pl_clear_miss t.plp index number _ he hne, ?_⟩
  intro heq hm
  obtain ⟨e, he2, _, hhit⟩ := pl_clear_valid t hinv index number (by rw [hsz]; exact hindex) hm
  rw [he] at he2
  cases he2
  obtain ⟨h0, hk, hclear⟩ := hhit heq
  refine ⟨_, hclear, rfl, by dsimp only; omega, ?_, rfl, rfl, ?_⟩
  · dsimp only
    rw [pl_drop_set_self _ _ _ hk]
    have : t.plp.stack_idx - 1 + 1 = t.plp.stack_idx := by omega
    rw [this]
  · apply pl_clear_miss _ index number ⟨MAX_ADDRESS_NUMBER, 0⟩
    · dsimp only
      rw [List.getElem?_set_self hjl]
    · exact fun h => hm h.symm

/-- An instance: a table of two slots after one store, which returned the
handle `(0, 0)`; that handle is released. -/
theorem pointer_lookup_clear_pointer_correct_witness :
    pointer_lookup_init 2 true = .ok ⟨2, 0, [⟨32000, 0⟩, ⟨32000, 0⟩], [0, 1], 0⟩ ∧
      pl_clears_returned (fun _ => false) ⟨⟨2, 0, [⟨32000, 0⟩, ⟨32000, 0⟩], [0, 1], 0⟩, []⟩
        [.store 7] = true ∧
      0 < 2 ∧
      pl_run ⟨⟨2, 0, [⟨32000, 0⟩, ⟨32000, 0⟩], [0, 1], 0⟩, []⟩ [.store 7]
        = some ⟨⟨2, 1, [⟨0, 7⟩, ⟨32000, 0⟩], [0, 1], 1⟩, [(0, 0)]⟩ ∧
      pointer_lookup_clear_pointer ⟨2, 1, [⟨0, 7⟩, ⟨32000, 0⟩], [0, 1], 1⟩ 0 0
        = some (0, ⟨2, 1, [⟨32000, 0⟩, ⟨32000, 0⟩], [0, 1], 0⟩) ∧
      ∃ t e, pl_run ⟨⟨2, 0, [⟨32000, 0⟩, ⟨32000, 0⟩], [0, 1], 0⟩, []⟩ [.store 7] = some t ∧
        t.plp.pointer_entries[0]? = some e ∧
        (e.pointer_number ≠ 0 →
          pointer_lookup_clear_pointer t.plp 0 0 = some (ENODATA, t.plp)) :=
  ⟨rfl, rfl, by decide, rfl, rfl,
    (pointer_lookup_clear_pointer_correct 2 ⟨2, 0, [⟨32000, 0⟩, ⟨32000, 0⟩], [0, 1], 0⟩ rfl
      [.store 7] rfl 0 0 (by decide)).imp
      (fun _ h => h.imp (fun _ h2 => ⟨h2.1, h2.2.1, h2.2.2.1⟩))⟩

/-- C21 fails on the code for the number `MAX_ADDRESS_NUMBER`, the marker of an
invalid entry. On a table of two slots fresh from `pointer_lookup_init` the
number stored at the free slot `1` is the marker, so it matches `number = 32000`,
and `pointer_lookup_clear_pointer (1, 32000)` does not return `0`: it
decrements `stack_idx` from `0` and writes outside the free stack. After one
store, which takes the slot `0`, the same call returns `0` for the slot `1`
that no store has handed out, the free stack `0, 1` becomes `1, 1` with
`stack_idx = 0`, and the same release made a second time does not return
`ENODATA`: the numbers match again and the write is outside the stack. -/
theorem pointer_lookup_clear_pointer_marker_matches :
    MAX_ADDRESS_NUMBER = 32000 ∧
    pointer_lookup_init 2 true = .ok ⟨2, 0, [⟨32000, 0⟩, ⟨32000, 0⟩], [0, 1], 0⟩ ∧
    pointer_lookup_clear_pointer ⟨2, 0, [⟨32000, 0⟩, ⟨32000, 0⟩], [0, 1], 0⟩ 1 32000 = none ∧
    (pointer_lookup_store_pointer ⟨2, 0, [⟨32000, 0⟩, ⟨32000, 0⟩], [0, 1], 0⟩ 7).map
      (fun r => (r.rc, r.index_returned, r.number_returned, r.plp))
      = some (0, 0, 0, ⟨2, 1, [⟨0, 7⟩, ⟨32000, 0⟩], [0, 1], 1⟩) ∧
    pointer_lookup_clear_pointer ⟨2, 1, [⟨0, 7⟩, ⟨32000, 0⟩], [0, 1], 1⟩ 1 32000
      = some (0, ⟨2, 1, [⟨0, 7⟩, ⟨32000, 0⟩], [1, 1], 0⟩) ∧
    pointer_lookup_clear_pointer ⟨2, 1, [⟨0, 7⟩, ⟨32000, 0⟩], [1, 1], 0⟩ 1 32000 = none :=
  ⟨rfl, rfl, rfl, rfl, rfl, rfl⟩

theorem pl_init_fields (size : Nat) (tbl : pointer_lookup_t)
    (h : pointer_lookup_init size true = .ok tbl) :
    size < MAX_ADDRESS_NUMBER ∧ tbl.size = size ∧ tbl.stack_idx = 0 ∧ tbl.number_generator = 0 ∧
      tbl.index_stack = List.range size ∧
      tbl.pointer_entries = List.replicate size ⟨MAX_ADDRESS_NUMBER, 0⟩ := by
  unfold pointer_lookup_init at h
  split at h
  · cases h
  · cases h
    exact ⟨by omega, rfl, rfl, rfl, rfl, rfl⟩

theorem pl_step_store_next (t : pl_trace) (hinv : pl_inv t)
    (hlt : t.plp.stack_idx < t.plp.size) (x : Nat) :
    ∃ i t1, t.plp.index_stack[t.plp.stack_idx]? = some i ∧
      (∃ r, pointer_lookup_store_pointer t.plp x = some r ∧ r.rc = 0 ∧ r.index_returned = i) ∧
      pl_step t (.store x) = some t1 ∧ pl_inv t1 ∧ t1.plp.size = t.plp.size ∧
      t1.plp.index_stack = t.plp.index_stack ∧ t1.plp.stack_idx = t.plp.stack_idx + 1 := by
  have hlen : t.plp.stack_idx < t.plp.index_stack.length := by rw [hinv.len_stack]; exact hlt
  have hdrop := List.drop_eq_getElem_cons hlen
  obtain ⟨e, he, _⟩ := hinv.free_invalid (t.plp.index_stack[t.plp.stack_idx])
    (by rw [hdrop]; exact List.mem_cons_self _ _)
  have hil : t.plp.index_stack[t.plp.stack_idx] < t.plp.pointer_entries.length := by
    by_contra hc
    rw [List.getElem?_eq_none (by omega)] at he
    cases he
  have hget : t.plp.index_stack[t.plp.stack_idx]? = some (t.plp.index_stack[t.plp.stack_idx]) :=
    List.getElem?_eq_getElem hlen
  have hstore := pl_store_ok t.plp x _ hlt hget hil
  obtain ⟨t1, h1, hinv1⟩ := pl_step_store_inv t hinv x
  refine ⟨_, t1, hget, ⟨_, hstore, rfl, rfl⟩, h1, hinv1, ?_⟩
  simp only [pl_step, hstore] at h1
  rw [if_pos trivial] at h1
  cases h1
  exact ⟨rfl, rfl, rfl⟩

theorem pl_run_stores (size : Nat) (xs : List Nat) :
    ∀ t : pl_trace, pl_inv t → t.plp.size = size → t.plp.index_stack = List.range size →
      t.plp.stack_idx + xs.length ≤ size →
      ∃ t1, pl_run t (xs.map pl_call.store) = some t1 ∧ pl_inv t1 ∧ t1.plp.size = size ∧
        t1.plp.index_stack = List.range size ∧
        t1.plp.stack_idx = t.plp.stack_idx + xs.length := by
  induction xs with
  | nil => intro t hinv hsz hst _; exact ⟨t, rfl, hinv, hsz, hst, rfl⟩
  | cons x xs ih =>
    intro t hinv hsz hst hle
    simp only [List.length_cons] at hle
    obtain ⟨i, t1, _, _, h1, hinv1, hsz1, hst1, hidx1⟩ :=
      pl_step_store_next t hinv (by omega) x
    obtain ⟨t2, h2, hinv2, hsz2, hst2, hidx2⟩ :=
      ih t1 hinv1 (by rw [hsz1, hsz]) (by rw [hst1, hst]) (by omega)
    refine ⟨t2, by simp only [List.map_cons, pl_run, h1, h2], hinv2, hsz2, hst2, ?_⟩
    simp only [List.length_cons]
    omega

theorem pl_store_after_clear (plp plp1 : pointer_lookup_t) (i n : Nat)
    (hle : plp.stack_idx ≤ plp.size)
    (h : pointer_lookup_clear_pointer plp i n = some (0, plp1)) (x : Nat) :
    ∃ r, pointer_lookup_store_pointer plp1 x = some r ∧ r.rc = 0 ∧ r.index_returned = i := by
  unfold pointer_lookup_clear_pointer at h
  cases he : plp.pointer_entries[i]? with
  | none => rw [he] at h; cases h
  | some e =>
    rw [he] at h
    dsimp only at h
    split at h
    · cases h
    · split at h
      · cases h
      · rename_i plp2 hf
        cases h
        unfold pointer_lookup_free_index at hf
        dsimp only at hf
        split at hf
        · cases hf
        · split at hf
          · rename_i hk
            cases hf
            have hil : i < plp.pointer_entries.length := by
              by_contra hc
              rw [List.getElem?_eq_none (by omega)] at he
              cases he
            exact ⟨_, pl_store_ok _ x i (by dsimp only; omega)
              (by dsimp only; rw [List.getElem?_set_self hk]) (by simpa using hil), rfl, rfl⟩
          · cases hf

/-- C22 free indexes are handed out in stack order. On a table made by
`pointer_lookup_init` with `size` slots: after `k < size` stores, the next
store (the `k+1`-th) returns `0` and the index `k`; and in every state reached
by stores and by clears of returned handles, if a
`pointer_lookup_clear_pointer` of the index `i` returns `0`, the very next
`pointer_lookup_store_pointer` returns `0` and that index `i`. -/
theorem pointer_lookup_stack_order (size : Nat) (tbl : pointer_lookup_t)
    (hinit : pointer_lookup_init size true = .ok tbl) :
    (∀ (xs : List Nat) (x : Nat), xs.length < size →
      ∃ t r, pl_run ⟨tbl, []⟩ (xs.map pl_call.store) = some t ∧
        pointer_lookup_store_pointer t.plp x = some r ∧ r.rc = 0 ∧
        r.index_returned = xs.length) ∧
    (∀ cs : List pl_call, pl_clears_returned (fun _ => false) ⟨tbl, []⟩ cs = true →
      ∃ t, pl_run ⟨tbl, []⟩ cs = some t ∧
        ∀ (i n : Nat) (plp1 : pointer_lookup_t),
          pointer_lookup_clear_pointer t.plp i n = some (0, plp1) →
          ∀ x : Nat, ∃ r, pointer_lookup_store_pointer plp1 x = some r ∧ r.rc = 0 ∧
            r.index_returned = i) := by
  have hinv0 := pl_init_inv size tbl hinit
  obtain ⟨_, hsz0, hidx0, _, hst0, _⟩ := pl_init_fields size tbl hinit
  constructor
  · intro xs x hlen
    obtain ⟨t, hrun, hinv, hsz, hst, hidx⟩ :=
      pl_run_stores size xs ⟨tbl, []⟩ hinv0 hsz0 hst0 (by dsimp only; omega)
    dsimp only at hidx
    rw [hidx0] at hidx
    obtain ⟨i, _, hi, ⟨r, hr, hrc, hri⟩, _⟩ := pl_step_store_next t hinv (by omega) x
    refine ⟨t, r, hrun, hr, hrc, ?_⟩
    rw [hst, hidx, List.getElem?_range (by omega)] at hi
    cases hi
    rw [hri]
    omega
  · intro cs hcs
    obtain ⟨t, hrun, hinv⟩ := pl_run_inv _ cs ⟨tbl, []⟩ hinv0 hcs
    exact ⟨t, hrun, fun i n plp1 h x => pl_store_after_clear t.plp plp1 i n hinv.idx_le h x⟩

/-- C22 witness: a table of three slots; the third store returns the index `2`,
and after `store, store, clear (0, 0)` the next store returns the index `0`. -/
theorem pointer_lookup_stack_order_witness :
    pointer_lookup_init 3 true
        = .ok ⟨3, 0, [⟨32000, 0⟩, ⟨32000, 0⟩, ⟨32000, 0⟩], [0, 1, 2], 0⟩ ∧
      (∃ t r, pl_run ⟨⟨3, 0, [⟨32000, 0⟩, ⟨32000, 0⟩, ⟨32000, 0⟩], [0, 1, 2], 0⟩, []⟩
          ([7, 8].map pl_call.store) = some t ∧
        pointer_lookup_store_pointer t.plp 9 = some r ∧ r.rc = 0 ∧
        r.index_returned = [7, 8].length) ∧
      pointer_lookup_clear_pointer ⟨3, 2, [⟨0, 7⟩, ⟨1, 8⟩, ⟨32000, 0⟩], [0, 1, 2], 2⟩ 0 0
        = some (0, ⟨3, 2, [⟨32000, 0⟩, ⟨1, 8⟩, ⟨32000, 0⟩], [0, 0, 2], 1⟩) ∧
      (pointer_lookup_store_pointer
          ⟨3, 2, [⟨32000, 0⟩, ⟨1, 8⟩, ⟨32000, 0⟩], [0, 0, 2], 1⟩ 9).map
        (fun r => (r.rc, r.index_returned)) = some (0, 0) :=
  ⟨rfl,
    (pointer_lookup_stack_order 3 ⟨3, 0, [⟨32000, 0⟩, ⟨32000, 0⟩, ⟨32000, 0⟩], [0, 1, 2], 0⟩
      rfl).1 [7, 8] 9 (by decide),
    rfl, rfl⟩

theorem pl_next_number_lt (g : Nat) :
    (if g ≥ MAX_ADDRESS_NUMBER then 0 else g) < MAX_ADDRESS_NUMBER := by
  unfold MAX_ADDRESS_NUMBER
  split <;> omega

theorem pl_run_numbers (avoid : Nat × Nat → Bool) (cs : List pl_call) :
    ∀ t : pl_trace, pl_inv t → pl_clears_returned avoid t cs = true →
      ∃ t1, pl_run t cs = some t1 ∧ pl_inv t1 ∧
        (if t1.plp.number_generator ≥ MAX_ADDRESS_NUMBER then 0 else t1.plp.number_generator)
          = ((if t.plp.number_generator ≥ MAX_ADDRESS_NUMBER then 0
              else t.plp.number_generator) + pl_stores_ok t cs) % MAX_ADDRESS_NUMBER := by
  induction cs with
  | nil =>
    intro t hinv _
    exact ⟨t, rfl, hinv, by
      simp only [pl_stores_ok, Nat.add_zero]
      exact (Nat.mod_eq_of_lt (pl_next_number_lt _)).symm⟩
  | cons c cs ih =>
    intro t hinv hok
    simp only [pl_clears_returned, Bool.and_eq_true] at hok
    obtain ⟨hc, hrest⟩ := hok
    cases c with
    | store y =>
      obtain ⟨t1, h1, hinv1⟩ := pl_step_store_inv t hinv y
      rw [h1] at hrest
      obtain ⟨t2, h2, hinv2, hnum⟩ := ih t1 hinv1 hrest
      obtain ⟨r, hr, _, _⟩ := pl_store_count t hinv y
      have ht1 : t1.plp = r.plp := by
        simp only [pl_step, hr] at h1
        split at h1 <;> cases h1 <;> rfl
      refine ⟨t2, by simp only [pl_run, h1, h2], hinv2, ?_⟩
      simp only [pl_stores_ok, h1, pl_call_rc, hr, Option.map_some']
      rw [hnum, ht1]
      rcases pl_store_cases t.plp y r hr with ⟨hrc, hp⟩ | ⟨hrc, hnr, hg, _, _⟩
      · rw [hp]
        simp [hrc, ENOSPC]
      · rw [hg, hnr]
        simp only [hrc, if_true]
        have hN := pl_next_number_lt t.plp.number_generator
        generalize (if t.plp.number_generator ≥ MAX_ADDRESS_NUMBER then 0
          else t.plp.number_generator) = N at hN ⊢
        simp only [MAX_ADDRESS_NUMBER] at hN ⊢
        split <;> omega
    | clear j m =>
      simp only [Bool.and_eq_true, decide_eq_true_eq] at hc
      obtain ⟨t1, h1, hinv1⟩ := pl_step_clear_inv t hinv j m hc.1
      rw [h1] at hrest
      obtain ⟨t2, h2, hinv2, hnum⟩ := ih t1 hinv1 hrest
      obtain ⟨rc, plp1, hr, _, _⟩ := pl_clear_count t hinv j m hc.1
      have ht1 : t1.plp = plp1 := by
        simp only [pl_step, hr] at h1
        cases h1
        rfl
      refine ⟨t2, by simp only [pl_run, h1, h2], hinv2, ?_⟩
      simp only [pl_stores_ok, h1, Nat.zero_add]
      rw [hnum, ht1]
      rcases pl_clear_cases t.plp j m rc plp1 hr with ⟨_, hp⟩ | ⟨_, _, hg, _⟩
      · rw [hp]
      · rw [hg]

/-- C23 as stated fails on a fresh table: the first
`pointer_lookup_store_pointer` returns `0` and hands out the number `0`. -/
theorem pointer_lookup_first_number_is_zero :
    pointer_lookup_init 2 true = .ok ⟨2, 0, [⟨32000, 0⟩, ⟨32000, 0⟩], [0, 1], 0⟩ ∧
      (pointer_lookup_store_pointer ⟨2, 0, [⟨32000, 0⟩, ⟨32000, 0⟩], [0, 1], 0⟩ 7).map
        (fun r => (r.rc, r.index_returned, r.number_returned)) = some (0, 0, 0) :=
  ⟨rfl, rfl⟩

/-- C23 amended: generation numbers skip the invalid marker, not `0`. On a table
made by `pointer_lookup_init` and used by any sequence of stores and of clears
of returned handles, the next `pointer_lookup_store_pointer` returns, and when
it returns `0` the number it hands out is the count of the successful stores
made before it, modulo `MAX_ADDRESS_NUMBER`: the first number is `0`, the
numbers of successive successful stores are consecutive and go from
`MAX_ADDRESS_NUMBER - 1` back to `0`, and the number is never
`MAX_ADDRESS_NUMBER`, the marker of an invalid entry. -/
theorem pointer_lookup_numbers_wrap (size : Nat) (tbl : pointer_lookup_t)
    (hinit : pointer_lookup_init size true = .ok tbl) (cs : List pl_call)
    (hcs : pl_clears_returned (fun _ => false) ⟨tbl, []⟩ cs = true) (x : Nat) :
    ∃ t r, pl_run ⟨tbl, []⟩ cs = some t ∧ pointer_lookup_store_pointer t.plp x = some r ∧
      (r.rc = 0 →
        r.number_returned = pl_stores_ok ⟨tbl, []⟩ cs % MAX_ADDRESS_NUMBER ∧
        r.number_returned ≠ MAX_ADDRESS_NUMBER) := by
  have hinv0 := pl_init_inv size tbl hinit
  obtain ⟨_, _, _, hg0, _, _⟩ := pl_init_fields size tbl hinit
  obtain ⟨t, hrun, hinv, hnum⟩ := pl_run_numbers _ cs ⟨tbl, []⟩ hinv0 hcs
  obtain ⟨r, hr, _, _⟩ := pl_store_count t hinv x
  refine ⟨t, r, hrun, hr, fun hrc => ?_⟩
  dsimp only at hnum
  rw [hg0] at hnum
  rcases pl_store_cases t.plp x r hr with ⟨hrc2, _⟩ | ⟨_, hnr, _, _, _⟩
  · rw [hrc] at hrc2
    cases hrc2
  · rw [hnr, hnum]
    have h0 : (if (0 : Nat) ≥ MAX_ADDRESS_NUMBER then 0 else 0) = 0 := by simp
    rw [h0, Nat.zero_add]
    exact ⟨rfl, Nat.ne_of_lt (Nat.mod_lt _ (by decide))⟩

/-- C23 witness: a table of two slots after `store, clear (0, 0), store`; the
third store is handed the number `2`. -/
theorem pointer_lookup_numbers_wrap_witness :
    pointer_lookup_init 2 true = .ok ⟨2, 0, [⟨32000, 0⟩, ⟨32000, 0⟩], [0, 1], 0⟩ ∧
      pl_clears_returned (fun _ => false) ⟨⟨2, 0, [⟨32000, 0⟩, ⟨32000, 0⟩], [0, 1], 0⟩, []⟩
        [.store 7, .clear 0 0, .store 8] = true ∧
      pl_stores_ok ⟨⟨2, 0, [⟨32000, 0⟩, ⟨32000, 0⟩], [0, 1], 0⟩, []⟩
        [.store 7, .clear 0 0, .store 8] = 2 ∧
      ∃ t r, pl_run ⟨⟨2, 0, [⟨32000, 0⟩, ⟨32000, 0⟩], [0, 1], 0⟩, []⟩
          [.store 7, .clear 0 0, .store 8] = some t ∧
        pointer_lookup_store_pointer t.plp 9 = some r ∧
        (r.rc = 0 →
          r.number_returned = pl_stores_ok ⟨⟨2, 0, [⟨32000, 0⟩, ⟨32000, 0⟩], [0, 1], 0⟩, []⟩
            [.store 7, .clear 0 0, .store 8] % MAX_ADDRESS_NUMBER ∧
          r.number_returned ≠ MAX_ADDRESS_NUMBER) :=
  ⟨rfl, rfl, rfl,
    pointer_lookup_numbers_wrap 2 ⟨2, 0, [⟨32000, 0⟩, ⟨32000, 0⟩], [0, 1], 0⟩ rfl
      [.store 7, .clear 0 0, .store 8] rfl 9⟩

/-- C25 at the limit itself: `pointer_lookup_init` with `size` equal to
`MAX_ADDRESS_NUMBER` returns `E2BIG`, although the size is not greater than
`MAX_ADDRESS_NUMBER`; any allocation would have succeeded. -/
theorem pointer_lookup_init_rejects_limit :
    pointer_lookup_init MAX_ADDRESS_NUMBER true = .error E2BIG ∧
      ¬ (MAX_ADDRESS_NUMBER > MAX_ADDRESS_NUMBER) :=
  ⟨rfl, by decide⟩

/-- The rest of C25: `pointer_lookup_init` returns an error exactly when `size`
is `MAX_ADDRESS_NUMBER` or more or the allocation fails; otherwise the table has
`size` slots, all of them invalid with a `NULL` pointer, and all the indexes
`0 .. size - 1` are on the free stack. -/
theorem pl_init_cases (size : Nat) (mem_ok : Bool) :
    (size ≥ MAX_ADDRESS_NUMBER → pointer_lookup_init size mem_ok = .error E2BIG) ∧
    (size < MAX_ADDRESS_NUMBER → mem_ok = false →
      pointer_lookup_init size mem_ok = .error ENOMEM) ∧
    (size < MAX_ADDRESS_NUMBER → mem_ok = true →
      pointer_lookup_init size mem_ok
        = .ok ⟨size, 0, List.replicate size ⟨MAX_ADDRESS_NUMBER, 0⟩, List.range size, 0⟩) := by
  refine ⟨fun h => ?_, fun h hm => ?_, fun h hm => ?_⟩
  · unfold pointer_lookup_init
    rw [if_pos h]
  · unfold pointer_lookup_init
    rw [if_neg (by omega)]
    simp [hm]
  · unfold pointer_lookup_init
    rw [if_neg (by omega)]
    simp [hm]

/-! ## Theorems: safe_pointers.h -/

/-- C24 at index `1` and incarnation `2`, both below `2^16`:
`SAFE_POINTER_VALUE` is `1`, the value of the logical `||`, so the index read
back is `0` and the incarnation read back is `1`; the 32-bit integer with `1`
in the high and `2` in the low 16 bits is `65538`. -/
theorem safe_pointer_value_round_trip_fails :
    SAFE_POINTER_VALUE 1 2 = 1 ∧
      SAFE_POINTER_INDEX (SAFE_POINTER_VALUE 1 2) = 0 ∧
      SAFE_POINTER_INCARNATION (SAFE_POINTER_VALUE 1 2) = 1 ∧
      safe_pointer_of_spec 1 2 = 65538 := by
  decide

/-- The macro `SAFE_POINTER_VALUE` never keeps an index: whatever the index and
the incarnation, the index read back is `0` and the incarnation read back is `0`
or `1`. -/
theorem safe_pointer_value_index_lost (index incarn : Nat) :
    SAFE_POINTER_INDEX (SAFE_POINTER_VALUE index incarn) = 0 ∧
      SAFE_POINTER_INCARNATION (SAFE_POINTER_VALUE index incarn) ≤ 1 := by
  unfold SAFE_POINTER_VALUE
  split <;> decide

/-- The two reading macros are right: on the integer that the header comment
describes, with the index in the high and the incarnation in the low 16 bits,
`SAFE_POINTER_INDEX` and `SAFE_POINTER_INCARNATION` give back the index and the
incarnation. -/
theorem safe_pointer_of_spec_round_trip (index incarn : Nat) (hi : index < 2 ^ 16)
    (hg : incarn < 2 ^ 16) :
    SAFE_POINTER_INDEX (safe_pointer_of_spec index incarn) = index ∧
      SAFE_POINTER_INCARNATION (safe_pointer_of_spec index incarn) = incarn := by
  have hmask : ∀ x : Nat, x &&& 0xFFFF = x % 2 ^ 16 := fun x =>
    Nat.and_pow_two_sub_one_eq_mod x 16
  have hsh : (index <<< 16) % 2 ^ 32 = index * 2 ^ 16 := by
    rw [Nat.shiftLeft_eq]
    exact Nat.mod_eq_of_lt (by omega)
  have hor : (index * 2 ^ 16) ||| incarn = index * 2 ^ 16 + incarn := by
    rw [Nat.mul_comm]
    exact (Nat.mul_add_lt_is_or hg index).symm
  unfold SAFE_POINTER_INDEX SAFE_POINTER_INCARNATION safe_pointer_of_spec
  rw [hmask, hmask, hsh, Nat.mod_eq_of_lt hg, hor, Nat.shiftRight_eq_div_pow]
  constructor <;> omega
/-! ## Theorems: index_object.c -/

theorem cmp_lt_trans {α : Type} {cmpf : α → α → Int} (h : cmp_total_order cmpf) (a b c : α)
    (hab : cmpf a b < 0) (hbc : cmpf b c < 0) : cmpf a c < 0 := by
  have hle := h.trans a b c (le_of_lt hab) (le_of_lt hbc)
  by_contra hn
  have h0 : cmpf a c = 0 := by omega
  have h1 : ¬ (0 < cmpf c a) := fun hc => hn ((h.antisymm a c).mpr hc)
  have h2 : ¬ (cmpf c a < 0) := fun hc => by
    have := (h.antisymm c a).mp hc
    omega
  have h3 := h.trans c a b (by omega) (le_of_lt hab)
  have h4 := (h.antisymm b c).mp hbc
  omega

theorem cmp_self {α : Type} {cmpf : α → α → Int} (h : cmp_total_order cmpf) (a : α) :
    cmpf a a = 0 := by
  have h1 := h.antisymm a a
  by_contra hn
  rcases lt_or_gt_of_ne hn with hlt | hgt
  · have := h1.mp hlt
    omega
  · have := h1.mpr hgt
    omega

/-- Replacing one side of a comparison by an element that compares equal to it
keeps the sign. -/
theorem cmp_congr_left {α : Type} {cmpf : α → α → Int} (h : cmp_total_order cmpf) (a b c : α)
    (hab : cmpf a b = 0) (hbc : cmpf b c < 0) : cmpf a c < 0 := by
  have hle := h.trans a b c (by omega) (le_of_lt hbc)
  by_contra hn
  have h0 : cmpf a c = 0 := by omega
  have h1 : ¬ (0 < cmpf c a) := fun hc => hn ((h.antisymm a c).mpr hc)
  have h2 : ¬ (cmpf c a < 0) := fun hc => by
    have := (h.antisymm c a).mp hc
    omega
  have h3 := h.trans c a b (by omega) (by omega)
  have h4 := (h.antisymm b c).mp hbc
  omega

theorem cmp_congr_right {α : Type} {cmpf : α → α → Int} (h : cmp_total_order cmpf) (a b c : α)
    (hab : cmpf a b < 0) (hbc : cmpf b c = 0) : cmpf a c < 0 := by
  have hcb : cmpf c b = 0 := by
    have h1 := h.antisymm b c
    have h2 := h.antisymm c b
    by_contra hn
    rcases lt_or_gt_of_ne hn with hlt | hgt
    · have := h2.mp hlt
      omega
    · have := h1.mpr hgt
      omega
  have hle := h.trans a b c (le_of_lt hab) (by omega)
  by_contra hn
  have h0 : cmpf a c = 0 := by omega
  have h1 : ¬ (0 < cmpf c a) := fun hc => hn ((h.antisymm a c).mpr hc)
  have h2 : ¬ (cmpf c a < 0) := fun hc => by
    have := (h.antisymm c a).mp hc
    omega
  have h3 := h.trans b c a (by omega) (by omega)
  have h4 := (h.antisymm a b).mp hab
  omega

theorem cmp_eq_symm {α : Type} {cmpf : α → α → Int} (h : cmp_total_order cmpf) (a b : α)
    (hab : cmpf a b = 0) : cmpf b a = 0 := by
  have h1 := h.antisymm a b
  have h2 := h.antisymm b a
  by_contra hn
  rcases lt_or_gt_of_ne hn with hlt | hgt
  · have := h2.mp hlt
    omega
  · have := h1.mpr hgt
    omega

/-- The binary search loop on at most `2^30` cells, from a state in which every
cell below `lo` is smaller than the searched element and every cell above `hi`
is greater: the sum `hi + lo` stays below `2^31`, the loop ends, and either
returns a cell that compares equal, or returns `-1` and stores the insertion
point. -/
theorem index_obj_find_loop_spec {α : Type} (cmpf : α → α → Int) (htot : cmp_total_order cmpf)
    (es : List α) (n : Int) (hlen : n ≤ es.length) (hsmall : n ≤ 1073741824)
    (hs : ∀ (i j : Nat) (a b : α), i < j → (j : Int) < n → es[i]? = some a → es[j]? = some b →
      cmpf a b < 0)
    (x : α) :
    ∀ (fuel : Nat) (lo hi mid diff : Int), 0 ≤ lo → hi < n → lo ≤ hi + 1 → hi - lo + 1 < fuel →
      (∀ (k : Nat) (e : α), (k : Int) < lo → es[k]? = some e → 0 < cmpf x e) →
      (∀ (k : Nat) (e : α), hi < (k : Int) → (k : Int) < n → es[k]? = some e → cmpf x e < 0) →
      (hi < lo → (if diff > 0 then mid + 1 else mid) = lo) →
      (∃ (i : Nat) (e : α), (i : Int) < n ∧ es[i]? = some e ∧ cmpf x e = 0 ∧
          index_obj_find_loop cmpf es x fuel lo hi mid diff = some ((i : Int), none)) ∨
      (∃ p : Nat, (p : Int) ≤ n ∧
          index_obj_find_loop cmpf es x fuel lo hi mid diff = some (-1, some (p : Int)) ∧
          (∀ (k : Nat) (e : α), k < p → es[k]? = some e → 0 < cmpf x e) ∧
          (∀ (k : Nat) (e : α), p ≤ k → (k : Int) < n → es[k]? = some e → cmpf x e < 0)) := by
  intro fuel
  induction fuel with
  | zero => intro lo hi mid diff h0 h1 h2 h3; omega
  | succ fuel ih =>
    intro lo hi mid diff hlo hhi hle hfuel hbelow habove hexit
    by_cases hc : lo ≤ hi
    · have hm1 : lo ≤ (hi + lo) / 2 := by omega
      have hm2 : (hi + lo) / 2 ≤ hi := by omega
      obtain ⟨m, hm⟩ : ∃ m : Nat, (m : Int) = (hi + lo) / 2 := ⟨((hi + lo) / 2).toNat, by omega⟩
      have hml : m < es.length := by omega
      have hread : array_read es ((hi + lo) / 2) = some es[m] := by
        unfold array_read
        rw [if_pos (by omega), ← hm, Int.toNat_ofNat, List.getElem?_eq_getElem hml]
      have hw : wrap_int32 (hi + lo) = hi + lo := by
        unfold wrap_int32
        omega
      unfold index_obj_find_loop
      rw [if_pos hc, hw, hread]
      dsimp only
      by_cases hgt : cmpf x es[m] > 0
      · rw [if_pos hgt]
        refine ih _ _ _ _ (by omega) hhi (by omega) (by omega) ?_ habove ?_
        · intro k e hk he
          by_cases hkm : k = m
          · subst hkm
            rw [List.getElem?_eq_getElem hml] at he
            cases he
            exact hgt
          · have hlt : cmpf e es[m] < 0 :=
              hs k m e es[m] (by omega) (by omega) he (List.getElem?_eq_getElem hml)
            have h1 : cmpf es[m] x < 0 := (htot.antisymm _ _).mpr hgt
            exact (htot.antisymm _ _).mp (cmp_lt_trans htot _ _ _ hlt h1)
        · intro _
          rw [if_pos hgt]
      · rw [if_neg hgt]
        by_cases hlt : cmpf x es[m] < 0
        · rw [if_pos hlt]
          refine ih _ _ _ _ hlo (by omega) (by omega) (by omega) hbelow ?_ ?_
          · intro k e hk hkn he
            by_cases hkm : k = m
            · subst hkm
              rw [List.getElem?_eq_getElem hml] at he
              cases he
              exact hlt
            · have h1 : cmpf es[m] e < 0 :=
                hs m k es[m] e (by omega) hkn (List.getElem?_eq_getElem hml) he
              exact cmp_lt_trans htot _ _ _ hlt h1
          · intro hx
            rw [if_neg hgt]
            omega
        · rw [if_neg hlt]
          refine Or.inl ⟨m, es[m], by omega, List.getElem?_eq_getElem hml, by omega, ?_⟩
          rw [hm]
    · obtain ⟨p, hp⟩ : ∃ p : Nat, (p : Int) = lo := ⟨lo.toNat, by omega⟩
      refine Or.inr ⟨p, by omega, ?_, ?_, ?_⟩
      · unfold index_obj_find_loop
        rw [if_neg hc, hexit (by omega), hp]
      · intro k e hk he
        exact hbelow k e (by omega) he
      · intro k e hk hkn he
        exact habove k e (by omega) hkn he

theorem index_live_length {α : Type} (idx : index_obj_t α) (hn0 : 0 ≤ idx.n)
    (hlen : idx.n ≤ idx.elements.length) : (idx.live.length : Int) = idx.n := by
  unfold index_obj_t.live
  rw [List.length_take]
  omega

theorem index_live_getElem? {α : Type} (idx : index_obj_t α) (k : Nat) (hk : (k : Int) < idx.n) :
    idx.live[k]? = idx.elements[k]? := by
  unfold index_obj_t.live
  exact List.getElem?_take_of_lt (by omega)

theorem index_sorted_get {α : Type} (idx : index_obj_t α) (hs : idx.sorted)
    (i j : Nat) (a b : α) (hij : i < j) (ha : idx.live[i]? = some a) (hb : idx.live[j]? = some b) :
    idx.cmpf a b < 0 := by
  have hi : i < idx.live.length := by
    by_contra hc
    rw [List.getElem?_eq_none (by omega)] at ha
    cases ha
  have hj : j < idx.live.length := by
    by_contra hc
    rw [List.getElem?_eq_none (by omega)] at hb
    cases hb
  rw [List.getElem?_eq_getElem hi] at ha
  rw [List.getElem?_eq_getElem hj] at hb
  cases ha
  cases hb
  exact List.pairwise_iff_getElem.mp hs i j hi hj hij

/-- The binary search on a sorted index: it returns, and either it finds a cell
that compares equal, or it returns `-1` with an insertion point that splits the
cells into the smaller ones and the greater ones. -/
theorem index_obj_find_position_spec {α : Type} (idx : index_obj_t α)
    (htot : cmp_total_order idx.cmpf) (hn0 : 0 ≤ idx.n) (hlen : idx.n ≤ idx.elements.length)
    (hsmall : idx.n ≤ 1073741824) (hs : idx.sorted) (x : α) :
    (∃ (i : Nat) (e : α), idx.live[i]? = some e ∧ idx.cmpf x e = 0 ∧
        index_obj_find_position idx x = some ((i : Int), none)) ∨
    (∃ p : Nat, p ≤ idx.live.length ∧
        index_obj_find_position idx x = some (-1, some (p : Int)) ∧
        (∀ e ∈ idx.live.take p, 0 < idx.cmpf x e) ∧
        (∀ e ∈ idx.live.drop p, idx.cmpf x e < 0)) := by
  have hll := index_live_length idx hn0 hlen
  have hsi : ∀ (i j : Nat) (a b : α), i < j → (j : Int) < idx.n → idx.elements[i]? = some a →
      idx.elements[j]? = some b → idx.cmpf a b < 0 := by
    intro i j a b hij hj ha hb
    exact index_sorted_get idx hs i j a b hij
      (by rw [index_live_getElem? idx i (by omega)]; exact ha)
      (by rw [index_live_getElem? idx j hj]; exact hb)
  rcases index_obj_find_loop_spec idx.cmpf htot idx.elements idx.n hlen hsmall hsi x
      (idx.n.toNat + 1) 0 (idx.n - 1) 0 0 (le_refl 0) (by omega) (by omega) (by omega)
      (fun k e hk _ => by omega) (fun k e hk hkn _ => by omega)
      (fun h => by simp) with
    ⟨i, e, hi, he, hc, hr⟩ | ⟨p, hp, hr, hb, ha⟩
  · exact Or.inl ⟨i, e, by rw [index_live_getElem? idx i hi]; exact he, hc, hr⟩
  · refine Or.inr ⟨p, by omega, hr, ?_, ?_⟩
    · intro e he
      obtain ⟨k, hk, hke⟩ := List.getElem_of_mem he
      have hk2 : k < p ∧ k < idx.live.length := by
        rw [List.length_take] at hk
        omega
      have hget : idx.elements[k]? = some e := by
        rw [← index_live_getElem? idx k (by omega), ← hke, List.getElem_take,
          List.getElem?_eq_getElem hk2.2]
      exact hb k e hk2.1 hget
    · intro e he
      obtain ⟨k, hk, hke⟩ := List.getElem_of_mem he
      rw [List.length_drop] at hk
      have hget : idx.elements[p + k]? = some e := by
        rw [← index_live_getElem? idx (p + k) (by omega), ← hke, List.getElem_drop,
          List.getElem?_eq_getElem (by omega)]
      exact ha (p + k) e (by omega) (by omega) hget

theorem array_read_nat {α : Type} (a : List α) (i : Int) (k : Nat) (hi : i = k) :
    array_read a i = a[k]? := by
  subst hi
  simp [array_read]

theorem array_write_nat {α : Type} (a : List α) (i : Int) (k : Nat) (v : α) (hi : i = k)
    (hk : k < a.length) : array_write a i v = some (a.set k v) := by
  subst hi
  simp [array_write, hk]

theorem copy_pointer_blocks_nat {α : Type} (src dst : List α) (a b c : Int) (A B C : Nat)
    (ha : a = A) (hb : b = B) (hc : c = C) (h1 : A + C ≤ src.length) (h2 : B + C ≤ dst.length) :
    copy_pointer_blocks src a dst b c
      = some (dst.take B ++ (src.drop A).take C ++ dst.drop (B + C)) := by
  subst ha hb hc
  have e : ((B : Int) + (C : Int)).toNat = B + C := by omega
  simp only [copy_pointer_blocks, Int.toNat_ofNat, e]
  rw [if_pos]
  refine ⟨by omega, by omega, by omega, by omega, by omega⟩

theorem index_obj_resize_ok {α : Type} [Inhabited α] (idx : index_obj_t α) (new_size : Int)
    (S N : Nat) (hS : new_size = S) (hN : idx.n = N) (h1 : N ≤ idx.elements.length)
    (h2 : N ≤ S) :
    index_obj_resize idx new_size true
      = some (0, { idx with
          elements := idx.elements.take N ++ List.replicate (S - N) default
          maximum_size := new_size }) := by
  have hneg : ¬ new_size < 0 := by omega
  have hcopy := copy_pointer_blocks_nat idx.elements (List.replicate S (default : α))
    0 0 idx.n 0 0 N rfl rfl hN (by omega) (by simp; omega)
  have hS2 : new_size.toNat = S := by omega
  simp only [index_obj_resize, Bool.not_true, Bool.false_or, decide_eq_true_eq, hneg, if_false,
    hS2, hcopy]
  simp

theorem index_obj_resize_fail {α : Type} [Inhabited α] (idx : index_obj_t α) (new_size : Int) :
    index_obj_resize idx new_size false = some (ENOMEM, idx) := by
  simp [index_obj_resize]

theorem index_obj_resize_neg {α : Type} [Inhabited α] (idx : index_obj_t α) (new_size : Int)
    (mem_ok : Bool) (h : new_size < 0) :
    index_obj_resize idx new_size mem_ok = some (ENOMEM, idx) := by
  simp [index_obj_resize, h]

/-- The shift to the right and the write of the new element, on an array with a
free cell after the `N` live ones. -/
theorem index_shift_insert {α : Type} (E : List α) (N p : Nat) (x : α) (hp : p ≤ N)
    (hN : N < E.length) :
    ((E.take (p + 1) ++ (E.drop p).take (N - p) ++ E.drop (p + 1 + (N - p))).set p x).take (N + 1)
      = (E.take N).take p ++ x :: (E.take N).drop p := by
  have h1 : (E.take (p + 1)).set p x = E.take p ++ [x] := by
    rw [List.take_succ, List.getElem?_eq_getElem (by omega)]
    simp only [Option.toList]
    rw [List.set_append_right _ _ (by simp)]
    simp
    have : p - min p E.length = 0 := by omega
    rw [this]
    rfl
  rw [List.append_assoc, List.set_append_left _ _ (by simp; omega), h1]
  rw [List.take_take, List.drop_take]
  have hmin : min p N = p := by omega
  rw [hmin]
  rw [List.take_append_eq_append_take]
  simp only [List.length_append, List.length_take, List.length_cons, List.length_nil]
  have h2 : min p E.length + (0 + 1) = p + 1 := by omega
  rw [h2, List.take_of_length_le (by simp; omega)]
  have h3 : N + 1 - (p + 1) = N - p := by omega
  rw [h3, List.take_append_eq_append_take]
  simp only [List.length_take, List.length_drop]
  have h4 : N - p - min (N - p) (E.length - p) = 0 := by omega
  rw [h4, List.take_take]
  simp

theorem index_shift_formula {α : Type} (E : List α) (N p : Nat) (hp : p ≤ N) (hN : N < E.length) :
    (if (N : Int) - (p : Int) > 0 then
        copy_pointer_blocks E (p : Int) E ((p : Int) + 1) ((N : Int) - (p : Int))
      else some E)
      = some (E.take (p + 1) ++ (E.drop p).take (N - p) ++ E.drop (p + 1 + (N - p))) := by
  by_cases h : (N : Int) - (p : Int) > 0
  · rw [if_pos h]
    exact copy_pointer_blocks_nat E E _ _ _ p (p + 1) (N - p) rfl (by omega) (by omega)
      (by omega) (by omega)
  · rw [if_neg h]
    have hNp : N - p = 0 := by omega
    rw [hNp]
    simp

/-- An insert of an element that compares equal to no stored one, on an index
of at most `2^30` cells: the three outcomes are `ENOSPC`, `ENOMEM` (both leave
the index as it was; the second also when the new size does not fit in an
`int`) and success, which puts the element at the insertion point and grows the
array if it was full. -/
theorem index_insert_miss {α : Type} [Inhabited α] (idx : index_obj_t α)
    (htot : cmp_total_order idx.cmpf) (hwf : idx.wf) (hs : idx.sorted)
    (hsmall : idx.n ≤ 1073741824) (hexpr : idx.expansion_size < 2147483648)
    (hfrozen : idx.should_not_be_modified = false) (x : α)
    (hno : ∀ e ∈ idx.live, idx.cmpf x e ≠ 0) (ow mem_ok : Bool) :
    ∃ (p : Nat) (r : index_result α),
      thread_unsafe_index_obj_insert idx x ow mem_ok = some r ∧
      p ≤ idx.live.length ∧ (∀ e ∈ idx.live.take p, 0 < idx.cmpf x e) ∧
      (∀ e ∈ idx.live.drop p, idx.cmpf x e < 0) ∧ r.data = default ∧
      ((idx.n ≥ idx.maximum_size ∧ idx.expansion_size ≤ 0 ∧ r.rc = ENOSPC ∧ r.idx = idx) ∨
       (idx.n ≥ idx.maximum_size ∧ 0 < idx.expansion_size ∧
          (mem_ok = false ∨ idx.maximum_size + idx.expansion_size ≥ 2147483648) ∧
          r.rc = ENOMEM ∧ r.idx = idx) ∨
       ((idx.n < idx.maximum_size ∨ (0 < idx.expansion_size ∧ mem_ok = true ∧
            idx.maximum_size + idx.expansion_size < 2147483648)) ∧ r.rc = 0 ∧
          r.idx.n = idx.n + 1 ∧
          r.idx.maximum_size = (if idx.n ≥ idx.maximum_size then
            idx.maximum_size + idx.expansion_size else idx.maximum_size) ∧
          r.idx.cmpf = idx.cmpf ∧ r.idx.expansion_size = idx.expansion_size ∧
          r.idx.should_not_be_modified = idx.should_not_be_modified ∧ r.idx.wf ∧
          r.idx.live = idx.live.take p ++ x :: idx.live.drop p)) := by
  have hlenle : idx.n ≤ idx.elements.length := by rw [hwf.len]; exact hwf.n_le
  have hll := index_live_length idx hwf.n_nonneg hlenle
  rcases index_obj_find_position_spec idx htot hwf.n_nonneg hlenle hsmall hs x with
    ⟨i, e, he, hc, _⟩ | ⟨p, hp, hfind, hb, ha⟩
  · exact absurd hc (hno e (List.getElem?_mem he))
  · obtain ⟨N, hN⟩ : ∃ N : Nat, idx.n = N := ⟨idx.n.toNat, by have := hwf.n_nonneg; omega⟩
    have hpN : p ≤ N := by omega
    have hlive : idx.live = idx.elements.take N := by
      unfold index_obj_t.live
      rw [hN, Int.toNat_ofNat]
    have hstart : thread_unsafe_index_obj_insert idx x ow mem_ok =
        (match
          if idx.n ≥ idx.maximum_size then
            if idx.expansion_size ≤ 0 then some (ENOSPC, idx)
            else index_obj_resize idx (wrap_int32 (idx.maximum_size + idx.expansion_size)) mem_ok
          else some (0, idx) with
        | none => none
        | some (rc, idx1) =>
          if rc ≠ 0 then some { rc := rc, data := default, found_at := 0, idx := idx1 }
          else
            match
              if idx1.n - ↑p > 0 then
                copy_pointer_blocks idx1.elements (↑p) idx1.elements (↑p + 1) (idx1.n - ↑p)
              else some idx1.elements with
            | none => none
            | some es1 =>
              match array_write es1 (↑p) x with
              | none => none
              | some es2 =>
                some
                  { rc := 0, data := default, found_at := 0,
                    idx := { idx1 with n := wrap_int32 (idx1.n + 1), elements := es2 } }) := by
      unfold thread_unsafe_index_obj_insert
      simp only [hfrozen, hfind, Bool.false_eq_true, if_false, Option.getD_some]
      simp only [show ¬ ((-1 : Int) ≥ 0) by omega, if_false]
    have hwN : wrap_int32 ((N : Int) + 1) = (N : Int) + 1 := by
      unfold wrap_int32
      omega
    -- the tail of the function, once the array has a free cell
    have htail : ∀ idx1 : index_obj_t α, idx1.n = N → N < idx1.elements.length →
        (idx1.elements.length : Int) = idx1.maximum_size →
        idx1.elements.take N = idx.live →
        ∃ es2,
          (match
              if idx1.n - ↑p > 0 then
                copy_pointer_blocks idx1.elements (↑p) idx1.elements (↑p + 1) (idx1.n - ↑p)
              else some idx1.elements with
            | none => none
            | some es1 =>
              match array_write es1 (↑p) x with
              | none => none
              | some es2 =>
                some (index_result.mk 0 default 0
                  { idx1 with n := wrap_int32 (idx1.n + 1), elements := es2 }))
            = some (index_result.mk 0 default 0 { idx1 with n := idx1.n + 1, elements := es2 }) ∧
          es2.length = idx1.elements.length ∧
          es2.take (N + 1) = idx.live.take p ++ x :: idx.live.drop p := by
      intro idx1 h1 h2 _ h4
      refine ⟨(idx1.elements.take (p + 1) ++ (idx1.elements.drop p).take (N - p) ++
        idx1.elements.drop (p + 1 + (N - p))).set p x, ?_, ?_, ?_⟩
      · rw [h1, hwN, index_shift_formula idx1.elements N p hpN h2]
        simp only
        rw [array_write_nat _ _ p x rfl (by simp; omega)]
      · simp
        omega
      · rw [index_shift_insert idx1.elements N p x hpN h2, h4]
    by_cases hfull : idx.n ≥ idx.maximum_size
    · by_cases hexp : idx.expansion_size ≤ 0
      · refine ⟨p, ⟨ENOSPC, default, 0, idx⟩, ?_, hp, hb, ha, rfl, Or.inl ⟨hfull, hexp, rfl, rfl⟩⟩
        rw [hstart, if_pos hfull, if_pos hexp]
        simp [ENOSPC]
      · by_cases hover : idx.maximum_size + idx.expansion_size ≥ 2147483648
        · have hneg : wrap_int32 (idx.maximum_size + idx.expansion_size) < 0 := by
            have := hwf.n_le
            unfold wrap_int32
            omega
          refine ⟨p, ⟨ENOMEM, default, 0, idx⟩, ?_, hp, hb, ha, rfl,
            Or.inr (Or.inl ⟨hfull, by omega, Or.inr hover, rfl, rfl⟩)⟩
          rw [hstart, if_pos hfull, if_neg hexp, index_obj_resize_neg _ _ _ hneg]
          simp [ENOMEM]
        have hw : wrap_int32 (idx.maximum_size + idx.expansion_size)
            = idx.maximum_size + idx.expansion_size := by
          have := hwf.n_le
          have := hwf.n_nonneg
          unfold wrap_int32
          omega
        cases mem_ok with
        | false =>
          refine ⟨p, ⟨ENOMEM, default, 0, idx⟩, ?_, hp, hb, ha, rfl,
            Or.inr (Or.inl ⟨hfull, by omega, Or.inl rfl, rfl, rfl⟩)⟩
          rw [hstart, if_pos hfull, if_neg hexp, index_obj_resize_fail]
          simp [ENOMEM]
        | true =>
          obtain ⟨S, hS⟩ : ∃ S : Nat, idx.maximum_size + idx.expansion_size = S :=
            ⟨(idx.maximum_size + idx.expansion_size).toNat, by
              have := hwf.n_nonneg; have := hwf.n_le; omega⟩
          have hres := index_obj_resize_ok idx _ S N hS hN (by omega)
            (by have := hwf.n_le; omega)
          have hlen1 : (idx.elements.take N ++ List.replicate (S - N) (default : α)).length
              = S := by
            simp
            have := hwf.n_le
            omega
          obtain ⟨es2, h1, h2, h3⟩ := htail
            { idx with
              elements := idx.elements.take N ++ List.replicate (S - N) default
              maximum_size := idx.maximum_size + idx.expansion_size }
            hN (by rw [hlen1]; have := hwf.n_le; omega) (by dsimp only; rw [hlen1]; omega)
            (by
              dsimp only
              rw [List.take_append_of_le_length (by simp; omega), List.take_take, hlive]
              simp)
          refine ⟨p, index_result.mk 0 default 0
            { should_not_be_modified := idx.should_not_be_modified, cmpf := idx.cmpf,
              maximum_size := idx.maximum_size + idx.expansion_size,
              expansion_size := idx.expansion_size, n := idx.n + 1, elements := es2 },
            ?_, hp, hb, ha, rfl, Or.inr (Or.inr ⟨Or.inr ⟨by omega, rfl, by omega⟩, rfl, rfl,
            by dsimp only; rw [if_pos hfull], rfl, rfl, rfl, ?_, ?_⟩)⟩
          · rw [hstart, if_pos hfull, if_neg hexp, hw, hres]
            simp only [ne_eq, not_true_eq_false, if_false]
            exact h1
          · refine ⟨by dsimp only; omega, by dsimp only; have := hwf.n_le; omega, ?_⟩
            dsimp only
            rw [h2, hlen1]
            omega
          · show List.take (idx.n + 1).toNat es2 = _
            rw [hN, show ((N : Int) + 1).toNat = N + 1 by omega]
            exact h3
    · obtain ⟨es2, h1, h2, h3⟩ := htail idx hN (by have := hwf.len; omega) hwf.len hlive.symm
      refine ⟨p, index_result.mk 0 default 0 { idx with n := idx.n + 1, elements := es2 },
        ?_, hp, hb, ha, rfl, Or.inr (Or.inr ⟨Or.inl (by omega), rfl, rfl,
        by dsimp only; rw [if_neg hfull], rfl, rfl, rfl, ?_, ?_⟩)⟩
      · rw [hstart, if_neg hfull]
        simp only [ne_eq, not_true_eq_false, if_false]
        exact h1
      · refine ⟨by dsimp only; omega, by dsimp only; omega, ?_⟩
        dsimp only
        rw [h2]
        exact hwf.len
      · show List.take (idx.n + 1).toNat es2 = _
        rw [hN, show ((N : Int) + 1).toNat = N + 1 by omega]
        exact h3

/-- The binary search on at most `2^30` cells finds the cell that compares
equal, when there is one. -/
theorem index_find_hit {α : Type} (idx : index_obj_t α) (htot : cmp_total_order idx.cmpf)
    (hwf : idx.wf) (hs : idx.sorted) (hsmall : idx.n ≤ 1073741824) (x : α) (i : Nat) (e : α)
    (he : idx.live[i]? = some e)
    (hc : idx.cmpf x e = 0) : index_obj_find_position idx x = some ((i : Int), none) := by
  have hlenle : idx.n ≤ idx.elements.length := by rw [hwf.len]; exact hwf.n_le
  rcases index_obj_find_position_spec idx htot hwf.n_nonneg hlenle hsmall hs x with
    ⟨j, e2, he2, hc2, hr⟩ | ⟨p, hp, _, hb, ha⟩
  · have hij : j = i := by
      by_contra hne
      rcases Nat.lt_or_gt_of_ne hne with hlt | hgt
      · have h1 := index_sorted_get idx hs j i e2 e hlt he2 he
        have h2 := cmp_congr_right htot e2 e x h1 (cmp_eq_symm htot x e hc)
        have h3 := cmp_eq_symm htot x e2 hc2
        omega
      · have h1 := index_sorted_get idx hs i j e e2 hgt he he2
        have h2 := cmp_congr_right htot e e2 x h1 (cmp_eq_symm htot x e2 hc2)
        have h3 := cmp_eq_symm htot x e hc
        omega
    rw [hr, hij]
  · have hmem : e ∈ idx.live := List.getElem?_mem he
    rw [← List.take_append_drop p idx.live] at hmem
    rcases List.mem_append.mp hmem with h | h
    · have := hb e h
      omega
    · have := ha e h
      omega

theorem index_insert_frozen {α : Type} [Inhabited α] (idx : index_obj_t α)
    (hfrozen : idx.should_not_be_modified = true) (x : α) (ow mem_ok : Bool) :
    thread_unsafe_index_obj_insert idx x ow mem_ok = some ⟨EBUSY, default, 0, idx⟩ := by
  simp [thread_unsafe_index_obj_insert, hfrozen]

theorem index_live_elem {α : Type} (idx : index_obj_t α) (i : Nat) (e : α)
    (he : idx.live[i]? = some e) :
    i < idx.n.toNat ∧ i < idx.elements.length ∧ idx.elements[i]? = some e := by
  unfold index_obj_t.live at he
  rw [List.getElem?_take] at he
  split at he
  · rename_i h
    refine ⟨h, ?_, he⟩
    by_contra hc
    rw [List.getElem?_eq_none (by omega)] at he
    cases he
  · cases he

/-- An insert of an element that compares equal to the stored cell `i`. -/
theorem index_insert_hit {α : Type} [Inhabited α] (idx : index_obj_t α)
    (htot : cmp_total_order idx.cmpf) (hwf : idx.wf) (hs : idx.sorted)
    (hsmall : idx.n ≤ 1073741824)
    (hfrozen : idx.should_not_be_modified = false) (x : α) (i : Nat) (e : α)
    (he : idx.live[i]? = some e) (hc : idx.cmpf x e = 0) (ow mem_ok : Bool) :
    thread_unsafe_index_obj_insert idx x ow mem_ok
      = some ⟨0, e, 0, if ow then { idx with elements := idx.elements.set i x } else idx⟩ := by
  obtain ⟨_, hil, hel⟩ := index_live_elem idx i e he
  have hfind := index_find_hit idx htot hwf hs hsmall x i e he hc
  unfold thread_unsafe_index_obj_insert
  simp only [hfrozen, hfind, Bool.false_eq_true, if_false]
  rw [if_pos (by omega), array_read_nat _ _ i rfl, hel]
  cases ow with
  | true => simp only [if_true, array_write_nat _ _ i x rfl hil]
  | false => simp

/-- Writing an element that compares equal to the one it replaces keeps a list
strictly increasing. -/
theorem pairwise_set_equal {α : Type} {cmpf : α → α → Int} (htot : cmp_total_order cmpf)
    (L : List α) (hs : L.Pairwise (fun a b => cmpf a b < 0)) (i : Nat) (e x : α)
    (he : L[i]? = some e) (hc : cmpf x e = 0) :
    (L.set i x).Pairwise (fun a b => cmpf a b < 0) := by
  have hi : i < L.length := by
    by_contra h
    rw [List.getElem?_eq_none (by omega)] at he
    cases he
  rw [List.getElem?_eq_getElem hi] at he
  cases he
  rw [List.pairwise_iff_getElem] at hs ⊢
  intro a b ha hb hab
  rw [List.length_set] at ha hb
  rw [List.getElem_set, List.getElem_set]
  by_cases h1 : i = a
  · have h2 : ¬ i = b := by omega
    rw [if_pos h1, if_neg h2]
    subst h1
    exact cmp_congr_left htot _ _ _ hc (hs i b hi hb hab)
  · rw [if_neg h1]
    by_cases h2 : i = b
    · rw [if_pos h2]
      subst h2
      exact cmp_congr_right htot _ _ _ (hs a i ha hi hab) (cmp_eq_symm htot _ _ hc)
    · rw [if_neg h2]
      exact hs a b ha hb hab

theorem index_live_set {α : Type} (idx : index_obj_t α) (i : Nat) (x : α) :
    ({ idx with elements := idx.elements.set i x } : index_obj_t α).live = idx.live.set i x := by
  unfold index_obj_t.live
  dsimp only
  exact List.set_take

theorem index_remove_frozen {α : Type} [Inhabited α] (idx : index_obj_t α)
    (hfrozen : idx.should_not_be_modified = true) (x : α) (shrink : Int) (mem_ok : Bool) :
    thread_unsafe_index_obj_remove idx x shrink mem_ok = some ⟨EBUSY, default, 0, idx⟩ := by
  simp [thread_unsafe_index_obj_remove, hfrozen]

/-- A remove of an element that compares equal to no stored one. -/
theorem index_remove_miss {α : Type} [Inhabited α] (idx : index_obj_t α)
    (htot : cmp_total_order idx.cmpf) (hwf : idx.wf) (hs : idx.sorted)
    (hsmall : idx.n ≤ 1073741824)
    (hfrozen : idx.should_not_be_modified = false) (x : α)
    (hno : ∀ e ∈ idx.live, idx.cmpf x e ≠ 0) (shrink : Int) (mem_ok : Bool) :
    thread_unsafe_index_obj_remove idx x shrink mem_ok = some ⟨ENODATA, default, 0, idx⟩ := by
  have hlenle : idx.n ≤ idx.elements.length := by rw [hwf.len]; exact hwf.n_le
  rcases index_obj_find_position_spec idx htot hwf.n_nonneg hlenle hsmall hs x with
    ⟨i, e, he, hc, _⟩ | ⟨p, hp, hfind, hb, ha⟩
  · exact absurd hc (hno e (List.getElem?_mem he))
  · unfold thread_unsafe_index_obj_remove
    simp only [hfrozen, hfind, Bool.false_eq_true, if_false]
    rw [if_pos (by omega)]

theorem index_shift_remove {α : Type} (E : List α) (N i : Nat) (hi : i < N)
    (hN : N ≤ E.length) :
    ∃ es, (if (N : Int) - 1 - (i : Int) > 0 then
        copy_pointer_blocks E ((i : Int) + 1) E (i : Int) ((N : Int) - 1 - (i : Int))
      else some E) = some es ∧ es.length = E.length ∧
      es.take (N - 1) = (E.take N).eraseIdx i := by
  have herase : (E.take N).eraseIdx i = E.take i ++ (E.drop (i + 1)).take (N - 1 - i) := by
    rw [List.eraseIdx_eq_take_drop_succ, List.take_take, List.drop_take]
    have h1 : min i N = i := by omega
    have h2 : N - (i + 1) = N - 1 - i := by omega
    rw [h1, h2]
  by_cases h : (N : Int) - 1 - (i : Int) > 0
  · refine ⟨E.take i ++ (E.drop (i + 1)).take (N - 1 - i) ++ E.drop (i + (N - 1 - i)), ?_, ?_, ?_⟩
    · rw [if_pos h]
      exact copy_pointer_blocks_nat E E _ _ _ (i + 1) i (N - 1 - i) (by omega) rfl (by omega)
        (by omega) (by omega)
    · simp
      omega
    · rw [herase, List.take_append_of_le_length (by simp; omega)]
      apply List.take_of_length_le
      simp
      omega
  · refine ⟨E, by rw [if_neg h], rfl, ?_⟩
    have hiN : i = N - 1 := by omega
    rw [herase, ← hiN]
    simp

/-- The removal of the cell that the search returned: the shift of the tail
and the shrink test, for any comparator. -/
theorem index_remove_at {α : Type} [Inhabited α] (idx : index_obj_t α) (hwf : idx.wf)
    (hmax : idx.maximum_size < 2147483648)
    (hfrozen : idx.should_not_be_modified = false) (x : α) (i : Nat) (e : α)
    (ip : Option Int) (he : idx.live[i]? = some e)
    (hfind : index_obj_find_position idx x = some ((i : Int), ip)) (shrink : Int)
    (hshr : shrink < 2147483648) (mem_ok : Bool) :
    ∃ r, thread_unsafe_index_obj_remove idx x shrink mem_ok = some r ∧ r.rc = 0 ∧ r.data = e ∧
      r.idx.n = idx.n - 1 ∧ r.idx.live = idx.live.eraseIdx i ∧ r.idx.wf ∧
      r.idx.cmpf = idx.cmpf ∧ r.idx.expansion_size = idx.expansion_size ∧
      r.idx.should_not_be_modified = idx.should_not_be_modified ∧
      r.idx.maximum_size =
        (if shrink > 0 ∧ idx.maximum_size > idx.n - 1 + shrink ∧ mem_ok = true then
          idx.n - 1 + shrink else idx.maximum_size) := by
  obtain ⟨hin, hil, hel⟩ := index_live_elem idx i e he
  obtain ⟨N, hN⟩ : ∃ N : Nat, idx.n = N := ⟨idx.n.toNat, by have := hwf.n_nonneg; omega⟩
  have hiN : i < N := by omega
  have hNl : N ≤ idx.elements.length := by have := hwf.len; have := hwf.n_le; omega
  obtain ⟨es, hes, hlen, htake⟩ := index_shift_remove idx.elements N i hiN hNl
  have hlive : idx.live = idx.elements.take N := by
    unfold index_obj_t.live
    rw [hN, Int.toNat_ofNat]
  have hN1 : ((N : Int) - 1).toNat = N - 1 := by omega
  unfold thread_unsafe_index_obj_remove
  simp only [hfrozen, hfind, Bool.false_eq_true, if_false]
  rw [if_neg (by omega), array_read_nat _ _ i rfl, hel]
  simp only [hN, hes]
  by_cases hpos : shrink > 0
  · by_cases hover : (N : Int) - 1 + shrink ≥ 2147483648
    · have hneg : wrap_int32 ((N : Int) - 1 + shrink) < 0 := by
        have := hwf.n_le
        unfold wrap_int32
        omega
      rw [if_pos ⟨hpos, by have := hwf.n_nonneg; have := hwf.n_le; omega⟩,
        index_obj_resize_neg _ _ _ hneg]
      refine ⟨_, rfl, rfl, rfl, rfl, ?_, ⟨by dsimp only; omega, by
        dsimp only; have := hwf.n_le; omega, by dsimp only; rw [hlen]; exact hwf.len⟩,
        rfl, rfl, rfl, ?_⟩
      · show List.take ((N : Int) - 1).toNat es = _
        rw [hN1, htake, hlive]
      · dsimp only
        rw [if_neg (fun h => by have := h.2.1; omega)]
    · have hw : wrap_int32 ((N : Int) - 1 + shrink) = (N : Int) - 1 + shrink := by
        unfold wrap_int32
        omega
      rw [hw]
      by_cases hsh : shrink > 0 ∧ idx.maximum_size > (N : Int) - 1 + shrink
      · rw [if_pos hsh]
        cases mem_ok with
        | false =>
          rw [index_obj_resize_fail]
          refine ⟨_, rfl, rfl, rfl, rfl, ?_, ⟨by dsimp only; omega, by
            dsimp only; have := hwf.n_le; omega, by dsimp only; rw [hlen]; exact hwf.len⟩,
            rfl, rfl, rfl, ?_⟩
          · show List.take ((N : Int) - 1).toNat es = _
            rw [hN1, htake, hlive]
          · dsimp only
            rw [if_neg (by simp)]
        | true =>
          obtain ⟨S, hS⟩ : ∃ S : Nat, (N : Int) - 1 + shrink = S :=
            ⟨((N : Int) - 1 + shrink).toNat, by omega⟩
          rw [index_obj_resize_ok _ _ S (N - 1) hS (by dsimp only; omega)
            (by dsimp only; rw [hlen]; omega) (by omega)]
          refine ⟨_, rfl, rfl, rfl, rfl, ?_, ⟨by dsimp only; omega, by dsimp only; omega, ?_⟩,
            rfl, rfl, rfl, ?_⟩
          · show List.take ((N : Int) - 1).toNat _ = _
            rw [hN1, List.take_append_of_le_length (by simp; omega), List.take_take]
            dsimp only
            rw [Nat.min_self, htake, hlive]
          · dsimp only
            simp
            omega
          · dsimp only
            rw [if_pos ⟨hsh.1, by omega, rfl⟩]
      · rw [if_neg hsh]
        refine ⟨_, rfl, rfl, rfl, rfl, ?_, ⟨by dsimp only; omega, by
          dsimp only; have := hwf.n_le; omega, by dsimp only; rw [hlen]; exact hwf.len⟩,
          rfl, rfl, rfl, ?_⟩
        · show List.take ((N : Int) - 1).toNat es = _
          rw [hN1, htake, hlive]
        · dsimp only
          rw [if_neg (by tauto)]
  · rw [if_neg (fun h => hpos h.1)]
    refine ⟨_, rfl, rfl, rfl, rfl, ?_, ⟨by dsimp only; omega, by
      dsimp only; have := hwf.n_le; omega, by dsimp only; rw [hlen]; exact hwf.len⟩,
      rfl, rfl, rfl, ?_⟩
    · show List.take ((N : Int) - 1).toNat es = _
      rw [hN1, htake, hlive]
    · dsimp only
      rw [if_neg (fun h => hpos h.1)]

/-- A remove of an element that compares equal to the stored cell `i`, on an
index of at most `2^30` cells; `maximum_size` and the threshold are `int`s. -/
theorem index_remove_hit {α : Type} [Inhabited α] (idx : index_obj_t α)
    (htot : cmp_total_order idx.cmpf) (hwf : idx.wf) (hs : idx.sorted)
    (hsmall : idx.n ≤ 1073741824) (hmax : idx.maximum_size < 2147483648)
    (hfrozen : idx.should_not_be_modified = false) (x : α) (i : Nat) (e : α)
    (he : idx.live[i]? = some e) (hc : idx.cmpf x e = 0) (shrink : Int)
    (hshr : shrink < 2147483648) (mem_ok : Bool) :
    ∃ r, thread_unsafe_index_obj_remove idx x shrink mem_ok = some r ∧ r.rc = 0 ∧ r.data = e ∧
      r.idx.n = idx.n - 1 ∧ r.idx.live = idx.live.eraseIdx i ∧ r.idx.wf ∧
      r.idx.cmpf = idx.cmpf ∧ r.idx.expansion_size = idx.expansion_size ∧
      r.idx.should_not_be_modified = idx.should_not_be_modified ∧
      r.idx.maximum_size =
        (if shrink > 0 ∧ idx.maximum_size > idx.n - 1 + shrink ∧ mem_ok = true then
          idx.n - 1 + shrink else idx.maximum_size) := by
  exact index_remove_at idx hwf hmax hfrozen x i e none he
    (index_find_hit idx htot hwf hs hsmall x i e he hc) shrink hshr mem_ok

theorem cmp_int_total_order : cmp_total_order cmp_int :=
  ⟨fun a b => by unfold cmp_int; omega, fun a b c => by unfold cmp_int; omega⟩

theorem index_init_wf {α : Type} [Inhabited α] (cmpf : α → α → Int)
    (maximum_size expansion_size : Int) (idx0 : index_obj_t α)
    (hinit : index_obj_init cmpf maximum_size expansion_size true = .ok idx0) :
    idx0.cmpf = cmpf ∧ idx0.wf ∧ idx0.sorted ∧ idx0.should_not_be_modified = false ∧
      idx0.expansion_size = expansion_size ∧ idx0.n = 0 := by
  unfold index_obj_init at hinit
  split at hinit
  · cases hinit
  · rename_i h
    simp at hinit
    cases hinit
    refine ⟨rfl, ⟨le_refl 0, by dsimp only; omega, by simp; omega⟩, ?_, rfl, rfl, rfl⟩
    simp [index_obj_t.sorted, index_obj_t.live]

/-- Putting an element between the smaller and the greater cells keeps the
list strictly increasing. -/
theorem pairwise_insert_at {α : Type} {cmpf : α → α → Int} (htot : cmp_total_order cmpf)
    (L : List α) (hs : L.Pairwise (fun a b => cmpf a b < 0)) (p : Nat) (x : α)
    (hb : ∀ e ∈ L.take p, 0 < cmpf x e) (ha : ∀ e ∈ L.drop p, cmpf x e < 0) :
    (L.take p ++ x :: L.drop p).Pairwise (fun a b => cmpf a b < 0) := by
  have hs2 := hs
  rw [← List.take_append_drop p L, List.pairwise_append] at hs2
  obtain ⟨h1, h2, h3⟩ := hs2
  rw [List.pairwise_append]
  refine ⟨h1, List.pairwise_cons.mpr ⟨ha, h2⟩, ?_⟩
  intro a hain b hbin
  rcases List.mem_cons.mp hbin with rfl | hbin
  · exact (htot.antisymm _ _).mpr (hb a hain)
  · exact h3 a hain b hbin

/-- One call on an index of at most `2^30` cells keeps the comparator, the
shape and the order of the index, and adds at most one cell. -/
theorem index_step_inv {α : Type} [Inhabited α] (idx : index_obj_t α)
    (htot : cmp_total_order idx.cmpf) (hwf : idx.wf) (hs : idx.sorted)
    (hsmall : idx.n ≤ 1073741824) (hmax : idx.maximum_size < 2147483648)
    (hexpr : idx.expansion_size < 2147483648) (c : index_call α) (hc : c.in_int) :
    ∃ r, index_step idx c = some r ∧ r.idx.cmpf = idx.cmpf ∧ r.idx.wf ∧ r.idx.sorted ∧
      r.idx.n ≤ idx.n + 1 ∧ r.idx.maximum_size < 2147483648 ∧
      r.idx.expansion_size = idx.expansion_size := by
  cases hfr : idx.should_not_be_modified with
  | true =>
    cases c with
    | insert x ow mem_ok =>
      exact ⟨_, index_insert_frozen idx hfr x ow mem_ok, rfl, hwf, hs, by dsimp only; omega,
        hmax, rfl⟩
    | remove x shrink mem_ok =>
      exact ⟨_, index_remove_frozen idx hfr x shrink mem_ok, rfl, hwf, hs, by dsimp only; omega,
        hmax, rfl⟩
  | false =>
    cases c with
    | insert x ow mem_ok =>
      by_cases hex : ∃ (i : Nat) (e : α), idx.live[i]? = some e ∧ idx.cmpf x e = 0
      · obtain ⟨i, e, he, hc2⟩ := hex
        refine ⟨_, index_insert_hit idx htot hwf hs hsmall hfr x i e he hc2 ow mem_ok, ?_⟩
        cases ow with
        | false => exact ⟨rfl, hwf, hs, by dsimp only; simp, hmax, rfl⟩
        | true =>
          refine ⟨rfl, ⟨hwf.n_nonneg, hwf.n_le, ?_⟩, ?_, by dsimp only; simp, hmax, rfl⟩
          · simp only [if_true, List.length_set]
            exact hwf.len
          · show (index_obj_t.live _).Pairwise _
            simp only [if_true]
            rw [index_live_set]
            exact pairwise_set_equal htot idx.live hs i e x he hc2
      · have hno : ∀ e ∈ idx.live, idx.cmpf x e ≠ 0 := by
          intro e hmem hc
          obtain ⟨i, hi⟩ := List.mem_iff_getElem?.mp hmem
          exact hex ⟨i, e, hi, hc⟩
        obtain ⟨p, r, hr, hp, hb, ha, _, hcase⟩ :=
          index_insert_miss idx htot hwf hs hsmall hexpr hfr x hno ow mem_ok
        refine ⟨r, hr, ?_⟩
        rcases hcase with ⟨_, _, _, hsame⟩ | ⟨_, _, _, _, hsame⟩ |
          ⟨hroom, _, hn1, hmax1, hcmp, hexp1, _, hwf1, hlive⟩
        · rw [hsame]; exact ⟨rfl, hwf, hs, by omega, hmax, rfl⟩
        · rw [hsame]; exact ⟨rfl, hwf, hs, by omega, hmax, rfl⟩
        · refine ⟨hcmp, hwf1, ?_, by omega, ?_, hexp1⟩
          · unfold index_obj_t.sorted
            rw [hlive, hcmp]
            exact pairwise_insert_at htot idx.live hs p x hb ha
          · rw [hmax1]
            split
            · rcases hroom with h | h
              · omega
              · exact h.2.2
            · exact hmax
    | remove x shrink mem_ok =>
      by_cases hex : ∃ (i : Nat) (e : α), idx.live[i]? = some e ∧ idx.cmpf x e = 0
      · obtain ⟨i, e, he, hc2⟩ := hex
        obtain ⟨r, hr, _, _, hn1, hlive, hwf1, hcmp, hexp1, _, hmax1⟩ :=
          index_remove_hit idx htot hwf hs hsmall hmax hfr x i e he hc2 shrink hc.2 mem_ok
        refine ⟨r, hr, hcmp, hwf1, ?_, by omega, ?_, hexp1⟩
        · unfold index_obj_t.sorted
          rw [hlive, hcmp]
          exact List.Pairwise.sublist (List.eraseIdx_sublist _ _) hs
        · rw [hmax1]
          split
          · rename_i h
            omega
          · exact hmax
      · have hno : ∀ e ∈ idx.live, idx.cmpf x e ≠ 0 := by
          intro e hmem hc
          obtain ⟨i, hi⟩ := List.mem_iff_getElem?.mp hmem
          exact hex ⟨i, e, hi, hc⟩
        exact ⟨_, index_remove_miss idx htot hwf hs hsmall hfr x hno shrink mem_ok, rfl, hwf, hs,
          by dsimp only; omega, hmax, rfl⟩

/-- A run of calls keeps the comparator, the shape and the order of the index,
as long as the index has at most `2^30` cells before every call. -/
theorem index_run_inv {α : Type} [Inhabited α] (cmpf : α → α → Int)
    (htot : cmp_total_order cmpf) (calls : List (index_call α)) :
    ∀ idx : index_obj_t α, idx.cmpf = cmpf → idx.wf → idx.sorted →
      idx.n + calls.length ≤ 1073741825 → idx.maximum_size < 2147483648 →
      idx.expansion_size < 2147483648 → (∀ c ∈ calls, c.in_int) →
      ∃ states, index_run idx calls = some states ∧ states.length = calls.length ∧
        ∀ s ∈ states, s.cmpf = cmpf ∧ s.wf ∧ s.sorted := by
  induction calls with
  | nil => intro idx _ _ _ _ _ _ _; exact ⟨[], rfl, rfl, fun s hs => by cases hs⟩
  | cons c cs ih =>
    intro idx hcmp hwf hs hlen0 hmax hexpr hin
    have hl : ((c :: cs).length : Int) = (cs.length : Int) + 1 := by simp
    obtain ⟨r, hr, hcmp1, hwf1, hs1, hn1, hmax1, hexp1⟩ :=
      index_step_inv idx (hcmp ▸ htot) hwf hs (by have := hwf.n_nonneg; omega) hmax hexpr c
        (hin c (List.mem_cons_self _ _))
    obtain ⟨states, hrun, hlen, hall⟩ := ih r.idx (hcmp1.trans hcmp) hwf1 hs1 (by omega) hmax1
      (by rw [hexp1]; exact hexpr) (fun d hd => hin d (List.mem_cons_of_mem _ hd))
    refine ⟨r.idx :: states, by simp only [index_run, hr, hrun], by simp [hlen], ?_⟩
    intro s hmem
    rcases List.mem_cons.mp hmem with rfl | hmem
    · exact ⟨hcmp1.trans hcmp, hwf1, hs1⟩
    · exact hall s hmem

/-- The ordered-index invariant for runs of at most `2^30 + 1` calls. For a
comparator that is a consistent total order and an index made by
`index_obj_init`, every such sequence of `index_obj_insert` calls (either
overwrite flag) and `index_obj_remove` calls (any threshold of type `int`),
whatever the allocations do, runs without a fault, and after every call
`elements[0..n)` is strictly increasing under the comparator, so that no two
stored elements compare equal. -/
theorem index_run_ordered {α : Type} [Inhabited α] (cmpf : α → α → Int)
    (htot : cmp_total_order cmpf) (maximum_size expansion_size : Int) (idx0 : index_obj_t α)
    (hinit : index_obj_init cmpf maximum_size expansion_size true = .ok idx0)
    (hmax : maximum_size < 2147483648) (hexpr : expansion_size < 2147483648)
    (calls : List (index_call α)) (hlen : calls.length ≤ 1073741825)
    (hin : ∀ c ∈ calls, c.in_int) :
    ∃ states, index_run idx0 calls = some states ∧ states.length = calls.length ∧
      ∀ s ∈ states, s.live.Pairwise (fun a b => cmpf a b < 0) ∧
        s.live.Pairwise (fun a b => cmpf a b ≠ 0) := by
  obtain ⟨hcmp, hwf, hs, _, hexp0, hn0⟩ :=
    index_init_wf cmpf maximum_size expansion_size idx0 hinit
  have hmax0 : idx0.maximum_size = maximum_size := by
    unfold index_obj_init at hinit
    split at hinit
    · cases hinit
    · simp at hinit
      cases hinit
      rfl
  obtain ⟨states, hrun, hlen1, hall⟩ := index_run_inv cmpf htot calls idx0 hcmp hwf hs
    (by rw [hn0]; omega) (by rw [hmax0]; exact hmax) (by rw [hexp0]; exact hexpr) hin
  refine ⟨states, hrun, hlen1, ?_⟩
  intro s hmem
  obtain ⟨hc, _, hsorted⟩ := hall s hmem
  unfold index_obj_t.sorted at hsorted
  rw [hc] at hsorted
  exact ⟨hsorted, hsorted.imp (fun h => by omega)⟩

/-- An index of two cells that grows by two, filled, overwritten and shrunk:
the cells are strictly increasing after every call. -/
theorem index_run_ordered_example :
    ∃ states, index_run (⟨false, cmp_int, 2, 2, 0, [0, 0]⟩ : index_obj_t Int)
        [.insert 5 false true, .insert 3 false true, .insert 9 false true,
          .insert 3 true true, .remove 5 1 true] = some states ∧
      states.length = 5 ∧
      ∀ s ∈ states, s.live.Pairwise (fun a b => cmp_int a b < 0) ∧
        s.live.Pairwise (fun a b => cmp_int a b ≠ 0) :=
  index_run_ordered cmp_int cmp_int_total_order 2 2 _ rfl (by decide) (by decide) _
    (by decide) (by
      intro c hc
      simp only [List.mem_cons, List.mem_singleton, List.not_mem_nil, or_false] at hc
      rcases hc with rfl | rfl | rfl | rfl | rfl
      · trivial
      · trivial
      · trivial
      · trivial
      · exact ⟨by decide, by decide⟩)

/-- Elements with pairwise distinct keys, none of them stored, inserted one by
one into an index that may grow by less than `2^30` cells at a time and ends
with at most `2^30 + 1` cells: every insert succeeds, and the cells are a
strictly increasing arrangement of the old cells and the new elements. -/
theorem index_insert_all_spec {α : Type} [Inhabited α] (cmpf : α → α → Int)
    (htot : cmp_total_order cmpf) (ow : Bool) (xs : List α) :
    ∀ idx : index_obj_t α, idx.cmpf = cmpf → idx.wf → idx.sorted →
      idx.should_not_be_modified = false → 0 < idx.expansion_size →
      idx.expansion_size < 1073741824 → idx.n + xs.length ≤ 1073741825 →
      xs.Pairwise (fun a b => cmpf a b ≠ 0) →
      (∀ x ∈ xs, ∀ e ∈ idx.live, cmpf x e ≠ 0) →
      ∃ idx1, index_insert_all ow idx xs = some idx1 ∧ idx1.cmpf = cmpf ∧ idx1.sorted ∧
        idx1.wf ∧ idx1.should_not_be_modified = false ∧
        idx1.n = idx.n + xs.length ∧ idx1.live.Perm (xs ++ idx.live) := by
  induction xs with
  | nil =>
    intro idx hcmp hwf hs hfr _ _ _ _ _
    exact ⟨idx, rfl, hcmp, hs, hwf, hfr, by simp, by simp⟩
  | cons x xs ih =>
    intro idx hcmp hwf hs hfr hexp hexpr hlen0 hdist hnew
    have hl : ((x :: xs).length : Int) = (xs.length : Int) + 1 := by simp
    have hsmall : idx.n ≤ 1073741824 := by omega
    obtain ⟨hx, hdist1⟩ := List.pairwise_cons.mp hdist
    have hno : ∀ e ∈ idx.live, idx.cmpf x e ≠ 0 := by
      intro e he
      rw [hcmp]
      exact hnew x (List.mem_cons_self _ _) e he
    obtain ⟨p, r, hr, hp, hb, ha, _, hcase⟩ :=
      index_insert_miss idx (hcmp ▸ htot) hwf hs hsmall (by omega) hfr x hno ow true
    rcases hcase with ⟨_, h2, _, _⟩ | ⟨hfull, _, h3, _, _⟩ |
      ⟨_, hrc, hn, _, hcmp1, hexp1, hfr1, hwf1, hlive⟩
    · omega
    · rcases h3 with h3 | h3
      · cases h3
      · have := hwf.n_le
        omega
    · have hs1 : r.idx.sorted := by
        unfold index_obj_t.sorted
        rw [hlive, hcmp1]
        exact pairwise_insert_at (hcmp ▸ htot) idx.live hs p x hb ha
      have hperm1 : r.idx.live.Perm (x :: idx.live) := by
        rw [hlive]
        have h1 : (List.take p idx.live ++ x :: List.drop p idx.live).Perm
            (x :: (List.take p idx.live ++ List.drop p idx.live)) := List.perm_middle
        rw [List.take_append_drop] at h1
        exact h1
      have hnew1 : ∀ y ∈ xs, ∀ e ∈ r.idx.live, cmpf y e ≠ 0 := by
        intro y hy e he
        rcases List.mem_cons.mp (hperm1.subset he) with rfl | he
        · intro h0
          exact hx y hy (cmp_eq_symm htot _ _ h0)
        · exact hnew y (List.mem_cons_of_mem _ hy) e he
      obtain ⟨idx2, h2, hcmp2, hs2, hwf2, hfr2, hn2, hperm2⟩ :=
        ih r.idx (hcmp1.trans hcmp) hwf1 hs1 (hfr1.trans hfr) (by rw [hexp1]; exact hexp)
          (by rw [hexp1]; exact hexpr) (by omega) hdist1 hnew1
      refine ⟨idx2, ?_, hcmp2, hs2, hwf2, hfr2, ?_, ?_⟩
      · simp only [index_insert_all, index_obj_insert, hr, hrc, if_true]
        exact h2
      · rw [hn2, hn]
        simp
        omega
      · refine hperm2.trans ?_
        refine (List.Perm.append_left xs hperm1).trans ?_
        exact List.perm_middle

/-- A strictly increasing list that is a permutation of `xs` is the list that
sorting `xs` with the comparator gives. -/
theorem sorted_perm_eq_sort {α : Type} (cmpf : α → α → Int) (htot : cmp_total_order cmpf)
    (xs L : List α) (hperm : L.Perm xs) (hs : L.Pairwise (fun a b => cmpf a b < 0)) :
    L = sort_with_comparator cmpf xs := by
  haveI : IsTotal α (fun a b => cmpf a b ≤ 0) := ⟨fun a b => by
    by_cases h : cmpf a b ≤ 0
    · exact Or.inl h
    · have := (htot.antisymm b a).mpr (by omega)
      exact Or.inr (by omega)⟩
  haveI : IsTrans α (fun a b => cmpf a b ≤ 0) := ⟨fun a b c => htot.trans a b c⟩
  haveI : IsAntisymm α (fun a b => cmpf a b < 0) := ⟨fun a b h1 h2 => by
    have := (htot.antisymm a b).mp h1
    omega⟩
  have hne : L.Pairwise (fun a b => cmpf a b ≠ 0) := hs.imp (fun h => by omega)
  have hsort_le : (sort_with_comparator cmpf xs).Pairwise (fun a b => cmpf a b ≤ 0) :=
    List.sorted_insertionSort (fun a b => cmpf a b ≤ 0) xs
  have hperm2 : L.Perm (sort_with_comparator cmpf xs) :=
    hperm.trans (List.perm_insertionSort (fun a b => cmpf a b ≤ 0) xs).symm
  have hne2 : (sort_with_comparator cmpf xs).Pairwise (fun a b => cmpf a b ≠ 0) :=
    hperm2.pairwise hne (fun h h0 => h (cmp_eq_symm htot _ _ h0))
  have hsort_lt : (sort_with_comparator cmpf xs).Pairwise (fun a b => cmpf a b < 0) :=
    (hsort_le.and hne2).imp (fun h => by omega)
  exact List.eq_of_perm_of_sorted hperm2 hs hsort_lt

/-- Insertion yields the sorted sequence, for at most `2^30 + 1` elements. For
a comparator that is a consistent total order, an empty index made by
`index_obj_init` that grows by less than `2^30` cells at a time and a list of
elements with pairwise distinct keys, inserting the elements one by one in the
given order (either overwrite flag, allocations succeeding) succeeds;
afterwards `n` is the length of the list and `elements[0..n)` is the list
sorted ascending by the comparator. -/
theorem index_insert_all_sorted {α : Type} [Inhabited α] (cmpf : α → α → Int)
    (htot : cmp_total_order cmpf) (maximum_size expansion_size : Int) (idx0 : index_obj_t α)
    (hinit : index_obj_init cmpf maximum_size expansion_size true = .ok idx0)
    (hexp : 0 < expansion_size) (hexpr : expansion_size < 1073741824) (ow : Bool)
    (xs : List α) (hlen : xs.length ≤ 1073741825)
    (hdistinct : xs.Pairwise (fun a b => cmpf a b ≠ 0)) :
    ∃ idx, index_insert_all ow idx0 xs = some idx ∧ idx.n = xs.length ∧
      idx.live = sort_with_comparator cmpf xs ∧ idx.live.Perm xs ∧
      idx.live.Pairwise (fun a b => cmpf a b < 0) := by
  obtain ⟨hcmp, hwf, hs, hfr, hex, hn0⟩ :=
    index_init_wf cmpf maximum_size expansion_size idx0 hinit
  have hlive0 : idx0.live = [] := by
    unfold index_obj_t.live
    rw [hn0]
    rfl
  obtain ⟨idx, hrun, hcmp1, hs1, _, _, hn, hperm⟩ :=
    index_insert_all_spec cmpf htot ow xs idx0 hcmp hwf hs hfr (by rw [hex]; exact hexp)
      (by rw [hex]; exact hexpr) (by rw [hn0]; omega)
      hdistinct (by intro x _ e he; rw [hlive0] at he; cases he)
  rw [hlive0, List.append_nil] at hperm
  unfold index_obj_t.sorted at hs1
  rw [hcmp1] at hs1
  exact ⟨idx, hrun, by rw [hn, hn0]; simp, sorted_perm_eq_sort cmpf htot xs idx.live hperm hs1,
    hperm, hs1⟩

/-- Five integers inserted into an index of two cells that grows by two. -/
theorem index_insert_all_sorted_example :
    ∃ idx, index_insert_all false (⟨false, cmp_int, 2, 2, 0, [0, 0]⟩ : index_obj_t Int)
        [5, 3, 9, 1, 7] = some idx ∧ idx.n = ([5, 3, 9, 1, 7] : List Int).length ∧
      idx.live = sort_with_comparator cmp_int [5, 3, 9, 1, 7] ∧
      idx.live.Perm [5, 3, 9, 1, 7] ∧
      idx.live.Pairwise (fun a b => cmp_int a b < 0) :=
  index_insert_all_sorted cmp_int cmp_int_total_order 2 2 _ rfl (by decide) (by decide) false
    [5, 3, 9, 1, 7] (by decide) (by decide)

/-! ## Theorems: the midpoint of the binary search on more than `2^30` cells -/

/-- On `2^30 + 1` cells of which the first `2^30` compare less than the searched
element the binary search reaches `lo = hi = 2^30`; the sum `hi + lo` is `2^31`, which an
`int` does not hold, `mid` is negative and the read of `elements[mid]` is
outside the array. -/
theorem index_obj_find_loop_overflow {α : Type} (cmpf : α → α → Int) (elements : List α)
    (x : α) (hlen : 1073741825 ≤ elements.length)
    (hgt : ∀ (k : Nat) (e : α), k < 1073741824 → elements[k]? = some e → 0 < cmpf x e) :
    ∀ (fuel : Nat) (lo mid diff : Int), 0 ≤ lo → lo ≤ 1073741824 →
      index_obj_find_loop cmpf elements x fuel lo 1073741824 mid diff = none := by
  intro fuel
  induction fuel with
  | zero =>
    intro lo mid diff _ _
    rfl
  | succ fuel ih =>
    intro lo mid diff hlo hhi
    unfold index_obj_find_loop
    rw [if_pos hhi]
    by_cases htop : lo = 1073741824
    · have hneg : wrap_int32 (1073741824 + lo) / 2 < 0 := by
        unfold wrap_int32
        omega
      have hread : array_read elements (wrap_int32 (1073741824 + lo) / 2) = none := by
        unfold array_read
        rw [if_neg (by omega)]
      rw [hread]
    · have hw : wrap_int32 (1073741824 + lo) = 1073741824 + lo := by
        unfold wrap_int32
        omega
      rw [hw]
      obtain ⟨m, hm⟩ : ∃ m : Nat, (1073741824 + lo) / 2 = m :=
        ⟨((1073741824 + lo) / 2).toNat, by omega⟩
      have hmlt : m < elements.length := by omega
      rw [hm, array_read_nat _ _ m rfl, List.getElem?_eq_getElem hmlt]
      dsimp only
      rw [if_pos (hgt m _ (by omega) (List.getElem?_eq_getElem hmlt))]
      exact ih _ _ _ (by omega) (by omega)

theorem index_obj_find_position_overflow {α : Type} (idx : index_obj_t α) (x : α)
    (hn : idx.n = 1073741825) (hlen : idx.n ≤ idx.elements.length)
    (hgt : ∀ (k : Nat) (e : α), k < 1073741824 → idx.elements[k]? = some e →
      0 < idx.cmpf x e) : index_obj_find_position idx x = none := by
  unfold index_obj_find_position
  have h1 : idx.n - 1 = 1073741824 := by omega
  rw [h1]
  exact index_obj_find_loop_overflow idx.cmpf idx.elements x (by omega) hgt _ 0 0 0
    (le_refl 0) (by omega)

theorem index_insert_overflow {α : Type} [Inhabited α] (idx : index_obj_t α) (x : α)
    (hfr : idx.should_not_be_modified = false)
    (hfind : index_obj_find_position idx x = none) (ow mem_ok : Bool) :
    index_obj_insert idx x ow mem_ok = none := by
  unfold index_obj_insert thread_unsafe_index_obj_insert
  simp only [hfr, hfind, Bool.false_eq_true, if_false]

theorem index_search_overflow {α : Type} [Inhabited α] (idx : index_obj_t α) (x : α)
    (hfind : index_obj_find_position idx x = none) : index_obj_search idx x = none := by
  unfold index_obj_search thread_unsafe_index_obj_search
  simp only [hfind]

theorem index_remove_overflow {α : Type} [Inhabited α] (idx : index_obj_t α) (x : α)
    (hfr : idx.should_not_be_modified = false)
    (hfind : index_obj_find_position idx x = none) (shrink_threshold : Int) (mem_ok : Bool) :
    index_obj_remove idx x shrink_threshold mem_ok = none := by
  unfold index_obj_remove thread_unsafe_index_obj_remove
  simp only [hfr, hfind, Bool.false_eq_true, if_false]

theorem index_insert_all_append {α : Type} [Inhabited α] (ow : Bool) (xs ys : List α) :
    ∀ idx : index_obj_t α, index_insert_all ow idx (xs ++ ys)
      = (index_insert_all ow idx xs).bind (fun idx1 => index_insert_all ow idx1 ys) := by
  induction xs with
  | nil =>
    intro idx
    rfl
  | cons x xs ih =>
    intro idx
    show index_insert_all ow idx (x :: (xs ++ ys)) = _
    simp only [index_insert_all]
    cases index_obj_insert idx x ow true with
    | none => rfl
    | some r =>
      dsimp only
      by_cases hrc : r.rc = 0
      · rw [if_pos hrc, if_pos hrc]
        exact ih r.idx
      · rw [if_neg hrc, if_neg hrc]
        rfl

/-- A run of inserts whose last call is a fault returns nothing. -/
theorem index_run_insert_fault {α : Type} [Inhabited α] (ow : Bool) (y : α) (xs : List α) :
    ∀ idx idx1 : index_obj_t α, index_insert_all ow idx xs = some idx1 →
      index_obj_insert idx1 y ow true = none →
      index_run idx ((xs ++ [y]).map (fun x => index_call.insert x ow true)) = none := by
  induction xs with
  | nil =>
    intro idx idx1 h hy
    cases h
    simp only [List.nil_append, List.map_cons, List.map_nil, index_run, index_step, hy]
  | cons x xs ih =>
    intro idx idx1 h hy
    simp only [index_insert_all] at h
    show index_run idx (index_call.insert x ow true ::
      List.map (fun x => index_call.insert x ow true) (xs ++ [y])) = none
    simp only [index_run, index_step]
    cases hx : index_obj_insert idx x ow true with
    | none =>
      rfl
    | some r =>
      rw [hx] at h
      dsimp only at h
      by_cases hrc : r.rc = 0
      · rw [if_pos hrc] at h
        dsimp only
        rw [ih r.idx idx1 h hy]
      · rw [if_neg hrc] at h
        cases h

theorem index_ascending_succ (count : Nat) :
    index_ascending (count + 1) = index_ascending count ++ [(count : Int)] := by
  simp [index_ascending, List.range_succ]

theorem index_ascending_length (count : Nat) : (index_ascending count).length = count := by
  unfold index_ascending
  rw [List.length_map, List.length_range]

theorem index_ascending_mem (count : Nat) (x : Int) (hx : x ∈ index_ascending count) :
    0 ≤ x ∧ x < count := by
  unfold index_ascending at hx
  obtain ⟨k, hk, rfl⟩ := List.mem_map.mp hx
  have := List.mem_range.mp hk
  simp only [Int.ofNat_eq_coe]
  omega

theorem index_ascending_distinct (count : Nat) :
    (index_ascending count).Pairwise (fun a b => cmp_int a b ≠ 0) := by
  unfold index_ascending
  rw [List.pairwise_map]
  refine (List.pairwise_lt_range count).imp ?_
  intro a b hab
  simp only [cmp_int, Int.ofNat_eq_coe]
  omega

theorem index_ascending_increasing (count : Nat) :
    (index_ascending count).Pairwise (fun a b => a < b) := by
  unfold index_ascending
  rw [List.pairwise_map]
  refine (List.pairwise_lt_range count).imp ?_
  intro a b hab
  simp only [Int.ofNat_eq_coe]
  omega

/-- The inserts of `0, 1, ..., 2^30` into an empty index that may grow all
succeed and leave `2^30 + 1` cells in order; the insert of `2^30 + 1` that
follows is a fault, in the binary search. -/
theorem index_insert_ascending_overflow (count : Nat) (hcount : count = 1073741825)
    (y : Int) (hy : y = count) (ow : Bool) (idx : index_obj_t Int) (hcmp : idx.cmpf = cmp_int)
    (hwf : idx.wf) (hs : idx.sorted) (hfr : idx.should_not_be_modified = false)
    (hn : idx.n = 0) (hexp : 0 < idx.expansion_size) (hexpr : idx.expansion_size < 1073741824) :
    ∃ idx1, index_insert_all ow idx (index_ascending count) = some idx1 ∧ idx1.n = count ∧
      idx1.live = index_ascending count ∧ idx1.sorted ∧
      index_obj_find_position idx1 y = none ∧ index_obj_insert idx1 y ow true = none := by
  have hlive0 : idx.live = [] := by
    unfold index_obj_t.live
    rw [hn]
    rfl
  obtain ⟨idx1, h1, hcmp1, hs1, hwf1, hfr1, hn1, hperm⟩ :=
    index_insert_all_spec cmp_int cmp_int_total_order ow (index_ascending count) idx hcmp hwf hs
      hfr hexp hexpr (by rw [index_ascending_length, hn]; omega)
      (index_ascending_distinct count) (by rw [hlive0]; intro x _ e he; cases he)
  rw [index_ascending_length, hn] at hn1
  have hfind : index_obj_find_position idx1 y = none := by
    refine index_obj_find_position_overflow idx1 y (by omega)
      (by rw [hwf1.len]; exact hwf1.n_le) ?_
    intro k e hk hek
    have he : e ∈ idx1.live := by
      have hlive : idx1.live[k]? = some e := by
        rw [index_live_getElem? idx1 k (by omega)]
        exact hek
      exact List.getElem?_mem hlive
    have he2 := hperm.subset he
    rw [hlive0, List.append_nil] at he2
    have := index_ascending_mem count e he2
    rw [hcmp1]
    unfold cmp_int
    omega
  have hlive : idx1.live = index_ascending count := by
    rw [hlive0, List.append_nil] at hperm
    have hlt : idx1.live.Pairwise (fun a b => a < b) := by
      refine List.Pairwise.imp ?_ hs1
      intro a b hab
      rw [hcmp1] at hab
      unfold cmp_int at hab
      omega
    exact List.eq_of_perm_of_sorted hperm hlt (index_ascending_increasing count)
  exact ⟨idx1, h1, by omega, hlive, hs1, hfind, index_insert_overflow idx1 y hfr1 hfind ow true⟩

theorem index_ascending_getElem? (count k : Nat) (hk : k < count) :
    (index_ascending count)[k]? = some (k : Int) := by
  unfold index_ascending
  rw [List.getElem?_map, List.getElem?_range hk]
  rfl

/-- An index of the `2^30 + 1` cells `0, 1, ..., 2^30` is in order, and the
binary search for an element that is not below the last cell reads a cell
outside the array. -/
theorem index_large_facts (count last : Nat) (hcount : count = 1073741825)
    (hlast : last + 1 = count) (idx : index_obj_t Int) (hcmp : idx.cmpf = cmp_int)
    (hn : idx.n = count) (hmax : idx.maximum_size = count)
    (hel : idx.elements = index_ascending count) :
    idx.wf ∧ idx.sorted ∧ idx.live = index_ascending count ∧
    idx.live[last]? = some (last : Int) ∧
    (∀ e ∈ idx.live, idx.cmpf (count : Int) e ≠ 0) ∧
    (∀ x : Int, (last : Int) ≤ x → index_obj_find_position idx x = none) := by
  have hlen : idx.elements.length = count := by rw [hel, index_ascending_length]
  have hlive : idx.live = index_ascending count := by
    unfold index_obj_t.live
    rw [hn, Int.toNat_ofNat, hel]
    exact List.take_of_length_le (le_of_eq (index_ascending_length count))
  refine ⟨⟨by omega, by omega, by omega⟩, ?_, hlive, ?_, ?_, ?_⟩
  · unfold index_obj_t.sorted
    rw [hlive, hcmp]
    refine (index_ascending_increasing _).imp ?_
    intro a b hab
    unfold cmp_int
    omega
  · rw [hlive]
    exact index_ascending_getElem? count last (by omega)
  · rw [hlive, hcmp]
    intro e he
    have := index_ascending_mem _ e he
    unfold cmp_int
    omega
  · intro x hx
    refine index_obj_find_position_overflow idx x (by omega) (by omega) ?_
    intro k e hk hek
    rw [hel, index_ascending_getElem? count k (by omega)] at hek
    cases hek
    rw [hcmp]
    unfold cmp_int
    omega

theorem index_example_large_facts (expansion_size : Int) :
    (index_example_large expansion_size).wf ∧ (index_example_large expansion_size).sorted ∧
    (index_example_large expansion_size).live = index_ascending 1073741825 ∧
    (index_example_large expansion_size).live[1073741824]? = some 1073741824 ∧
    (∀ e ∈ (index_example_large expansion_size).live,
      (index_example_large expansion_size).cmpf 1073741825 e ≠ 0) ∧
    (∀ x : Int, 1073741824 ≤ x →
      index_obj_find_position (index_example_large expansion_size) x = none) := by
  have hel : (index_example_large expansion_size).elements = index_ascending 1073741825 := by
    simp only [index_example_large]
  exact index_large_facts 1073741825 1073741824 rfl rfl (index_example_large expansion_size)
    rfl rfl rfl hel

theorem index_example_empty_init :
    index_obj_init cmp_int 1024 1024 true = .ok index_example_empty := rfl

theorem index_example_empty_facts :
    index_example_empty.cmpf = cmp_int ∧ index_example_empty.wf ∧ index_example_empty.sorted ∧
      index_example_empty.should_not_be_modified = false ∧ index_example_empty.n = 0 := by
  obtain ⟨h1, h2, h3, h4, _, h6⟩ := index_init_wf cmp_int 1024 1024 index_example_empty rfl
  exact ⟨h1, h2, h3, h4, h6⟩

/-- C3 fails on the code once the index holds more than `2^30` cells. The
index is made by `index_obj_init` with `1024` cells that grow by `1024`, the
comparator is the difference of two integers, a consistent total order, and
the calls are the inserts of `0, 1, ..., 2^30 + 1` in this order. The first
`2^30 + 1` inserts succeed and leave `2^30 + 1` cells in order. The binary
search of the next insert reaches `lo = hi = 2^30`, where `hi + lo` is `2^31`
and does not fit an `int`: `mid` is negative, the read of `elements[mid]` is
outside the array, and the run has no state after this call. -/
theorem index_run_midpoint_overflow :
    cmp_total_order cmp_int ∧
    index_obj_init cmp_int 1024 1024 true = .ok index_example_empty ∧
    (∃ idx1, index_insert_all false index_example_empty (index_ascending 1073741825)
        = some idx1 ∧ idx1.n = 1073741825 ∧ idx1.sorted ∧
      index_obj_find_position idx1 1073741825 = none) ∧
    index_run index_example_empty
      ((index_ascending 1073741825 ++ [1073741825]).map
        (fun x => index_call.insert x false true)) = none := by
  obtain ⟨hcmp, hwf, hs, hfr, hn⟩ := index_example_empty_facts
  obtain ⟨idx1, h1, hn1, _, hs1, hfind, hins⟩ :=
    index_insert_ascending_overflow 1073741825 rfl 1073741825 rfl false index_example_empty
      hcmp hwf hs hfr hn (by decide) (by decide)
  exact ⟨cmp_int_total_order, rfl, ⟨idx1, h1, hn1, hs1, hfind⟩,
    index_run_insert_fault false 1073741825 _ index_example_empty idx1 h1 hins⟩

/-- C4 fails on the code for a list of more than `2^30 + 1` elements. The
elements are `0, 1, ..., 2^30 + 1`, pairwise distinct, inserted in this order
into the empty index of `1024` cells that grow by `1024`. After the first
`2^30 + 1` of them the index holds them in order; the insert of the last one
searches `2^30 + 1` cells, adds `hi = 2^30` and `lo = 2^30` in an `int`, and
reads `elements[mid]` at a negative `mid`: the inserts do not give the sorted
list of `2^30 + 2` elements. -/
theorem index_insert_all_midpoint_overflow :
    (index_ascending 1073741826).Pairwise (fun a b => cmp_int a b ≠ 0) ∧
    (index_ascending 1073741826).length = 1073741826 ∧
    index_example_empty.n = 0 ∧ 0 < index_example_empty.expansion_size ∧
    (∃ idx1, index_insert_all false index_example_empty (index_ascending 1073741825)
        = some idx1 ∧ idx1.live = index_ascending 1073741825 ∧
      index_obj_insert idx1 1073741825 false true = none) ∧
    index_insert_all false index_example_empty (index_ascending 1073741826) = none := by
  obtain ⟨hcmp, hwf, hs, hfr, hn⟩ := index_example_empty_facts
  obtain ⟨idx1, h1, hn1, hlive, hs1, hfind, hins⟩ :=
    index_insert_ascending_overflow 1073741825 rfl 1073741825 rfl false index_example_empty
      hcmp hwf hs hfr hn (by decide) (by decide)
  refine ⟨index_ascending_distinct _, index_ascending_length _, rfl, by decide,
    ⟨idx1, h1, hlive, hins⟩, ?_⟩
  · rw [show (1073741826 : Nat) = 1073741825 + 1 from rfl, index_ascending_succ,
      index_insert_all_append, h1]
    show index_insert_all false idx1 [((1073741825 : Nat) : Int)] = none
    unfold index_insert_all
    rw [show (((1073741825 : Nat) : Int)) = 1073741825 from rfl, hins]

theorem index_example_wf : index_example.wf := ⟨by decide, by decide, by decide⟩

theorem index_example_sorted : index_example.sorted := by
  simp [index_obj_t.sorted, index_obj_t.live, index_example, cmp_int]

theorem index_example_full_wf : index_example_full.wf := ⟨by decide, by decide, by decide⟩

theorem index_example_full_sorted : index_example_full.sorted := by
  simp [index_obj_t.sorted, index_obj_t.live, index_example_full, cmp_int]

theorem index_example_fixed_wf : index_example_fixed.wf := ⟨by decide, by decide, by decide⟩

theorem index_example_fixed_sorted : index_example_fixed.sorted := by
  simp [index_obj_t.sorted, index_obj_t.live, index_example_fixed, cmp_int]

/-- An index whose two cells are in the order of `compare_attributes`, which is
not a total order: the attribute `2147483647` is stored at index `1`, and the
binary search for it looks at index `0` only, where the difference
`2147483647 - (-1)` wraps to a negative number. -/
theorem index_example_attributes_facts :
    index_example_attributes.wf ∧ index_example_attributes.sorted ∧
    index_example_attributes.live = [attribute_example (-1), attribute_example 2147483647] ∧
    index_example_attributes.live[1]? = some (attribute_example 2147483647) ∧
    index_example_attributes.cmpf (attribute_example 2147483647)
      (attribute_example 2147483647) = 0 ∧
    index_example_attributes.cmpf (attribute_example 2147483647) (attribute_example (-1))
      = -2147483648 ∧
    ¬ cmp_total_order compare_attributes := by
  refine ⟨⟨by decide, by decide, by decide⟩, ?_, rfl, rfl, by decide, by decide, ?_⟩
  · unfold index_obj_t.sorted
    decide
  · intro h
    have h1 := (h.antisymm (attribute_example 2147483647) (attribute_example (-1))).mp
      (by decide)
    revert h1
    decide

/-- C5 as stated fails in two ways. For a comparator that is not a total
order: in the index of the attributes `-1` and `2147483647`, which is strictly
increasing under `compare_attributes`, the cell at index `1` compares equal to
the searched attribute `2147483647`, and `index_obj_find_position` returns `-1`
with the insertion point `0`. And on more than `2^30` cells: in the strictly
increasing index of the integers `0, 1, ..., 2^30` the search for `2^30 + 1`,
which compares equal to no cell, does not return `-1` with an insertion point;
it adds `hi = 2^30` and `lo = 2^30` in an `int` and reads `elements[mid]`
outside the array. -/
theorem index_obj_find_position_fails :
    (index_example_attributes.sorted ∧
      index_example_attributes.live[1]? = some (attribute_example 2147483647) ∧
      index_example_attributes.cmpf (attribute_example 2147483647)
        (attribute_example 2147483647) = 0 ∧
      index_obj_find_position index_example_attributes (attribute_example 2147483647)
        = some (-1, some 0)) ∧
    ((index_example_large 0).sorted ∧ cmp_total_order (index_example_large 0).cmpf ∧
      (∀ e ∈ (index_example_large 0).live, (index_example_large 0).cmpf 1073741825 e ≠ 0) ∧
      index_obj_find_position (index_example_large 0) 1073741825 = none) := by
  obtain ⟨_, hs, _, _, hno, hfind⟩ := index_example_large_facts 0
  refine ⟨⟨?_, rfl, by decide, by decide⟩, hs, cmp_int_total_order, hno,
    hfind 1073741825 (by decide)⟩
  unfold index_obj_t.sorted
  decide

/-- C5 amended: insertion-point correctness of the binary search for a
comparator that is a consistent total order and at most `2^30` cells. On an
index whose cells `elements[0..n)` (`0 <= n <= 2^30`, inside the array) are
strictly increasing under such a comparator: if the searched element compares
equal to none of them, `index_obj_find_position` returns `-1` and records an
insertion point `p` with `0 <= p <= n` such that every cell below `p` compares
less than the searched element and every cell at `p` or above compares
greater; if the cell `i` compares equal, it returns `i`. -/
theorem index_obj_find_position_insertion_point {α : Type} (idx : index_obj_t α)
    (htot : cmp_total_order idx.cmpf) (hn0 : 0 ≤ idx.n)
    (hlen : idx.n ≤ idx.elements.length) (hsmall : idx.n ≤ 1073741824) (hs : idx.sorted)
    (x : α) :
    ((∀ e ∈ idx.live, idx.cmpf x e ≠ 0) →
      ∃ p : Nat, (p : Int) ≤ idx.n ∧
        index_obj_find_position idx x = some (-1, some (p : Int)) ∧
        ∀ (k : Nat) (e : α), idx.live[k]? = some e →
          (k < p → idx.cmpf e x < 0 ∧ 0 < idx.cmpf x e) ∧
          (p ≤ k → 0 < idx.cmpf e x ∧ idx.cmpf x e < 0)) ∧
    (∀ (i : Nat) (e : α), idx.live[i]? = some e → idx.cmpf x e = 0 →
      index_obj_find_position idx x = some ((i : Int), none)) := by
  have hll := index_live_length idx hn0 hlen
  constructor
  · intro hno
    rcases index_obj_find_position_spec idx htot hn0 hlen hsmall hs x with
      ⟨i, e, he, hc, _⟩ | ⟨p, hp, hfind, hb, ha⟩
    · exact absurd hc (hno e (List.getElem?_mem he))
    · refine ⟨p, by omega, hfind, ?_⟩
      intro k e he
      have hk : k < idx.live.length := by
        by_contra h
        rw [List.getElem?_eq_none (by omega)] at he
        cases he
      rw [List.getElem?_eq_getElem hk] at he
      cases he
      constructor
      · intro hkp
        have hmem : idx.live[k] ∈ idx.live.take p :=
          List.mem_iff_getElem.mpr ⟨k, by rw [List.length_take]; omega, by simp⟩
        exact ⟨(htot.antisymm _ _).mpr (hb _ hmem), hb _ hmem⟩
      · intro hkp
        have hmem : idx.live[k] ∈ idx.live.drop p :=
          List.mem_iff_getElem.mpr ⟨k - p, by rw [List.length_drop]; omega, by
            simp [show p + (k - p) = k by omega]⟩
        exact ⟨(htot.antisymm _ _).mp (ha _ hmem), ha _ hmem⟩
  · intro i e he hc
    rcases index_obj_find_position_spec idx htot hn0 hlen hsmall hs x with
      ⟨j, e2, he2, hc2, hr⟩ | ⟨p, hp, _, hb, ha⟩
    · have hij : j = i := by
        by_contra hne
        rcases Nat.lt_or_gt_of_ne hne with hlt | hgt
        · have h1 := index_sorted_get idx hs j i e2 e hlt he2 he
          have h2 := cmp_congr_right htot e2 e x h1 (cmp_eq_symm htot x e hc)
          have h3 := cmp_eq_symm htot x e2 hc2
          omega
        · have h1 := index_sorted_get idx hs i j e e2 hgt he he2
          have h2 := cmp_congr_right htot e e2 x h1 (cmp_eq_symm htot x e2 hc2)
          have h3 := cmp_eq_symm htot x e hc
          omega
      rw [hr, hij]
    · have hmem : e ∈ idx.live := List.getElem?_mem he
      rw [← List.take_append_drop p idx.live] at hmem
      rcases List.mem_append.mp hmem with h | h
      · have := hb e h
        omega
      · have := ha e h
        omega

/-- C5 witness: the cells `1, 3, 5, 7, 9`, and the searched elements `4`, which
goes to the insertion point `2`, and `7`, which is found at index `3`. -/
theorem index_obj_find_position_insertion_point_witness :
    (∃ p : Nat, (p : Int) ≤ index_example.n ∧
      index_obj_find_position index_example 4 = some (-1, some (p : Int)) ∧
      ∀ (k : Nat) (e : Int), index_example.live[k]? = some e →
        (k < p → index_example.cmpf e 4 < 0 ∧ 0 < index_example.cmpf 4 e) ∧
        (p ≤ k → 0 < index_example.cmpf e 4 ∧ index_example.cmpf 4 e < 0)) ∧
    index_obj_find_position index_example 4 = some (-1, some 2) ∧
    index_obj_find_position index_example 7 = some (3, none) :=
  ⟨(index_obj_find_position_insertion_point index_example cmp_int_total_order (by decide)
      (by decide) (by decide) index_example_sorted 4).1 (by decide),
    rfl,
    (index_obj_find_position_insertion_point index_example cmp_int_total_order (by decide)
      (by decide) (by decide) index_example_sorted 7).2 3 7 rfl rfl⟩

/-! ## Theorems: single calls of index_object.c -/

/-- A search for an element that compares equal to the stored cell `i`. -/
theorem index_search_hit {α : Type} [Inhabited α] (idx : index_obj_t α)
    (htot : cmp_total_order idx.cmpf) (hwf : idx.wf) (hs : idx.sorted)
    (hsmall : idx.n ≤ 1073741824) (x : α) (i : Nat) (e : α)
    (he : idx.live[i]? = some e) (hc : idx.cmpf x e = 0) :
    thread_unsafe_index_obj_search idx x = some ⟨0, e, (i : Int), idx⟩ := by
  obtain ⟨_, _, hel⟩ := index_live_elem idx i e he
  have hfind := index_find_hit idx htot hwf hs hsmall x i e he hc
  unfold thread_unsafe_index_obj_search
  simp only [hfind]
  rw [if_neg (by omega), array_read_nat _ _ i rfl, hel]

/-- A search for an element that compares equal to no stored one. -/
theorem index_search_miss {α : Type} [Inhabited α] (idx : index_obj_t α)
    (htot : cmp_total_order idx.cmpf) (hwf : idx.wf) (hs : idx.sorted)
    (hsmall : idx.n ≤ 1073741824) (x : α)
    (hno : ∀ e ∈ idx.live, idx.cmpf x e ≠ 0) :
    thread_unsafe_index_obj_search idx x = some ⟨ENODATA, default, -1, idx⟩ := by
  have hlenle : idx.n ≤ idx.elements.length := by rw [hwf.len]; exact hwf.n_le
  rcases index_obj_find_position_spec idx htot hwf.n_nonneg hlenle hsmall hs x with
    ⟨i, e, he, hc, _⟩ | ⟨p, hp, hfind, hb, ha⟩
  · exact absurd hc (hno e (List.getElem?_mem he))
  · unfold thread_unsafe_index_obj_search
    simp only [hfind]
    rw [if_pos (by omega)]

/-- Either some stored cell compares equal to `x`, or none does. -/
theorem index_hit_or_miss {α : Type} (idx : index_obj_t α) (x : α) :
    (∃ (i : Nat) (e : α), idx.live[i]? = some e ∧ idx.cmpf x e = 0) ∨
      (∀ e ∈ idx.live, idx.cmpf x e ≠ 0) := by
  by_cases hex : ∃ (i : Nat) (e : α), idx.live[i]? = some e ∧ idx.cmpf x e = 0
  · exact Or.inl hex
  · refine Or.inr ?_
    intro e hmem hc
    obtain ⟨i, hi⟩ := List.mem_iff_getElem?.mp hmem
    exact hex ⟨i, e, hi, hc⟩

/-- C12 as stated fails in two ways. For a comparator that is not a total
order: in the strictly increasing index of the attributes `-1` and `2147483647`
under `compare_attributes`, the attribute `2147483647` is stored at index `1`,
and `index_obj_search` for it returns `ENODATA` with `found = NULL` and
`index_found_at = -1`. And on more than `2^30` cells: in the strictly
increasing index of the integers `0, 1, ..., 2^30` the element `2^30` is stored
at index `2^30`, and `index_obj_search` for it does not return `0`; the binary
search adds `hi = 2^30` and `lo = 2^30` in an `int` and reads `elements[mid]`
outside the array. -/
theorem index_obj_search_fails :
    (index_example_attributes.sorted ∧
      index_example_attributes.live[1]? = some (attribute_example 2147483647) ∧
      index_example_attributes.cmpf (attribute_example 2147483647)
        (attribute_example 2147483647) = 0 ∧
      (index_obj_search index_example_attributes (attribute_example 2147483647)).map
        (fun r => (r.rc, r.data, r.found_at)) = some (ENODATA, default, -1)) ∧
    ((index_example_large 0).sorted ∧ cmp_total_order (index_example_large 0).cmpf ∧
      (index_example_large 0).live[1073741824]? = some 1073741824 ∧
      (index_example_large 0).cmpf 1073741824 1073741824 = 0 ∧
      index_obj_search (index_example_large 0) 1073741824 = none) := by
  obtain ⟨_, hs, _, hlast, _, hfind⟩ := index_example_large_facts 0
  refine ⟨⟨?_, rfl, by decide, by decide⟩, hs, cmp_int_total_order, hlast, by decide,
    index_search_overflow _ _ (hfind 1073741824 (by decide))⟩
  unfold index_obj_t.sorted
  decide

/-- C12 amended: search correctness and purity for a comparator that is a
consistent total order and at most `2^30` cells. On an index with
`0 <= n <= maximum_size`, the array holding `maximum_size` cells, `n <= 2^30`,
whose cells `elements[0..n)` are strictly increasing under such a comparator,
`index_obj_search` returns; it leaves the index as it was; it returns `0`
exactly when some stored element compares equal to the searched one, and then
`found` is the cell `elements[i]` that compares equal and `index_found_at` is
`i`; otherwise it returns `ENODATA` with `found = NULL` and
`index_found_at = -1`. -/
theorem index_obj_search_correct {α : Type} [Inhabited α] (idx : index_obj_t α)
    (htot : cmp_total_order idx.cmpf) (hwf : idx.wf) (hs : idx.sorted)
    (hsmall : idx.n ≤ 1073741824) (x : α) :
    ∃ r, index_obj_search idx x = some r ∧ r.idx = idx ∧
      (r.rc = 0 ↔ ∃ e ∈ idx.live, idx.cmpf x e = 0) ∧
      (r.rc = 0 → ∃ i : Nat, idx.live[i]? = some r.data ∧ r.found_at = (i : Int) ∧
        idx.cmpf x r.data = 0) ∧
      (r.rc ≠ 0 → r.rc = ENODATA ∧ r.data = default ∧ r.found_at = -1) := by
  rcases index_hit_or_miss idx x with ⟨i, e, he, hc⟩ | hno
  · refine ⟨_, index_search_hit idx htot hwf hs hsmall x i e he hc, rfl, ?_, ?_, ?_⟩
    · exact ⟨fun _ => ⟨e, List.getElem?_mem he, hc⟩, fun _ => rfl⟩
    · intro _
      exact ⟨i, he, rfl, hc⟩
    · intro h
      exact absurd rfl h
  · refine ⟨_, index_search_miss idx htot hwf hs hsmall x hno, rfl, ?_, ?_, ?_⟩
    · constructor
      · intro h
        simp [ENODATA] at h
      · rintro ⟨e, he, hc⟩
        exact absurd hc (hno e he)
    · intro h
      simp [ENODATA] at h
    · intro _
      exact ⟨rfl, rfl, rfl⟩

/-- C12 witness: the cells `1, 3, 5, 7, 9` searched for `7`, found at index
`3`. -/
theorem index_obj_search_correct_witness :
    ∃ r, index_obj_search index_example 7 = some r ∧ r.idx = index_example ∧
      (r.rc = 0 ↔ ∃ e ∈ index_example.live, index_example.cmpf 7 e = 0) ∧
      (r.rc = 0 → ∃ i : Nat, index_example.live[i]? = some r.data ∧ r.found_at = (i : Int) ∧
        index_example.cmpf 7 r.data = 0) ∧
      (r.rc ≠ 0 → r.rc = ENODATA ∧ r.data = default ∧ r.found_at = -1) :=
  index_obj_search_correct index_example cmp_int_total_order index_example_wf
    index_example_sorted (by decide) 7

/-- C13 as stated fails in four ways. On a frozen index the insert of the
stored element `3` returns `EBUSY` with `present_data = NULL`. For a comparator
that is not a total order, the insert without overwrite of the attribute
`2147483647`, stored at index `1` of a strictly increasing index, returns `0`
with `present_data = NULL` and puts a second copy at index `0`. On an index
that `index_obj_replace` has left out of order, `8, 3, 5, 7, 9`, the insert
without overwrite of the stored element `8` returns `0` with
`present_data = NULL` and puts a second `8` at index `4`. And on more than
`2^30` cells, in the strictly increasing index of the integers
`0, 1, ..., 2^30`, the insert of the element `2^30`, stored at index `2^30`,
does not return: the binary search adds `hi = 2^30` and `lo = 2^30` in an `int`
and reads `elements[mid]` outside the array. -/
theorem index_obj_insert_existing_fails :
    (index_example_frozen.live[1]? = some 3 ∧ index_example_frozen.cmpf 3 3 = 0 ∧
      (index_obj_insert index_example_frozen 3 true true).map (fun r => (r.rc, r.data))
        = some (EBUSY, 0)) ∧
    (index_example_attributes.sorted ∧
      index_example_attributes.live[1]? = some (attribute_example 2147483647) ∧
      index_example_attributes.cmpf (attribute_example 2147483647)
        (attribute_example 2147483647) = 0 ∧
      (index_obj_insert index_example_attributes (attribute_example 2147483647) false true).map
        (fun r => (r.rc, r.data, r.idx.n, r.idx.live))
        = some (0, default, 3, [attribute_example 2147483647, attribute_example (-1),
            attribute_example 2147483647])) ∧
    ((index_obj_replace index_example 0 8).map (fun r => (r.1, r.2.live))
        = some (0, [8, 3, 5, 7, 9]) ∧
      ((index_obj_replace index_example 0 8).bind
          (fun r => index_obj_insert r.2 8 false true)).map
        (fun r => (r.rc, r.data, r.idx.n, r.idx.live)) = some (0, 0, 6, [8, 3, 5, 7, 8, 9])) ∧
    ((index_example_large 0).sorted ∧ cmp_total_order (index_example_large 0).cmpf ∧
      (index_example_large 0).should_not_be_modified = false ∧
      (index_example_large 0).live[1073741824]? = some 1073741824 ∧
      (index_example_large 0).cmpf 1073741824 1073741824 = 0 ∧
      index_obj_insert (index_example_large 0) 1073741824 false true = none) := by
  obtain ⟨_, hs, _, hlast, _, hfind⟩ := index_example_large_facts 0
  refine ⟨⟨rfl, rfl, rfl⟩, ⟨?_, rfl, by decide, by decide⟩, ⟨by decide, by decide⟩,
    hs, cmp_int_total_order, rfl, hlast, by decide,
    index_insert_overflow _ _ rfl (hfind 1073741824 (by decide)) false true⟩
  unfold index_obj_t.sorted
  decide

/-- C13 amended: insert on an existing key of an index that is not frozen, for
a comparator that is a consistent total order and at most `2^30` cells. On an
index with `0 <= n <= maximum_size`, the array holding `maximum_size` cells,
`n <= 2^30`, whose cells are strictly increasing under such a comparator: if
the element `e` stored at index `i` compares equal to `data`,
`index_obj_insert` returns `0` and `present_data = e`; without overwrite the
index is unchanged, with overwrite only `elements[i]` changes and becomes
`data`. If no stored element compares equal and the insert succeeds,
`present_data = NULL`. -/
theorem index_obj_insert_existing {α : Type} [Inhabited α] (idx : index_obj_t α)
    (htot : cmp_total_order idx.cmpf) (hwf : idx.wf) (hs : idx.sorted)
    (hsmall : idx.n ≤ 1073741824) (hexpr : idx.expansion_size < 2147483648)
    (hfrozen : idx.should_not_be_modified = false) (data : α) (ow mem_ok : Bool) :
    (∀ (i : Nat) (e : α), idx.live[i]? = some e → idx.cmpf data e = 0 →
      index_obj_insert idx data ow mem_ok
        = some ⟨0, e, 0, if ow then { idx with elements := idx.elements.set i data } else idx⟩) ∧
    ((∀ e ∈ idx.live, idx.cmpf data e ≠ 0) →
      ∃ r, index_obj_insert idx data ow mem_ok = some r ∧ (r.rc = 0 → r.data = default)) := by
  constructor
  · intro i e he hc
    exact index_insert_hit idx htot hwf hs hsmall hfrozen data i e he hc ow mem_ok
  · intro hno
    obtain ⟨p, r, hr, _, _, _, hd, _⟩ :=
      index_insert_miss idx htot hwf hs hsmall hexpr hfrozen data hno ow mem_ok
    exact ⟨r, hr, fun _ => hd⟩

/-- C13 witness: `3` inserted with overwrite into the cells `1, 3, 5, 7, 9`, and
`4`, which is not stored. -/
theorem index_obj_insert_existing_witness :
    index_obj_insert index_example 3 true true
      = some ⟨0, 3, 0, if true then
          { index_example with elements := index_example.elements.set 1 3 }
        else index_example⟩ ∧
    ∃ r, index_obj_insert index_example 4 true true = some r ∧ (r.rc = 0 → r.data = default) :=
  ⟨(index_obj_insert_existing index_example cmp_int_total_order index_example_wf
      index_example_sorted (by decide) (by decide) rfl 3 true true).1 1 3 rfl rfl,
    (index_obj_insert_existing index_example cmp_int_total_order index_example_wf
      index_example_sorted (by decide) (by decide) rfl 4 true true).2 (by decide)⟩

/-- C14 as stated fails in two ways. For a comparator that is not a total
order: in the strictly increasing, unfrozen index of the attributes `-1` and
`2147483647` under `compare_attributes`, the attribute `2147483647` is stored
at index `1`, and `index_obj_remove` of it returns `ENODATA` with
`data_removed = NULL` and leaves both cells. And on more than `2^30` cells: in
the strictly increasing, unfrozen index of the integers `0, 1, ..., 2^30` the
element `2^30` is stored at index `2^30`, and `index_obj_remove` of it does not
return `0`; the binary search adds `hi = 2^30` and `lo = 2^30` in an `int` and
reads `elements[mid]` outside the array. -/
theorem index_obj_remove_fails :
    (index_example_attributes.sorted ∧
      index_example_attributes.should_not_be_modified = false ∧
      index_example_attributes.live[1]? = some (attribute_example 2147483647) ∧
      index_example_attributes.cmpf (attribute_example 2147483647)
        (attribute_example 2147483647) = 0 ∧
      (index_obj_remove index_example_attributes (attribute_example 2147483647) 0 true).map
        (fun r => (r.rc, r.data, r.idx.n, r.idx.live))
        = some (ENODATA, default, 2, [attribute_example (-1), attribute_example 2147483647])) ∧
    ((index_example_large 0).sorted ∧ cmp_total_order (index_example_large 0).cmpf ∧
      (index_example_large 0).should_not_be_modified = false ∧
      (index_example_large 0).live[1073741824]? = some 1073741824 ∧
      (index_example_large 0).cmpf 1073741824 1073741824 = 0 ∧
      index_obj_remove (index_example_large 0) 1073741824 0 true = none) := by
  obtain ⟨_, hs, _, hlast, _, hfind⟩ := index_example_large_facts 0
  refine ⟨⟨?_, rfl, rfl, by decide, by decide⟩, hs, cmp_int_total_order, rfl, hlast,
    by decide, index_remove_overflow _ _ rfl (hfind 1073741824 (by decide)) 0 true⟩
  unfold index_obj_t.sorted
  decide

/-- C14 amended: remove correctness for a comparator that is a consistent total
order and at most `2^30` cells. On an index that is not frozen, with
`0 <= n <= maximum_size`, the array holding `maximum_size` cells, `n <= 2^30`,
whose cells are strictly increasing under such a comparator, and a threshold
of type `int`: if the element stored at index `i` compares equal to `x`,
`index_obj_remove` returns `0`, `data_removed` is that element, `n` goes down
by one and `elements[0..n)` is the old sequence without position `i`; if no
stored element compares equal, it returns `ENODATA` with `data_removed = NULL`
and the index is unchanged. -/
theorem index_obj_remove_correct {α : Type} [Inhabited α] (idx : index_obj_t α)
    (htot : cmp_total_order idx.cmpf) (hwf : idx.wf) (hs : idx.sorted)
    (hsmall : idx.n ≤ 1073741824) (hmax : idx.maximum_size < 2147483648)
    (hfrozen : idx.should_not_be_modified = false) (x : α) (shrink_threshold : Int)
    (hshr : shrink_threshold < 2147483648) (mem_ok : Bool) :
    (∀ (i : Nat) (e : α), idx.live[i]? = some e → idx.cmpf x e = 0 →
      ∃ r, index_obj_remove idx x shrink_threshold mem_ok = some r ∧ r.rc = 0 ∧ r.data = e ∧
        r.idx.n = idx.n - 1 ∧ r.idx.live = idx.live.eraseIdx i) ∧
    ((∀ e ∈ idx.live, idx.cmpf x e ≠ 0) →
      index_obj_remove idx x shrink_threshold mem_ok = some ⟨ENODATA, default, 0, idx⟩) := by
  constructor
  · intro i e he hc
    obtain ⟨r, hr, hrc, hd, hn, hlive, _⟩ :=
      index_remove_hit idx htot hwf hs hsmall hmax hfrozen x i e he hc shrink_threshold hshr
        mem_ok
    exact ⟨r, hr, hrc, hd, hn, hlive⟩
  · intro hno
    exact index_remove_miss idx htot hwf hs hsmall hfrozen x hno shrink_threshold mem_ok

/-- C14 witness: `5` removed from the cells `1, 3, 5, 7, 9`, and `4`, which is
not stored. -/
theorem index_obj_remove_correct_witness :
    (∃ r, index_obj_remove index_example 5 0 true = some r ∧ r.rc = 0 ∧ r.data = 5 ∧
      r.idx.n = index_example.n - 1 ∧ r.idx.live = index_example.live.eraseIdx 2) ∧
    index_obj_remove index_example 4 0 true = some ⟨ENODATA, default, 0, index_example⟩ :=
  ⟨(index_obj_remove_correct index_example cmp_int_total_order index_example_wf
      index_example_sorted (by decide) (by decide) rfl 5 0 (by decide) true).1 2 5 rfl rfl,
    (index_obj_remove_correct index_example cmp_int_total_order index_example_wf
      index_example_sorted (by decide) (by decide) rfl 4 0 (by decide) true).2 (by decide)⟩

/-- C15 as stated fails in three ways. For a comparator that is not a total
order, the insert of the attribute `2147483647` into the full index of the
attributes `-1` and `2147483647` that may not grow returns `ENOSPC`, although
the cell at index `1` compares equal. On the full index `8, 3, 5` that
`index_obj_replace` has left out of order and that may not grow, the insert of
the stored element `8` returns `ENOSPC`. And on more than `2^30` cells, in the
full, unfrozen index of the integers `0, 1, ..., 2^30` that may not grow, the
insert of `2^30 + 1`, which no cell compares equal to, does not return
`ENOSPC`: the binary search adds `hi = 2^30` and `lo = 2^30` in an `int` and
reads `elements[mid]` outside the array. -/
theorem index_obj_insert_enospc_fails :
    (index_example_attributes_fixed.sorted ∧
      index_example_attributes_fixed.live[1]? = some (attribute_example 2147483647) ∧
      index_example_attributes_fixed.cmpf (attribute_example 2147483647)
        (attribute_example 2147483647) = 0 ∧
      (index_obj_insert index_example_attributes_fixed (attribute_example 2147483647)
        false true).map (fun r => r.rc) = some ENOSPC) ∧
    ((index_obj_replace index_example_fixed 0 8).map (fun r => (r.1, r.2.live))
        = some (0, [8, 3, 5]) ∧
      ((index_obj_replace index_example_fixed 0 8).bind
          (fun r => index_obj_insert r.2 8 false true)).map (fun r => r.rc) = some ENOSPC) ∧
    ((index_example_large 0).sorted ∧ cmp_total_order (index_example_large 0).cmpf ∧
      (index_example_large 0).should_not_be_modified = false ∧
      (∀ e ∈ (index_example_large 0).live, (index_example_large 0).cmpf 1073741825 e ≠ 0) ∧
      (index_example_large 0).n ≥ (index_example_large 0).maximum_size ∧
      (index_example_large 0).expansion_size ≤ 0 ∧
      index_obj_insert (index_example_large 0) 1073741825 false true = none) := by
  obtain ⟨_, hs, _, _, hno, hfind⟩ := index_example_large_facts 0
  refine ⟨⟨?_, rfl, by decide, by decide⟩, ⟨by decide, by decide⟩,
    hs, cmp_int_total_order, rfl, hno, by decide, by decide,
    index_insert_overflow _ _ rfl (hfind 1073741825 (by decide)) false true⟩
  unfold index_obj_t.sorted
  decide

/-- C15 amended: fixed-capacity overflow for a comparator that is a consistent
total order and at most `2^30` cells. On an index with
`0 <= n <= maximum_size`, the array holding `maximum_size` cells, `n <= 2^30`,
whose cells are strictly increasing under such a comparator,
`index_obj_insert` returns; it returns `ENOSPC` exactly when the index is not
frozen, no stored element compares equal to `data`, `n >= maximum_size` and
`expansion_size <= 0`; and then the index is left as it was. -/
theorem index_obj_insert_enospc {α : Type} [Inhabited α] (idx : index_obj_t α)
    (htot : cmp_total_order idx.cmpf) (hwf : idx.wf) (hs : idx.sorted)
    (hsmall : idx.n ≤ 1073741824) (hexpr : idx.expansion_size < 2147483648) (data : α)
    (ow mem_ok : Bool) :
    ∃ r, index_obj_insert idx data ow mem_ok = some r ∧
      (r.rc = ENOSPC ↔ (idx.should_not_be_modified = false ∧
        (∀ e ∈ idx.live, idx.cmpf data e ≠ 0) ∧ idx.n ≥ idx.maximum_size ∧
        idx.expansion_size ≤ 0)) ∧
      (r.rc = ENOSPC → r.idx = idx) := by
  cases hfr : idx.should_not_be_modified with
  | true =>
    refine ⟨_, index_insert_frozen idx hfr data ow mem_ok, ?_, ?_⟩
    · constructor
      · intro h
        simp [EBUSY, ENOSPC] at h
      · rintro ⟨h, _⟩
        cases h
    · intro _
      rfl
  | false =>
    rcases index_hit_or_miss idx data with ⟨i, e, he, hc⟩ | hno
    · refine ⟨_, index_insert_hit idx htot hwf hs hsmall hfr data i e he hc ow mem_ok, ?_, ?_⟩
      · constructor
        · intro h
          simp [ENOSPC] at h
        · rintro ⟨_, hno, _⟩
          exact absurd hc (hno e (List.getElem?_mem he))
      · intro h
        simp [ENOSPC] at h
    · obtain ⟨p, r, hr, _, _, _, _, hcase⟩ :=
        index_insert_miss idx htot hwf hs hsmall hexpr hfr data hno ow mem_ok
      refine ⟨r, hr, ?_, ?_⟩
      · rcases hcase with ⟨h1, h2, h3, _⟩ | ⟨_, h2, _, h4, _⟩ | ⟨h1, h2, _⟩
        · exact ⟨fun _ => ⟨rfl, hno, h1, h2⟩, fun _ => h3⟩
        · constructor
          · intro h
            rw [h4] at h
            simp [ENOSPC, ENOMEM] at h
          · rintro ⟨_, _, _, h⟩
            omega
        · constructor
          · intro h
            rw [h2] at h
            simp [ENOSPC] at h
          · rintro ⟨_, _, h3, h4⟩
            rcases h1 with h | ⟨h, _⟩ <;> omega
      · intro h
        rcases hcase with ⟨_, _, _, h4⟩ | ⟨_, _, _, h4, _⟩ | ⟨_, h2, _⟩
        · exact h4
        · rw [h4] at h
          simp [ENOSPC, ENOMEM] at h
        · rw [h2] at h
          simp [ENOSPC] at h

/-- C15 witness: `4` inserted into a full index that may not grow. -/
theorem index_obj_insert_enospc_witness :
    ∃ r, index_obj_insert index_example_fixed 4 false true = some r ∧
      (r.rc = ENOSPC ↔ (index_example_fixed.should_not_be_modified = false ∧
        (∀ e ∈ index_example_fixed.live, index_example_fixed.cmpf 4 e ≠ 0) ∧
        index_example_fixed.n ≥ index_example_fixed.maximum_size ∧
        index_example_fixed.expansion_size ≤ 0)) ∧
      (r.rc = ENOSPC → r.idx = index_example_fixed) :=
  index_obj_insert_enospc index_example_fixed cmp_int_total_order index_example_fixed_wf
    index_example_fixed_sorted (by decide) (by decide) 4 false true

/-- C16 as stated fails in five ways. On a frozen index that is full and may
grow, the insert of `4`, which is not stored, returns `EBUSY` and grows
nothing. For a comparator that is not a total order, the insert of the
attribute `-2` into the full index of the attributes `-1` and `2147483647`
puts it at index `0`, before the attribute `2147483647`, which does not compare
greater than it. On the full index `8, 3, 5` that `index_obj_replace` has left
out of order, the insert of `4` puts it at index `2`, behind the element `8`.
And on more than `2^30` cells, in the full, unfrozen index of the integers
`0, 1, ..., 2^30` that grows by one, the insert of `2^30 + 1`, which no cell
compares equal to, does not return: the binary search adds `hi = 2^30` and
`lo = 2^30` in an `int` and reads `elements[mid]` outside the array. Last, on
the full, unfrozen index `1, 3, 5` that grows by `2147483647`, the insert of `4`
with the allocation succeeding returns `ENOMEM` and grows nothing: the new
size `3 + 2147483647` does not fit an `int`. -/
theorem index_obj_insert_expand_fails :
    (index_example_frozen.n = index_example_frozen.maximum_size ∧
      0 < index_example_frozen.expansion_size ∧
      index_example_frozen.live = [1, 3, 5] ∧
      (index_obj_insert index_example_frozen 4 false true).map
        (fun r => (r.rc, r.idx.maximum_size, r.idx.n)) = some (EBUSY, 3, 3)) ∧
    (index_example_attributes_full.sorted ∧
      index_example_attributes_full.n = index_example_attributes_full.maximum_size ∧
      (index_obj_insert index_example_attributes_full (attribute_example (-2)) false true).map
        (fun r => (r.rc, r.idx.maximum_size, r.idx.live))
        = some (0, 4, [attribute_example (-2), attribute_example (-1),
            attribute_example 2147483647]) ∧
      index_example_attributes_full.cmpf (attribute_example (-2))
        (attribute_example 2147483647) = 2147483647) ∧
    ((index_obj_replace index_example_full 0 8).map (fun r => (r.1, r.2.live))
        = some (0, [8, 3, 5]) ∧
      ((index_obj_replace index_example_full 0 8).bind
          (fun r => index_obj_insert r.2 4 false true)).map
        (fun r => (r.rc, r.idx.maximum_size, r.idx.live)) = some (0, 5, [8, 3, 4, 5])) ∧
    ((index_example_large 1).sorted ∧ cmp_total_order (index_example_large 1).cmpf ∧
      (index_example_large 1).should_not_be_modified = false ∧
      (index_example_large 1).n = (index_example_large 1).maximum_size ∧
      0 < (index_example_large 1).expansion_size ∧
      (∀ e ∈ (index_example_large 1).live, (index_example_large 1).cmpf 1073741825 e ≠ 0) ∧
      index_obj_insert (index_example_large 1) 1073741825 false true = none) ∧
    (index_example_wide.sorted ∧ index_example_wide.should_not_be_modified = false ∧
      index_example_wide.n = index_example_wide.maximum_size ∧
      0 < index_example_wide.expansion_size ∧
      (∀ e ∈ index_example_wide.live, index_example_wide.cmpf 4 e ≠ 0) ∧
      (index_obj_insert index_example_wide 4 false true).map
        (fun r => (r.rc, r.idx.maximum_size, r.idx.n, r.idx.live))
        = some (ENOMEM, 3, 3, [1, 3, 5])) := by
  obtain ⟨_, hs, _, _, hno, hfind⟩ := index_example_large_facts 1
  refine ⟨⟨rfl, by decide, rfl, rfl⟩, ⟨?_, rfl, by decide, by decide⟩, ⟨by decide, by decide⟩,
    ⟨hs, cmp_int_total_order, rfl, rfl, by decide, hno,
      index_insert_overflow _ _ rfl (hfind 1073741825 (by decide)) false true⟩,
    ?_, rfl, rfl, by decide, by decide, by decide⟩
  · unfold index_obj_t.sorted
    decide
  · unfold index_obj_t.sorted
    decide

/-- C16 amended: auto-expansion of an index that is not frozen, for a
comparator that is a consistent total order and sizes that fit. On an index
with `0 <= n <= maximum_size`, the array holding `maximum_size` cells,
`n <= 2^30`, whose cells are strictly increasing under such a comparator: when
the index is full, `expansion_size > 0`, `maximum_size + expansion_size` is
below `2^31`, no stored element compares equal to `data` and the allocation
succeeds, `index_obj_insert` returns `0`, `maximum_size` grows by
`expansion_size`, `n` grows by one and `elements[0..n)` is the old sequence
with `data` put between the smaller and the greater elements; when the index
is not full, frozen or not, an insert does not change `maximum_size`. -/
theorem index_obj_insert_expand {α : Type} [Inhabited α] (idx : index_obj_t α)
    (htot : cmp_total_order idx.cmpf) (hwf : idx.wf) (hs : idx.sorted)
    (hsmall : idx.n ≤ 1073741824) (hexpr : idx.expansion_size < 2147483648) (data : α)
    (ow : Bool) :
    (idx.should_not_be_modified = false → idx.n = idx.maximum_size →
      0 < idx.expansion_size → idx.maximum_size + idx.expansion_size < 2147483648 →
      (∀ e ∈ idx.live, idx.cmpf data e ≠ 0) →
      ∃ (p : Nat) (r : index_result α), index_obj_insert idx data ow true = some r ∧ r.rc = 0 ∧
        r.idx.maximum_size = idx.maximum_size + idx.expansion_size ∧ r.idx.n = idx.n + 1 ∧
        r.idx.live = idx.live.take p ++ data :: idx.live.drop p ∧
        (∀ e ∈ idx.live.take p, idx.cmpf e data < 0) ∧
        (∀ e ∈ idx.live.drop p, idx.cmpf data e < 0) ∧ r.idx.sorted) ∧
    (idx.n < idx.maximum_size → ∀ mem_ok : Bool,
      ∃ r, index_obj_insert idx data ow mem_ok = some r ∧
        r.idx.maximum_size = idx.maximum_size) := by
  constructor
  · intro hfr hfull hexp hfit hno
    obtain ⟨p, r, hr, _, hb, ha, _, hcase⟩ :=
      index_insert_miss idx htot hwf hs hsmall hexpr hfr data hno ow true
    rcases hcase with ⟨_, h2, _⟩ | ⟨_, _, h3, _⟩ | ⟨_, hrc, hn, hmax, hcmp, _, _, _, hlive⟩
    · omega
    · rcases h3 with h3 | h3
      · cases h3
      · omega
    · refine ⟨p, r, hr, hrc, ?_, hn, hlive, ?_, ha, ?_⟩
      · rw [hmax, if_pos (by omega)]
      · intro e he
        exact (htot.antisymm _ _).mpr (hb e he)
      · unfold index_obj_t.sorted
        rw [hlive, hcmp]
        exact pairwise_insert_at htot idx.live hs p data hb ha
  · intro hlt mem_ok
    cases hfr : idx.should_not_be_modified with
    | true => exact ⟨_, index_insert_frozen idx hfr data ow mem_ok, rfl⟩
    | false =>
      rcases index_hit_or_miss idx data with ⟨i, e, he, hc⟩ | hno
      · refine ⟨_, index_insert_hit idx htot hwf hs hsmall hfr data i e he hc ow mem_ok, ?_⟩
        cases ow <;> rfl
      · obtain ⟨p, r, hr, _, _, _, _, hcase⟩ :=
          index_insert_miss idx htot hwf hs hsmall hexpr hfr data hno ow mem_ok
        refine ⟨r, hr, ?_⟩
        rcases hcase with ⟨h1, _⟩ | ⟨h1, _⟩ | ⟨_, _, _, hmax, _⟩
        · omega
        · omega
        · rw [hmax, if_neg (by omega)]

/-- C16 witness: `4` inserted into the full index `1, 3, 5` that grows by two,
and into the index `1, 3, 5, 7, 9` that has a free cell. -/
theorem index_obj_insert_expand_witness :
    (∃ (p : Nat) (r : index_result Int),
      index_obj_insert index_example_full 4 false true = some r ∧ r.rc = 0 ∧
      r.idx.maximum_size
        = index_example_full.maximum_size + index_example_full.expansion_size ∧
      r.idx.n = index_example_full.n + 1 ∧
      r.idx.live = index_example_full.live.take p ++ 4 :: index_example_full.live.drop p ∧
      (∀ e ∈ index_example_full.live.take p, index_example_full.cmpf e 4 < 0) ∧
      (∀ e ∈ index_example_full.live.drop p, index_example_full.cmpf 4 e < 0) ∧
      r.idx.sorted) ∧
    (∀ mem_ok : Bool, ∃ r, index_obj_insert index_example 4 false mem_ok = some r ∧
      r.idx.maximum_size = index_example.maximum_size) ∧
    (index_obj_insert index_example_full 4 false true).map
      (fun r => (r.rc, r.idx.maximum_size, r.idx.n, r.idx.live)) = some (0, 5, 4, [1, 3, 4, 5]) :=
  ⟨(index_obj_insert_expand index_example_full cmp_int_total_order index_example_full_wf
      index_example_full_sorted (by decide) (by decide) 4 false).1 rfl rfl (by decide)
      (by decide) (by decide),
    (index_obj_insert_expand index_example cmp_int_total_order index_example_wf
      index_example_sorted (by decide) (by decide) 4 false).2 (by decide), rfl⟩

/-- An index that the binary search returns is the index of a cell between
`lo` and `hi` that compares equal to the searched element, for any comparator:
a sum `hi + lo` that wraps gives a negative `mid`, and the read of that cell
is a fault. -/
theorem index_obj_find_loop_found {α : Type} (cmpf : α → α → Int) (elements : List α) (x : α)
    (n : Nat) (hn31 : (n : Int) < 2147483648) :
    ∀ (fuel : Nat) (lo hi mid diff i : Int) (ip : Option Int), 0 ≤ lo → hi < n →
      index_obj_find_loop cmpf elements x fuel lo hi mid diff = some (i, ip) → 0 ≤ i →
      ∃ (k : Nat) (e : α), i = k ∧ k < n ∧ elements[k]? = some e ∧ cmpf x e = 0 := by
  intro fuel
  induction fuel with
  | zero =>
    intro lo hi mid diff i ip _ _ h _
    simp [index_obj_find_loop] at h
  | succ fuel ih =>
    intro lo hi mid diff i ip hlo hhi h hi0
    unfold index_obj_find_loop at h
    by_cases hc : lo ≤ hi
    · rw [if_pos hc] at h
      by_cases hover : hi + lo ≥ 2147483648
      · have hneg : wrap_int32 (hi + lo) / 2 < 0 := by
          unfold wrap_int32
          omega
        have hread : array_read elements (wrap_int32 (hi + lo) / 2) = none := by
          unfold array_read
          rw [if_neg (by omega)]
        rw [hread] at h
        cases h
      · have hw : wrap_int32 (hi + lo) = hi + lo := by
          unfold wrap_int32
          omega
        rw [hw] at h
        obtain ⟨m, hm⟩ : ∃ m : Nat, (hi + lo) / 2 = m := ⟨((hi + lo) / 2).toNat, by omega⟩
        rw [hm, array_read_nat _ _ m rfl] at h
        cases hread : elements[m]? with
        | none =>
          rw [hread] at h
          cases h
        | some e =>
          rw [hread] at h
          dsimp only at h
          by_cases h1 : cmpf x e > 0
          · rw [if_pos h1] at h
            exact ih _ _ _ _ i ip (by omega) hhi h hi0
          · rw [if_neg h1] at h
            by_cases h2 : cmpf x e < 0
            · rw [if_pos h2] at h
              exact ih _ _ _ _ i ip hlo (by omega) h hi0
            · rw [if_neg h2] at h
              cases h
              exact ⟨m, e, rfl, by omega, hread, by omega⟩
    · rw [if_neg hc] at h
      cases h
      omega

/-- C17 shrink on remove. On an index with `0 <= n <= maximum_size`, the array
holding `maximum_size` cells, `maximum_size` and the threshold `t` of type
`int`, and any comparator, after an `index_obj_remove` with threshold `t` that
returned `0`: the count `n2` is the old one less one; the new `maximum_size`
is `n2 + t` if `t > 0`, `maximum_size - n2 > t` and the allocation succeeded,
and the old `maximum_size` otherwise, so that it never changes with `t <= 0`;
the remaining elements are those that the removal without shrink leaves, in
the same order, and `n2 <= maximum_size`. -/
theorem index_obj_remove_shrink {α : Type} [Inhabited α] (idx : index_obj_t α)
    (hwf : idx.wf) (hmax : idx.maximum_size < 2147483648) (x : α) (t : Int)
    (ht : t < 2147483648) (mem_ok : Bool) (r : index_result α)
    (hr : index_obj_remove idx x t mem_ok = some r) (hrc : r.rc = 0) :
    r.idx.n = idx.n - 1 ∧
      r.idx.maximum_size = (if t > 0 ∧ idx.maximum_size - (idx.n - 1) > t ∧ mem_ok = true then
        idx.n - 1 + t else idx.maximum_size) ∧
      (t ≤ 0 → r.idx.maximum_size = idx.maximum_size) ∧
      r.idx.n ≤ r.idx.maximum_size ∧
      (∃ (i : Nat) (e : α), idx.live[i]? = some e ∧ idx.cmpf x e = 0 ∧
        r.idx.live = idx.live.eraseIdx i) ∧
      (∃ r0, index_obj_remove idx x 0 mem_ok = some r0 ∧ r0.rc = 0 ∧
        r0.idx.maximum_size = idx.maximum_size ∧ r.idx.live = r0.idx.live) := by
  cases hfr : idx.should_not_be_modified with
  | true =>
    have h := index_remove_frozen idx hfr x t mem_ok
    unfold index_obj_remove at hr
    rw [h] at hr
    cases hr
    simp [EBUSY] at hrc
  | false =>
    obtain ⟨N, hN⟩ : ∃ N : Nat, idx.n = N := ⟨idx.n.toNat, by have := hwf.n_nonneg; omega⟩
    cases hfind : index_obj_find_position idx x with
    | none =>
      unfold index_obj_remove thread_unsafe_index_obj_remove at hr
      simp [hfr, hfind] at hr
    | some res =>
      obtain ⟨j, ip⟩ := res
      by_cases hj : j < 0
      · unfold index_obj_remove thread_unsafe_index_obj_remove at hr
        simp only [hfr, hfind, Bool.false_eq_true, if_false, if_pos hj] at hr
        cases hr
        simp [ENODATA] at hrc
      · have hfind2 := hfind
        unfold index_obj_find_position at hfind2
        obtain ⟨i, e, hji, hiN, hel, hc⟩ :=
          index_obj_find_loop_found idx.cmpf idx.elements x N
            (by have := hwf.n_le; omega) _ 0 (idx.n - 1) 0 0 j ip (le_refl 0) (by omega)
            hfind2 (by omega)
        subst hji
        have he : idx.live[i]? = some e := by
          rw [index_live_getElem? idx i (by omega)]
          exact hel
        obtain ⟨r1, hr1, _, _, hn, hlive, hwf1, _, _, _, hmax1⟩ :=
          index_remove_at idx hwf hmax hfr x i e ip he hfind t ht mem_ok
        obtain ⟨r0, hr0, hrc0, _, _, hlive0, _, _, _, _, hmax0⟩ :=
          index_remove_at idx hwf hmax hfr x i e ip he hfind 0 (by omega) mem_ok
        unfold index_obj_remove at hr
        rw [hr1] at hr
        cases hr
        have hmax2 : r.idx.maximum_size = (if t > 0 ∧ idx.maximum_size - (idx.n - 1) > t ∧
            mem_ok = true then idx.n - 1 + t else idx.maximum_size) := by
          rw [hmax1]
          by_cases hcond : t > 0 ∧ idx.maximum_size > idx.n - 1 + t ∧ mem_ok = true
          · rw [if_pos hcond, if_pos ⟨hcond.1, by omega, hcond.2.2⟩]
          · rw [if_neg hcond, if_neg]
            intro h
            exact hcond ⟨h.1, by omega, h.2.2⟩
        refine ⟨hn, hmax2, ?_, ?_, ⟨i, e, he, hc, hlive⟩, ⟨r0, hr0, hrc0, ?_, ?_⟩⟩
        · intro ht0
          rw [hmax2, if_neg]
          intro h
          omega
        · exact hwf1.n_le
        · rw [hmax0, if_neg]
          intro h
          omega
        · rw [hlive, hlive0]

/-- C17 witness: `5` removed from the cells `1, 3, 5, 7, 9` of an array of six
with threshold `1`; the array shrinks to five cells. -/
theorem index_obj_remove_shrink_witness :
    index_example.wf ∧ index_example.maximum_size < 2147483648 ∧
      index_obj_remove index_example 5 1 true
        = some ⟨0, 5, 0, ⟨false, cmp_int, 5, 2, 4, [1, 3, 7, 9, 0]⟩⟩ ∧
      (⟨0, 5, 0, ⟨false, cmp_int, 5, 2, 4, [1, 3, 7, 9, 0]⟩⟩ : index_result Int).idx.maximum_size
        = (if (1 : Int) > 0 ∧ index_example.maximum_size - (index_example.n - 1) > 1 ∧
            true = true then index_example.n - 1 + 1 else index_example.maximum_size) ∧
      (⟨0, 5, 0, ⟨false, cmp_int, 5, 2, 4, [1, 3, 7, 9, 0]⟩⟩ : index_result Int).idx.live
        = [1, 3, 7, 9] :=
  ⟨index_example_wf, by decide, rfl,
    (index_obj_remove_shrink index_example index_example_wf (by decide) 5 1 (by decide) true
      ⟨0, 5, 0, ⟨false, cmp_int, 5, 2, 4, [1, 3, 7, 9, 0]⟩⟩ rfl rfl).2.1, rfl⟩

/-- C18 positional replace. On an index with its `n` cells inside the array,
`index_obj_replace` returns `EINVAL` and changes nothing when `i < 0` or
`i >= n`; otherwise it returns `0` and only `elements[i]` changes and becomes
`new_data`; if moreover the cells are strictly increasing under a comparator
that is a consistent total order and `new_data` compares equal to the element
it replaces, the cells stay strictly increasing. -/
theorem index_obj_replace_correct {α : Type} (idx : index_obj_t α) (hwf : idx.wf) (i : Int)
    (new_data : α) :
    ((i < 0 ∨ i ≥ idx.n) → index_obj_replace idx i new_data = some (EINVAL, idx)) ∧
    ((0 ≤ i ∧ i < idx.n) →
      index_obj_replace idx i new_data
        = some (0, { idx with elements := idx.elements.set i.toNat new_data }) ∧
      (∀ e : α, cmp_total_order idx.cmpf → idx.sorted → idx.live[i.toNat]? = some e →
        idx.cmpf new_data e = 0 →
        ({ idx with elements := idx.elements.set i.toNat new_data } : index_obj_t α).sorted)) := by
  constructor
  · intro h
    unfold index_obj_replace thread_unsafe_index_obj_replace
    rw [if_pos h]
  · intro h
    constructor
    · unfold index_obj_replace thread_unsafe_index_obj_replace
      rw [if_neg (by omega)]
      rw [array_write_nat idx.elements i i.toNat new_data (by omega)
        (by have := hwf.len; have := hwf.n_le; omega)]
    · intro e htot hs he hc
      unfold index_obj_t.sorted
      rw [index_live_set]
      exact pairwise_set_equal htot idx.live hs i.toNat e new_data he hc

/-- C18 witness: cell `2` of the cells `1, 3, 5, 7, 9` replaced by `5`. -/
theorem index_obj_replace_correct_witness :
    index_example.wf ∧
      (((2 : Int) < 0 ∨ (2 : Int) ≥ index_example.n) →
        index_obj_replace index_example 2 5 = some (EINVAL, index_example)) ∧
      ((0 ≤ (2 : Int) ∧ (2 : Int) < index_example.n) →
        index_obj_replace index_example 2 5
          = some (0, { index_example with
              elements := index_example.elements.set (2 : Int).toNat 5 }) ∧
        (∀ e : Int, cmp_total_order index_example.cmpf → index_example.sorted →
          index_example.live[(2 : Int).toNat]? = some e → index_example.cmpf 5 e = 0 →
          ({ index_example with
              elements := index_example.elements.set (2 : Int).toNat 5 } :
            index_obj_t Int).sorted)) :=
  ⟨index_example_wf, index_obj_replace_correct index_example index_example_wf 2 5⟩

/-- C19 freeze guard of the ordered index. While `should_not_be_modified` is
set, `index_obj_insert` and `index_obj_remove` return `EBUSY` for every
argument, also for an element that is present with overwrite asked for; their
output pointer is `NULL` and the index is left as it was. -/
theorem index_obj_freeze_guard {α : Type} [Inhabited α] (idx : index_obj_t α)
    (hfrozen : idx.should_not_be_modified = true) (data : α) (ow mem_ok : Bool)
    (shrink_threshold : Int) :
    index_obj_insert idx data ow mem_ok = some ⟨EBUSY, default, 0, idx⟩ ∧
      index_obj_remove idx data shrink_threshold mem_ok = some ⟨EBUSY, default, 0, idx⟩ := by
  constructor
  · simp [index_obj_insert, thread_unsafe_index_obj_insert, hfrozen]
  · simp [index_obj_remove, thread_unsafe_index_obj_remove, hfrozen]

/-- C19 witness: the frozen index `1, 3, 5` and the element `3`, which is
present, with overwrite. -/
theorem index_obj_freeze_guard_witness :
    index_example_frozen.should_not_be_modified = true ∧
      index_obj_insert index_example_frozen 3 true true
        = some ⟨EBUSY, default, 0, index_example_frozen⟩ ∧
      index_obj_remove index_example_frozen 3 1 true
        = some ⟨EBUSY, default, 0, index_example_frozen⟩ :=
  ⟨rfl, index_obj_freeze_guard index_example_frozen rfl 3 true true 1⟩
/-! ## Theorems: object_manager.c -/

/-- C6 at the root: on a manager fresh from `om_init`, `om_object_create` for the
key `(0, 0)`, which exists, reads the parent of the existing object through its
`NULL` parent pointer and faults, whatever parent is asked for. -/
theorem om_object_create_root_faults (parent_object_type parent_object_instance : Int) :
    (om_init 1).map (fun o => om_object_exists o 0 0) = some true ∧
      (om_init 1).map (fun o =>
        (om_object_create o parent_object_type parent_object_instance 0 0 true).isNone)
        = some true :=
  ⟨rfl, rfl⟩

/-- Creating an object whose key exists and whose recorded parent can be read:
the call returns `0` exactly when the parent asked for is the recorded one,
`EFAULT` otherwise, and the manager is the same in both cases. -/
theorem om_object_create_existing (omp : object_manager_t)
    (parent_object_type parent_object_instance object_type object_instance : Int)
    (existing : object_t) (pot poi : Int)
    (hex : get_object_pointer omp object_type object_instance = some existing)
    (hp : get_ot_and_oi omp (some existing.parent) = some (pot, poi)) :
    om_object_create omp parent_object_type parent_object_instance object_type
        object_instance true
      = some (if pot = parent_object_type ∧ poi = parent_object_instance then 0 else EFAULT,
          omp) := by
  unfold get_object_pointer at hex
  unfold om_object_create om_object_create_engine
  simp only [Bool.not_true, Bool.false_eq_true, if_false, hex, hp]
  by_cases h : pot = parent_object_type ∧ poi = parent_object_instance
  · obtain ⟨h1, h2⟩ := h
    subst h1 h2
    simp
  · rw [if_neg h]
    have h2 : pot ≠ parent_object_type ∨ poi ≠ parent_object_instance := by
      by_contra hc
      push_neg at hc
      exact h hc
    simp [h2]

/-- C8 at extreme attribute ids: the object `(1, 1)` holds the attributes `-1`
and `2147483647`; setting `2147483647` to a value of another length returns
`0`, but the search compares `2147483647` with `-1`, the `int` difference wraps
to a negative value, the attribute is not found and a second attribute
`2147483647` is inserted in front. -/
theorem om_attribute_add_duplicates_extreme_id :
    om_example_extreme_ids.map (fun o => om_attribute_ids o 1 1)
        = some (some [-1, 2147483647]) ∧
      (om_example_extreme_ids.bind (fun o => om_attribute_add o 1 1 2147483647 2 [9, 9] true)).map
        (fun r => (r.1, om_attribute_ids r.2 1 1))
        = some (0, some [2147483647, -1, 2147483647]) :=
  ⟨rfl, rfl⟩

/-- The example of C8: the attribute `7`, between the attributes `5` and `9`, set
to three bytes, then to five, then to three again keeps its place. -/
theorem om_attribute_add_keeps_position :
    (((((om_example_tree.bind
      (fun o => (om_attribute_add o 1 1 9 1 [0] true).map Prod.snd)).bind
      (fun o => (om_attribute_add o 1 1 7 3 [1, 2, 3] true).map Prod.snd)).bind
      (fun o => (om_attribute_add o 1 1 7 5 [1, 2, 3, 4, 5] true).map Prod.snd)).bind
      (fun o => (om_attribute_add o 1 1 7 3 [6, 7, 8] true).map Prod.snd)).map
      (fun o => om_attribute_values o 1 1))
      = some (some [(5, [1, 2, 3]), (7, [6, 7, 8]), (9, [0])]) := by
  rfl

/-- C10 on the example store: `om_write` reaches the root `(0, 0)`, reads its
parent through the `NULL` parent pointer and faults, so that nothing is there
for `om_read` to load, whatever the attribute writer is. -/
theorem om_write_faults_at_root (write_attribute : attribute_t → List Int) :
    om_example_tree.map (fun o => om_object_exists o 0 0 && om_object_exists o 1 1 &&
        om_object_exists o 2 1) = some true ∧
      om_example_tree.map (fun o => (om_write write_attribute o o.om_objects true).isNone)
        = some true :=
  ⟨rfl, rfl⟩

/-- In whatever order the objects are visited, `om_write` faults as soon as
one of them has a `NULL` parent pointer, as the root has. -/
theorem om_write_faults_of_null_parent (write_attribute : attribute_t → List Int)
    (omp : object_manager_t) (visit : List object_t) (o : object_t) (ho : o ∈ visit)
    (hp : o.parent = .object_ptr none) : om_write write_attribute omp visit true = none := by
  have h : avl_tree_morris_traverse (om_write_one_object_tfn write_attribute omp) visit
      = none := by
    induction visit with
    | nil => cases ho
    | cons a as ih =>
      rcases List.mem_cons.mp ho with rfl | hin
      · simp [avl_tree_morris_traverse, om_write_one_object_tfn, hp, get_ot_and_oi]
      · unfold avl_tree_morris_traverse
        cases om_write_one_object_tfn write_attribute omp a with
        | none => rfl
        | some line => simp [ih hin]
  simp [om_write, h]

/-! ## Theorems: create, attributes and parent lookup in object_manager.c -/

/-- C26 with the parent key equal to the new key. `(5, 5)` is not in the
manager; `om_object_create (5, 5)` under the parent `(5, 5)` returns `0`. The
new object is put into the lookup before its parent is searched, so the search
finds the object itself: it holds a resolved parent pointer to itself, although
no `(5, 5)` existed, and `lifo_init` has emptied the children list it was just
put on, so it is in no child collection. -/
theorem om_object_create_own_parent :
    (om_init 1).map (fun o => om_object_exists o 5 5) = some false ∧
      ((om_init 1).bind (fun o => om_object_create o 5 5 5 5 true)).map
        (fun r => (r.1, (get_object_pointer r.2 5 5).map (fun k => (k.parent, k.children))))
        = some (0, some (.object_ptr (some ⟨5, 5⟩), [])) :=
  ⟨rfl, rfl⟩

/-- The examples of C26 with a parent key other than the new key: under the
existing root, `(5, 5)` gets a resolved parent pointer and heads the root's
children; under the absent `(6, 6)` it records that key; both times the call
returns `0`, `om_parent_get` yields the parent key and there is one object
more. -/
theorem om_object_create_new_examples :
    ((om_init 1).bind (fun o => om_object_create o 0 0 5 5 true)).map
        (fun r => (r.1, (get_object_pointer r.2 5 5).map (fun k => k.parent),
          (get_object_pointer r.2 0 0).map (fun k => k.children), om_parent_get r.2 5 5,
          om_object_count r.2))
        = some (0, some (.object_ptr (some ⟨0, 0⟩)), some [⟨5, 5⟩], some (0, 0, 0), 2) ∧
      ((om_init 1).bind (fun o => om_object_create o 6 6 5 5 true)).map
        (fun r => (r.1, (get_object_pointer r.2 5 5).map (fun k => k.parent),
          (get_object_pointer r.2 0 0).map (fun k => k.children), om_parent_get r.2 5 5,
          om_object_count r.2))
        = some (0, some (.object_id ⟨6, 6⟩), some [], some (0, 6, 6), 2) :=
  ⟨rfl, rfl⟩

theorem avl_tree_search_key (objects : List object_t) (k : object_identifier_t) (o : object_t)
    (h : avl_tree_search objects k = some o) : o.key = k := by
  unfold avl_tree_search at h
  have := List.find?_some h
  exact eq_of_beq this

theorem avl_tree_search_append (objects : List object_t) (obj : object_t)
    (k : object_identifier_t) :
    avl_tree_search (objects ++ [obj]) k
      = match avl_tree_search objects k with
        | some o => some o
        | none => if obj.key = k then some obj else none := by
  unfold avl_tree_search
  rw [List.find?_append]
  cases List.find? (fun o => o.key == k) objects with
  | some o => rfl
  | none =>
    by_cases hk : obj.key = k
    · simp [List.find?, hk]
    · have hb : (obj.key == k) = false := beq_eq_false_iff_ne.mpr hk
      simp [List.find?, hk, hb]

theorem avl_tree_search_update (omp : object_manager_t) (k j : object_identifier_t)
    (f : object_t → object_t) (hf : ∀ o, (f o).key = o.key) :
    avl_tree_search (om_update omp j f).om_objects k
      = (avl_tree_search omp.om_objects k).map (fun o => if o.key = j then f o else o) := by
  unfold avl_tree_search om_update
  dsimp only
  induction omp.om_objects with
  | nil => rfl
  | cons o os ih =>
    have hkey : (if (o.key == j) = true then f o else o).key = o.key := by
      split
      · exact hf o
      · rfl
    simp only [List.map_cons, List.find?_cons, hkey]
    cases hok : o.key == k with
    | true => simp
    | false => exact ih

theorem om_update_count (omp : object_manager_t) (j : object_identifier_t)
    (f : object_t → object_t) : om_object_count (om_update omp j f) = om_object_count omp := by
  simp [om_object_count, om_update]

theorem om_search_set_parent (omp : object_manager_t) (k j : object_identifier_t)
    (parent : object_representation_t) :
    avl_tree_search (om_update omp j
        (fun o => { o with parent := parent, children := [] })).om_objects k
      = (avl_tree_search omp.om_objects k).map
          (fun o => if o.key = j then { o with parent := parent, children := [] } else o) :=
  avl_tree_search_update omp k j _ (fun _ => rfl)

theorem om_search_add_child (omp : object_manager_t) (k j child : object_identifier_t) :
    avl_tree_search (om_update omp j
        (fun p => { p with children := child :: p.children })).om_objects k
      = (avl_tree_search omp.om_objects k).map
          (fun o => if o.key = j then { o with children := child :: o.children } else o) :=
  avl_tree_search_update omp k j _ (fun _ => rfl)

/-- The rest of C26: on every manager, for a key that is not in it and a parent
key other than that key, with the allocation succeeding, `om_object_create`
returns `0`; afterwards the key exists, there is one object more, the existence
of every other key is as before and `om_parent_get` yields the parent key; if
the parent existed the object holds a pointer to it and heads its children,
otherwise it records the parent key. -/
theorem om_object_create_new (omp : object_manager_t) (pt pi ot oi : Int)
    (hnew : om_object_exists omp ot oi = false)
    (hpk : (⟨pt, pi⟩ : object_identifier_t) ≠ ⟨ot, oi⟩) :
    ∃ omp1, om_object_create omp pt pi ot oi true = some (0, omp1) ∧
      om_object_exists omp1 ot oi = true ∧
      om_object_count omp1 = om_object_count omp + 1 ∧
      (∀ t i : Int, (⟨t, i⟩ : object_identifier_t) ≠ ⟨ot, oi⟩ →
        om_object_exists omp1 t i = om_object_exists omp t i) ∧
      om_parent_get omp1 ot oi = some (0, pt, pi) ∧
      (om_object_exists omp pt pi = true →
        (get_object_pointer omp1 ot oi).map (fun o => o.parent)
          = some (.object_ptr (some ⟨pt, pi⟩)) ∧
        (get_object_pointer omp1 pt pi).map (fun p => p.children)
          = (get_object_pointer omp pt pi).map (fun p => ⟨ot, oi⟩ :: p.children)) ∧
      (om_object_exists omp pt pi = false →
        (get_object_pointer omp1 ot oi).map (fun o => o.parent)
          = some (.object_id ⟨pt, pi⟩)) := by
  have hk : avl_tree_search omp.om_objects ⟨ot, oi⟩ = none := by
    unfold om_object_exists get_object_pointer at hnew
    cases h : avl_tree_search omp.om_objects ⟨ot, oi⟩ with
    | none => rfl
    | some o => rw [h] at hnew; cases hnew
  have hkp : ¬ ((⟨ot, oi⟩ : object_identifier_t) = ⟨pt, pi⟩) := fun h => hpk h.symm
  have hother : ∀ (t i : Int) (obj : object_t), obj.key = ⟨ot, oi⟩ →
      (⟨t, i⟩ : object_identifier_t) ≠ ⟨ot, oi⟩ →
      (avl_tree_search (omp.om_objects ++ [obj]) ⟨t, i⟩).isSome
        = (avl_tree_search omp.om_objects ⟨t, i⟩).isSome := by
    intro t i obj hobj hti
    rw [avl_tree_search_append]
    cases avl_tree_search omp.om_objects ⟨t, i⟩ with
    | some o => rfl
    | none =>
      rw [hobj]
      have hne : ¬ ((⟨ot, oi⟩ : object_identifier_t) = ⟨t, i⟩) := fun h => hti h.symm
      dsimp only
      rw [if_neg hne]
  unfold om_object_create om_object_create_engine
  simp only [Bool.not_true, Bool.false_eq_true, if_false, hk, index_obj_init]
  rw [if_neg (by decide)]
  simp only [Bool.not_true, Bool.false_eq_true, if_false, get_object_pointer]
  generalize hobj : (object_t.mk ot oi (.object_id ⟨0, 0⟩) []
    ⟨false, compare_attributes, 8, 8, 0, List.replicate (Int.toNat 8) default⟩) = obj0
  have hkey0 : obj0.key = ⟨ot, oi⟩ := by rw [← hobj]; rfl
  have hself : avl_tree_search (omp.om_objects ++ [obj0]) ⟨ot, oi⟩ = some obj0 := by
    rw [avl_tree_search_append, hk]
    simp [hkey0]
  have hparent : avl_tree_search (omp.om_objects ++ [obj0]) ⟨pt, pi⟩
      = avl_tree_search omp.om_objects ⟨pt, pi⟩ := by
    rw [avl_tree_search_append]
    cases avl_tree_search omp.om_objects ⟨pt, pi⟩ with
    | some o => rfl
    | none => simp [hkey0, hkp]
  rw [hparent]
  cases hp : avl_tree_search omp.om_objects ⟨pt, pi⟩ with
  | none =>
    simp only [Option.isSome_some, if_true]
    refine ⟨_, rfl, ?_, ?_, ?_, ?_, ?_, ?_⟩
    · unfold om_object_exists get_object_pointer
      rw [om_search_set_parent]
      simp only [hself]
      rfl
    · rw [om_update_count]
      simp [om_object_count]
    · intro t i hti
      unfold om_object_exists get_object_pointer
      rw [om_search_set_parent, Option.isSome_map']
      exact hother t i obj0 hkey0 hti
    · unfold om_parent_get get_object_pointer
      rw [om_search_set_parent]
      simp only [hself, Option.map_some', hkey0, if_true]
      rfl
    · intro hex
      simp only [om_object_exists, get_object_pointer, hp] at hex
      cases hex
    · intro _
      rw [om_search_set_parent]
      simp only [hself, Option.map_some', hkey0, if_true]
  | some parent =>
    have hpkey := avl_tree_search_key _ _ _ hp
    rw [hkey0]
    simp only [Option.isSome_some, if_true]
    refine ⟨_, rfl, ?_, ?_, ?_, ?_, ?_, ?_⟩
    · unfold om_object_exists get_object_pointer
      rw [om_search_set_parent, om_search_add_child]
      simp only [hself]
      rfl
    · rw [om_update_count, om_update_count]
      simp [om_object_count]
    · intro t i hti
      unfold om_object_exists get_object_pointer
      rw [om_search_set_parent, om_search_add_child, Option.isSome_map', Option.isSome_map']
      exact hother t i obj0 hkey0 hti
    · unfold om_parent_get get_object_pointer
      rw [om_search_set_parent, om_search_add_child]
      simp only [hself, Option.map_some', hkey0, hpkey, hkp, if_true, if_false, get_ot_and_oi]
      rw [om_search_set_parent, om_search_add_child, hparent, hp]
      have h1 : parent.object_type = pt := congrArg object_identifier_t.object_type hpkey
      have h2 : parent.object_instance = pi :=
        congrArg object_identifier_t.object_instance hpkey
      simp only [Option.map_some', hpkey, hpk, if_true, if_false, h1, h2]
      simp [object_t.key, hpk]
    · intro _
      rw [om_search_set_parent, om_search_add_child, om_search_set_parent,
        om_search_add_child, hparent, hp]
      simp only [hself, Option.map_some', hkey0, hpkey, hkp, hpk, if_true, if_false]
      have h1 : parent.object_type = pt := congrArg object_identifier_t.object_type hpkey
      have h2 : parent.object_instance = pi :=
        congrArg object_identifier_t.object_instance hpkey
      simp [object_t.key, h1, h2, hpk]
    · intro hex
      simp only [om_object_exists, get_object_pointer, hp] at hex
      cases hex

/-- C27 at extreme attribute ids: the object `(1, 1)` holds the attributes `-1`
and `2147483647`; `om_attribute_add` of `2147483647` with the two bytes `9, 9`
returns `0`, and afterwards the object holds two attributes with that id, the
new one of two bytes and the old one of one byte. -/
theorem om_attribute_add_two_values_extreme_id :
    om_example_extreme_ids.map (fun o => om_attribute_values o 1 1)
        = some (some [(-1, [8]), (2147483647, [9])]) ∧
      (om_example_extreme_ids.bind
          (fun o => om_attribute_add o 1 1 2147483647 2 [9, 9] true)).map
        (fun r => (r.1, om_attribute_values r.2 1 1))
        = some (0, some [(2147483647, [9, 9]), (-1, [8]), (2147483647, [9])]) :=
  ⟨rfl, rfl⟩

/-- The examples of C27 with small ids: on the object `(1, 1)`, which holds the
attribute `5` with the bytes `1, 2, 3`, setting `5` to no bytes keeps the
attribute with an empty value, setting `3` adds it in front, the object `(2, 1)`
stays as it was, and on the absent object `(9, 9)` the call returns `ENODATA`
and changes nothing. -/
theorem om_attribute_add_examples :
    (om_example_tree.bind (fun o => om_attribute_add o 1 1 5 0 [] true)).map
        (fun r => (r.1, om_attribute_values r.2 1 1, om_attribute_values r.2 2 1))
        = some (0, some [(5, [])], some [(5, [1, 2, 3])]) ∧
      (om_example_tree.bind (fun o => om_attribute_add o 1 1 3 2 [4, 4] true)).map
        (fun r => (r.1, om_attribute_values r.2 1 1, om_attribute_values r.2 2 1))
        = some (0, some [(3, [4, 4]), (5, [1, 2, 3])], some [(5, [1, 2, 3])]) ∧
      (om_example_tree.bind (fun o => om_attribute_add o 9 9 3 2 [4, 4] true)).map
        (fun r => (r.1, om_attribute_values r.2 1 1, om_attribute_values r.2 2 1))
        = some (ENODATA, some [(5, [1, 2, 3])], some [(5, [1, 2, 3])]) :=
  ⟨rfl, rfl, rfl⟩

/-- C28 at extreme attribute ids: the object `(1, 1)` holds the attributes `-1`
and `2147483647`; `om_attribute_remove` of `2147483647` returns `ENODATA`
although the attribute is there, and both attributes stay, whatever the shrink
threshold is. -/
theorem om_attribute_remove_misses_extreme_id (shrink_threshold : Int) :
    om_example_extreme_ids.map (fun o => om_attribute_values o 1 1)
        = some (some [(-1, [8]), (2147483647, [9])]) ∧
      (om_example_extreme_ids.bind
          (fun o => om_attribute_remove o 1 1 2147483647 shrink_threshold true)).map
        (fun r => (r.1, om_attribute_values r.2 1 1))
        = some (ENODATA, some [(-1, [8]), (2147483647, [9])]) :=
  ⟨rfl, rfl⟩

/-- The examples of C28 with small ids: removing the attribute `5` of `(1, 1)`
returns `0` and leaves the object without it, the object `(2, 1)` keeping its
own; removing the absent attribute `6`, or an attribute of the absent object
`(9, 9)`, returns `ENODATA` and changes nothing. -/
theorem om_attribute_remove_examples :
    (om_example_tree.bind (fun o => om_attribute_remove o 1 1 5 0 true)).map
        (fun r => (r.1, om_attribute_values r.2 1 1, om_attribute_values r.2 2 1))
        = some (0, some [], some [(5, [1, 2, 3])]) ∧
      (om_example_tree.bind (fun o => om_attribute_remove o 1 1 6 0 true)).map
        (fun r => (r.1, om_attribute_values r.2 1 1, om_attribute_values r.2 2 1))
        = some (ENODATA, some [(5, [1, 2, 3])], some [(5, [1, 2, 3])]) ∧
      (om_example_tree.bind (fun o => om_attribute_remove o 9 9 6 0 true)).map
        (fun r => (r.1, om_attribute_values r.2 1 1, om_attribute_values r.2 2 1))
        = some (ENODATA, some [(5, [1, 2, 3])], some [(5, [1, 2, 3])]) :=
  ⟨rfl, rfl, rfl⟩

/-- C29 at an absent key and at the root: in a manager that holds the root
only, `(5, 5)` is absent and `om_parent_get (5, 5)` reads `obj->parent` through
the `NULL` object, a fault; `om_parent_get (0, 0)` reads the object behind the
`NULL` parent pointer of the root, a fault as well. -/
theorem om_parent_get_faults :
    (om_init 1).map (fun o => (om_object_exists o 5 5, om_parent_get o 5 5))
        = some (false, none) ∧
      (om_init 1).map (fun o => (om_object_exists o 0 0, om_parent_get o 0 0))
        = some (true, none) :=
  ⟨rfl, rfl⟩

/-- On every manager, `om_parent_get` of a key that is not in it faults. -/
theorem om_parent_get_absent (omp : object_manager_t) (object_type object_instance : Int)
    (h : om_object_exists omp object_type object_instance = false) :
    om_parent_get omp object_type object_instance = none := by
  unfold om_object_exists at h
  unfold om_parent_get
  cases hg : get_object_pointer omp object_type object_instance with
  | none => rfl
  | some o => rw [hg] at h; cases h

/-- The example of C29 below the root: the parent of `(2, 1)` is `(1, 1)` and the
parent of `(1, 1)` is the root, both read with return value `0`. -/
theorem om_parent_get_examples :
    om_example_tree.map (fun o => (om_parent_get o 2 1, om_parent_get o 1 1))
      = some (some (0, 1, 1), some (0, 0, 0)) := by
  rfl
/-! ## Theorems: list.c -/

theorem list_cell_lt (nodes : List (Option list_node_t)) (a : Nat) (nd : list_node_t)
    (h : list_cell nodes a = some nd) : a < nodes.length := by
  unfold list_cell at h
  by_contra hc
  rw [List.getElem?_eq_none (by omega)] at h
  cases h

theorem list_cell_set (nodes : List (Option list_node_t)) (a b : Nat) (v : Option list_node_t)
    (ha : a < nodes.length) :
    list_cell (nodes.set a v) b = if b = a then v else list_cell nodes b := by
  unfold list_cell
  by_cases hb : b = a
  · subst hb
    rw [List.getElem?_set_self ha, if_pos rfl]
    cases v <;> rfl
  · rw [List.getElem?_set_ne (Ne.symm hb), if_neg hb]

theorem list_cell_append (nodes : List (Option list_node_t)) (b : Nat) (v : list_node_t) :
    list_cell (nodes ++ [some v]) b
      = if b = nodes.length then some v else list_cell nodes b := by
  unfold list_cell
  by_cases hb : b = nodes.length
  · subst hb
    rw [if_pos rfl, List.getElem?_append_right (Nat.le_refl _)]
    simp
  · rw [if_neg hb]
    by_cases hlt : b < nodes.length
    · rw [List.getElem?_append_left hlt]
    · rw [List.getElem?_eq_none (by simp; omega), List.getElem?_eq_none (by omega)]

theorem list_node_write_eq (list : list_t) (a : Nat) (f : list_node_t → list_node_t)
    (nd : list_node_t) (h : list_cell list.nodes a = some nd) :
    list_node_write list a f
      = some ⟨list.head, list.tail, list.n_max, list.n, list.nodes.set a (some (f nd))⟩ := by
  unfold list_node_write list_node_read
  rw [h]

theorem list_nodup_index (addrs : List Nat) (hnd : addrs.Nodup) (i j a : Nat)
    (hi : addrs[i]? = some a) (hj : addrs[j]? = some a) : i = j := by
  have hil : i < addrs.length := by
    by_contra hc
    rw [List.getElem?_eq_none (by omega)] at hi
    cases hi
  have hjl : j < addrs.length := by
    by_contra hc
    rw [List.getElem?_eq_none (by omega)] at hj
    cases hj
  rw [List.getElem?_eq_getElem hil] at hi
  rw [List.getElem?_eq_getElem hjl] at hj
  have h : addrs[i] = addrs[j] := by rw [Option.some.inj hi, Option.some.inj hj]
  exact (List.Nodup.getElem_inj_iff hnd).mp h

theorem list_remove_spec (list : list_t) (a : Nat) (nd : list_node_t)
    (hread : list_cell list.nodes a = some nd)
    (hnext : ∀ nx, nd.next = some nx → ∃ q, list_cell list.nodes nx = some q)
    (hprev : ∀ p, nd.prev = some p → ∃ q, list_cell list.nodes p = some q)
    (hn : list.n ≥ 1) :
    ∃ l2, thread_unsafe_list_remove_node list a = some (0, l2) ∧
      l2.n = list.n - 1 ∧ l2.n_max = list.n_max ∧
      l2.head = (if nd.prev = none then nd.next else list.head) ∧
      l2.tail = (if nd.next = none then nd.prev else list.tail) ∧
      list_cell l2.nodes a = none ∧ l2.nodes.length = list.nodes.length ∧
      ∀ b q, b ≠ a → list_cell list.nodes b = some q →
        list_cell l2.nodes b = some ⟨if nd.prev = some b then nd.next else q.next,
          if nd.next = some b then nd.prev else q.prev, q.data⟩ := by
  have ha := list_cell_lt _ _ _ hread
  have hn1 : list.n - 1 ≥ 0 := by omega
  unfold thread_unsafe_list_remove_node list_node_read
  rw [hread]
  obtain ⟨nxt, prv, dat⟩ := nd
  cases nxt with
  | none =>
    cases prv with
    | none =>
      dsimp only
      rw [if_pos hn1]
      refine ⟨_, rfl, rfl, rfl, rfl, rfl, ?_, by simp, ?_⟩
      · dsimp only
        rw [list_cell_set _ _ _ _ ha, if_pos rfl]
      · intro b q hb hq
        dsimp only
        rw [list_cell_set _ _ _ _ ha, if_neg hb, hq]
        simp
    | some p =>
      obtain ⟨qp, hqp⟩ := hprev p rfl
      have hpl := list_cell_lt _ _ _ hqp
      dsimp only
      rw [list_node_write_eq list p _ qp hqp]
      dsimp only
      rw [if_pos hn1]
      refine ⟨_, rfl, rfl, rfl, rfl, rfl, ?_, by simp, ?_⟩
      · dsimp only
        rw [list_cell_set _ _ _ _ (by simpa using ha), if_pos rfl]
      · intro b q hb hq
        dsimp only
        rw [list_cell_set _ _ _ _ (by simpa using ha), if_neg hb, list_cell_set _ _ _ _ hpl]
        by_cases hbp : b = p
        · subst hbp
          rw [hqp] at hq
          cases hq
          simp
        · rw [if_neg hbp, hq]
          have : ¬ (p = b) := fun h => hbp h.symm
          simp [this]
  | some nx =>
    obtain ⟨qn, hqn⟩ := hnext nx rfl
    have hnl := list_cell_lt _ _ _ hqn
    cases prv with
    | none =>
      dsimp only
      rw [list_node_write_eq ⟨some nx, list.tail, list.n_max, list.n, list.nodes⟩ nx _ qn hqn]
      dsimp only
      rw [if_pos hn1]
      refine ⟨_, rfl, rfl, rfl, rfl, rfl, ?_, by simp, ?_⟩
      · dsimp only
        rw [list_cell_set _ _ _ _ (by simpa using ha), if_pos rfl]
      · intro b q hb hq
        dsimp only
        rw [list_cell_set _ _ _ _ (by simpa using ha), if_neg hb, list_cell_set _ _ _ _ hnl]
        by_cases hbn : b = nx
        · subst hbn
          rw [hqn] at hq
          cases hq
          simp
        · rw [if_neg hbn, hq]
          have : ¬ (nx = b) := fun h => hbn h.symm
          simp [this]
    | some p =>
      obtain ⟨qp, hqp⟩ := hprev p rfl
      have hpl := list_cell_lt _ _ _ hqp
      dsimp only
      rw [list_node_write_eq list p _ qp hqp]
      dsimp only
      have hqn2 : list_cell (list.nodes.set p (some { qp with next := some nx })) nx
          = some (if nx = p then { qp with next := some nx } else qn) := by
        rw [list_cell_set _ _ _ _ hpl]
        split
        · rfl
        · exact hqn
      rw [list_node_write_eq ⟨list.head, list.tail, list.n_max, list.n, _⟩ nx _ _ hqn2]
      dsimp only
      rw [if_pos hn1]
      refine ⟨_, rfl, rfl, rfl, rfl, rfl, ?_, by simp, ?_⟩
      · dsimp only
        rw [list_cell_set _ _ _ _ (by simpa using ha), if_pos rfl]
      · intro b q hb hq
        dsimp only
        rw [list_cell_set _ _ _ _ (by simpa using ha), if_neg hb,
          list_cell_set _ _ _ _ (by simpa using hnl), list_cell_set _ _ _ _ hpl]
        by_cases hbn : b = nx
        · subst hbn
          rw [if_pos rfl]
          by_cases hbp : b = p
          · subst hbp
            rw [hqp] at hq
            cases hq
            simp
          · rw [if_neg hbp]
            rw [hqn] at hq
            cases hq
            have : ¬ (p = b) := fun h => hbp h.symm
            simp [this]
        · rw [if_neg hbn]
          have h1 : ¬ (nx = b) := fun h => hbn h.symm
          by_cases hbp : b = p
          · subst hbp
            rw [hqp] at hq
            cases hq
            simp [h1]
          · rw [if_neg hbp, hq]
            have h2 : ¬ (p = b) := fun h => hbp h.symm
            simp [h1, h2]

theorem list_getElem?_lt {α : Type} (l : List α) (k : Nat) (b : α) (h : l[k]? = some b) :
    k < l.length := by
  by_contra hc
  rw [List.getElem?_eq_none (by omega)] at h
  cases h

theorem list_linked_readable (list : list_t) (addrs : List Nat) (hl : list_linked list addrs)
    (k b : Nat) (hk : addrs[k]? = some b) :
    ∃ q, list_cell list.nodes b = some q ∧ q.next = addrs[k + 1]? ∧
      q.prev = (if k = 0 then none else addrs[k - 1]?) := by
  obtain ⟨b0, q, hb0, hq, hn, hp⟩ := hl.link k (list_getElem?_lt _ _ _ hk)
  rw [hk] at hb0
  cases hb0
  exact ⟨q, hq, hn, hp⟩

theorem list_data_at_eq (list : list_t) (b : Nat) (q : list_node_t)
    (h : list_cell list.nodes b = some q) : list_data_at list b = q.data := by
  unfold list_data_at list_node_read
  rw [h]

theorem list_nodup_ne (addrs : List Nat) (hnd : addrs.Nodup) (i a k b : Nat)
    (hi : addrs[i]? = some a) (hk : k ≠ i) (hb : addrs[k]? = some b) : b ≠ a := by
  intro hba
  subst hba
  exact hk (list_nodup_index addrs hnd k i b hb hi)

theorem list_remove_link_before (list l2 : list_t) (addrs : List Nat)
    (hl : list_linked list addrs) (i a : Nat) (nd : list_node_t) (hi : addrs[i]? = some a)
    (hnx : nd.next = addrs[i + 1]?) (hpv : nd.prev = if i = 0 then none else addrs[i - 1]?)
    (hcells : ∀ b q, b ≠ a → list_cell list.nodes b = some q →
      list_cell l2.nodes b = some ⟨if nd.prev = some b then nd.next else q.next,
        if nd.next = some b then nd.prev else q.prev, q.data⟩)
    (j : Nat) (hji : j < i) :
    ∃ b nd1, (addrs.eraseIdx i)[j]? = some b ∧ list_node_read l2 b = some nd1 ∧
      nd1.next = (addrs.eraseIdx i)[j + 1]? ∧
      nd1.prev = (if j = 0 then none else (addrs.eraseIdx i)[j - 1]?) := by
  have hil : i < addrs.length := list_getElem?_lt _ _ _ hi
  have hjl : j < addrs.length := by omega
  have hjb : addrs[j]? = some (addrs[j]) := List.getElem?_eq_getElem hjl
  generalize addrs[j] = b at hjb
  obtain ⟨q, hq, hqn, hqp⟩ := list_linked_readable list addrs hl j b hjb
  have hb := list_nodup_ne addrs hl.nodup i a j b hi (by omega) hjb
  refine ⟨b, _, ?_, hcells b q hb hq, ?_, ?_⟩
  · rw [List.getElem?_eraseIdx, if_pos hji]
    exact hjb
  · dsimp only
    rw [List.getElem?_eraseIdx]
    by_cases hj1 : j + 1 = i
    · have hp : nd.prev = some b := by
        rw [hpv, if_neg (by omega)]
        have : i - 1 = j := by omega
        rw [this]
        exact hjb
      rw [if_pos hp, if_neg (by omega), hnx]
      congr 1
      omega
    · have hp : ¬ (nd.prev = some b) := by
        intro h
        rw [hpv] at h
        by_cases h0 : i = 0
        · rw [if_pos h0] at h
          cases h
        · rw [if_neg h0] at h
          have := list_nodup_index addrs hl.nodup (i - 1) j _ h hjb
          omega
      rw [if_neg hp, if_pos (by omega), hqn]
  · dsimp only
    have hnn : ¬ (nd.next = some b) := by
      intro h
      rw [hnx] at h
      have := list_nodup_index addrs hl.nodup (i + 1) j _ h hjb
      omega
    rw [if_neg hnn, hqp]
    by_cases hj0 : j = 0
    · rw [if_pos hj0, if_pos hj0]
    · rw [if_neg hj0, if_neg hj0, List.getElem?_eraseIdx, if_pos (by omega)]

theorem list_remove_link_after (list l2 : list_t) (addrs : List Nat)
    (hl : list_linked list addrs) (i a : Nat) (nd : list_node_t) (hi : addrs[i]? = some a)
    (hnx : nd.next = addrs[i + 1]?) (hpv : nd.prev = if i = 0 then none else addrs[i - 1]?)
    (hcells : ∀ b q, b ≠ a → list_cell list.nodes b = some q →
      list_cell l2.nodes b = some ⟨if nd.prev = some b then nd.next else q.next,
        if nd.next = some b then nd.prev else q.prev, q.data⟩)
    (j : Nat) (hji : i ≤ j) (hj : j + 1 < addrs.length) :
    ∃ b nd1, (addrs.eraseIdx i)[j]? = some b ∧ list_node_read l2 b = some nd1 ∧
      nd1.next = (addrs.eraseIdx i)[j + 1]? ∧
      nd1.prev = (if j = 0 then none else (addrs.eraseIdx i)[j - 1]?) := by
  have hjb : addrs[j + 1]? = some (addrs[j + 1]) := List.getElem?_eq_getElem hj
  generalize addrs[j + 1] = b at hjb
  obtain ⟨q, hq, hqn, hqp⟩ := list_linked_readable list addrs hl (j + 1) b hjb
  have hb := list_nodup_ne addrs hl.nodup i a (j + 1) b hi (by omega) hjb
  refine ⟨b, _, ?_, hcells b q hb hq, ?_, ?_⟩
  · rw [List.getElem?_eraseIdx, if_neg (by omega)]
    exact hjb
  · dsimp only
    have hp : ¬ (nd.prev = some b) := by
      intro h
      rw [hpv] at h
      by_cases h0 : i = 0
      · rw [if_pos h0] at h
        cases h
      · rw [if_neg h0] at h
        have := list_nodup_index addrs hl.nodup (i - 1) (j + 1) _ h hjb
        omega
    rw [if_neg hp, hqn, List.getElem?_eraseIdx, if_neg (by omega)]
  · dsimp only
    by_cases hj1 : j = i
    · have hn : nd.next = some b := by
        rw [hnx]
        have : i + 1 = j + 1 := by omega
        rw [this]
        exact hjb
      rw [if_pos hn, hpv]
      by_cases h0 : i = 0
      · rw [if_pos h0, if_pos (by omega)]
      · rw [if_neg h0, if_neg (by omega), List.getElem?_eraseIdx, if_pos (by omega)]
        congr 1
        omega
    · have hn : ¬ (nd.next = some b) := by
        intro h
        rw [hnx] at h
        have := list_nodup_index addrs hl.nodup (i + 1) (j + 1) _ h hjb
        omega
      rw [if_neg hn, hqp, if_neg (by omega), if_neg (by omega), List.getElem?_eraseIdx,
        if_neg (by omega)]
      congr 1
      omega

theorem list_remove_linked (list : list_t) (addrs : List Nat) (hl : list_linked list addrs)
    (i a : Nat) (hi : addrs[i]? = some a) :
    ∃ l2, list_remove_node list (some a) = some (0, l2) ∧ list_linked l2 (addrs.eraseIdx i) ∧
      l2.n = list.n - 1 ∧ l2.n_max = list.n_max ∧ l2.nodes.length = list.nodes.length ∧
      ∀ b, b ∈ addrs.eraseIdx i → list_data_at l2 b = list_data_at list b := by
  have hil : i < addrs.length := list_getElem?_lt _ _ _ hi
  obtain ⟨nd, hrd, hnx, hpv⟩ := list_linked_readable list addrs hl i a hi
  obtain ⟨l2, hrem, hn2, hmax2, hhead2, htail2, hfree, hlen2, hcells⟩ :=
    list_remove_spec list a nd hrd
      (fun nx h => by
        obtain ⟨q, hq, _⟩ := list_linked_readable list addrs hl (i + 1) nx (by rw [← hnx]; exact h)
        exact ⟨q, hq⟩)
      (fun p h => by
        by_cases h0 : i = 0
        · rw [hpv, if_pos h0] at h
          cases h
        · rw [hpv, if_neg h0] at h
          obtain ⟨q, hq, _⟩ := list_linked_readable list addrs hl (i - 1) p h
          exact ⟨q, hq⟩)
      (by rw [hl.n_eq]; omega)
  have hprev_some : i ≠ 0 → ∃ p, addrs[i - 1]? = some p := fun _ =>
    ⟨_, List.getElem?_eq_getElem (by omega)⟩
  have hmem : ∀ b, b ∈ addrs.eraseIdx i → ∃ k, k ≠ i ∧ addrs[k]? = some b := by
    intro b hb
    obtain ⟨j, hj⟩ := List.mem_iff_getElem?.mp hb
    rw [List.getElem?_eraseIdx] at hj
    by_cases hji : j < i
    · rw [if_pos hji] at hj
      exact ⟨j, by omega, hj⟩
    · rw [if_neg hji] at hj
      exact ⟨j + 1, by omega, hj⟩
  refine ⟨l2, ?_, ?_, hn2, hmax2, hlen2, ?_⟩
  · simp only [list_remove_node, list_node_read, hrd]
    exact hrem
  · constructor
    · exact hl.nodup.sublist (List.eraseIdx_sublist _ _)
    · rw [hhead2, List.getElem?_eraseIdx]
      by_cases h0 : i = 0
      · subst h0
        rw [hpv, if_pos rfl, if_pos rfl, hnx, if_neg (by omega)]
      · obtain ⟨p, hp⟩ := hprev_some h0
        rw [hpv, if_neg h0, hp, if_neg (by simp), if_pos (by omega)]
        exact hl.head_eq
    · rw [htail2, List.getElem?_eraseIdx, List.length_eraseIdx_of_lt hil]
      by_cases hlast : i + 1 = addrs.length
      · rw [hnx, List.getElem?_eq_none (by omega), if_pos rfl, hpv]
        by_cases h0 : i = 0
        · subst h0
          rw [if_pos rfl, if_neg (by omega), List.getElem?_eq_none (by omega)]
        · rw [if_neg h0, if_pos (by omega)]
          congr 1
          omega
      · have hsome : ∃ nx, addrs[i + 1]? = some nx :=
          ⟨_, List.getElem?_eq_getElem (by omega)⟩
        obtain ⟨nx, hnx2⟩ := hsome
        rw [hnx, hnx2, if_neg (by simp), if_neg (by omega), hl.tail_eq]
        congr 1
        omega
    · rw [hn2, hl.n_eq, List.length_eraseIdx_of_lt hil]
      omega
    · intro j hj
      rw [List.length_eraseIdx_of_lt hil] at hj
      by_cases hji : j < i
      · exact list_remove_link_before list l2 addrs hl i a nd hi hnx hpv hcells j hji
      · exact list_remove_link_after list l2 addrs hl i a nd hi hnx hpv hcells j (by omega)
          (by omega)
  · intro b hb
    obtain ⟨k, hk, hkb⟩ := hmem b hb
    obtain ⟨q, hq, _⟩ := list_linked_readable list addrs hl k b hkb
    rw [list_data_at_eq list b q hq,
      list_data_at_eq l2 b _ (hcells b q (list_nodup_ne addrs hl.nodup i a k b hi hk hkb) hq)]

theorem list_create_new_node_ok (list : list_t) (x : Nat)
    (hroom : list.n_max = 0 ∨
      (list.n < (list.n_max : Int) ∧ (list.n_max : Int) < 2147483648)) :
    list_create_new_node list x true
      = (some list.nodes.length, 0,
          ⟨list.head, list.tail, list.n_max, list.n,
            list.nodes ++ [some ⟨none, none, x⟩]⟩) := by
  unfold list_create_new_node
  rw [if_neg (by unfold wrap_int32; omega)]
  rfl

theorem list_prepend_spec (list : list_t) (x : Nat)
    (hroom : list.n_max = 0 ∨
      (list.n < (list.n_max : Int) ∧ (list.n_max : Int) < 2147483648))
    (hfit : -2147483649 ≤ list.n ∧ list.n < 2147483647)
    (hhead : list.n > 0 → ∃ h q, list.head = some h ∧ list_cell list.nodes h = some q) :
    ∃ l2, list_prepend_data list x true = some (0, some list.nodes.length, l2) ∧
      l2.head = some list.nodes.length ∧
      l2.tail = (if list.n ≤ 0 then some list.nodes.length else list.tail) ∧
      l2.n = list.n + 1 ∧ l2.n_max = list.n_max ∧
      l2.nodes.length = list.nodes.length + 1 ∧
      list_cell l2.nodes list.nodes.length
        = some ⟨if list.n ≤ 0 then none else list.head, none, x⟩ ∧
      ∀ b q, list_cell list.nodes b = some q →
        list_cell l2.nodes b
          = some ⟨q.next, if list.n > 0 ∧ list.head = some b then some list.nodes.length
              else q.prev, q.data⟩ := by
  have hw : wrap_int32 (list.n + 1) = list.n + 1 := by
    unfold wrap_int32
    omega
  unfold list_prepend_data thread_unsafe_list_prepend_data
  rw [list_create_new_node_ok list x hroom]
  dsimp only
  by_cases hn : list.n ≤ 0
  · rw [if_pos hn]
    refine ⟨_, rfl, rfl, by rw [if_pos hn], hw, rfl, by simp, ?_, ?_⟩
    · dsimp only
      rw [list_cell_append, if_pos rfl, if_pos hn]
    · intro b q hq
      have hb := list_cell_lt _ _ _ hq
      dsimp only
      rw [list_cell_append, if_neg (by omega), hq, if_neg (by omega)]
  · rw [if_neg hn]
    obtain ⟨h, qh, hh, hqh⟩ := hhead (by omega)
    have hhl := list_cell_lt _ _ _ hqh
    have hnew : list_cell (list.nodes ++ [some (list_node_t.mk none none x)]) list.nodes.length
        = some (list_node_t.mk none none x) := by
      rw [list_cell_append, if_pos rfl]
    rw [list_node_write_eq ⟨list.head, list.tail, list.n_max, list.n, _⟩ _ _ _ hnew]
    dsimp only
    rw [hh]
    dsimp only
    have hqh2 : list_cell ((list.nodes ++ [some (list_node_t.mk none none x)]).set
        list.nodes.length (some (list_node_t.mk (some h) none x))) h = some qh := by
      rw [list_cell_set _ _ _ _ (by simp), if_neg (by omega), list_cell_append,
        if_neg (by omega), hqh]
    rw [list_node_write_eq ⟨some h, list.tail, list.n_max, list.n, _⟩ _ _ _ hqh2]
    dsimp only
    refine ⟨_, rfl, rfl, by rw [if_neg hn], hw, rfl, by simp, ?_, ?_⟩
    · dsimp only
      rw [list_cell_set _ _ _ _ (by simp; omega), if_neg (by omega),
        list_cell_set _ _ _ _ (by simp), if_pos rfl, if_neg hn]
    · intro b q hq
      have hb := list_cell_lt _ _ _ hq
      dsimp only
      rw [list_cell_set _ _ _ _ (by simp; omega)]
      by_cases hbh : b = h
      · rw [hbh] at hq ⊢
        rw [hqh] at hq
        cases hq
        have hc : list.n > 0 ∧ some h = some h := ⟨by omega, rfl⟩
        rw [if_pos rfl, if_pos hc]
      · rw [if_neg hbh, list_cell_set _ _ _ _ (by simp), if_neg (by omega), list_cell_append,
          if_neg (by omega), hq, if_neg]
        intro hc
        exact hbh (Option.some.inj hc.2).symm

theorem list_append_spec (list : list_t) (x : Nat)
    (hroom : list.n_max = 0 ∨
      (list.n < (list.n_max : Int) ∧ (list.n_max : Int) < 2147483648))
    (hfit : -2147483649 ≤ list.n ∧ list.n < 2147483647)
    (htail : list.n > 0 → ∃ t q, list.tail = some t ∧ list_cell list.nodes t = some q) :
    ∃ l2, list_append_data list x true = some (0, some list.nodes.length, l2) ∧
      l2.tail = some list.nodes.length ∧
      l2.head = (if list.n ≤ 0 then some list.nodes.length else list.head) ∧
      l2.n = list.n + 1 ∧ l2.n_max = list.n_max ∧
      l2.nodes.length = list.nodes.length + 1 ∧
      list_cell l2.nodes list.nodes.length
        = some ⟨none, if list.n ≤ 0 then none else list.tail, x⟩ ∧
      ∀ b q, list_cell list.nodes b = some q →
        list_cell l2.nodes b
          = some ⟨if list.n > 0 ∧ list.tail = some b then some list.nodes.length
              else q.next, q.prev, q.data⟩ := by
  have hw : wrap_int32 (list.n + 1) = list.n + 1 := by
    unfold wrap_int32
    omega
  unfold list_append_data thread_unsafe_list_append_data
  rw [list_create_new_node_ok list x hroom]
  dsimp only
  by_cases hn : list.n ≤ 0
  · rw [if_pos hn]
    refine ⟨_, rfl, rfl, by rw [if_pos hn], hw, rfl, by simp, ?_, ?_⟩
    · dsimp only
      rw [list_cell_append, if_pos rfl, if_pos hn]
    · intro b q hq
      have hb := list_cell_lt _ _ _ hq
      dsimp only
      rw [list_cell_append, if_neg (by omega), hq, if_neg (by omega)]
  · rw [if_neg hn]
    obtain ⟨t, qt, ht, hqt⟩ := htail (by omega)
    have htl := list_cell_lt _ _ _ hqt
    have hnew : list_cell (list.nodes ++ [some (list_node_t.mk none none x)]) list.nodes.length
        = some (list_node_t.mk none none x) := by
      rw [list_cell_append, if_pos rfl]
    rw [list_node_write_eq ⟨list.head, list.tail, list.n_max, list.n, _⟩ _ _ _ hnew]
    dsimp only
    rw [ht]
    dsimp only
    have hqt2 : list_cell ((list.nodes ++ [some (list_node_t.mk none none x)]).set
        list.nodes.length (some (list_node_t.mk none (some t) x))) t = some qt := by
      rw [list_cell_set _ _ _ _ (by simp), if_neg (by omega), list_cell_append,
        if_neg (by omega), hqt]
    rw [list_node_write_eq ⟨list.head, some t, list.n_max, list.n, _⟩ _ _ _ hqt2]
    dsimp only
    refine ⟨_, rfl, rfl, by rw [if_neg hn], hw, rfl, by simp, ?_, ?_⟩
    · dsimp only
      rw [list_cell_set _ _ _ _ (by simp; omega), if_neg (by omega),
        list_cell_set _ _ _ _ (by simp), if_pos rfl, if_neg hn]
    · intro b q hq
      have hb := list_cell_lt _ _ _ hq
      dsimp only
      rw [list_cell_set _ _ _ _ (by simp; omega)]
      by_cases hbt : b = t
      · rw [hbt] at hq ⊢
        rw [hqt] at hq
        cases hq
        have hc : list.n > 0 ∧ some t = some t := ⟨by omega, rfl⟩
        rw [if_pos rfl, if_pos hc]
      · rw [if_neg hbt, list_cell_set _ _ _ _ (by simp), if_neg (by omega), list_cell_append,
          if_neg (by omega), hq, if_neg]
        intro hc
        exact hbt (Option.some.inj hc.2).symm

theorem list_linked_lt (list : list_t) (addrs : List Nat) (hl : list_linked list addrs)
    (b : Nat) (hb : b ∈ addrs) : b < list.nodes.length := by
  obtain ⟨k, hk⟩ := List.mem_iff_getElem?.mp hb
  obtain ⟨q, hq, _⟩ := list_linked_readable list addrs hl k b hk
  exact list_cell_lt _ _ _ hq

theorem list_prepend_linked (list : list_t) (addrs : List Nat) (hl : list_linked list addrs)
    (x : Nat) (hroom : list.n_max = 0 ∨
      (list.n < (list.n_max : Int) ∧ (list.n_max : Int) < 2147483648))
    (hfit : list.n < 2147483647) :
    ∃ l2, list_prepend_data list x true = some (0, some list.nodes.length, l2) ∧
      list_linked l2 (list.nodes.length :: addrs) ∧
      l2.n = list.n + 1 ∧ l2.n_max = list.n_max ∧
      l2.nodes.length = list.nodes.length + 1 ∧
      list_data_at l2 list.nodes.length = x ∧
      ∀ b, b ∈ addrs → list_data_at l2 b = list_data_at list b := by
  have hn0 : list.n ≤ 0 ↔ addrs.length = 0 := by rw [hl.n_eq]; omega
  obtain ⟨l2, hpre, hhead2, htail2, hn2, hmax2, hlen2, hnew, hcells⟩ :=
    list_prepend_spec list x hroom ⟨by rw [hl.n_eq]; omega, hfit⟩ (fun hpos => by
      have hlen : 0 < addrs.length := by rw [hl.n_eq] at hpos; omega
      obtain ⟨q, hq, _⟩ := list_linked_readable list addrs hl 0 (addrs[0])
        (List.getElem?_eq_getElem hlen)
      exact ⟨_, q, by rw [hl.head_eq]; exact List.getElem?_eq_getElem hlen, hq⟩)
  refine ⟨l2, hpre, ?_, hn2, hmax2, hlen2, list_data_at_eq l2 _ _ hnew, ?_⟩
  · constructor
    · refine List.nodup_cons.mpr ⟨fun hmem => ?_, hl.nodup⟩
      have := list_linked_lt list addrs hl _ hmem
      omega
    · rw [hhead2, List.getElem?_cons_zero]
    · rw [htail2]
      simp only [List.length_cons, Nat.add_sub_cancel]
      by_cases hlen : addrs.length = 0
      · rw [if_pos (hn0.mpr hlen), hlen, List.getElem?_cons_zero]
      · rw [if_neg (fun h => hlen (hn0.mp h)), hl.tail_eq]
        have : addrs.length = (addrs.length - 1) + 1 := by omega
        rw [this, List.getElem?_cons_succ]
        simp
    · rw [hn2, hl.n_eq]
      simp
    · intro k hk
      cases k with
      | zero =>
        refine ⟨_, _, List.getElem?_cons_zero, hnew, ?_, by simp⟩
        dsimp only
        rw [List.getElem?_cons_succ]
        by_cases hlen : addrs.length = 0
        · rw [if_pos (hn0.mpr hlen), List.getElem?_eq_none (by omega)]
        · rw [if_neg (fun h => hlen (hn0.mp h)), hl.head_eq]
      | succ k =>
        simp only [List.length_cons, Nat.add_lt_add_iff_right] at hk
        have hkb : addrs[k]? = some (addrs[k]) := List.getElem?_eq_getElem hk
        generalize addrs[k] = b at hkb
        obtain ⟨q, hq, hqn, hqp⟩ := list_linked_readable list addrs hl k b hkb
        refine ⟨b, _, by rw [List.getElem?_cons_succ]; exact hkb, hcells b q hq, ?_, ?_⟩
        · dsimp only
          rw [hqn, List.getElem?_cons_succ]
        · dsimp only
          have hsucc : (if k + 1 = 0 then none else (list.nodes.length :: addrs)[k + 1 - 1]?)
              = (list.nodes.length :: addrs)[k]? := by
            rw [if_neg (by omega)]
            simp only [Nat.add_sub_cancel]
          rw [hsucc]
          by_cases hk0 : k = 0
          · subst hk0
            have hc : list.n > 0 ∧ list.head = some b := by
              refine ⟨?_, by rw [hl.head_eq]; exact hkb⟩
              rw [hl.n_eq]
              omega
            rw [if_pos hc, List.getElem?_cons_zero]
          · have hc : ¬ (list.n > 0 ∧ list.head = some b) := by
              intro hc
              have h0 := hc.2
              rw [hl.head_eq] at h0
              exact hk0 (list_nodup_index addrs hl.nodup k 0 b hkb h0)
            rw [if_neg hc, hqp, if_neg hk0]
            have : k = (k - 1) + 1 := by omega
            rw [this, List.getElem?_cons_succ]
            simp
  · intro b hb
    obtain ⟨k, hk⟩ := List.mem_iff_getElem?.mp hb
    obtain ⟨q, hq, _⟩ := list_linked_readable list addrs hl k b hk
    rw [list_data_at_eq list b q hq, list_data_at_eq l2 b _ (hcells b q hq)]

theorem list_append_linked (list : list_t) (addrs : List Nat) (hl : list_linked list addrs)
    (x : Nat) (hroom : list.n_max = 0 ∨
      (list.n < (list.n_max : Int) ∧ (list.n_max : Int) < 2147483648))
    (hfit : list.n < 2147483647) :
    ∃ l2, list_append_data list x true = some (0, some list.nodes.length, l2) ∧
      list_linked l2 (addrs ++ [list.nodes.length]) ∧
      l2.n = list.n + 1 ∧ l2.n_max = list.n_max ∧
      l2.nodes.length = list.nodes.length + 1 ∧
      list_data_at l2 list.nodes.length = x ∧
      ∀ b, b ∈ addrs → list_data_at l2 b = list_data_at list b := by
  have hn0 : list.n ≤ 0 ↔ addrs.length = 0 := by rw [hl.n_eq]; omega
  obtain ⟨l2, happ, htail2, hhead2, hn2, hmax2, hlen2, hnew, hcells⟩ :=
    list_append_spec list x hroom ⟨by rw [hl.n_eq]; omega, hfit⟩ (fun hpos => by
      have hlen : 0 < addrs.length := by rw [hl.n_eq] at hpos; omega
      have hlast : addrs.length - 1 < addrs.length := by omega
      obtain ⟨q, hq, _⟩ := list_linked_readable list addrs hl (addrs.length - 1)
        (addrs[addrs.length - 1]) (List.getElem?_eq_getElem hlast)
      exact ⟨_, q, by rw [hl.tail_eq]; exact List.getElem?_eq_getElem hlast, hq⟩)
  refine ⟨l2, happ, ?_, hn2, hmax2, hlen2, list_data_at_eq l2 _ _ hnew, ?_⟩
  · constructor
    · refine List.nodup_append.mpr ⟨hl.nodup, List.nodup_singleton _, ?_⟩
      intro b hb hb2
      have := list_linked_lt list addrs hl _ hb
      rw [List.mem_singleton] at hb2
      omega
    · rw [hhead2]
      by_cases hlen : addrs.length = 0
      · rw [if_pos (hn0.mpr hlen), List.getElem?_append_right (by omega), hlen]
        simp
      · rw [if_neg (fun h => hlen (hn0.mp h)), hl.head_eq,
          List.getElem?_append_left (by omega)]
    · rw [htail2]
      simp only [List.length_append, List.length_singleton, Nat.add_sub_cancel]
      rw [List.getElem?_append_right (Nat.le_refl _)]
      simp
    · rw [hn2, hl.n_eq]
      simp
    · intro k hk
      simp only [List.length_append, List.length_singleton] at hk
      by_cases hkl : k < addrs.length
      · have hkb : addrs[k]? = some (addrs[k]) := List.getElem?_eq_getElem hkl
        generalize addrs[k] = b at hkb
        obtain ⟨q, hq, hqn, hqp⟩ := list_linked_readable list addrs hl k b hkb
        refine ⟨b, _, by rw [List.getElem?_append_left hkl]; exact hkb, hcells b q hq, ?_, ?_⟩
        · dsimp only
          by_cases hlast : k + 1 = addrs.length
          · have hc : list.n > 0 ∧ list.tail = some b := by
              refine ⟨by rw [hl.n_eq]; omega, ?_⟩
              rw [hl.tail_eq]
              have : addrs.length - 1 = k := by omega
              rw [this]
              exact hkb
            rw [if_pos hc, List.getElem?_append_right (by omega), hlast]
            simp
          · have hc : ¬ (list.n > 0 ∧ list.tail = some b) := by
              intro hc
              have h0 := hc.2
              rw [hl.tail_eq] at h0
              have := list_nodup_index addrs hl.nodup k (addrs.length - 1) b hkb h0
              omega
            rw [if_neg hc, hqn, List.getElem?_append_left (by omega)]
        · dsimp only
          rw [hqp]
          by_cases hk0 : k = 0
          · rw [if_pos hk0, if_pos hk0]
          · rw [if_neg hk0, if_neg hk0, List.getElem?_append_left (by omega)]
      · have hke : k = addrs.length := by omega
        subst hke
        refine ⟨_, _, by rw [List.getElem?_append_right (Nat.le_refl _)]; simp, hnew, ?_, ?_⟩
        · dsimp only
          rw [List.getElem?_eq_none (by simp)]
        · dsimp only
          by_cases hlen : addrs.length = 0
          · rw [if_pos (hn0.mpr hlen), if_pos hlen]
          · rw [if_neg (fun h => hlen (hn0.mp h)), if_neg hlen, hl.tail_eq,
              List.getElem?_append_left (by omega)]
  · intro b hb
    obtain ⟨k, hk⟩ := List.mem_iff_getElem?.mp hb
    obtain ⟨q, hq, _⟩ := list_linked_readable list addrs hl k b hk
    rw [list_data_at_eq list b q hq, list_data_at_eq l2 b _ (hcells b q hq)]

theorem list_read_next_null (list : list_t) (fuel : Nat) :
    list_read_next list fuel none = some [] := by
  cases fuel <;> rfl

theorem list_read_prev_null (list : list_t) (fuel : Nat) :
    list_read_prev list fuel none = some [] := by
  cases fuel <;> rfl

theorem list_read_next_linked (list : list_t) (addrs : List Nat) (hl : list_linked list addrs) :
    ∀ (m i fuel : Nat), i + m = addrs.length → m ≤ fuel →
      list_read_next list fuel addrs[i]? = some ((addrs.drop i).map (list_data_at list)) := by
  intro m
  induction m with
  | zero =>
    intro i fuel hi _
    rw [List.getElem?_eq_none (by omega), List.drop_eq_nil_of_le (by omega)]
    exact list_read_next_null list fuel
  | succ m ih =>
    intro i fuel hi hfuel
    have hil : i < addrs.length := by omega
    have hib : addrs[i]? = some (addrs[i]) := List.getElem?_eq_getElem hil
    have hdrop := List.drop_eq_getElem_cons hil
    generalize addrs[i] = a at hib hdrop
    obtain ⟨q, hq, hqn, _⟩ := list_linked_readable list addrs hl i a hib
    cases fuel with
    | zero => omega
    | succ fuel =>
      rw [hib, hdrop]
      simp only [list_read_next, list_node_read, hq, hqn, ih (i + 1) fuel (by omega) (by omega),
        List.map_cons, list_data_at_eq list a q hq]

theorem list_read_prev_linked (list : list_t) (addrs : List Nat) (hl : list_linked list addrs) :
    ∀ (i fuel : Nat), i ≤ addrs.length → i ≤ fuel →
      list_read_prev list fuel (if i = 0 then none else addrs[i - 1]?)
        = some (((addrs.take i).map (list_data_at list)).reverse) := by
  intro i
  induction i with
  | zero =>
    intro fuel _ _
    rw [if_pos rfl]
    simp only [List.take_zero, List.map_nil, List.reverse_nil]
    exact list_read_prev_null list fuel
  | succ i ih =>
    intro fuel hi hfuel
    have hil : i < addrs.length := by omega
    have hib : addrs[i]? = some (addrs[i]) := List.getElem?_eq_getElem hil
    have htake : addrs.take (i + 1) = addrs.take i ++ [addrs[i]] := by
      rw [List.take_succ, hib]
      rfl
    generalize addrs[i] = a at hib htake
    obtain ⟨q, hq, _, hqp⟩ := list_linked_readable list addrs hl i a hib
    cases fuel with
    | zero => omega
    | succ fuel =>
      rw [if_neg (by omega), Nat.add_sub_cancel, hib, htake]
      simp only [list_read_prev, list_node_read, hq, hqp, ih fuel (by omega) (by omega),
        List.map_append, List.map_cons, List.map_nil, List.reverse_append, List.reverse_cons,
        List.reverse_nil, List.nil_append, List.singleton_append, list_data_at_eq list a q hq]

theorem list_linked_length_le (list : list_t) (addrs : List Nat) (hl : list_linked list addrs) :
    addrs.length ≤ list.nodes.length := by
  have hsub : addrs ⊆ List.range list.nodes.length := by
    intro b hb
    exact List.mem_range.mpr (list_linked_lt list addrs hl b hb)
  have := (List.subperm_of_subset hl.nodup hsub).length_le
  rw [List.length_range] at this
  exact this

theorem list_forward_linked (list : list_t) (addrs : List Nat) (hl : list_linked list addrs) :
    list_forward list = some (addrs.map (list_data_at list)) := by
  unfold list_forward
  rw [hl.head_eq, list_read_next_linked list addrs hl addrs.length 0 _ (by omega)
    (list_linked_length_le list addrs hl), List.drop_zero]

theorem list_backward_linked (list : list_t) (addrs : List Nat) (hl : list_linked list addrs) :
    list_backward list = some ((addrs.map (list_data_at list)).reverse) := by
  unfold list_backward
  have h := list_read_prev_linked list addrs hl addrs.length list.nodes.length (Nat.le_refl _)
    (list_linked_length_le list addrs hl)
  rw [List.take_length] at h
  rw [hl.tail_eq, ← h]
  by_cases h0 : addrs.length = 0
  · rw [if_pos h0, List.getElem?_eq_none (by omega)]
  · rw [if_neg h0]

theorem list_init_linked (n_max : Nat) : list_linked (list_init n_max) [] :=
  ⟨List.nodup_nil, rfl, rfl, rfl, fun i hi => absurd hi (by simp)⟩

theorem list_map_congr_mem (addrs : List Nat) (f g : Nat → Nat)
    (h : ∀ b, b ∈ addrs → f b = g b) : addrs.map f = addrs.map g :=
  List.map_congr_left h

theorem list_spec_remove_map (addrs : List Nat) (f : Nat → Nat) (i : Nat) :
    (addrs.eraseIdx i).map f = list_spec_remove i (addrs.map f) := by
  unfold list_spec_remove
  rw [List.eraseIdx_eq_take_drop_succ, List.map_append, List.map_take, List.map_drop]

theorem list_example_linked : list_linked list_example [1, 0] := by
  refine ⟨by decide, rfl, rfl, rfl, ?_⟩
  intro i hi
  match i, hi with
  | 0, _ => exact ⟨1, ⟨some 0, none, 6⟩, rfl, rfl, rfl, rfl⟩
  | 1, _ => exact ⟨0, ⟨none, some 1, 5⟩, rfl, rfl, rfl, rfl⟩

/-- C30 as stated fails on a list with a limit: on a list made with
`n_max = 1` that holds `5`, `list_prepend_data` of `6` returns `ENOSPC` and the
data read from `head` along `next` is still `5` alone, not `6` followed by
`5`. On a list made with `n_max = 4294967295`, which the test of the limit
reads as `(int) n_max = -1`, `list_prepend_data` and `list_append_data` return
`ENOSPC` on the empty list. -/
theorem list_prepend_data_at_limit :
    (list_prepend_data (list_init 1) 5 true).bind (fun r =>
        (list_prepend_data r.2.2 6 true).map (fun r2 =>
          (r.1, list_forward r.2.2, r2.1, list_forward r2.2.2)))
      = some (0, some [5], ENOSPC, some [5]) ∧
    (list_init 4294967295).n = 0 ∧ (list_init 4294967295).n_max = 4294967295 ∧
    (list_prepend_data (list_init 4294967295) 5 true).map (fun r => (r.1, list_forward r.2.2))
      = some (ENOSPC, some []) ∧
    (list_append_data (list_init 4294967295) 5 true).map (fun r => (r.1, list_forward r.2.2))
      = some (ENOSPC, some []) := by
  refine ⟨rfl, rfl, rfl, ?_, ?_⟩ <;> decide

/-- C30 amended: the doubly linked list below its limit refines a sequence. Let
the list be the chain of the nodes at `addrs`, as `list_init` makes it (with no
node) and as every operation below leaves it, and let `s` be the data of these
nodes in order. Then the data read from `head` along `next` is `s`, the data
read from `tail` along `prev` is `s` reversed, and `n` is the length of `s`.
When the list has room (`n_max = 0`, or `n < n_max` with `n_max` below `2^31`),
holds fewer than `2^31 - 1` nodes and the allocation succeeds,
`list_prepend_data` of `x` returns `0` with a new node and yields `x` followed
by `s`, and `list_append_data` of `x` yields `s` followed by `x`.
`list_remove_node` of the node at position `i` returns `0` and yields `s`
without position `i`, the rest in the same order, with `n` one less. When no
node is left, `n = 0` and `head = tail = NULL`. -/
theorem list_refines_sequence (list : list_t) (addrs : List Nat)
    (hl : list_linked list addrs) :
    list_forward list = some (addrs.map (list_data_at list)) ∧
    list_backward list = some ((addrs.map (list_data_at list)).reverse) ∧
    list.n = (addrs.map (list_data_at list)).length ∧
    (∀ x : Nat,
      list.n_max = 0 ∨ (list.n < (list.n_max : Int) ∧ (list.n_max : Int) < 2147483648) →
      list.n < 2147483647 →
      ∃ node l2, list_prepend_data list x true = some (0, some node, l2) ∧
        list_linked l2 (node :: addrs) ∧ l2.n = list.n + 1 ∧
        list_forward l2 = some (list_spec_prepend x (addrs.map (list_data_at list))) ∧
        list_backward l2
          = some ((list_spec_prepend x (addrs.map (list_data_at list))).reverse)) ∧
    (∀ x : Nat,
      list.n_max = 0 ∨ (list.n < (list.n_max : Int) ∧ (list.n_max : Int) < 2147483648) →
      list.n < 2147483647 →
      ∃ node l2, list_append_data list x true = some (0, some node, l2) ∧
        list_linked l2 (addrs ++ [node]) ∧ l2.n = list.n + 1 ∧
        list_forward l2 = some (list_spec_append x (addrs.map (list_data_at list))) ∧
        list_backward l2
          = some ((list_spec_append x (addrs.map (list_data_at list))).reverse)) ∧
    (∀ i node : Nat, addrs[i]? = some node →
      ∃ l2, list_remove_node list (some node) = some (0, l2) ∧
        list_linked l2 (addrs.eraseIdx i) ∧ l2.n = list.n - 1 ∧
        list_forward l2 = some (list_spec_remove i (addrs.map (list_data_at list))) ∧
        list_backward l2
          = some ((list_spec_remove i (addrs.map (list_data_at list))).reverse)) ∧
    (addrs = [] → list.n = 0 ∧ list.head = none ∧ list.tail = none) := by
  refine ⟨list_forward_linked list addrs hl, list_backward_linked list addrs hl, ?_, ?_, ?_, ?_,
    ?_⟩
  · rw [hl.n_eq, List.length_map]
  · intro x hroom hfit
    obtain ⟨l2, hpre, hl2, hn2, _, _, hx, hdata⟩ :=
      list_prepend_linked list addrs hl x hroom hfit
    have hs : (list.nodes.length :: addrs).map (list_data_at l2)
        = list_spec_prepend x (addrs.map (list_data_at list)) := by
      unfold list_spec_prepend
      rw [List.map_cons, hx, list_map_congr_mem addrs _ _ hdata]
    refine ⟨_, l2, hpre, hl2, hn2, ?_, ?_⟩
    · rw [list_forward_linked l2 _ hl2, hs]
    · rw [list_backward_linked l2 _ hl2, hs]
  · intro x hroom hfit
    obtain ⟨l2, happ, hl2, hn2, _, _, hx, hdata⟩ :=
      list_append_linked list addrs hl x hroom hfit
    have hs : (addrs ++ [list.nodes.length]).map (list_data_at l2)
        = list_spec_append x (addrs.map (list_data_at list)) := by
      unfold list_spec_append
      rw [List.map_append, List.map_cons, List.map_nil, hx, list_map_congr_mem addrs _ _ hdata]
    refine ⟨_, l2, happ, hl2, hn2, ?_, ?_⟩
    · rw [list_forward_linked l2 _ hl2, hs]
    · rw [list_backward_linked l2 _ hl2, hs]
  · intro i node hi
    obtain ⟨l2, hrem, hl2, hn2, _, _, hdata⟩ := list_remove_linked list addrs hl i node hi
    have hs : (addrs.eraseIdx i).map (list_data_at l2)
        = list_spec_remove i (addrs.map (list_data_at list)) := by
      rw [list_map_congr_mem _ _ _ hdata, list_spec_remove_map]
    refine ⟨l2, hrem, hl2, hn2, ?_, ?_⟩
    · rw [list_forward_linked l2 _ hl2, hs]
    · rw [list_backward_linked l2 _ hl2, hs]
  · intro h
    subst h
    exact ⟨hl.n_eq, hl.head_eq, hl.tail_eq⟩

/-- C30 witness: the list of the two nodes `6, 5`, with no limit; `7` is put in
front, `7` is put behind, and the head is removed. -/
theorem list_refines_sequence_witness :
    list_linked list_example [1, 0] ∧
      list_forward list_example = some [6, 5] ∧
      list_backward list_example = some [5, 6] ∧
      (list_prepend_data list_example 7 true).map (fun r => (r.1, list_forward r.2.2))
        = some (0, some [7, 6, 5]) ∧
      (list_append_data list_example 7 true).map (fun r => (r.1, list_forward r.2.2))
        = some (0, some [6, 5, 7]) ∧
      (list_remove_node list_example (some 1)).map (fun r => (r.1, list_forward r.2, r.2.n))
        = some (0, some [5], 1) ∧
      (∃ node l2, list_prepend_data list_example 7 true = some (0, some node, l2) ∧
        list_linked l2 (node :: [1, 0]) ∧ l2.n = list_example.n + 1 ∧
        list_forward l2
          = some (list_spec_prepend 7 ([1, 0].map (list_data_at list_example))) ∧
        list_backward l2
          = some ((list_spec_prepend 7 ([1, 0].map (list_data_at list_example))).reverse)) ∧
      (∀ i node : Nat, [1, 0][i]? = some node →
        ∃ l2, list_remove_node list_example (some node) = some (0, l2) ∧
          list_linked l2 ([1, 0].eraseIdx i) ∧ l2.n = list_example.n - 1 ∧
          list_forward l2
            = some (list_spec_remove i ([1, 0].map (list_data_at list_example))) ∧
          list_backward l2
            = some ((list_spec_remove i ([1, 0].map (list_data_at list_example))).reverse)) :=
  ⟨list_example_linked, rfl, rfl, rfl, rfl, rfl,
    (list_refines_sequence list_example [1, 0] list_example_linked).2.2.2.1 7 (Or.inl rfl)
      (by decide),
    (list_refines_sequence list_example [1, 0] list_example_linked).2.2.2.2.2.1⟩

/-- The witness of C30, the run of `main` in `test_list.c`, with `SIZE = 6`:
after `0 .. 5` are prepended the list reads `5, 4, 3, 2, 1, 0` from the head and
the reverse from the tail; after the odd values are removed it reads `4, 2, 0`;
after the even values are removed it is empty, with `n = 0` and
`head = tail = NULL`. -/
theorem test_list_main_six :
    (test_list_main 6).map (fun r =>
        (list_forward r.1, list_backward r.1, r.1.n, list_forward r.2.1, list_backward r.2.1,
          r.2.1.n, list_forward r.2.2, r.2.2.n, r.2.2.head, r.2.2.tail))
      = some (some [5, 4, 3, 2, 1, 0], some [0, 1, 2, 3, 4, 5], 6, some [4, 2, 0],
          some [0, 2, 4], 3, some [], 0, none, none) := by
  rfl
/-! ## Theorems: the free-stack invariant of pointer_lookup.c -/

theorem pl_free_inv_init (size : Nat) (tbl : pointer_lookup_t)
    (h : pointer_lookup_init size true = .ok tbl) : pl_free_inv tbl := by
  obtain ⟨_, hsz, hidx, _, hst, hen⟩ := pl_init_fields size tbl h
  refine ⟨by rw [hen, hsz]; simp, by rw [hst, hsz]; simp, by omega, ?_, ?_, ?_, ?_⟩
  · rw [hidx, hst, List.drop_zero]
    exact List.nodup_range size
  · intro j hj
    rw [hidx, hst, List.drop_zero] at hj
    rw [hsz]
    exact List.mem_range.mp hj
  · intro j e he
    rw [hen] at he
    have hj : j < size := by
      by_contra hc
      rw [List.getElem?_eq_none (by simp; omega)] at he
      cases he
    rw [List.getElem?_replicate, if_pos hj] at he
    cases he
    rw [hidx, hst, List.drop_zero]
    exact ⟨fun _ => rfl, fun _ => List.mem_range.mpr hj⟩
  · intro j e he _
    rw [hen] at he
    have := List.mem_replicate.mp (List.getElem?_mem he)
    rw [this.2]

theorem pl_free_inv_store (plp : pointer_lookup_t) (hinv : pl_free_inv plp) (x : Nat) :
    ∃ r, pointer_lookup_store_pointer plp x = some r ∧ pl_free_inv r.plp := by
  by_cases hfull : plp.stack_idx ≥ plp.size
  · exact ⟨_, pl_store_full plp x hfull, hinv⟩
  · have hlt : plp.stack_idx < plp.size := by omega
    have hlen : plp.stack_idx < plp.index_stack.length := by rw [hinv.len_stack]; exact hlt
    have hdrop := List.drop_eq_getElem_cons hlen
    have hget : plp.index_stack[plp.stack_idx]? = some (plp.index_stack[plp.stack_idx]) :=
      List.getElem?_eq_getElem hlen
    generalize plp.index_stack[plp.stack_idx] = i at hdrop hget
    have hi : i < plp.size := hinv.free_lt i (by rw [hdrop]; exact List.mem_cons_self _ _)
    have hil : i < plp.pointer_entries.length := by rw [hinv.len_entries]; exact hi
    have hnd := hinv.free_nodup
    rw [hdrop] at hnd
    have hg := pl_next_number_lt plp.number_generator
    refine ⟨_, pl_store_ok plp x i hlt hget hil, ?_⟩
    refine ⟨by simp [hinv.len_entries], hinv.len_stack, by dsimp only; omega, ?_, ?_, ?_, ?_⟩
    · exact (List.nodup_cons.mp hnd).2
    · intro j hj
      exact hinv.free_lt j (by rw [hdrop]; exact List.mem_cons_of_mem _ hj)
    · intro j e he
      dsimp only at he ⊢
      by_cases hji : j = i
      · subst hji
        rw [List.getElem?_set_self hil] at he
        cases he
        dsimp only
        constructor
        · intro hmem
          exact absurd hmem (List.nodup_cons.mp hnd).1
        · intro heq
          omega
      · rw [List.getElem?_set_ne (Ne.symm hji)] at he
        rw [← hinv.free_iff j e he, hdrop]
        exact ⟨fun h => List.mem_cons_of_mem _ h, fun h => by
          rcases List.mem_cons.mp h with h | h
          · exact absurd h hji
          · exact h⟩
    · intro j e he hmax
      dsimp only at he
      by_cases hji : j = i
      · subst hji
        rw [List.getElem?_set_self hil] at he
        cases he
        dsimp only at hmax
        omega
      · rw [List.getElem?_set_ne (Ne.symm hji)] at he
        exact hinv.free_null j e he hmax

theorem pl_free_inv_clear (plp : pointer_lookup_t) (hinv : pl_free_inv plp) (j m : Nat)
    (hj : j < plp.size) (hm : m ≠ MAX_ADDRESS_NUMBER) :
    ∃ rc plp1, pointer_lookup_clear_pointer plp j m = some (rc, plp1) ∧ pl_free_inv plp1 := by
  have hjl : j < plp.pointer_entries.length := by rw [hinv.len_entries]; exact hj
  have he : plp.pointer_entries[j]? = some (plp.pointer_entries[j]) :=
    List.getElem?_eq_getElem hjl
  generalize plp.pointer_entries[j] = e at he
  by_cases hne : e.pointer_number = m
  · have hjfree : j ∉ plp.index_stack.drop plp.stack_idx := by
      intro hin
      exact hm (hne ▸ (hinv.free_iff j e he).mp hin)
    have hshort := pl_free_short _ plp.size j hinv.free_nodup hinv.free_lt hj hjfree
    rw [List.length_drop, hinv.len_stack] at hshort
    have h0 : plp.stack_idx ≠ 0 := by omega
    have hk : plp.stack_idx - 1 < plp.index_stack.length := by
      rw [hinv.len_stack]; have := hinv.idx_le; omega
    have hk1 : plp.stack_idx - 1 + 1 = plp.stack_idx := by omega
    refine ⟨_, _, pl_clear_hit plp j m e he hne h0 hk, ?_⟩
    refine ⟨by simp [hinv.len_entries], by simp [hinv.len_stack],
      by dsimp only; have := hinv.idx_le; omega, ?_, ?_, ?_, ?_⟩
    · dsimp only
      rw [pl_drop_set_self _ _ _ hk, hk1]
      exact List.nodup_cons.mpr ⟨hjfree, hinv.free_nodup⟩
    · dsimp only
      rw [pl_drop_set_self _ _ _ hk, hk1]
      intro a ha
      rcases List.mem_cons.mp ha with rfl | ha
      · exact hj
      · exact hinv.free_lt a ha
    · intro a e2 he2
      dsimp only at he2 ⊢
      rw [pl_drop_set_self _ _ _ hk, hk1]
      by_cases haj : a = j
      · subst haj
        rw [List.getElem?_set_self hjl] at he2
        cases he2
        exact ⟨fun _ => rfl, fun _ => List.mem_cons_self _ _⟩
      · rw [List.getElem?_set_ne (Ne.symm haj)] at he2
        rw [← hinv.free_iff a e2 he2]
        exact ⟨fun h => by
          rcases List.mem_cons.mp h with h | h
          · exact absurd h haj
          · exact h, fun h => List.mem_cons_of_mem _ h⟩
    · intro a e2 he2 hmax
      dsimp only at he2
      by_cases haj : a = j
      · subst haj
        rw [List.getElem?_set_self hjl] at he2
        cases he2
        rfl
      · rw [List.getElem?_set_ne (Ne.symm haj)] at he2
        exact hinv.free_null a e2 he2 hmax
  · exact ⟨_, _, pl_clear_miss plp j m e he hne, hinv⟩

/-- C38 with the number `MAX_ADDRESS_NUMBER`, which no store returns. On a
table of two slots made by `pointer_lookup_init`, one store takes the slot `0`
and the table satisfies the invariant; `pointer_lookup_clear_pointer (1, 32000)`
names the slot `1`, which is free, its number matches the marker, the call
returns `0` and pushes the index `1` again: the free cells are `1, 1`, a
repetition, while `stack_idx = 0` says that no slot is in use, and the next two
stores both return the index `1`. On the fresh table the same call on the slot
`0` decrements `stack_idx` from `0` and writes outside the stack, a fault. -/
theorem pointer_lookup_clear_free_slot_breaks_stack :
    pointer_lookup_init 2 true = .ok ⟨2, 0, [⟨32000, 0⟩, ⟨32000, 0⟩], [0, 1], 0⟩ ∧
      (pointer_lookup_store_pointer ⟨2, 0, [⟨32000, 0⟩, ⟨32000, 0⟩], [0, 1], 0⟩ 7).map
          (fun r => r.plp) = some ⟨2, 1, [⟨0, 7⟩, ⟨32000, 0⟩], [0, 1], 1⟩ ∧
      pl_free_inv ⟨2, 1, [⟨0, 7⟩, ⟨32000, 0⟩], [0, 1], 1⟩ ∧
      pointer_lookup_clear_pointer ⟨2, 1, [⟨0, 7⟩, ⟨32000, 0⟩], [0, 1], 1⟩ 1 32000
        = some (0, ⟨2, 1, [⟨0, 7⟩, ⟨32000, 0⟩], [1, 1], 0⟩) ∧
      ¬ pl_free_inv ⟨2, 1, [⟨0, 7⟩, ⟨32000, 0⟩], [1, 1], 0⟩ ∧
      ((pointer_lookup_store_pointer ⟨2, 1, [⟨0, 7⟩, ⟨32000, 0⟩], [1, 1], 0⟩ 8).bind
          (fun r1 => (pointer_lookup_store_pointer r1.plp 9).map
            (fun r2 => (r1.rc, r1.index_returned, r2.rc, r2.index_returned))))
        = some (0, 1, 0, 1) ∧
      pointer_lookup_clear_pointer ⟨2, 0, [⟨32000, 0⟩, ⟨32000, 0⟩], [0, 1], 0⟩ 0 32000
        = none := by
  refine ⟨rfl, rfl, ?_, rfl, ?_, rfl, rfl⟩
  · obtain ⟨r, hr, hinv⟩ := pl_free_inv_store ⟨2, 0, [⟨32000, 0⟩, ⟨32000, 0⟩], [0, 1], 0⟩
      (pl_free_inv_init 2 _ rfl) 7
    have hr2 : pointer_lookup_store_pointer ⟨2, 0, [⟨32000, 0⟩, ⟨32000, 0⟩], [0, 1], 0⟩ 7
        = some ⟨0, 0, 0, ⟨2, 1, [⟨0, 7⟩, ⟨32000, 0⟩], [0, 1], 1⟩⟩ := rfl
    rw [hr2] at hr
    cases hr
    exact hinv
  · intro h
    have := h.free_nodup
    revert this
    decide

/-- The rest of C38: the invariant holds after `pointer_lookup_init`, and every
`pointer_lookup_store_pointer` and every `pointer_lookup_clear_pointer` with an
index below `size` and a number other than `MAX_ADDRESS_NUMBER`, returned by a
store or not, returns and keeps it. -/
theorem pl_free_inv_preserved (plp : pointer_lookup_t) (hinv : pl_free_inv plp) :
    (∀ x : Nat, ∃ r, pointer_lookup_store_pointer plp x = some r ∧ pl_free_inv r.plp) ∧
    (∀ j m : Nat, j < plp.size → m ≠ MAX_ADDRESS_NUMBER →
      ∃ rc plp1, pointer_lookup_clear_pointer plp j m = some (rc, plp1) ∧ pl_free_inv plp1) :=
  ⟨pl_free_inv_store plp hinv, pl_free_inv_clear plp hinv⟩

/-! ## Theorems: get_raw_pointer of safe_pointers.h -/

/-- C31 resolve of a safe pointer. For a value `v` of 32 bits: if its
incarnation is `0`, `get_raw_pointer` returns `NULL` and leaves the manager as
it is, whatever the table holds. Otherwise, with the index of `v` inside the two
arrays, it returns `raw_pointers[index]` when `incarnations[index]` equals the
incarnation of `v`, the manager unchanged; and when they differ it returns
`NULL` and the manager changes in `incarnation_errors` only, which goes up by
one (as an `unsigned long long`). -/
theorem get_raw_pointer_correct (smpt : safe_ptr_mgr_t) (v : Nat) (hv : v < 2 ^ 32) :
    (SAFE_POINTER_INCARNATION v = 0 → get_raw_pointer smpt v = some (0, smpt)) ∧
    (∀ stored raw : Nat, SAFE_POINTER_INCARNATION v ≠ 0 →
      smpt.incarnations[SAFE_POINTER_INDEX v]? = some stored →
      smpt.raw_pointers[SAFE_POINTER_INDEX v]? = some raw →
      (stored = SAFE_POINTER_INCARNATION v → get_raw_pointer smpt v = some (raw, smpt)) ∧
      (stored ≠ SAFE_POINTER_INCARNATION v →
        get_raw_pointer smpt v
          = some (0, { smpt with
              incarnation_errors := (smpt.incarnation_errors + 1) % 2 ^ 64 }) ∧
        (smpt.incarnation_errors + 1 < 2 ^ 64 →
          (smpt.incarnation_errors + 1) % 2 ^ 64 = smpt.incarnation_errors + 1))) := by
  have hmod : v % 2 ^ 32 = v := Nat.mod_eq_of_lt hv
  have hinc : SAFE_POINTER_INCARNATION v % 2 ^ 16 = SAFE_POINTER_INCARNATION v := by
    unfold SAFE_POINTER_INCARNATION
    have : v &&& 0xFFFF = v % 2 ^ 16 := Nat.and_pow_two_sub_one_eq_mod v 16
    rw [this]
    omega
  have hidx : SAFE_POINTER_INDEX v % 2 ^ 16 = SAFE_POINTER_INDEX v := by
    unfold SAFE_POINTER_INDEX
    rw [Nat.shiftRight_eq_div_pow]
    omega
  constructor
  · intro h0
    unfold get_raw_pointer
    simp only [hmod, hinc]
    rw [if_pos h0]
  · intro stored raw hne hst hraw
    constructor
    · intro heq
      unfold get_raw_pointer
      simp only [hmod, hinc, hidx, hne, if_false, hst, hraw, heq, if_true]
    · intro hneq
      constructor
      · unfold get_raw_pointer
        simp only [hmod, hinc, hidx, hne, if_false, hst, hneq]
      · intro hlt
        exact Nat.mod_eq_of_lt hlt

/-- C31 witness: a table of two slots with the incarnations `3, 4`; the value
with index `1` and incarnation `4` resolves to `raw_pointers[1]`, the value with
index `1` and incarnation `5` to `NULL` with one more incarnation error, and the
value with incarnation `0` to `NULL`. -/
theorem get_raw_pointer_correct_witness :
    (65540 : Nat) < 2 ^ 32 ∧
      get_raw_pointer ⟨2, 5, [3, 4], [100, 200], [0, 1], 2, 0, 0, 0⟩ 65540
        = some (200, ⟨2, 5, [3, 4], [100, 200], [0, 1], 2, 0, 0, 0⟩) ∧
      get_raw_pointer ⟨2, 5, [3, 4], [100, 200], [0, 1], 2, 0, 0, 0⟩ 65541
        = some (0, ⟨2, 5, [3, 4], [100, 200], [0, 1], 2, 0, 1, 0⟩) ∧
      get_raw_pointer ⟨2, 5, [3, 4], [100, 200], [0, 1], 2, 0, 0, 0⟩ 65536
        = some (0, ⟨2, 5, [3, 4], [100, 200], [0, 1], 2, 0, 0, 0⟩) :=
  ⟨by decide,
    ((get_raw_pointer_correct ⟨2, 5, [3, 4], [100, 200], [0, 1], 2, 0, 0, 0⟩ 65540
      (by decide)).2 4 200 (by decide) rfl rfl).1 (by decide),
    (((get_raw_pointer_correct ⟨2, 5, [3, 4], [100, 200], [0, 1], 2, 0, 0, 0⟩ 65541
      (by decide)).2 4 200 (by decide) rfl rfl).2 (by decide)).1,
    (get_raw_pointer_correct ⟨2, 5, [3, 4], [100, 200], [0, 1], 2, 0, 0, 0⟩ 65536
      (by decide)).1 (by decide)⟩
/-! ## Theorems: comparators and resolve pass of object_manager.c -/

/-- C40 at the ids `2147483647` and `-1`: the first is the greater, but
`compare_attributes` returns `-2147483648`, a negative value, in both orders,
and so does `compare_objects` on the types and on the instances. -/
theorem compare_attributes_sign_wrong :
    (2147483647 : Int) > -1 ∧
      compare_attributes ⟨⟨0, 0⟩, 2147483647, 0, []⟩ ⟨⟨0, 0⟩, -1, 0, []⟩ = -2147483648 ∧
      compare_attributes ⟨⟨0, 0⟩, -1, 0, []⟩ ⟨⟨0, 0⟩, 2147483647, 0, []⟩ = -2147483648 ∧
      compare_objects (om_example_object 2147483647 0) (om_example_object (-1) 0)
        = -2147483648 ∧
      compare_objects (om_example_object (-1) 0) (om_example_object 2147483647 0)
        = -2147483648 ∧
      compare_objects (om_example_object 0 2147483647) (om_example_object 0 (-1))
        = -2147483648 := by
  decide

/-- The rest of C40: when the difference of the two ids fits in an `int`,
`compare_attributes` is that difference, so its sign is that of the order of the
ids; the same holds for `compare_objects` and the lexicographic order when the
differences of the types and of the instances fit. -/
theorem compare_attributes_small (a b : attribute_t)
    (h : -2147483648 ≤ a.attribute_id - b.attribute_id ∧
      a.attribute_id - b.attribute_id < 2147483648) :
    compare_attributes a b = a.attribute_id - b.attribute_id := by
  unfold compare_attributes wrap_int32
  omega

theorem compare_objects_small (o1 o2 : object_t)
    (ht : -2147483648 ≤ o1.object_type - o2.object_type ∧
      o1.object_type - o2.object_type < 2147483648)
    (hi : -2147483648 ≤ o1.object_instance - o2.object_instance ∧
      o1.object_instance - o2.object_instance < 2147483648) :
    compare_objects o1 o2
      = (if o1.object_type ≠ o2.object_type then o1.object_type - o2.object_type
          else o1.object_instance - o2.object_instance) := by
  have h1 : wrap_int32 (o1.object_type - o2.object_type) = o1.object_type - o2.object_type := by
    unfold wrap_int32
    omega
  have h2 : wrap_int32 (o1.object_instance - o2.object_instance)
      = o1.object_instance - o2.object_instance := by
    unfold wrap_int32
    omega
  unfold compare_objects
  simp only [h1, h2]
  by_cases h : o1.object_type = o2.object_type
  · rw [if_neg (by omega), if_neg (by simp [h])]
  · rw [if_pos (by omega), if_pos h]

/-- C39 after a load in which a child comes before its parent: `(7, 7)` is
created under the absent `(5, 5)`, then `(5, 5)` under the root;
`om_resolve_all_parents` returns `0` and gives `(7, 7)` a resolved parent
pointer to `(5, 5)`, but the children list of `(5, 5)` stays empty. -/
theorem om_resolve_all_parents_skips_children :
    om_example_unresolved.map (fun o =>
        (om_keys o, (get_object_pointer o 7 7).map (fun x => x.parent)))
      = some ([⟨0, 0⟩, ⟨7, 7⟩, ⟨5, 5⟩], some (.object_id ⟨5, 5⟩)) ∧
    (om_example_unresolved.bind (fun o => om_resolve_all_parents o (om_keys o))).map
        (fun r => (r.1, (get_object_pointer r.2 7 7).map (fun x => x.parent),
          (get_object_pointer r.2 5 5).map (fun x => x.children)))
      = some (0, some (.object_ptr (some ⟨5, 5⟩)), some []) :=
  ⟨rfl, rfl⟩

theorem om_search_resolve (omp : object_manager_t) (k j p : object_identifier_t) :
    avl_tree_search (om_update omp j
        (fun o => { o with parent := .object_ptr (some p) })).om_objects k
      = (avl_tree_search omp.om_objects k).map
          (fun o => if o.key = j then { o with parent := .object_ptr (some p) } else o) :=
  avl_tree_search_update omp k j _ (fun _ => rfl)

/-- The objects of `acc` are those of `omp` with the same keys, children and
attributes, each with its own parent reference or with the resolved
one. -/
theorem om_resolve_step (omp acc : object_manager_t)
    (hinv : ∀ k : object_identifier_t,
      match avl_tree_search omp.om_objects k with
      | none => avl_tree_search acc.om_objects k = none
      | some o => ∃ o1, avl_tree_search acc.om_objects k = some o1 ∧
          o1.object_type = o.object_type ∧ o1.object_instance = o.object_instance ∧
          o1.children = o.children ∧ o1.attributes = o.attributes ∧
          (o1.parent = o.parent ∨ o1.parent = om_resolved_parent omp o.parent))
    (k : object_identifier_t) (hk : (avl_tree_search omp.om_objects k).isSome = true) :
    ∃ acc1, resolve_parent_tfn acc k = some (0, acc1) ∧
      acc1.om_objects.length = acc.om_objects.length ∧ acc1.root = acc.root ∧
      acc1.busy = acc.busy ∧ acc1.manager_id = acc.manager_id ∧
      (∀ k2 : object_identifier_t,
        match avl_tree_search omp.om_objects k2 with
        | none => avl_tree_search acc1.om_objects k2 = none
        | some o => ∃ o1, avl_tree_search acc1.om_objects k2 = some o1 ∧
            o1.object_type = o.object_type ∧ o1.object_instance = o.object_instance ∧
            o1.children = o.children ∧ o1.attributes = o.attributes ∧
            (o1.parent = o.parent ∨ o1.parent = om_resolved_parent omp o.parent) ∧
            ((k2 = k ∨ ∃ o0, avl_tree_search acc.om_objects k2 = some o0 ∧
                o0.parent = om_resolved_parent omp o.parent) →
              o1.parent = om_resolved_parent omp o.parent)) := by
  cases hko : avl_tree_search omp.om_objects k with
  | none => rw [hko] at hk; cases hk
  | some o =>
    have hk1 := hinv k
    rw [hko] at hk1
    obtain ⟨o1, hs1, ht, hi, hc, ha, hp⟩ := hk1
    unfold resolve_parent_tfn
    rw [hs1]
    dsimp only
    cases hpar : o1.parent with
    | object_ptr p =>
      dsimp only
      refine ⟨acc, rfl, rfl, rfl, rfl, rfl, ?_⟩
      intro k2
      have h2 := hinv k2
      cases hk2 : avl_tree_search omp.om_objects k2 with
      | none => rw [hk2] at h2; exact h2
      | some o2 =>
        rw [hk2] at h2
        obtain ⟨o3, hs3, ht3, hi3, hc3, ha3, hp3⟩ := h2
        refine ⟨o3, hs3, ht3, hi3, hc3, ha3, hp3, ?_⟩
        intro hor
        rcases hor with hk2k | ⟨o0, hs0, hp0⟩
        · subst hk2k
          rw [hko] at hk2
          cases hk2
          rw [hs1] at hs3
          cases hs3
          rcases hp with hp | hp
          · rw [← hp, hpar]
            rfl
          · exact hp
        · rw [hs3] at hs0
          cases hs0
          exact hp0
    | object_id id =>
      have hop : o.parent = .object_id id := by
        rcases hp with hp | hp
        · rw [← hp, hpar]
        · rw [hpar] at hp
          cases hpo : o.parent with
          | object_ptr q => rw [hpo] at hp; cases hp
          | object_id id2 =>
            rw [hpo] at hp
            unfold om_resolved_parent at hp
            dsimp only at hp
            split at hp
            · cases hp
            · cases hp
              rfl
      have hid := hinv id
      dsimp only
      unfold get_object_pointer
      cases hido : avl_tree_search omp.om_objects id with
      | none =>
        rw [hido] at hid
        rw [hid]
        dsimp only
        have hres : om_resolved_parent omp o.parent = .object_id id := by
          rw [hop]
          unfold om_resolved_parent
          dsimp only
          rw [hido]
          rfl
        refine ⟨acc, rfl, rfl, rfl, rfl, rfl, ?_⟩
        intro k2
        have h2 := hinv k2
        cases hk2 : avl_tree_search omp.om_objects k2 with
        | none => rw [hk2] at h2; exact h2
        | some o2 =>
          rw [hk2] at h2
          obtain ⟨o3, hs3, ht3, hi3, hc3, ha3, hp3⟩ := h2
          refine ⟨o3, hs3, ht3, hi3, hc3, ha3, hp3, ?_⟩
          intro hor
          rcases hor with hk2k | ⟨o0, hs0, hp0⟩
          · subst hk2k
            rw [hko] at hk2
            cases hk2
            rw [hs1] at hs3
            cases hs3
            rw [hpar, hres]
          · rw [hs3] at hs0
            cases hs0
            exact hp0
      | some po =>
        rw [hido] at hid
        obtain ⟨parent, hsp, _⟩ := hid
        rw [hsp]
        dsimp only
        have hpkey : parent.key = id := avl_tree_search_key _ _ _ hsp
        have hres : om_resolved_parent omp o.parent = .object_ptr (some id) := by
          rw [hop]
          unfold om_resolved_parent
          dsimp only
          rw [hido]
          rfl
        rw [hpkey]
        refine ⟨_, rfl, by simp [om_update], rfl, rfl, rfl, ?_⟩
        intro k2
        have h2 := hinv k2
        rw [om_search_resolve]
        cases hk2 : avl_tree_search omp.om_objects k2 with
        | none =>
          rw [hk2] at h2
          dsimp only
          rw [h2]
          rfl
        | some o2 =>
          rw [hk2] at h2
          obtain ⟨o3, hs3, ht3, hi3, hc3, ha3, hp3⟩ := h2
          have hkey3 : o3.key = k2 := avl_tree_search_key _ _ _ hs3
          dsimp only
          rw [hs3]
          by_cases hk2k : k2 = k
          · subst hk2k
            rw [hko] at hk2
            cases hk2
            exact ⟨{ o3 with parent := .object_ptr (some id) },
              by rw [Option.map_some', if_pos hkey3], ht3, hi3, hc3, ha3,
              Or.inr hres.symm, fun _ => hres.symm⟩
          · have hne : ¬ (o3.key = k) := by rw [hkey3]; exact hk2k
            refine ⟨o3, by rw [Option.map_some', if_neg hne], ht3, hi3, hc3, ha3, hp3, ?_⟩
            intro hor
            rcases hor with h | ⟨o0, hs0, hp0⟩
            · exact absurd h hk2k
            · cases hs0
              exact hp0

theorem om_resolve_run (omp : object_manager_t) (visit : List object_identifier_t) :
    ∀ acc : object_manager_t,
    (∀ k : object_identifier_t,
      match avl_tree_search omp.om_objects k with
      | none => avl_tree_search acc.om_objects k = none
      | some o => ∃ o1, avl_tree_search acc.om_objects k = some o1 ∧
          o1.object_type = o.object_type ∧ o1.object_instance = o.object_instance ∧
          o1.children = o.children ∧ o1.attributes = o.attributes ∧
          (o1.parent = o.parent ∨ o1.parent = om_resolved_parent omp o.parent)) →
    (∀ k ∈ visit, (avl_tree_search omp.om_objects k).isSome = true) →
    ∃ omp1, avl_tree_morris_traverse_tfn resolve_parent_tfn acc visit = some omp1 ∧
      omp1.om_objects.length = acc.om_objects.length ∧ omp1.root = acc.root ∧
      omp1.busy = acc.busy ∧ omp1.manager_id = acc.manager_id ∧
      (∀ k2 : object_identifier_t,
        match avl_tree_search omp.om_objects k2 with
        | none => avl_tree_search omp1.om_objects k2 = none
        | some o => ∃ o1, avl_tree_search omp1.om_objects k2 = some o1 ∧
            o1.object_type = o.object_type ∧ o1.object_instance = o.object_instance ∧
            o1.children = o.children ∧ o1.attributes = o.attributes ∧
            (o1.parent = o.parent ∨ o1.parent = om_resolved_parent omp o.parent) ∧
            ((k2 ∈ visit ∨ ∃ o0, avl_tree_search acc.om_objects k2 = some o0 ∧
                o0.parent = om_resolved_parent omp o.parent) →
              o1.parent = om_resolved_parent omp o.parent)) := by
  induction visit with
  | nil =>
    intro acc hinv _
    refine ⟨acc, rfl, rfl, rfl, rfl, rfl, ?_⟩
    intro k2
    have h2 := hinv k2
    cases hk2 : avl_tree_search omp.om_objects k2 with
    | none => rw [hk2] at h2; exact h2
    | some o2 =>
      rw [hk2] at h2
      obtain ⟨o3, hs3, ht3, hi3, hc3, ha3, hp3⟩ := h2
      refine ⟨o3, hs3, ht3, hi3, hc3, ha3, hp3, ?_⟩
      intro hor
      rcases hor with h | ⟨o0, hs0, hp0⟩
      · cases h
      · rw [hs3] at hs0
        cases hs0
        exact hp0
  | cons k ks ih =>
    intro acc hinv hvisit
    obtain ⟨acc1, hstep, hlen1, hroot1, hbusy1, hid1, hrel1⟩ :=
      om_resolve_step omp acc hinv k (hvisit k (List.mem_cons_self k ks))
    have hinv1 : ∀ k : object_identifier_t,
        match avl_tree_search omp.om_objects k with
        | none => avl_tree_search acc1.om_objects k = none
        | some o => ∃ o1, avl_tree_search acc1.om_objects k = some o1 ∧
            o1.object_type = o.object_type ∧ o1.object_instance = o.object_instance ∧
            o1.children = o.children ∧ o1.attributes = o.attributes ∧
            (o1.parent = o.parent ∨ o1.parent = om_resolved_parent omp o.parent) := by
      intro k2
      have h2 := hrel1 k2
      cases hk2 : avl_tree_search omp.om_objects k2 with
      | none => rw [hk2] at h2; exact h2
      | some o2 =>
        rw [hk2] at h2
        obtain ⟨o3, hs3, ht3, hi3, hc3, ha3, hp3, _⟩ := h2
        exact ⟨o3, hs3, ht3, hi3, hc3, ha3, hp3⟩
    obtain ⟨omp1, hrun, hlen, hroot, hbusy, hid, hrel⟩ :=
      ih acc1 hinv1 (fun j hj => hvisit j (List.mem_cons_of_mem k hj))
    refine ⟨omp1, ?_, hlen.trans hlen1, hroot.trans hroot1, hbusy.trans hbusy1,
      hid.trans hid1, ?_⟩
    · unfold avl_tree_morris_traverse_tfn
      rw [hstep]
      exact hrun
    · intro k2
      have h1 := hrel1 k2
      have h2 := hrel k2
      cases hk2 : avl_tree_search omp.om_objects k2 with
      | none => rw [hk2] at h2; exact h2
      | some o2 =>
        rw [hk2] at h1 h2
        obtain ⟨o3, hs3, ht3, hi3, hc3, ha3, hp3, hdone3⟩ := h2
        obtain ⟨o4, hs4, _, _, _, _, _, hdone4⟩ := h1
        refine ⟨o3, hs3, ht3, hi3, hc3, ha3, hp3, ?_⟩
        intro hor
        rcases hor with hmem | hacc
        · rcases List.mem_cons.mp hmem with hk | hks
          · exact hdone3 (Or.inr ⟨o4, hs4, hdone4 (Or.inl hk)⟩)
          · exact hdone3 (Or.inl hks)
        · exact hdone3 (Or.inr ⟨o4, hs4, hdone4 (Or.inr hacc)⟩)

/-- C32: after `om_resolve_all_parents` on a manager whose traversal `visit`
reaches exactly the objects of the manager, the call returns 0, the manager
holds the same keys, and every object has its type, instance, children and
attributes unchanged; an object that recorded a parent key which is the key
of an object of the manager now holds a pointer to that object, and every other
parent reference (a pointer, or a key that is absent) is unchanged. -/
theorem om_resolve_all_parents_correct (omp : object_manager_t)
    (visit : List object_identifier_t)
    (hvisit : ∀ k ∈ visit, (avl_tree_search omp.om_objects k).isSome = true)
    (hall : ∀ o ∈ omp.om_objects, o.key ∈ visit) :
    ∃ omp1, om_resolve_all_parents omp visit = some (0, omp1) ∧
      om_object_count omp1 = om_object_count omp ∧ omp1.root = omp.root ∧
      omp1.busy = omp.busy ∧ omp1.manager_id = omp.manager_id ∧
      (∀ k : object_identifier_t, avl_tree_search omp.om_objects k = none →
        avl_tree_search omp1.om_objects k = none) ∧
      (∀ (k : object_identifier_t) (o : object_t), avl_tree_search omp.om_objects k = some o →
        ∃ o1, avl_tree_search omp1.om_objects k = some o1 ∧
          o1.object_type = o.object_type ∧ o1.object_instance = o.object_instance ∧
          o1.children = o.children ∧ o1.attributes = o.attributes ∧
          o1.parent = om_resolved_parent omp o.parent ∧
          (∀ id : object_identifier_t, o.parent = .object_id id →
            (avl_tree_search omp.om_objects id).isSome = true →
            o1.parent = .object_ptr (some id)) ∧
          (∀ id : object_identifier_t, o.parent = .object_id id →
            avl_tree_search omp.om_objects id = none → o1.parent = o.parent) ∧
          (∀ p : Option object_identifier_t, o.parent = .object_ptr p →
            o1.parent = o.parent)) := by
  have hinv : ∀ k : object_identifier_t,
      match avl_tree_search omp.om_objects k with
      | none => avl_tree_search omp.om_objects k = none
      | some o => ∃ o1, avl_tree_search omp.om_objects k = some o1 ∧
          o1.object_type = o.object_type ∧ o1.object_instance = o.object_instance ∧
          o1.children = o.children ∧ o1.attributes = o.attributes ∧
          (o1.parent = o.parent ∨ o1.parent = om_resolved_parent omp o.parent) := by
    intro k
    cases hk : avl_tree_search omp.om_objects k with
    | none => rfl
    | some o => exact ⟨o, rfl, rfl, rfl, rfl, rfl, Or.inl rfl⟩
  obtain ⟨omp1, hrun, hlen, hroot, hbusy, hid, hrel⟩ := om_resolve_run omp visit omp hinv hvisit
  refine ⟨omp1, ?_, ?_, hroot, hbusy, hid, ?_, ?_⟩
  · unfold om_resolve_all_parents
    rw [hrun]
  · unfold om_object_count
    rw [hlen]
  · intro k hk
    have h := hrel k
    rw [hk] at h
    exact h
  · intro k o hk
    have h := hrel k
    rw [hk] at h
    obtain ⟨o1, hs1, ht, hi, hc, ha, _, hdone⟩ := h
    have hkey : o.key = k := avl_tree_search_key _ _ _ hk
    have hmem : o ∈ omp.om_objects := by
      unfold avl_tree_search at hk
      exact List.mem_of_find?_eq_some hk
    have hkv : k ∈ visit := hkey ▸ hall o hmem
    have hpar := hdone (Or.inl hkv)
    refine ⟨o1, hs1, ht, hi, hc, ha, hpar, ?_, ?_, ?_⟩
    · intro id hp hsome
      rw [hpar, hp]
      unfold om_resolved_parent
      dsimp only
      rw [if_pos hsome]
    · intro id hp hnone
      rw [hpar, hp]
      unfold om_resolved_parent
      dsimp only
      rw [hnone]
      rfl
    · intro p hp
      rw [hpar, hp]
      rfl

theorem om_example_unresolved_eq :
    om_example_unresolved = some om_example_unresolved_manager := rfl

/-- C32 witness: in the manager with the root `(0, 0)`, the object `(7, 7)`
that recorded the parent key `(5, 5)` and the object `(5, 5)`, the pass returns
0, keeps the three objects, and `(7, 7)` holds a pointer to `(5, 5)`. -/
theorem om_resolve_all_parents_correct_witness :
    ∃ omp1, om_resolve_all_parents om_example_unresolved_manager
        (om_keys om_example_unresolved_manager) = some (0, omp1) ∧
      om_object_count omp1 = 3 ∧
      ∃ o1, avl_tree_search omp1.om_objects ⟨7, 7⟩ = some o1 ∧
        o1.parent = .object_ptr (some ⟨5, 5⟩) ∧ o1.children = [] :=
  (om_resolve_all_parents_correct om_example_unresolved_manager
      (om_keys om_example_unresolved_manager) (by decide) (by decide)).imp
    (fun _ h => ⟨h.1, h.2.1, (h.2.2.2.2.2.2 ⟨7, 7⟩
        { om_example_object 7 7 with parent := .object_id ⟨5, 5⟩ } rfl).imp
      (fun _ g => ⟨g.1, g.2.2.2.2.2.2.1 ⟨5, 5⟩ rfl rfl, g.2.2.2.1⟩)⟩)
/-! ## Theorems: lifo.c -/

theorem lifo_example_eq :
    lifo_example = ⟨0, some 2, 2, [some ⟨none, 0⟩, some ⟨some 0, 20⟩, some ⟨some 1, 10⟩]⟩ ∧
    (lifo_add_data (lifo_init 0 true).2 20 true).2.1 = some 1 ∧
    (lifo_add_data (lifo_add_data (lifo_init 0 true).2 20 true).2.2 10 true).2.1 = some 2 ∧
    lifo_data lifo_example = some [10, 20] := by
  decide

/-- C35: in a lifo to which `y = 20` (handle 1) and then `x = 10` (handle 2)
were added, `lifo_remove_node` of the handle of `x` returns 0 and leaves `y` in
the lifo, but it has copied the node of `y` over the node of `x` and freed the
node of `y`: the handle of `y` points to a freed node, `y` sits at the handle
of `x`, and a later `lifo_remove_node` of the handle of `y` is a fault. -/
theorem lifo_remove_node_frees_next_handle :
    lifo_remove_node lifo_example 2
      = some (0, ⟨0, some 2, 1, [some ⟨none, 0⟩, none, some ⟨some 0, 20⟩]⟩) ∧
    lifo_data ⟨0, some 2, 1, [some ⟨none, 0⟩, none, some ⟨some 0, 20⟩]⟩ = some [20] ∧
    lifo_cell [some ⟨none, 0⟩, none, some ⟨some 0, 20⟩] 1 = none ∧
    lifo_cell [some ⟨none, 0⟩, none, some ⟨some 0, 20⟩] 2 = some ⟨some 0, 20⟩ ∧
    lifo_remove_node ⟨0, some 2, 1, [some ⟨none, 0⟩, none, some ⟨some 0, 20⟩]⟩ 1 = none ∧
    (lifo_remove_node lifo_example 2).bind (fun r => lifo_remove_node r.2 1) = none := by
  decide

/-- When the element removed was added before the other one, the handle of the
other one stays a node of the lifo with its data. -/
theorem lifo_remove_node_older_example :
    lifo_remove_node lifo_example 1
      = some (0, ⟨0, some 2, 1, [none, some ⟨none, 0⟩, some ⟨some 1, 10⟩]⟩) ∧
    lifo_data ⟨0, some 2, 1, [none, some ⟨none, 0⟩, some ⟨some 1, 10⟩]⟩ = some [10] ∧
    lifo_remove_node ⟨0, some 2, 1, [none, some ⟨none, 0⟩, some ⟨some 1, 10⟩]⟩ 2
      = some (0, ⟨0, some 2, 0, [none, none, some ⟨none, 0⟩]⟩) := by
  decide

theorem list_append_two_getElem? {α : Type} (ns : List α) (a b : α) :
    (ns ++ [a] ++ [b])[ns.length]? = some a ∧ (ns ++ [a] ++ [b])[ns.length + 1]? = some b := by
  induction ns with
  | nil => exact ⟨rfl, rfl⟩
  | cons c cs ih => simpa using ih

theorem lifo_remove_node_eq (lifo : lifo_t) (lnd to_be_freed : Nat) (nd nx : lifo_node_t)
    (hnd : lifo_cell lifo.nodes lnd = some nd) (hend : END_NODE nd = false)
    (hnext : nd.next = some to_be_freed) (hnx : lifo_cell lifo.nodes to_be_freed = some nx) :
    lifo_remove_node lifo lnd
      = some (0, { lifo with
          nodes := (lifo.nodes.set lnd (some nx)).set to_be_freed none
          n := (lifo.n + 2 ^ 32 - 1) % 2 ^ 32 }) := by
  unfold lifo_remove_node thread_unsafe_lifo_remove_node
  rw [hnd]
  dsimp only
  rw [hend, hnext]
  dsimp only
  rw [hnx]
  rfl

/-- In every lifo with no size limit, after `y` and then `x` are added,
`lifo_remove_node` of the handle of `x` returns 0, frees the node that the
handle of `y` points to and leaves `y` at the handle of `x`. -/
theorem lifo_remove_node_frees_previous (lifo : lifo_t) (x y : Nat) (h : lifo.n_max = 0) :
    (lifo_add_data lifo y true).2.1 = some lifo.nodes.length ∧
    (lifo_add_data (lifo_add_data lifo y true).2.2 x true).2.1 = some (lifo.nodes.length + 1) ∧
    ∃ l3, lifo_remove_node (lifo_add_data (lifo_add_data lifo y true).2.2 x true).2.2
        (lifo.nodes.length + 1) = some (0, l3) ∧
      lifo_cell l3.nodes lifo.nodes.length = none ∧
      lifo_cell l3.nodes (lifo.nodes.length + 1) = some ⟨lifo.head, y⟩ := by
  have h1 : lifo_add_data lifo y true = (0, some lifo.nodes.length,
      { lifo with
        nodes := lifo.nodes ++ [some ⟨lifo.head, y⟩]
        head := some lifo.nodes.length
        n := (lifo.n + 1) % 2 ^ 32 }) := by
    unfold lifo_add_data thread_unsafe_lifo_add_data
    rw [if_neg (by rw [h]; simp)]
    rfl
  rw [h1]
  dsimp only
  have h2 : lifo_add_data
      { lifo with
        nodes := lifo.nodes ++ [some ⟨lifo.head, y⟩]
        head := some lifo.nodes.length
        n := (lifo.n + 1) % 2 ^ 32 } x true
      = (0, some (lifo.nodes.length + 1),
        { lifo with
          nodes := lifo.nodes ++ [some ⟨lifo.head, y⟩] ++ [some ⟨some lifo.nodes.length, x⟩]
          head := some (lifo.nodes.length + 1)
          n := ((lifo.n + 1) % 2 ^ 32 + 1) % 2 ^ 32 }) := by
    unfold lifo_add_data thread_unsafe_lifo_add_data
    dsimp only
    rw [if_neg (by rw [h]; simp)]
    simp
  rw [h2]
  dsimp only
  refine ⟨rfl, rfl, _, lifo_remove_node_eq _ (lifo.nodes.length + 1) lifo.nodes.length
    ⟨some lifo.nodes.length, x⟩ ⟨lifo.head, y⟩ ?_ (by simp [END_NODE]) rfl ?_, ?_, ?_⟩
  · unfold lifo_cell
    dsimp only
    rw [(list_append_two_getElem? _ _ _).2]
  · unfold lifo_cell
    dsimp only
    rw [(list_append_two_getElem? _ _ _).1]
  · unfold lifo_cell
    dsimp only
    rw [List.getElem?_set_self (by simp)]
  · unfold lifo_cell
    dsimp only
    rw [List.getElem?_set_ne (by omega), List.getElem?_set_self (by simp)]

/-! ## Theorems: radix_tree_object.c -/

theorem radix_tree_example_one_eq :
    radix_tree_example_one = some ⟨2, false,
      [some ⟨none, 0, 1, 0, (List.replicate 16 none).set 2 (some 1)⟩,
       some ⟨some 0, 2, 1, 0, (List.replicate 16 none).set 1 (some 2)⟩,
       some ⟨some 1, 1, 0, 5, List.replicate 16 none⟩]⟩ := by
  decide

/-- C36: on the empty tree that `radix_tree_init` leaves, `radix_tree_search`
of every key with at least one byte is a fault: the child of the root for the
low nibble is `NULL` and `radix_tree_node_find` reads its `children` without a
test. -/
theorem radix_tree_search_empty_tree_faults (flag : Bool) (b : Nat) (key : List Nat)
    (key_length : Int) :
    radix_tree_search (radix_tree_init flag).2 (b :: key) key_length = none := by
  have h : (List.replicate NTRIE_ALPHABET_SIZE (none : Option Nat))[LO_NIBBLE b]? = some none := by
    have hlt : LO_NIBBLE b < NTRIE_ALPHABET_SIZE := by
      unfold LO_NIBBLE NTRIE_ALPHABET_SIZE
      omega
    rw [List.getElem?_eq_getElem (by rw [List.length_replicate]; exact hlt)]
    simp
  unfold radix_tree_search thread_unsafe_radix_tree_search radix_tree_node_find
    radix_tree_node_find_loop radix_tree_init radix_tree_node_read radix_tree_node_zeroed
  simp only [List.getElem?_cons_zero, h]

/-- A search is safe when the node of the low nibble exists: with the key
`0x12` stored, the search of `0x12` returns its data and the search of `0x32`
returns `ENODATA`; the search of `0x13`, whose low nibble has no node, is a
fault. -/
theorem radix_tree_search_examples :
    radix_tree_example_one.map (fun t => radix_tree_search t [0x12] 1) = some (some (0, 5)) ∧
    radix_tree_example_one.map (fun t => radix_tree_search t [0x32] 1)
      = some (some (ENODATA, 0)) ∧
    radix_tree_example_one.map (fun t => radix_tree_search t [0x13] 1) = some none := by
  decide

/-- C37: on the empty tree, `radix_tree_insert` of the key `0x12` with the data
`5` returns 0 and the search of the key then returns `5`; `radix_tree_remove`
of the key returns 0 with the data `5` and `node_count` is 0 again, as before
the insert; but the search of the key after the remove is a fault instead of
`ENODATA`, because the remove freed the node of the low nibble. -/
theorem radix_tree_search_after_remove_faults :
    (radix_tree_init false).2.node_count = 0 ∧
    (radix_tree_insert (radix_tree_init false).2 [0x12] 1 5 true).map Prod.fst = some 0 ∧
    radix_tree_example_one.map (fun t => radix_tree_search t [0x12] 1) = some (some (0, 5)) ∧
    radix_tree_example_one.map (fun t => (radix_tree_remove 3 t [0x12] 1).value)
      = some (some (0, 5, ⟨0, false, [some (radix_tree_node_zeroed 0), none, none]⟩)) ∧
    radix_tree_search ⟨0, false, [some (radix_tree_node_zeroed 0), none, none]⟩ [0x12] 1
      = none ∧
    radix_tree_example_one.map (fun t =>
      (radix_tree_remove 3 t [0x12] 1).value.map (fun r => radix_tree_search r.2.2 [0x12] 1))
      = some (some none) := by
  decide

/-- With a stored key that shares the node of the low nibble, the round trip is
as expected: in the tree that holds `0x32`, with `node_count` 2, the insert of
`0x12` returns 0 and makes `node_count` 3, both keys are found with their data,
and after `0x12` is removed its search returns `ENODATA`, the key `0x32` keeps
its data and `node_count` is 2 again. -/
theorem radix_tree_round_trip_example :
    radix_tree_example_other.map radix_tree_t.node_count = some 2 ∧
    radix_tree_example_other.map (fun t => (radix_tree_insert t [0x12] 1 5 true).map Prod.fst)
      = some (some 0) ∧
    radix_tree_example_two.map radix_tree_t.node_count = some 3 ∧
    radix_tree_example_two.map (fun t => radix_tree_search t [0x12] 1) = some (some (0, 5)) ∧
    radix_tree_example_two.map (fun t => radix_tree_search t [0x32] 1) = some (some (0, 6)) ∧
    radix_tree_example_two.map (fun t =>
      (radix_tree_remove 3 t [0x12] 1).value.map (fun r =>
        (r.1, r.2.1, r.2.2.node_count, radix_tree_search r.2.2 [0x12] 1,
          radix_tree_search r.2.2 [0x32] 1)))
      = some (some (0, 5, 2, some (ENODATA, 0), some (0, 6))) :=
  ⟨rfl, rfl, rfl, rfl, rfl, rfl⟩
